import Mathlib

/-!
p_sched: a discrete-event CPU scheduling simulator

Shallow embedding of the simulator's thread state machine
(`types/thread/thread.cpp`), its two schedulers
(`algorithms/fcfs/fcfs_algorithm.cpp`, `algorithms/rr/rr_algorithm.cpp`) and
its event engine (`simulation/simulation.cpp`).

Conventions of the embedding.

* C++ `int` values are `Int`. The handlers that add to an event time are given
  twice: with the sum taken in the integers (`Simulation.handle`,
  `Simulation.run`) and with the sum as a 32-bit two's-complement machine
  computes it (`Simulation.handle_int`, `Simulation.run_int`); the two agree
  as long as no event time leaves the range of `int`
  (`Simulation.run_int_of_run_fits`).
* A `std::shared_ptr<Thread>` is an index into the arena `Simulation.threads`;
  the null pointer is `none`.
* A C++ `throw` is an `Except` error; dereferencing a null pointer (undefined
  in C++) is the separate error `SimError.null_deref`.
* `float` statistics are computed over exact rationals.
-/

namespace PSched

/-! ## Enumerations (`types/enums.hpp`) -/

/-- Lifecycle states of a thread. -/
inductive ThreadState where
  | NEW | READY | RUNNING | BLOCKED | EXIT
  deriving DecidableEq, Repr

/-- Kind of a burst; the source's enumerator `IO` is written `Io` here. -/
inductive BurstType where
  | CPU | Io
  deriving DecidableEq, Repr

/-- Kind of an event. -/
inductive EventType where
  | THREAD_ARRIVED
  | DISPATCHER_INVOKED
  | THREAD_DISPATCH_COMPLETED
  | PROCESS_DISPATCH_COMPLETED
  | CPU_BURST_COMPLETED
  | IO_BURST_COMPLETED
  | THREAD_COMPLETED
  | THREAD_PREEMPTED
  deriving DecidableEq, Repr

/-! ## Bursts and threads -/

/-- A burst: its kind and its remaining length, the two fields of `Burst` that
the engine reads and writes (`burst_type`, `length`). -/
structure Burst where
  burst_type : BurstType
  length : Int
  deriving DecidableEq, Repr

/-- Modelled from the spec: `Burst::update_time` (types/burst is not among the
sources); "reduce the burst's remaining length by that amount". -/
def Burst.update_time (b : Burst) (delta_t : Int) : Burst :=
  { b with length := b.length - delta_t }

/-- A thread (`types/thread/thread.hpp`). `previous_state` has no initialiser
in the source, so it is a field without a default here. -/
structure Thread where
  thread_id : Int := -1
  process_id : Int := -1
  arrival_time : Int := -1
  start_time : Int := -1
  end_time : Int := -1
  service_time : Int := 0
  io_time : Int := 0
  state_change_time : Int := -1
  priority : Fin 4
  current_state : ThreadState := ThreadState.NEW
  previous_state : ThreadState
  bursts : List Burst
  deriving DecidableEq, Repr

/-- The table `Thread::threadstate_string`. -/
def Thread.threadstate_string : ThreadState → String
  | .NEW => "NEW"
  | .READY => "READY"
  | .RUNNING => "RUNNING"
  | .BLOCKED => "BLOCKED"
  | .EXIT => "EXIT"

/-- The table `Thread::valid_transitions`. -/
def Thread.valid_transitions : ThreadState → List ThreadState
  | .NEW => [ThreadState.READY]
  | .READY => [ThreadState.RUNNING]
  | .RUNNING => [ThreadState.READY, ThreadState.BLOCKED, ThreadState.EXIT]
  | .BLOCKED => [ThreadState.READY]
  | .EXIT => []

/-- Embedding of `Thread::is_valid_transition`:
`valid_transitions.at(from).count(to)`. -/
def Thread.is_valid_transition (src dst : ThreadState) : Bool :=
  (Thread.valid_transitions src).count dst != 0

/-- Embedding of `Thread::set_ready`. The result pairs the outcome of the call
with the thread object after the call: the throw happens before any write. -/
def Thread.set_ready (t : Thread) (time : Int) : Except String Unit × Thread :=
  if !Thread.is_valid_transition t.current_state ThreadState.READY then
    (.error ("Invalid transition from " ++ Thread.threadstate_string t.current_state ++ " to READY"), t)
  else
    (.ok (), { t with previous_state := t.current_state,
                      current_state := ThreadState.READY,
                      state_change_time := time })

/-- Embedding of `Thread::set_running`. -/
def Thread.set_running (t : Thread) (time : Int) : Except String Unit × Thread :=
  if !Thread.is_valid_transition t.current_state ThreadState.RUNNING then
    (.error ("Invalid transition from " ++ Thread.threadstate_string t.current_state ++ " to RUNNING"), t)
  else
    (.ok (), { t with previous_state := t.current_state,
                      current_state := ThreadState.RUNNING,
                      state_change_time := time,
                      start_time := if t.start_time = -1 then time else t.start_time })

/-- Embedding of `Thread::set_blocked`. -/
def Thread.set_blocked (t : Thread) (time : Int) : Except String Unit × Thread :=
  if !Thread.is_valid_transition t.current_state ThreadState.BLOCKED then
    (.error ("Invalid transition from " ++ Thread.threadstate_string t.current_state ++ " to BLOCKED"), t)
  else
    (.ok (), { t with previous_state := t.current_state,
                      current_state := ThreadState.BLOCKED,
                      state_change_time := time })

/-- Embedding of `Thread::set_finished`. -/
def Thread.set_finished (t : Thread) (time : Int) : Except String Unit × Thread :=
  if !Thread.is_valid_transition t.current_state ThreadState.EXIT then
    (.error ("Invalid transition from " ++ Thread.threadstate_string t.current_state ++ " to EXIT"), t)
  else
    (.ok (), { t with previous_state := t.current_state,
                      current_state := ThreadState.EXIT,
                      state_change_time := time,
                      end_time := time })

/-- Embedding of `Thread::set_state`. The message names EXIT as the target
whatever `state` is, as in the source. -/
def Thread.set_state (t : Thread) (state : ThreadState) (time : Int) :
    Except String Unit × Thread :=
  if !Thread.is_valid_transition t.current_state state then
    (.error ("Invalid transition from " ++ Thread.threadstate_string t.current_state ++ " to EXIT"), t)
  else
    (.ok (), { t with previous_state := t.current_state,
                      current_state := state,
                      state_change_time := time })

/-- Embedding of `Thread::response_time`. -/
def Thread.response_time (t : Thread) : Int := t.start_time - t.arrival_time

/-- Embedding of `Thread::turnaround_time`. -/
def Thread.turnaround_time (t : Thread) : Int := t.end_time - t.arrival_time

/-- Embedding of `Thread::get_next_burst`: `none` is the null pointer returned
on an empty burst queue. -/
def Thread.get_next_burst (t : Thread) (type : BurstType) : Except String (Option Burst) :=
  match t.bursts with
  | [] => .ok none
  | burst :: _ =>
    if burst.burst_type ≠ type then .error "Invalid next burst type for thread"
    else .ok (some burst)

/-- Embedding of `Thread::pop_next_burst`, paired with the thread after the
call. -/
def Thread.pop_next_burst (t : Thread) (type : BurstType) :
    Except String (Option Burst) × Thread :=
  match t.get_next_burst type with
  | .error m => (.error m, t)
  | .ok none => (.ok none, t)
  | .ok (some burst) => (.ok (some burst), { t with bursts := t.bursts.tail })

/-- The transition operations whose target state is `dst`: the dedicated
setter, when there is one, and the generic `set_state`. -/
def Thread.transition_ops (dst : ThreadState) :
    List (Thread → Int → Except String Unit × Thread) :=
  (match dst with
   | .NEW => []
   | .READY => [Thread.set_ready]
   | .RUNNING => [Thread.set_running]
   | .BLOCKED => [Thread.set_blocked]
   | .EXIT => [Thread.set_finished]) ++ [fun t time => Thread.set_state t dst time]

/-- The six edges of the lifecycle graph named in the specification. -/
def legal_edges : List (ThreadState × ThreadState) :=
  [(ThreadState.NEW, ThreadState.READY), (ThreadState.READY, ThreadState.RUNNING),
   (ThreadState.RUNNING, ThreadState.READY), (ThreadState.RUNNING, ThreadState.BLOCKED),
   (ThreadState.RUNNING, ThreadState.EXIT), (ThreadState.BLOCKED, ThreadState.READY)]

/-! ## Scheduling decisions and schedulers -/

/-- Modelled from the spec: the defaults of a fresh `SchedulingDecision` (its
header is not among the sources): no thread, and the `time_slice` −1 of "run
to completion", which `FCFSScheduler::get_next_thread` leaves untouched. The
field names are those of the source. -/
structure SchedulingDecision where
  thread : Option Nat := none
  time_slice : Int := -1
  explanation : String := ""
  deriving DecidableEq, Repr

/-- The FCFS scheduler owns only its ready queue. -/
structure FCFSScheduler where
  ready_queue : List Nat := []
  deriving DecidableEq, Repr

/-- The round-robin scheduler owns its ready queue and the configured slice. -/
structure RRScheduler where
  time_slice : Int
  ready_queue : List Nat := []
  deriving DecidableEq, Repr

/-- Embedding of the constructor `FCFSScheduler::FCFSScheduler(int slice)`. -/
def FCFSScheduler.create (slice : Int) : Except String FCFSScheduler :=
  if slice ≠ -1 then .error "FCFS must have a timeslice of -1" else .ok {}

/-- Embedding of `FCFSScheduler::size`. -/
def FCFSScheduler.size (s : FCFSScheduler) : Nat := s.ready_queue.length

/-- Embedding of `FCFSScheduler::get_next_thread`, paired with the scheduler
after the call. -/
def FCFSScheduler.get_next_thread (s : FCFSScheduler) : SchedulingDecision × FCFSScheduler :=
  let rq_size := s.size
  let sd : SchedulingDecision := {}
  if rq_size > 0 then
    match s.ready_queue with
    | [] => (sd, s)
    | next_thr :: rest =>
      ({ sd with thread := some next_thr,
                 explanation := "Selected from " ++ toString rq_size ++
                   " threads. Will run to completion of burst." },
       { s with ready_queue := rest })
  else
    ({ sd with thread := none,
               explanation := "No threads left in ready queue to execute." }, s)

/-- Embedding of `FCFSScheduler::add_to_ready_queue`. -/
def FCFSScheduler.add_to_ready_queue (s : FCFSScheduler) (thread : Nat) : FCFSScheduler :=
  { s with ready_queue := s.ready_queue ++ [thread] }

/-- Embedding of the constructor `RRScheduler::RRScheduler(int slice)`. -/
def RRScheduler.create (slice : Int) : RRScheduler := { time_slice := slice }

/-- Embedding of `RRScheduler::size`. -/
def RRScheduler.size (s : RRScheduler) : Nat := s.ready_queue.length

/-- Embedding of `RRScheduler::get_next_thread`, paired with the scheduler
after the call. -/
def RRScheduler.get_next_thread (s : RRScheduler) : SchedulingDecision × RRScheduler :=
  let rq_size := s.size
  let sd : SchedulingDecision := {}
  if rq_size > 0 then
    match s.ready_queue with
    | [] => (sd, s)
    | next_thr :: rest =>
      ({ sd with thread := some next_thr,
                 time_slice := s.time_slice,
                 explanation := "Selected from " ++ toString rq_size ++ " threads. " ++
                   "Will run for at most " ++ toString s.time_slice ++ " ticks." },
       { s with ready_queue := rest })
  else
    ({ sd with thread := none,
               explanation := "No threads left in ready queue to execute." }, s)

/-- Embedding of `RRScheduler::add_to_ready_queue`. -/
def RRScheduler.add_to_ready_queue (s : RRScheduler) (thread : Nat) : RRScheduler :=
  { s with ready_queue := s.ready_queue ++ [thread] }

/-- The scheduler interface: the closed set of the two policies behind the
virtual calls of the engine. -/
inductive Scheduler where
  | fcfs (s : FCFSScheduler)
  | rr (s : RRScheduler)
  deriving DecidableEq, Repr

/-- The ready queue of either scheduler. -/
def Scheduler.ready_queue : Scheduler → List Nat
  | .fcfs s => s.ready_queue
  | .rr s => s.ready_queue

/-- Virtual call `scheduler->get_next_thread()`. -/
def Scheduler.get_next_thread : Scheduler → SchedulingDecision × Scheduler
  | .fcfs s => ((s.get_next_thread).1, Scheduler.fcfs (s.get_next_thread).2)
  | .rr s => ((s.get_next_thread).1, Scheduler.rr (s.get_next_thread).2)

/-- Virtual call `scheduler->add_to_ready_queue(thread)`. -/
def Scheduler.add_to_ready_queue (sch : Scheduler) (thread : Nat) : Scheduler :=
  match sch with
  | .fcfs s => Scheduler.fcfs (s.add_to_ready_queue thread)
  | .rr s => Scheduler.rr (s.add_to_ready_queue thread)

/-- Virtual call `scheduler->size()`. -/
def Scheduler.size : Scheduler → Nat
  | .fcfs s => s.size
  | .rr s => s.size

/-- The base-class query `scheduler->empty()`: the queue holds no thread. -/
def Scheduler.empty (sch : Scheduler) : Bool := sch.size == 0

/-! ## Events and the event queue -/

/-- Ways a run stops abnormally: a C++ `throw` with its message, or the
dereference of a null pointer. -/
inductive SimError where
  | thrown (msg : String)
  | null_deref
  deriving DecidableEq, Repr

/-- An event, with the fields the engine reads (`type`, `time`, `thread`,
`scheduling_decision`) and the event number, in the argument order of the
constructor calls of the source: type, time, number, thread, decision. -/
structure Event where
  type : EventType
  time : Int
  event_num : Nat
  thread : Option Nat
  scheduling_decision : Option SchedulingDecision
  deriving DecidableEq, Repr

/-- Modelled from the spec: the comparator of the event queue (the event
header is not among the sources); "events are totally ordered first by
timestamp ascending, then by creation sequence number ascending". -/
def Event.before (a b : Event) : Bool :=
  decide (a.time < b.time) || (decide (a.time = b.time) && decide (a.event_num < b.event_num))

/-- Modelled from the spec: `events.top()` followed by `events.pop()` on the
priority queue: the earliest event under `Event.before` and the remaining
events. -/
def pop_min : List Event → Option (Event × List Event)
  | [] => none
  | e :: es =>
    match pop_min es with
    | none => some (e, [])
    | some (m, rest) => if e.before m then some (e, es) else some (m, e :: rest)

/-! ## The simulation engine -/

/-- The accumulators of `SystemStats` and the derived statistics. -/
structure SystemStats where
  total_time : Int := 0
  total_idle_time : Int := 0
  service_time : Int := 0
  io_time : Int := 0
  dispatch_time : Int := 0
  thread_counts : List Int := [0, 0, 0, 0]
  avg_thread_response_times : List Rat := [0, 0, 0, 0]
  avg_thread_turnaround_times : List Rat := [0, 0, 0, 0]
  cpu_utilization : Rat := 0
  cpu_efficiency : Rat := 0
  deriving DecidableEq

/-- The fields of `Simulation` the engine works on, and `first_event`, the
local variable of `run` that lives across loop iterations. The defaults are
the values of `Simulation.init`. -/
structure Simulation where
  scheduler : Scheduler
  threads : List Thread
  events : List Event := []
  event_num : Nat := 0
  active_thread : Option Nat := none
  prev_thread : Option Nat := none
  thread_switch_overhead : Int := 0
  process_switch_overhead : Int := 0
  io_time_start : Int := 0
  system_stats : SystemStats := {}
  all_threads : List (List Nat) := [[], [], [], []]
  first_event : Bool := true
  deriving DecidableEq

/-- The statement `thread_counts[priority]++`. -/
def incr_at : List Int → Nat → List Int
  | [], _ => []
  | x :: xs, 0 => (x + 1) :: xs
  | x :: xs, n + 1 => x :: incr_at xs n

/-- The statement `all_threads[priority].emplace_back(thread)`. -/
def push_at : List (List Nat) → Nat → Nat → List (List Nat)
  | [], _, _ => []
  | x :: xs, 0, v => (x ++ [v]) :: xs
  | x :: xs, n + 1, v => x :: push_at xs n v

/-- Dereference of a thread pointer held by an event. -/
def Simulation.deref (s : Simulation) (ref : Option Nat) : Except SimError (Nat × Thread) :=
  match ref with
  | none => .error SimError.null_deref
  | some i =>
    match s.threads[i]? with
    | none => .error SimError.null_deref
    | some t => .ok (i, t)

/-- Write-back of a thread object of the arena. -/
def Simulation.set_thread (s : Simulation) (i : Nat) (t : Thread) : Simulation :=
  { s with threads := s.threads.set i t }

/-- Embedding of `Simulation::add_event`. -/
def Simulation.add_event (s : Simulation) (event : Option Event) : Simulation :=
  match event with
  | none => s
  | some e => { s with events := s.events ++ [e] }

/-- The idiom `add_event(std::make_shared<Event>(type, time, event_num++,
thread, decision))`. -/
def Simulation.new_event (s : Simulation) (type : EventType) (time : Int)
    (thread : Option Nat) (sd : Option SchedulingDecision) : Simulation :=
  { s with event_num := s.event_num + 1 }.add_event
    (some { type := type, time := time, event_num := s.event_num,
            thread := thread, scheduling_decision := sd })

/-- Embedding of `Simulation::handle_thread_arrived`. -/
def Simulation.handle_thread_arrived (s : Simulation) (event : Event) :
    Except SimError Simulation :=
  match s.deref event.thread with
  | .error e => .error e
  | .ok (i, t) =>
    match t.set_ready event.time with
    | (.error m, _) => .error (SimError.thrown m)
    | (.ok _, t1) =>
      let s1 : Simulation :=
        { s.set_thread i t1 with
          system_stats := { s.system_stats with
            thread_counts := incr_at s.system_stats.thread_counts t1.priority }
          all_threads := push_at s.all_threads t1.priority i
          scheduler := s.scheduler.add_to_ready_queue i }
      if s1.active_thread ≠ none then .ok s1
      else .ok (s1.new_event EventType.DISPATCHER_INVOKED event.time event.thread none)

/-- The slice branch of `handle_dispatch_completed` (lines 140-161): the burst
outruns the slice `ts`. -/
def Simulation.dispatch_completed_slice (s : Simulation) (event : Event) (i : Nat)
    (t : Thread) (burst : Burst) (ts : Int) : Simulation :=
  let t1 : Thread :=
    { t with bursts := { burst with length := burst.length - ts } :: t.bursts.tail
             service_time := t.service_time + ts }
  let s1 : Simulation :=
    { s.set_thread i t1 with
      system_stats := { s.system_stats with service_time := s.system_stats.service_time + ts }
      io_time_start := event.time }
  (s1.new_event EventType.THREAD_PREEMPTED (event.time + ts) event.thread
      event.scheduling_decision).new_event
    EventType.DISPATCHER_INVOKED (event.time + ts) event.thread none

/-- The rest of `handle_dispatch_completed` (lines 163-185): the burst runs to
its end. -/
def Simulation.dispatch_completed_full (s : Simulation) (event : Event) (i : Nat)
    (t : Thread) : Except SimError Simulation :=
  match t.pop_next_burst BurstType.CPU with
  | (.error m, _) => .error (SimError.thrown m)
  | (.ok none, _) => .error SimError.null_deref
  | (.ok (some burst), t1) =>
    let t2 : Thread := { t1 with service_time := t1.service_time + burst.length }
    let s1 : Simulation :=
      { s.set_thread i t2 with
        system_stats := { s.system_stats with
          service_time := s.system_stats.service_time + burst.length } }
    match t2.get_next_burst BurstType.Io with
    | .error m => .error (SimError.thrown m)
    | .ok none =>
      .ok (s1.new_event EventType.THREAD_COMPLETED (event.time + burst.length) event.thread none)
    | .ok (some _) =>
      .ok (s1.new_event EventType.CPU_BURST_COMPLETED (event.time + burst.length)
            event.thread none)

/-- Embedding of `Simulation::handle_dispatch_completed`. -/
def Simulation.handle_dispatch_completed (s : Simulation) (event : Event) :
    Except SimError Simulation :=
  match s.deref event.thread with
  | .error e => .error e
  | .ok (i, t) =>
    match t.set_running event.time with
    | (.error m, _) => .error (SimError.thrown m)
    | (.ok _, t1) =>
      match t1.get_next_burst BurstType.CPU with
      | .error m => .error (SimError.thrown m)
      | .ok oburst =>
        match event.scheduling_decision with
        | none => .error SimError.null_deref
        | some sd =>
          if sd.time_slice ≠ -1 then
            match oburst with
            | none => .error SimError.null_deref
            | some burst =>
              if burst.length > sd.time_slice then
                .ok (s.dispatch_completed_slice event i t1 burst sd.time_slice)
              else s.dispatch_completed_full event i t1
          else s.dispatch_completed_full event i t1

/-- Embedding of `Simulation::handle_cpu_burst_completed`. -/
def Simulation.handle_cpu_burst_completed (s : Simulation) (event : Event) :
    Except SimError Simulation :=
  match s.deref event.thread with
  | .error e => .error e
  | .ok (i, t) =>
    match t.set_blocked event.time with
    | (.error m, _) => .error (SimError.thrown m)
    | (.ok _, t1) =>
      match t1.pop_next_burst BurstType.Io with
      | (.error m, _) => .error (SimError.thrown m)
      | (.ok none, _) => .error SimError.null_deref
      | (.ok (some io_burst), t2) =>
        let t3 : Thread := { t2 with io_time := t2.io_time + io_burst.length }
        let s1 : Simulation :=
          { s.set_thread i t3 with
            system_stats := { s.system_stats with
              io_time := s.system_stats.io_time + io_burst.length }
            io_time_start := event.time }
        .ok ((s1.new_event EventType.IO_BURST_COMPLETED (event.time + io_burst.length)
                event.thread none).new_event
              EventType.DISPATCHER_INVOKED event.time none none)

/-- Embedding of `Simulation::handle_io_burst_completed`. -/
def Simulation.handle_io_burst_completed (s : Simulation) (event : Event) :
    Except SimError Simulation :=
  match s.deref event.thread with
  | .error e => .error e
  | .ok (i, t) =>
    match t.set_ready event.time with
    | (.error m, _) => .error (SimError.thrown m)
    | (.ok _, t1) =>
      let s1 : Simulation :=
        { s.set_thread i t1 with scheduler := s.scheduler.add_to_ready_queue i }
      if s1.active_thread ≠ none then .ok s1
      else
        let s2 : Simulation :=
          { s1 with system_stats := { s1.system_stats with
              total_idle_time := s1.system_stats.total_idle_time +
                (event.time - s1.io_time_start) } }
        .ok (s2.new_event EventType.DISPATCHER_INVOKED event.time none none)

/-- Embedding of `Simulation::handle_thread_completed`. -/
def Simulation.handle_thread_completed (s : Simulation) (event : Event) :
    Except SimError Simulation :=
  match s.deref event.thread with
  | .error e => .error e
  | .ok (i, t) =>
    match t.set_finished event.time with
    | (.error m, _) => .error (SimError.thrown m)
    | (.ok _, t1) =>
      let s1 : Simulation :=
        { s.set_thread i t1 with prev_thread := s.active_thread, active_thread := none }
      if s1.scheduler.empty then .ok s1
      else .ok (s1.new_event EventType.DISPATCHER_INVOKED event.time none none)

/-- Embedding of `Simulation::handle_thread_preempted`. -/
def Simulation.handle_thread_preempted (s : Simulation) (event : Event) :
    Except SimError Simulation :=
  match s.deref event.thread with
  | .error e => .error e
  | .ok (i, t) =>
    match t.set_ready event.time with
    | (.error m, _) => .error (SimError.thrown m)
    | (.ok _, t1) =>
      match t1.get_next_burst BurstType.CPU with
      | .error m => .error (SimError.thrown m)
      | .ok none => .error SimError.null_deref
      | .ok (some cpu_burst) =>
        let time_spent : Int := event.time - t1.state_change_time
        let t2 : Thread :=
          { t1 with service_time := t1.service_time + time_spent
                    bursts := cpu_burst.update_time time_spent :: t1.bursts.tail }
        let s1 : Simulation :=
          { s.set_thread i t2 with
            scheduler := s.scheduler.add_to_ready_queue i
            system_stats := { s.system_stats with
              service_time := s.system_stats.service_time + time_spent } }
        if s1.active_thread ≠ none then .ok s1
        else
          let s2 : Simulation :=
            { s1 with system_stats := { s1.system_stats with
                total_idle_time := s1.system_stats.total_idle_time +
                  (event.time - s1.io_time_start) } }
          .ok (s2.new_event EventType.DISPATCHER_INVOKED event.time event.thread none)

/-- The two branches at the end of `handle_dispatcher_invoked` (lines 303-322)
differ in the event type and the overhead only: enqueue the dispatch-completed
event for the decision `sd` at `event.time + overhead` and add `overhead` to
the total dispatch time. -/
def Simulation.dispatch_with (s : Simulation) (event : Event) (sd : SchedulingDecision)
    (type : EventType) (overhead : Int) : Simulation :=
  { s.new_event type (event.time + overhead) sd.thread (some sd) with
    system_stats := { s.system_stats with
      dispatch_time := s.system_stats.dispatch_time + overhead } }

/-- Lines 291-322 of `handle_dispatcher_invoked`: ask the scheduler for the
next thread and start its dispatch. The two writes into the popped event
(`event->scheduling_decision`, `event->thread`) are read by the logger only and
are left out. -/
def Simulation.dispatch_next (s : Simulation) (event : Event) : Except SimError Simulation :=
  let sd : SchedulingDecision := (s.scheduler.get_next_thread).1
  let s2 : Simulation := { s with scheduler := (s.scheduler.get_next_thread).2 }
  match sd.thread with
  | none => .ok { s2 with active_thread := none }
  | some a =>
    let s3 : Simulation := { s2 with active_thread := some a }
    match s3.threads[a]? with
    | none => .error SimError.null_deref
    | some active =>
      match s3.prev_thread with
      | none =>
        .ok (s3.dispatch_with event sd EventType.PROCESS_DISPATCH_COMPLETED
              s3.process_switch_overhead)
      | some p =>
        match s3.threads[p]? with
        | none => .error SimError.null_deref
        | some prev =>
          if active.process_id = prev.process_id then
            .ok (s3.dispatch_with event sd EventType.THREAD_DISPATCH_COMPLETED
                  s3.thread_switch_overhead)
          else
            .ok (s3.dispatch_with event sd EventType.PROCESS_DISPATCH_COMPLETED
                  s3.process_switch_overhead)

/-- Embedding of `Simulation::handle_dispatcher_invoked`: remember the running
thread as the previous one (lines 287-290), then dispatch the next. -/
def Simulation.handle_dispatcher_invoked (s : Simulation) (event : Event) :
    Except SimError Simulation :=
  let s1 : Simulation :=
    if s.active_thread ≠ none then { s with prev_thread := s.active_thread } else s
  s1.dispatch_next event

/-- The `switch` of `Simulation::run` on the type of the popped event. -/
def Simulation.handle (s : Simulation) (event : Event) : Except SimError Simulation :=
  match event.type with
  | .THREAD_ARRIVED =>
    if s.first_event then
      { s with first_event := false,
               system_stats := { s.system_stats with total_idle_time := event.time }
      }.handle_thread_arrived event
    else s.handle_thread_arrived event
  | .THREAD_DISPATCH_COMPLETED => s.handle_dispatch_completed event
  | .PROCESS_DISPATCH_COMPLETED => s.handle_dispatch_completed event
  | .CPU_BURST_COMPLETED => s.handle_cpu_burst_completed event
  | .IO_BURST_COMPLETED => s.handle_io_burst_completed event
  | .THREAD_COMPLETED => s.handle_thread_completed event
  | .THREAD_PREEMPTED => s.handle_thread_preempted event
  | .DISPATCHER_INVOKED => s.handle_dispatcher_invoked event

/-- One iteration of the `while` loop of `Simulation::run`: pop the earliest
event, handle it, record its time as `total_time`. On an empty queue the state
is returned as it is. -/
def Simulation.step (s : Simulation) : Except SimError Simulation :=
  match pop_min s.events with
  | none => .ok s
  | some (event, rest) =>
    match { s with events := rest }.handle event with
    | .error e => .error e
    | .ok s1 =>
      .ok { s1 with system_stats := { s1.system_stats with total_time := event.time } }

/-- The `while` loop of `Simulation::run`, for at most `fuel` iterations. -/
def Simulation.run_loop : Nat → Simulation → Except SimError Simulation
  | 0, s => .ok s
  | fuel + 1, s =>
    match s.events with
    | [] => .ok s
    | _ :: _ =>
      match s.step with
      | .error e => .error e
      | .ok s1 => Simulation.run_loop fuel s1

/-- The events popped by the first `fuel` iterations of the loop, in order,
the one whose handler stops the run included. -/
def Simulation.popped : Nat → Simulation → List Event
  | 0, _ => []
  | fuel + 1, s =>
    match pop_min s.events with
    | none => []
    | some (event, _) =>
      event :: (match s.step with
                | .error _ => []
                | .ok s1 => Simulation.popped fuel s1)

/-- Embedding of `Simulation::calculate_statistics`; the `float` quotients are
exact rationals. -/
def Simulation.calculate_statistics (s : Simulation) : SystemStats :=
  let st := s.system_stats
  let resp (l : List Nat) : Int :=
    (l.map (fun i => match s.threads[i]? with
                     | some t => t.response_time
                     | none => 0)).sum
  let turn (l : List Nat) : Int :=
    (l.map (fun i => match s.threads[i]? with
                     | some t => t.turnaround_time
                     | none => 0)).sum
  let avg (total : Int) (thr_counts : Int) : Rat :=
    if thr_counts ≠ 0 then (total : Rat) / (thr_counts : Rat) else 0
  { st with
    cpu_utilization := 100 * (1 - (st.total_idle_time : Rat) / (st.total_time : Rat))
    cpu_efficiency := 100 * ((st.service_time : Rat) / (st.total_time : Rat))
    avg_thread_response_times :=
      (List.range 4).map (fun i => avg (resp (s.all_threads.getD i [])) (st.thread_counts.getD i 0))
    avg_thread_turnaround_times :=
      (List.range 4).map (fun i => avg (turn (s.all_threads.getD i [])) (st.thread_counts.getD i 0)) }

/-! ## Loading the input and starting a run -/

/-- One thread record of the input file: its arrival time and the burst
lengths that follow it (`2 * num_cpu_bursts - 1` of them in the file). -/
structure ThreadInput where
  arrival_time : Int
  burst_lengths : List Int
  deriving DecidableEq, Repr

/-- One process record of the input file. -/
structure ProcessInput where
  process_id : Int
  priority : Fin 4
  threads : List ThreadInput
  deriving DecidableEq, Repr

/-- The content of the input file. -/
structure SimInput where
  thread_switch_overhead : Int
  process_switch_overhead : Int
  processes : List ProcessInput
  deriving DecidableEq, Repr

/-- The burst loop of `read_thread`: the burst read at position `n` is a CPU
burst when `n % 2 == 0` and an I/O burst otherwise. -/
def mk_bursts : Nat → List Int → List Burst
  | _, [] => []
  | n, burst_length :: rest =>
    { burst_type := if n % 2 = 0 then BurstType.CPU else BurstType.Io,
      length := burst_length } :: mk_bursts (n + 1) rest

/-- Embedding of `Simulation::read_thread`: the new thread joins the arena and
its THREAD_ARRIVED event is pushed with the next event number. The
uninitialised `previous_state` is taken as NEW; the run reads it only after a
transition has written it. -/
def Simulation.read_thread (s : Simulation) (inp : ThreadInput) (thread_id : Int)
    (process_id : Int) (priority : Fin 4) : Simulation :=
  let thread : Thread :=
    { arrival_time := inp.arrival_time, thread_id := thread_id, process_id := process_id,
      priority := priority, previous_state := ThreadState.NEW,
      bursts := mk_bursts 0 inp.burst_lengths }
  { s with threads := s.threads ++ [thread],
           events := s.events ++
             [{ type := EventType.THREAD_ARRIVED, time := thread.arrival_time,
                event_num := s.event_num, thread := some s.threads.length,
                scheduling_decision := none }],
           event_num := s.event_num + 1 }

/-- The thread loop of `Simulation::read_process`, from thread id `thread_id`
on. -/
def Simulation.read_threads (s : Simulation) (process_id : Int) (priority : Fin 4) :
    Int → List ThreadInput → Simulation
  | _, [] => s
  | thread_id, inp :: rest =>
    (s.read_thread inp thread_id process_id priority).read_threads process_id priority
      (thread_id + 1) rest

/-- Embedding of `Simulation::read_process`. -/
def Simulation.read_process (s : Simulation) (p : ProcessInput) : Simulation :=
  s.read_threads p.process_id p.priority 0 p.threads

/-- Embedding of `Simulation::read_file` on a readable file. -/
def Simulation.read_file (s : Simulation) (inp : SimInput) : Simulation :=
  inp.processes.foldl Simulation.read_process
    { s with thread_switch_overhead := inp.thread_switch_overhead,
             process_switch_overhead := inp.process_switch_overhead }

/-- Modelled from the spec: the values of the engine's fields before
`read_file` (the header that declares them is not among the sources): the
scheduler the constructor chose, no thread, no event, event number 0, no active
and no previous thread, statistics "initialized to zero", and idle-start
marker 0. -/
def Simulation.init (sched : Scheduler) : Simulation :=
  { scheduler := sched, threads := [] }

/-- The scheduler choice of the constructor `Simulation::Simulation`: FCFS, or
round-robin with the slice of the flags when it is greater than −1 and with
the default slice of `RRScheduler()` otherwise. The default is declared in a
header that is not among the sources and is a parameter here. Any other
scheduler name leaves the scheduler pointer null: `none`. -/
def Simulation.choose_scheduler (name : String) (time_slice : Int) (rr_default_slice : Int) :
    Option Scheduler :=
  if name = "FCFS" then some (Scheduler.fcfs {})
  else if name = "RR" then
    if time_slice > -1 then some (Scheduler.rr (RRScheduler.create time_slice))
    else some (Scheduler.rr (RRScheduler.create rr_default_slice))
  else none

/-- Embedding of `Simulation::run` up to the end of its loop: load the input,
then iterate at most `fuel` times. -/
def Simulation.run (fuel : Nat) (sched : Scheduler) (inp : SimInput) :
    Except SimError Simulation :=
  ((Simulation.init sched).read_file inp).run_loop fuel

/-- The events popped by the first `fuel` iterations of a run. -/
def Simulation.run_popped (fuel : Nat) (sched : Scheduler) (inp : SimInput) : List Event :=
  ((Simulation.init sched).read_file inp).popped fuel

/-! ## Sequences of scheduler calls -/

/-- A call on the scheduler interface by the engine. -/
inductive SchedOp where
  | add (thread : Nat)
  | get
  deriving DecidableEq, Repr

/-- The threads admitted by a sequence of calls, in call order. -/
def SchedOp.admitted : List SchedOp → List Nat
  | [] => []
  | .add thread :: ops => thread :: SchedOp.admitted ops
  | .get :: ops => SchedOp.admitted ops

/-- Run a sequence of calls on a scheduler: the threads returned by the
`get_next_thread` calls that select one, in call order, and the scheduler
after the last call. -/
def Scheduler.run_ops : Scheduler → List SchedOp → List Nat × Scheduler
  | sch, [] => ([], sch)
  | sch, .add thread :: ops => Scheduler.run_ops (sch.add_to_ready_queue thread) ops
  | sch, .get :: ops =>
    match (sch.get_next_thread).1.thread with
    | none => Scheduler.run_ops (sch.get_next_thread).2 ops
    | some thread =>
      (thread :: (Scheduler.run_ops (sch.get_next_thread).2 ops).1,
       (Scheduler.run_ops (sch.get_next_thread).2 ops).2)

/-! ## Observations on a run and the scenarios of the specification -/

/-- Number of threads whose current state is RUNNING. -/
def Simulation.running_count (s : Simulation) : Nat :=
  (s.threads.filter (fun t => decide (t.current_state = ThreadState.RUNNING))).length

/-- Number of THREAD_PREEMPTED events in a list of popped events. -/
def preemptions (evs : List Event) : Nat :=
  (evs.filter (fun e => decide (e.type = EventType.THREAD_PREEMPTED))).length

/-- A dispatch-completed event type, thread or process flavour. -/
def EventType.is_dispatch_completed (ty : EventType) : Bool :=
  decide (ty = EventType.THREAD_DISPATCH_COMPLETED) ||
  decide (ty = EventType.PROCESS_DISPATCH_COMPLETED)

/-- Input with one process that has one thread. -/
def single_thread_input (thread_switch_overhead process_switch_overhead : Int)
    (process_id : Int) (priority : Fin 4) (arrival_time : Int) (burst_lengths : List Int) :
    SimInput :=
  { thread_switch_overhead := thread_switch_overhead,
    process_switch_overhead := process_switch_overhead,
    processes := [{ process_id := process_id, priority := priority,
                    threads := [{ arrival_time := arrival_time,
                                  burst_lengths := burst_lengths }] }] }

/-- Input of the two-thread scenario: two processes with one thread each, both
threads arrive at time 0 with one CPU burst of length 10; the process-switch
overhead is 2 (the thread-switch overhead, unused here, is 0). -/
def two_arrivals : SimInput :=
  { thread_switch_overhead := 0,
    process_switch_overhead := 2,
    processes := [{ process_id := 1, priority := 0,
                    threads := [{ arrival_time := 0, burst_lengths := [10] }] },
                  { process_id := 2, priority := 0,
                    threads := [{ arrival_time := 0, burst_lengths := [10] }] }] }

/-- Number of THREAD_DISPATCH_COMPLETED events in a list of popped events. -/
def thread_dispatches (evs : List Event) : Nat :=
  (evs.filter (fun e => decide (e.type = EventType.THREAD_DISPATCH_COMPLETED))).length

/-- The only thread `t` of the run has been chosen by the dispatcher, and its
dispatch-completed event, of type `ty` and due at time `τ`, is the only event
queued. The scheduler is round-robin with slice `slice`, or FCFS, and then
`slice` is −1, the slice of an FCFS decision. -/
def DispatchPending (st : Simulation) (slice : Int) (t : Thread) (ty : EventType)
    (τ : Int) : Prop :=
  st.threads = [t] ∧
  EventType.is_dispatch_completed ty = true ∧
  (∃ n sd_expl,
    st.events = [{ type := ty, time := τ, event_num := n, thread := some 0,
                   scheduling_decision :=
                     some { thread := some 0, time_slice := slice, explanation := sd_expl } }]) ∧
  st.active_thread = some 0 ∧
  (st.scheduler = Scheduler.rr { time_slice := slice, ready_queue := [] } ∨
   (slice = -1 ∧ st.scheduler = Scheduler.fcfs { ready_queue := [] }))

/-- A burst sequence as `read_thread` builds it from a well-formed record:
it alternates CPU, I/O, ..., starts and ends with a CPU burst, and its I/O
bursts have non-negative lengths. -/
def alternating : List Burst → Prop
  | [] => False
  | [b] => b.burst_type = BurstType.CPU
  | b :: c :: rest =>
    b.burst_type = BurstType.CPU ∧ c.burst_type = BurstType.Io ∧ 0 ≤ c.length ∧
    alternating rest

/-- Sum of the lengths of the bursts of kind `ty`. -/
def burst_total (ty : BurstType) : List Burst → Int
  | [] => 0
  | b :: rest => (if b.burst_type = ty then b.length else 0) + burst_total ty rest

/-- The number ⌈L / s⌉ − 1 of slices of length `s` that a burst of length `L`
outruns, for `L ≥ 1` and `s ≥ 1`, as a natural number. -/
def rr_preemptions (L s : Int) : Nat := ((L - 1) / s).toNat

/-! ## The invariant of the run loop -/

/-- The relation the specification asks of two events popped one after the
other: the time does not decrease, and at equal times the event number
grows. -/
def Event.pops_before (a b : Event) : Prop :=
  a.time ≤ b.time ∧ (a.time = b.time → a.event_num < b.event_num)

/-- A time slice is −1 (run to completion) or non-negative. -/
def slice_ok (ts : Int) : Prop := ts = -1 ∨ 0 ≤ ts

/-- What an instance of the loop invariant asks of the bursts of the threads,
of the time slices in flight, of the two overheads, and of the time at which
an event may be enqueued while the handler of a popped event runs. -/
structure InvParams where
  burst_ok : Burst → Prop
  slice_ok : Int → Prop
  overhead_ok : Int → Prop
  time_ok : Event → Int → Prop

/-- The conditions under which the handlers keep the invariant of the
parameters `P`. -/
structure InvParams.Closed (P : InvParams) : Prop where
  time_le : ∀ (m : Event) (t : Int), m.time ≤ t → P.time_ok m t
  time_now : ∀ m : Event, P.time_ok m m.time
  time_burst : ∀ (m : Event) (b : Burst), P.burst_ok b → P.time_ok m (m.time + b.length)
  time_slice : ∀ (m : Event) (ts : Int), P.slice_ok ts → ts ≠ -1 → P.time_ok m (m.time + ts)
  time_overhead : ∀ (m : Event) (o : Int), P.overhead_ok o → P.time_ok m (m.time + o)
  slice_default : P.slice_ok (-1)
  burst_slice : ∀ (b : Burst) (ts : Int), P.burst_ok b → P.slice_ok ts → ts ≠ -1 →
    b.burst_type = BurstType.CPU → b.length > ts →
    P.burst_ok { b with length := b.length - ts }

/-- The decision an event carries, if any, has an admissible slice. -/
def Event.decision_ok (P : InvParams) (e : Event) : Prop :=
  ∀ sd, e.scheduling_decision = some sd → P.slice_ok sd.time_slice

/-- The slice a round-robin scheduler is configured with is admissible; FCFS
has none. -/
def Scheduler.slice_ok (P : InvParams) : Scheduler → Prop
  | .fcfs _ => True
  | .rr r => P.slice_ok r.time_slice

/-- Every burst of every thread is admissible. -/
def bursts_ok (P : InvParams) (ths : List Thread) : Prop :=
  ∀ t ∈ ths, ∀ b ∈ t.bursts, P.burst_ok b

/-- The queue `evs` while the handler of the popped event `m` runs, with `n`
the next event number: numbers grow along the queue and stay below `n`, and
every queued event is due at an admissible time and, when due at the time of
`m`, has a greater number than `m`. -/
def EventsAfter (P : InvParams) (m : Event) (evs : List Event) (n : Nat) : Prop :=
  evs.Pairwise (fun a b => a.event_num < b.event_num) ∧
  (∀ e ∈ evs, e.event_num < n ∧ P.time_ok m e.time ∧
    (m.time = e.time → m.event_num < e.event_num) ∧ e.decision_ok P) ∧
  m.event_num < n ∧ m.decision_ok P

/-- The invariant of the run loop while the handler of `m` runs. -/
def Simulation.LoopInv (P : InvParams) (m : Event) (s : Simulation) : Prop :=
  EventsAfter P m s.events s.event_num ∧ bursts_ok P s.threads ∧ s.scheduler.slice_ok P ∧
  P.overhead_ok s.thread_switch_overhead ∧ P.overhead_ok s.process_switch_overhead

/-- The invariant of the run loop between two iterations: the queued events
carry increasing event numbers below the next number to hand out and
admissible decisions, and bursts, scheduler slice and overheads are
admissible. -/
def Simulation.StartInv (P : InvParams) (s : Simulation) : Prop :=
  s.events.Pairwise (fun a b => a.event_num < b.event_num) ∧
  (∀ e ∈ s.events, e.event_num < s.event_num ∧ e.decision_ok P) ∧
  bursts_ok P s.threads ∧ s.scheduler.slice_ok P ∧
  P.overhead_ok s.thread_switch_overhead ∧ P.overhead_ok s.process_switch_overhead

/-- The instance of the invariant for the order of the popped events:
non-negative bursts and overheads, slices that are −1 or non-negative, and
events enqueued no earlier than the time of the popped event. -/
def order_params : InvParams :=
  { burst_ok := fun b => 0 ≤ b.length,
    slice_ok := PSched.slice_ok,
    overhead_ok := fun o => 0 ≤ o,
    time_ok := fun m t => m.time ≤ t }

/-- The input has non-negative overheads and non-negative burst lengths. -/
def SimInput.nonneg (inp : SimInput) : Prop :=
  0 ≤ inp.thread_switch_overhead ∧ 0 ≤ inp.process_switch_overhead ∧
  ∀ p ∈ inp.processes, ∀ t ∈ p.threads, ∀ l ∈ t.burst_lengths, (0 : Int) ≤ l

/-- The bursts the loader builds for the threads of the input are admissible,
and so are its overheads. -/
def SimInput.ok (P : InvParams) (inp : SimInput) : Prop :=
  P.overhead_ok inp.thread_switch_overhead ∧ P.overhead_ok inp.process_switch_overhead ∧
  ∀ p ∈ inp.processes, ∀ t ∈ p.threads, ∀ b ∈ mk_bursts 0 t.burst_lengths, P.burst_ok b

/-! ## Erasure of the scheduling policy -/

/-- A decision without the marks of the policy that took it: the selected
thread stays, the slice becomes −1 and the explanation is dropped. -/
def SchedulingDecision.erase (sd : SchedulingDecision) : SchedulingDecision :=
  { thread := sd.thread, time_slice := -1, explanation := "" }

/-- An event with its decision, if any, erased. -/
def Event.erase (e : Event) : Event :=
  { e with scheduling_decision := e.scheduling_decision.map SchedulingDecision.erase }

/-- A state without the marks of the policy: the ready queue is kept in an
FCFS scheduler and the queued events are erased. Threads, statistics and all
other fields stay. -/
def Simulation.erase (s : Simulation) : Simulation :=
  { s with scheduler := Scheduler.fcfs { ready_queue := s.scheduler.ready_queue },
           events := s.events.map Event.erase }

/-- Parameters of the invariant "no burst outruns the slice `σ`": every CPU
burst is at most `σ` long when `σ` is not −1, and every slice in flight is −1
or `σ`. -/
def cover_params (σ : Int) : InvParams :=
  { burst_ok := fun b => σ ≠ -1 → b.burst_type = BurstType.CPU → b.length ≤ σ,
    slice_ok := fun ts => ts = -1 ∨ ts = σ,
    overhead_ok := fun _ => True,
    time_ok := fun _ _ => True }

/-- The threads that complete, in completion order: the threads of the popped
THREAD_COMPLETED events. -/
def completion_order (evs : List Event) : List (Option Nat) :=
  (evs.filter (fun e => decide (e.type = EventType.THREAD_COMPLETED))).map (fun e => e.thread)

/-- The timings of a state that the specification compares between policies:
per thread its start, end, service and I/O time, and of the system the total
time, the total idle time and the dispatch time. -/
def Simulation.timings (s : Simulation) : List (Int × Int × Int × Int) × Int × Int × Int :=
  (s.threads.map (fun t => (t.start_time, t.end_time, t.service_time, t.io_time)),
   s.system_stats.total_time, s.system_stats.total_idle_time, s.system_stats.dispatch_time)

/-- An input with two processes and three threads, one of them with an I/O
burst of length 10 between CPU bursts of lengths 3 and 4; thread-switch
overhead 1, process-switch overhead 2. -/
def mixed_input : SimInput :=
  { thread_switch_overhead := 1,
    process_switch_overhead := 2,
    processes := [{ process_id := 1, priority := 0,
                    threads := [{ arrival_time := 0, burst_lengths := [3, 10, 4] },
                                { arrival_time := 1, burst_lengths := [2] }] },
                  { process_id := 2, priority := 1,
                    threads := [{ arrival_time := 5, burst_lengths := [4] }] }] }

/-- A measure of the work left in a burst sequence: it goes down with every
burst removed and with every slice taken off a burst. -/
def burst_measure : List Burst → Nat
  | [] => 0
  | b :: rest => 1 + b.length.toNat + burst_measure rest

/-- Input of the I/O scenario: one thread that arrives at 0 with bursts CPU 1,
I/O 1, CPU 1; thread-switch overhead 1, process-switch overhead 0. -/
def io_input : SimInput := single_thread_input 1 0 1 0 0 [1, 1, 1]

/-! ## Observations on single handlers -/

/-- The threads that arrived in the priority class `i`, in arrival order: the
thread objects behind `all_threads[i]`. -/
def Simulation.class_threads (s : Simulation) (i : Nat) : List Thread :=
  (s.all_threads.getD i []).filterMap (fun j => s.threads[j]?)


/-- The record of the arrivals: per priority class the thread count and the
threads of the class. -/
def Simulation.arrivals (s : Simulation) : List Int × List (List Nat) :=
  (s.system_stats.thread_counts, s.all_threads)

/-- The thread count of every priority class is the number of threads
recorded for the class. -/
def Simulation.counts_match (s : Simulation) : Prop :=
  s.system_stats.thread_counts = s.all_threads.map (fun l => (l.length : Int))

/-- The events a handler has enqueued between the states `s` and `s1` while it
handled the popped event `m`: the queue of `s1` is the queue of `s` followed
by the events `new`, which carry the event numbers from `s.event_num` on, one
after the other, and are due no earlier than `m`; `s1.event_num` is the next
free number. -/
def Simulation.Appends (m : Event) (s s1 : Simulation) (new : List Event) : Prop :=
  s1.events = s.events ++ new ∧ s1.event_num = s.event_num + new.length ∧
  new.map Event.event_num = List.range' s.event_num new.length ∧
  ∀ e ∈ new, m.time ≤ e.time

/-- The burst lengths of all threads are non-negative. -/
def Simulation.bursts_nonneg (s : Simulation) : Prop :=
  ∀ t ∈ s.threads, ∀ b ∈ t.bursts, 0 ≤ b.length

/-- The thread `prev_thread` points to once lines 287-290 of
`handle_dispatcher_invoked` have run: the active thread if there is one, the
previous thread of the state otherwise. -/
def Simulation.previous_thread (s : Simulation) : Option Nat :=
  if s.active_thread ≠ none then s.active_thread else s.prev_thread

/-- The thread of the preemption scenario when its first dispatch completes:
READY since its arrival at time 0, with one CPU burst of length 8. -/
def preempt_thread : Thread :=
  { thread_id := 0, process_id := 1, arrival_time := 0, state_change_time := 0, priority := 0,
    current_state := ThreadState.READY, previous_state := ThreadState.NEW,
    bursts := [{ burst_type := BurstType.CPU, length := 8 }] }

/-- The dispatch-completed event of the preemption scenario: due at time 2,
with a round-robin decision of slice 3. -/
def preempt_event : Event :=
  { type := EventType.PROCESS_DISPATCH_COMPLETED, time := 2, event_num := 2, thread := some 0,
    scheduling_decision :=
      some { thread := some 0, time_slice := 3,
             explanation := "Selected from 1 threads. Will run for at most 3 ticks." } }

/-- The state of the preemption scenario in which `preempt_event` is handled:
the run of one thread with one CPU burst of length 8 under round-robin with
slice 3 and process-switch overhead 2, after its second iteration and the pop
of the third. -/
def preempt_state : Simulation :=
  { scheduler := Scheduler.rr { time_slice := 3, ready_queue := [] },
    threads := [preempt_thread], events := [], event_num := 3, active_thread := some 0,
    process_switch_overhead := 2, all_threads := [[0], [], [], []], first_event := false,
    system_stats := { thread_counts := [1, 0, 0, 0], dispatch_time := 2 } }

/-- The final state of the run of one thread with one CPU burst of length 10
under FCFS with process-switch overhead 2: the thread started at 2 and ended
at 12. -/
def finished_state : Simulation :=
  { scheduler := Scheduler.fcfs { ready_queue := [] },
    threads :=
      [{ thread_id := 0, process_id := 1, arrival_time := 0, start_time := 2, end_time := 12,
         service_time := 10, state_change_time := 12, priority := 0,
         current_state := ThreadState.EXIT, previous_state := ThreadState.RUNNING,
         bursts := [] }],
    events := [], event_num := 4, prev_thread := some 0, process_switch_overhead := 2,
    all_threads := [[0], [], [], []], first_event := false,
    system_stats := { total_time := 12, service_time := 10, dispatch_time := 2,
                      thread_counts := [1, 0, 0, 0] } }

/-- Input of the overlapping I/O scenario: one process with two threads, the
first arrives at 0 with bursts CPU 1, I/O 100, CPU 1, the second at 1 with
bursts CPU 1, I/O 200, CPU 1; both overheads are 0. -/
def idle_input : SimInput :=
  { thread_switch_overhead := 0,
    process_switch_overhead := 0,
    processes := [{ process_id := 1, priority := 0,
                    threads := [{ arrival_time := 0, burst_lengths := [1, 100, 1] },
                                { arrival_time := 1, burst_lengths := [1, 200, 1] }] }] }

/-! ## The measure of the run loop -/

/-- The work left in the bursts of the thread at index `i` of the arena (0
for an index outside the arena). -/
def thread_measure (ths : List Thread) (i : Nat) : Nat :=
  match ths[i]? with
  | some t => burst_measure t.bursts
  | none => 0

/-- The work left in the bursts of the thread an event points to. -/
def Event.thread_measure (ths : List Thread) (e : Event) : Nat :=
  match e.thread with
  | some i => PSched.thread_measure ths i
  | none => 0

/-- The part of the weight of an event that depends on its type only: greater
than the base weights of the events its handler enqueues when the handler
takes nothing off the bursts. -/
def EventType.base_weight : EventType → Nat
  | .THREAD_ARRIVED => 3
  | .DISPATCHER_INVOKED => 1
  | .THREAD_DISPATCH_COMPLETED => 1
  | .PROCESS_DISPATCH_COMPLETED => 1
  | .CPU_BURST_COMPLETED => 1
  | .IO_BURST_COMPLETED => 3
  | .THREAD_COMPLETED => 2
  | .THREAD_PREEMPTED => 3

/-- The weight of a queued event: 1 for a DISPATCHER_INVOKED event, and for an
event of a thread four times the work left in the thread's bursts plus the
base weight of its type. -/
def Event.weight (ths : List Thread) (e : Event) : Nat :=
  if e.type = EventType.DISPATCHER_INVOKED then 1
  else 4 * e.thread_measure ths + e.type.base_weight

/-- The weight of the queued events. -/
def events_weight (ths : List Thread) (evs : List Event) : Nat :=
  (evs.map (Event.weight ths)).sum

/-- The weight of the ready queue: per entry four times the work left in the
thread's bursts plus 1. -/
def ready_weight (ths : List Thread) (queue : List Nat) : Nat :=
  (queue.map (fun i => 4 * thread_measure ths i + 1)).sum

/-- The measure of a state of the run loop: the weight of the queued events
plus the weight of the ready queue. Every iteration that returns makes it
smaller when the slices in use are −1 or at least 1. -/
def Simulation.measure (s : Simulation) : Nat :=
  events_weight s.threads s.events + ready_weight s.threads s.scheduler.ready_queue

/-- The loop has stopped: with an error, or with an empty event queue. -/
def Simulation.stopped : Except SimError Simulation → Bool
  | .error _ => true
  | .ok s => s.events.isEmpty

/-- The scheduler is FCFS, or round-robin with a slice of at least 1. -/
def Scheduler.slice_positive : Scheduler → Prop
  | .fcfs _ => True
  | .rr r => 1 ≤ r.time_slice

/-- The instance of the invariant for termination: slices are −1 or at least
1; nothing is asked of bursts, overheads and times. -/
def term_params : InvParams :=
  { burst_ok := fun _ => True,
    slice_ok := fun ts => ts = -1 ∨ 1 ≤ ts,
    overhead_ok := fun _ => True,
    time_ok := fun _ _ => True }

/-! ## Well-formed states -/

/-- A burst sequence that alternates CPU, I/O, ..., and starts and ends with a
CPU burst. -/
def alternates : List Burst → Prop
  | [] => False
  | [b] => b.burst_type = BurstType.CPU
  | b :: c :: rest =>
    b.burst_type = BurstType.CPU ∧ c.burst_type = BurstType.Io ∧ alternates rest

/-- What the handler of an event of type `ty` expects of the thread of the
event: the state it leaves by its transition and the bursts it reads. -/
def Thread.fits (ty : EventType) (t : Thread) : Prop :=
  match ty with
  | .THREAD_ARRIVED => t.current_state = ThreadState.NEW ∧ alternates t.bursts
  | .DISPATCHER_INVOKED => True
  | .THREAD_DISPATCH_COMPLETED => t.current_state = ThreadState.READY ∧ alternates t.bursts
  | .PROCESS_DISPATCH_COMPLETED => t.current_state = ThreadState.READY ∧ alternates t.bursts
  | .CPU_BURST_COMPLETED =>
    t.current_state = ThreadState.RUNNING ∧
    ∃ b rest, t.bursts = b :: rest ∧ b.burst_type = BurstType.Io ∧ alternates rest
  | .IO_BURST_COMPLETED => t.current_state = ThreadState.BLOCKED ∧ alternates t.bursts
  | .THREAD_COMPLETED => t.current_state = ThreadState.RUNNING
  | .THREAD_PREEMPTED => t.current_state = ThreadState.RUNNING ∧ alternates t.bursts

/-- A queued event fits the arena: it is a DISPATCHER_INVOKED event, or it
points to a thread of the arena that fits its type, and carries a decision
when it is a dispatch-completed event. -/
def Event.fits (ths : List Thread) (e : Event) : Prop :=
  e.type = EventType.DISPATCHER_INVOKED ∨
  ∃ i t, e.thread = some i ∧ ths[i]? = some t ∧ t.fits e.type ∧
    (e.type.is_dispatch_completed = true → e.scheduling_decision ≠ none)

/-- An entry of the ready queue fits the arena: it points to a READY thread
with a well-formed burst sequence. -/
def ready_fits (ths : List Thread) (i : Nat) : Prop :=
  ∃ t, ths[i]? = some t ∧ t.current_state = ThreadState.READY ∧ alternates t.bursts

/-- The thread whose next step an event stands for; a DISPATCHER_INVOKED event
stands for none. -/
def Event.token (e : Event) : Option Nat :=
  if e.type = EventType.DISPATCHER_INVOKED then none else e.thread

/-- The threads with a next step pending: those of the queued events, then
those of the ready queue. -/
def Simulation.tokens (s : Simulation) : List Nat :=
  s.events.filterMap Event.token ++ s.scheduler.ready_queue

/-- The invariant of a run on a well-formed input, between two iterations:
every queued event and every entry of the ready queue fits the arena, no
thread has two next steps pending, and the previous and the active thread are
threads of the arena. -/
def Simulation.WellFormed (s : Simulation) : Prop :=
  (∀ e ∈ s.events, e.fits s.threads) ∧
  (∀ i ∈ s.scheduler.ready_queue, ready_fits s.threads i) ∧
  s.tokens.Nodup ∧
  (∀ p, s.prev_thread = some p → p < s.threads.length) ∧
  (∀ a, s.active_thread = some a → a < s.threads.length)

/-- The same invariant while the handler of the popped event `m` runs: `m`
fits the arena too and its thread has no other next step pending. -/
def Simulation.Handling (s : Simulation) (m : Event) : Prop :=
  m.fits s.threads ∧
  (∀ e ∈ s.events, e.fits s.threads) ∧
  (∀ i ∈ s.scheduler.ready_queue, ready_fits s.threads i) ∧
  (m.token.toList ++ s.tokens).Nodup ∧
  (∀ p, s.prev_thread = some p → p < s.threads.length) ∧
  (∀ a, s.active_thread = some a → a < s.threads.length)

/-- Every thread record of the input has an odd number of burst lengths, so
that its bursts, CPU at the even positions and I/O at the odd ones, start and
end with a CPU burst. -/
def SimInput.well_formed (inp : SimInput) : Prop :=
  ∀ p ∈ inp.processes, ∀ t ∈ p.threads, t.burst_lengths.length % 2 = 1

/-! ## The engine over machine integers

Every event time in the source is a C++ `int`. The handlers compute the time
of a follow-up event as an `int` sum (`event->time + ts`,
`event->time + event->scheduling_decision->time_slice`,
`event->time + burst->length`, `event->time + io_burst->length`,
`event->time + thread_switch_overhead`, `event->time + process_switch_overhead`).
The definitions of this section repeat the handlers that compute such a sum,
with the sum as a 32-bit machine computes it: modulo `2^32`, in the range
`-2^31 .. 2^31 - 1`. The handlers that enqueue events at `event->time` only
(`handle_thread_arrived`, `handle_io_burst_completed`,
`handle_thread_completed`, `handle_thread_preempted`) are shared with the
engine above. The accumulators of the statistics and of the threads
(`service_time`, `io_time`) enter neither an event time nor a branch of a
handler; they are sums in the integers here as well. -/

/-- The range of a C++ `int`: `INT_MIN ≤ x ≤ INT_MAX`. -/
def in_int (x : Int) : Prop := -2147483648 ≤ x ∧ x ≤ 2147483647

instance (x : Int) : Decidable (in_int x) :=
  inferInstanceAs (Decidable (-2147483648 ≤ x ∧ x ≤ 2147483647))

/-- The `int` that the integer `x` becomes on a 32-bit two's-complement
machine: `x` itself when it is in range, and `x` shifted by a multiple of
`2^32` into the range otherwise. -/
def wrap32 (x : Int) : Int := (x + 2147483648) % 4294967296 - 2147483648

/-- The sum `a + b` of two `int` values as the machine computes it. -/
def int_add (a b : Int) : Int := wrap32 (a + b)

/-- Every queued event is due at a time in the range of `int`. -/
def Simulation.times_fit (s : Simulation) : Prop := ∀ e ∈ s.events, in_int e.time

/-- The queue of a handler's result is due at times in the range of `int`; a
handler that stops the run enqueues nothing. -/
def Simulation.fits_result : Except SimError Simulation → Prop
  | .ok s => s.times_fit
  | .error _ => True

instance (s : Simulation) : Decidable s.times_fit :=
  inferInstanceAs (Decidable (∀ e ∈ s.events, in_int e.time))

instance : (r : Except SimError Simulation) → Decidable (Simulation.fits_result r)
  | .ok s => inferInstanceAs (Decidable s.times_fit)
  | .error _ => inferInstanceAs (Decidable True)

/-- No event time overflows while the handler of the popped event `m` runs in
the state `s`: with the sums of the handler taken in the integers, the events
queued when it returns are all due at times in the range of `int`. -/
def Simulation.sums_fit (s : Simulation) (m : Event) : Prop :=
  Simulation.fits_result (s.handle m)

instance (s : Simulation) (m : Event) : Decidable (s.sums_fit m) :=
  inferInstanceAs (Decidable (Simulation.fits_result (s.handle m)))

/-- The slice branch of `handle_dispatch_completed` (lines 140-161) with the
two event times as `int` sums. -/
def Simulation.dispatch_completed_slice_int (s : Simulation) (event : Event) (i : Nat)
    (t : Thread) (burst : Burst) (ts : Int) : Simulation :=
  let t1 : Thread :=
    { t with bursts := { burst with length := burst.length - ts } :: t.bursts.tail
             service_time := t.service_time + ts }
  let s1 : Simulation :=
    { s.set_thread i t1 with
      system_stats := { s.system_stats with service_time := s.system_stats.service_time + ts }
      io_time_start := event.time }
  (s1.new_event EventType.THREAD_PREEMPTED (int_add event.time ts) event.thread
      event.scheduling_decision).new_event
    EventType.DISPATCHER_INVOKED (int_add event.time ts) event.thread none

/-- The rest of `handle_dispatch_completed` (lines 163-185) with the event
time `event->time + burst->length` as an `int` sum. -/
def Simulation.dispatch_completed_full_int (s : Simulation) (event : Event) (i : Nat)
    (t : Thread) : Except SimError Simulation :=
  match t.pop_next_burst BurstType.CPU with
  | (.error m, _) => .error (SimError.thrown m)
  | (.ok none, _) => .error SimError.null_deref
  | (.ok (some burst), t1) =>
    let t2 : Thread := { t1 with service_time := t1.service_time + burst.length }
    let s1 : Simulation :=
      { s.set_thread i t2 with
        system_stats := { s.system_stats with
          service_time := s.system_stats.service_time + burst.length } }
    match t2.get_next_burst BurstType.Io with
    | .error m => .error (SimError.thrown m)
    | .ok none =>
      .ok (s1.new_event EventType.THREAD_COMPLETED (int_add event.time burst.length)
            event.thread none)
    | .ok (some _) =>
      .ok (s1.new_event EventType.CPU_BURST_COMPLETED (int_add event.time burst.length)
            event.thread none)

/-- Embedding of `Simulation::handle_dispatch_completed` with `int` event
times. -/
def Simulation.handle_dispatch_completed_int (s : Simulation) (event : Event) :
    Except SimError Simulation :=
  match s.deref event.thread with
  | .error e => .error e
  | .ok (i, t) =>
    match t.set_running event.time with
    | (.error m, _) => .error (SimError.thrown m)
    | (.ok _, t1) =>
      match t1.get_next_burst BurstType.CPU with
      | .error m => .error (SimError.thrown m)
      | .ok oburst =>
        match event.scheduling_decision with
        | none => .error SimError.null_deref
        | some sd =>
          if sd.time_slice ≠ -1 then
            match oburst with
            | none => .error SimError.null_deref
            | some burst =>
              if burst.length > sd.time_slice then
                .ok (s.dispatch_completed_slice_int event i t1 burst sd.time_slice)
              else s.dispatch_completed_full_int event i t1
          else s.dispatch_completed_full_int event i t1

/-- Embedding of `Simulation::handle_cpu_burst_completed` with the event time
`event->time + io_burst->length` as an `int` sum. -/
def Simulation.handle_cpu_burst_completed_int (s : Simulation) (event : Event) :
    Except SimError Simulation :=
  match s.deref event.thread with
  | .error e => .error e
  | .ok (i, t) =>
    match t.set_blocked event.time with
    | (.error m, _) => .error (SimError.thrown m)
    | (.ok _, t1) =>
      match t1.pop_next_burst BurstType.Io with
      | (.error m, _) => .error (SimError.thrown m)
      | (.ok none, _) => .error SimError.null_deref
      | (.ok (some io_burst), t2) =>
        let t3 : Thread := { t2 with io_time := t2.io_time + io_burst.length }
        let s1 : Simulation :=
          { s.set_thread i t3 with
            system_stats := { s.system_stats with
              io_time := s.system_stats.io_time + io_burst.length }
            io_time_start := event.time }
        .ok ((s1.new_event EventType.IO_BURST_COMPLETED (int_add event.time io_burst.length)
                event.thread none).new_event
              EventType.DISPATCHER_INVOKED event.time none none)

/-- The two branches at the end of `handle_dispatcher_invoked` (lines 303-322)
with the event time `event->time + overhead` as an `int` sum. -/
def Simulation.dispatch_with_int (s : Simulation) (event : Event) (sd : SchedulingDecision)
    (type : EventType) (overhead : Int) : Simulation :=
  { s.new_event type (int_add event.time overhead) sd.thread (some sd) with
    system_stats := { s.system_stats with
      dispatch_time := s.system_stats.dispatch_time + overhead } }

/-- Lines 291-322 of `handle_dispatcher_invoked` with `int` event times. -/
def Simulation.dispatch_next_int (s : Simulation) (event : Event) :
    Except SimError Simulation :=
  let sd : SchedulingDecision := (s.scheduler.get_next_thread).1
  let s2 : Simulation := { s with scheduler := (s.scheduler.get_next_thread).2 }
  match sd.thread with
  | none => .ok { s2 with active_thread := none }
  | some a =>
    let s3 : Simulation := { s2 with active_thread := some a }
    match s3.threads[a]? with
    | none => .error SimError.null_deref
    | some active =>
      match s3.prev_thread with
      | none =>
        .ok (s3.dispatch_with_int event sd EventType.PROCESS_DISPATCH_COMPLETED
              s3.process_switch_overhead)
      | some p =>
        match s3.threads[p]? with
        | none => .error SimError.null_deref
        | some prev =>
          if active.process_id = prev.process_id then
            .ok (s3.dispatch_with_int event sd EventType.THREAD_DISPATCH_COMPLETED
                  s3.thread_switch_overhead)
          else
            .ok (s3.dispatch_with_int event sd EventType.PROCESS_DISPATCH_COMPLETED
                  s3.process_switch_overhead)

/-- Embedding of `Simulation::handle_dispatcher_invoked` with `int` event
times. -/
def Simulation.handle_dispatcher_invoked_int (s : Simulation) (event : Event) :
    Except SimError Simulation :=
  let s1 : Simulation :=
    if s.active_thread ≠ none then { s with prev_thread := s.active_thread } else s
  s1.dispatch_next_int event

/-- The `switch` of `Simulation::run` over the handlers with `int` event
times. -/
def Simulation.handle_int (s : Simulation) (event : Event) : Except SimError Simulation :=
  match event.type with
  | .THREAD_ARRIVED =>
    if s.first_event then
      { s with first_event := false,
               system_stats := { s.system_stats with total_idle_time := event.time }
      }.handle_thread_arrived event
    else s.handle_thread_arrived event
  | .THREAD_DISPATCH_COMPLETED => s.handle_dispatch_completed_int event
  | .PROCESS_DISPATCH_COMPLETED => s.handle_dispatch_completed_int event
  | .CPU_BURST_COMPLETED => s.handle_cpu_burst_completed_int event
  | .IO_BURST_COMPLETED => s.handle_io_burst_completed event
  | .THREAD_COMPLETED => s.handle_thread_completed event
  | .THREAD_PREEMPTED => s.handle_thread_preempted event
  | .DISPATCHER_INVOKED => s.handle_dispatcher_invoked_int event

/-- One iteration of the `while` loop of `Simulation::run` with `int` event
times. -/
def Simulation.step_int (s : Simulation) : Except SimError Simulation :=
  match pop_min s.events with
  | none => .ok s
  | some (event, rest) =>
    match { s with events := rest }.handle_int event with
    | .error e => .error e
    | .ok s1 =>
      .ok { s1 with system_stats := { s1.system_stats with total_time := event.time } }

/-- The `while` loop of `Simulation::run` with `int` event times, for at most
`fuel` iterations. -/
def Simulation.run_loop_int : Nat → Simulation → Except SimError Simulation
  | 0, s => .ok s
  | fuel + 1, s =>
    match s.events with
    | [] => .ok s
    | _ :: _ =>
      match s.step_int with
      | .error e => .error e
      | .ok s1 => Simulation.run_loop_int fuel s1

/-- The events popped by the first `fuel` iterations of the loop with `int`
event times, in order, the one whose handler stops the run included. -/
def Simulation.popped_int : Nat → Simulation → List Event
  | 0, _ => []
  | fuel + 1, s =>
    match pop_min s.events with
    | none => []
    | some (event, _) =>
      event :: (match s.step_int with
                | .error _ => []
                | .ok s1 => Simulation.popped_int fuel s1)

/-- Embedding of `Simulation::run` up to the end of its loop, with `int` event
times: load the input, then iterate at most `fuel` times. -/
def Simulation.run_int (fuel : Nat) (sched : Scheduler) (inp : SimInput) :
    Except SimError Simulation :=
  ((Simulation.init sched).read_file inp).run_loop_int fuel

/-- The events popped by the first `fuel` iterations of a run with `int` event
times. -/
def Simulation.run_popped_int (fuel : Nat) (sched : Scheduler) (inp : SimInput) : List Event :=
  ((Simulation.init sched).read_file inp).popped_int fuel

/-- No event time overflows in the iteration of the run loop that starts in
the state `s`: with the sum of the handler taken in the integers, the events
queued after the iteration are all due at times in the range of `int`. -/
def Simulation.step_fits (s : Simulation) : Prop := Simulation.fits_result s.step

instance (s : Simulation) : Decidable s.step_fits :=
  inferInstanceAs (Decidable (Simulation.fits_result s.step))

/-- The next iteration from the state a run has reached computes no event time
outside the range of `int`; a run that has stopped computes none. -/
def Simulation.next_fits : Except SimError Simulation → Prop
  | .ok s => s.step_fits
  | .error _ => True

instance : (r : Except SimError Simulation) → Decidable (Simulation.next_fits r)
  | .ok s => inferInstanceAs (Decidable s.step_fits)
  | .error _ => inferInstanceAs (Decidable True)

/-- No event time overflows in the first `fuel` iterations of the run with
`int` event times: in each state the run goes through, the `int` sums of the
next iteration have the value they have in the integers. -/
def Simulation.run_fits (fuel : Nat) (sched : Scheduler) (inp : SimInput) : Prop :=
  ∀ k, k < fuel → Simulation.next_fits (Simulation.run_int k sched inp)

instance (fuel : Nat) (sched : Scheduler) (inp : SimInput) :
    Decidable (Simulation.run_fits fuel sched inp) :=
  inferInstanceAs (Decidable (∀ k, k < fuel → Simulation.next_fits (Simulation.run_int k sched inp)))

/-- One process with one thread that arrives at time 2147483000 with a single
CPU burst of length 1000, both overheads 0: the burst ends after `INT_MAX`. -/
def late_input : SimInput :=
  { thread_switch_overhead := 0, process_switch_overhead := 0,
    processes := [{ process_id := 0, priority := 0,
                    threads := [{ arrival_time := 2147483000, burst_lengths := [1000] }] }] }

/-- The thread of `late_input` when its dispatch completes: READY since its
arrival at time 2147483000. -/
def late_thread : Thread :=
  { thread_id := 0, process_id := 0, arrival_time := 2147483000,
    state_change_time := 2147483000, priority := 0,
    current_state := ThreadState.READY, previous_state := ThreadState.NEW,
    bursts := [{ burst_type := BurstType.CPU, length := 1000 }] }

/-- The dispatch-completed event of the run of `late_input` under FCFS: due at
time 2147483000, with the decision to run the burst to its end. -/
def late_event : Event :=
  { type := EventType.PROCESS_DISPATCH_COMPLETED, time := 2147483000, event_num := 2,
    thread := some 0,
    scheduling_decision :=
      some { thread := some 0, time_slice := -1,
             explanation := "Selected from 1 threads. Will run to completion of burst." } }

/-- The state in which `late_event` is handled: the run of `late_input` under
FCFS after its second iteration and the pop of the third. -/
def late_state : Simulation :=
  { scheduler := Scheduler.fcfs { ready_queue := [] },
    threads := [late_thread], events := [], event_num := 3, active_thread := some 0,
    all_threads := [[0], [], [], []], first_event := false,
    system_stats := { thread_counts := [1, 0, 0, 0], total_time := 2147483000,
                      total_idle_time := 2147483000 } }

/-! ## Accounting of the time of a thread -/

/-- The time of a thread is accounted for up to the time `T`: either the
thread has not run yet (no start time, nothing credited, NEW or READY, arrived
by `T`), or it started at a non-negative time, not before its arrival, its
service and I/O times are non-negative, and its start time plus the service
and I/O time credited to it does not exceed `T`. -/
def Thread.accounted (T : Int) (t : Thread) : Prop :=
  (t.start_time = -1 ∧ t.service_time = 0 ∧ t.io_time = 0 ∧ t.arrival_time ≤ T ∧
    (t.current_state = ThreadState.NEW ∨ t.current_state = ThreadState.READY)) ∨
  (0 ≤ t.start_time ∧ t.arrival_time ≤ t.start_time ∧ 0 ≤ t.service_time ∧ 0 ≤ t.io_time ∧
    t.start_time + t.service_time + t.io_time ≤ T)

/-- A thread in EXIT started at a non-negative time, not before its arrival,
and its start time plus its service and I/O times does not exceed its end
time. -/
def Thread.exit_accounted (t : Thread) : Prop :=
  t.current_state = ThreadState.EXIT →
    0 ≤ t.start_time ∧ t.arrival_time ≤ t.start_time ∧ 0 ≤ t.service_time ∧ 0 ≤ t.io_time ∧
    t.start_time + t.service_time + t.io_time ≤ t.end_time

/-- A queued event is a DISPATCHER_INVOKED event, or it points to a thread of
the arena whose time is accounted for up to the time of the event. -/
def Event.accounted (ths : List Thread) (e : Event) : Prop :=
  e.type = EventType.DISPATCHER_INVOKED ∨
  ∃ i t, e.thread = some i ∧ ths[i]? = some t ∧ t.accounted e.time

/-- An entry of the ready queue points to a thread of the arena whose time is
accounted for up to its last change of state. -/
def ready_accounted (ths : List Thread) (i : Nat) : Prop :=
  ∃ t, ths[i]? = some t ∧ t.accounted t.state_change_time

/-- The accounting invariant of the run loop between two iterations, for
non-negative bursts, overheads and slices: the time of every thread with a
next step pending is accounted for up to that step, no thread has two next
steps pending, every thread in EXIT is accounted for up to its end time, and
no queued event is due at a negative time or before the last change of state
of a thread. -/
def Simulation.Accounted (s : Simulation) : Prop :=
  s.StartInv order_params ∧
  (∀ e ∈ s.events, e.accounted s.threads ∧ 0 ≤ e.time) ∧
  (∀ i ∈ s.scheduler.ready_queue, ready_accounted s.threads i) ∧
  s.tokens.Nodup ∧
  (∀ t ∈ s.threads, t.exit_accounted ∧ ∀ e ∈ s.events, t.state_change_time ≤ e.time)

/-- The accounting invariant while the handler of the popped event `m` runs:
`m` is accounted for too, its thread has no other next step pending, and no
thread has changed its state after the time of `m`. -/
def Simulation.Accounting (s : Simulation) (m : Event) : Prop :=
  s.LoopInv order_params m ∧
  m.accounted s.threads ∧ 0 ≤ m.time ∧
  (∀ e ∈ s.events, e.accounted s.threads) ∧
  (∀ i ∈ s.scheduler.ready_queue, ready_accounted s.threads i) ∧
  (m.token.toList ++ s.tokens).Nodup ∧
  (∀ t ∈ s.threads, t.exit_accounted ∧ t.state_change_time ≤ m.time)

/-- The part of the accounting invariant that the handler of `m` leaves to
the state it returns. -/
def Simulation.AccountedAfter (s : Simulation) (m : Event) : Prop :=
  (∀ e ∈ s.events, e.accounted s.threads) ∧
  (∀ i ∈ s.scheduler.ready_queue, ready_accounted s.threads i) ∧
  s.tokens.Nodup ∧
  (∀ t ∈ s.threads, t.exit_accounted ∧ t.state_change_time ≤ m.time)

/-- No thread of the input arrives at a negative time. -/
def SimInput.arrivals_nonneg (inp : SimInput) : Prop :=
  ∀ p ∈ inp.processes, ∀ t ∈ p.threads, (0 : Int) ≤ t.arrival_time

/-- Two threads of one process, both overheads 0: the first arrives at 0 with
the bursts CPU 1, I/O 1, CPU 10, the second at 1 with CPU 1, I/O 1, CPU 1. The
second thread finishes its I/O at time 3, while the first one runs its second
CPU burst, and waits READY until time 12. -/
def waiting_input : SimInput :=
  { thread_switch_overhead := 0,
    process_switch_overhead := 0,
    processes := [{ process_id := 1, priority := 0,
                    threads := [{ arrival_time := 0, burst_lengths := [1, 1, 10] },
                                { arrival_time := 1, burst_lengths := [1, 1, 1] }] }] }

/-- One thread that arrives at time 2147483000 with the bursts CPU 1,
I/O 1000, CPU 1, both overheads 0: its I/O burst ends after `INT_MAX`. -/
def late_io_input : SimInput := single_thread_input 0 0 0 0 2147483000 [1, 1000, 1]

/-! ## The thread state machine -/

theorem is_valid_transition_iff (src dst : ThreadState) :
    Thread.is_valid_transition src dst = true ↔ (src, dst) ∈ legal_edges := by
  cases src <;> cases dst <;> decide

/-- C3: a transition operation towards `dst` succeeds exactly on the six legal
edges; off them it raises an error and returns the thread object unchanged. In
particular EXIT has no outgoing edge and no edge enters NEW. -/
theorem transition_succeeds_iff_legal (t : Thread) (dst : ThreadState) (time : Int) :
    ∀ op ∈ Thread.transition_ops dst,
      ((op t time).1 = Except.ok () ↔ (t.current_state, dst) ∈ legal_edges) ∧
      ((t.current_state, dst) ∉ legal_edges →
        (∃ msg, (op t time).1 = Except.error msg) ∧ (op t time).2 = t) := by
  intro op hop
  have hv := is_valid_transition_iff t.current_state dst
  by_cases hleg : (t.current_state, dst) ∈ legal_edges
  · have hval : Thread.is_valid_transition t.current_state dst = true := hv.mpr hleg
    cases dst <;>
      simp only [Thread.transition_ops, List.mem_append, List.mem_singleton, List.not_mem_nil,
        false_or, List.nil_append] at hop <;>
      rcases hop with rfl | rfl <;>
      simp [Thread.set_ready, Thread.set_running, Thread.set_blocked, Thread.set_finished,
        Thread.set_state, hval, hleg]
  · have hval : Thread.is_valid_transition t.current_state dst = false := by
      cases h : Thread.is_valid_transition t.current_state dst
      · rfl
      · exact absurd (hv.mp h) hleg
    cases dst <;>
      simp only [Thread.transition_ops, List.mem_append, List.mem_singleton, List.not_mem_nil,
        false_or, List.nil_append] at hop <;>
      rcases hop with rfl | rfl <;>
      simp [Thread.set_ready, Thread.set_running, Thread.set_blocked, Thread.set_finished,
        Thread.set_state, hval, hleg]

/-- Witness of C3: `set_running` on a NEW thread is refused and leaves the
thread as it was. -/
theorem transition_succeeds_iff_legal_witness :
    Thread.set_running ∈ Thread.transition_ops ThreadState.RUNNING ∧
    ((Thread.set_running { priority := 0, previous_state := ThreadState.NEW, bursts := [] } 5).1
        = Except.ok () ↔ (ThreadState.NEW, ThreadState.RUNNING) ∈ legal_edges) ∧
    ((ThreadState.NEW, ThreadState.RUNNING) ∉ legal_edges →
      (∃ msg, (Thread.set_running
          { priority := 0, previous_state := ThreadState.NEW, bursts := [] } 5).1
            = Except.error msg) ∧
      (Thread.set_running { priority := 0, previous_state := ThreadState.NEW, bursts := [] } 5).2
        = { priority := 0, previous_state := ThreadState.NEW, bursts := [] }) :=
  ⟨by simp [Thread.transition_ops],
   transition_succeeds_iff_legal
     { priority := 0, previous_state := ThreadState.NEW, bursts := [] } ThreadState.RUNNING 5
     Thread.set_running (by simp [Thread.transition_ops])⟩

/-! ## The schedulers -/

theorem Scheduler.ready_queue_add (sch : Scheduler) (thread : Nat) :
    (sch.add_to_ready_queue thread).ready_queue = sch.ready_queue ++ [thread] := by
  cases sch <;> rfl

theorem FCFSScheduler.get_cons_fcfs (head : Nat) (rest : List Nat) :
    FCFSScheduler.get_next_thread { ready_queue := head :: rest } =
      ({ thread := some head, time_slice := -1,
         explanation := "Selected from " ++ toString (rest.length + 1) ++
           " threads. Will run to completion of burst." },
       { ready_queue := rest }) := by
  simp [FCFSScheduler.get_next_thread, FCFSScheduler.size]

theorem RRScheduler.get_cons_rr (slice : Int) (head : Nat) (rest : List Nat) :
    RRScheduler.get_next_thread { time_slice := slice, ready_queue := head :: rest } =
      ({ thread := some head, time_slice := slice,
         explanation := "Selected from " ++ toString (rest.length + 1) ++ " threads. " ++
           "Will run for at most " ++ toString slice ++ " ticks." },
       { time_slice := slice, ready_queue := rest }) := by
  simp [RRScheduler.get_next_thread, RRScheduler.size]

theorem FCFSScheduler.get_nil_fcfs :
    FCFSScheduler.get_next_thread { ready_queue := [] } =
      ({ thread := none, time_slice := -1,
         explanation := "No threads left in ready queue to execute." },
       { ready_queue := [] }) := by
  simp [FCFSScheduler.get_next_thread, FCFSScheduler.size]

theorem RRScheduler.get_nil_rr (slice : Int) :
    RRScheduler.get_next_thread { time_slice := slice, ready_queue := [] } =
      ({ thread := none, time_slice := -1,
         explanation := "No threads left in ready queue to execute." },
       { time_slice := slice, ready_queue := [] }) := by
  simp [RRScheduler.get_next_thread, RRScheduler.size]

theorem Scheduler.get_thread_queue (sch : Scheduler) :
    (sch.get_next_thread).1.thread = sch.ready_queue.head? ∧
    (sch.get_next_thread).2.ready_queue = sch.ready_queue.tail := by
  rcases sch with ⟨⟨q⟩⟩ | ⟨⟨slice, q⟩⟩ <;> cases q <;>
    simp [Scheduler.get_next_thread, Scheduler.ready_queue, FCFSScheduler.get_cons_fcfs,
      FCFSScheduler.get_nil_fcfs, RRScheduler.get_cons_rr, RRScheduler.get_nil_rr]

/-- C4: for either scheduler and every sequence of `add_to_ready_queue` and
`get_next_thread` calls, the threads returned, followed by the threads still
queued, are the threads queued at the start followed by the admitted ones in
admission order; `add_to_ready_queue` appends at the tail and
`get_next_thread` returns the head and keeps the order of the rest. -/
theorem scheduler_fifo (sch : Scheduler) (ops : List SchedOp) :
    (sch.run_ops ops).1 ++ (sch.run_ops ops).2.ready_queue
        = sch.ready_queue ++ SchedOp.admitted ops ∧
    (∀ thread, (sch.add_to_ready_queue thread).ready_queue = sch.ready_queue ++ [thread]) ∧
    (sch.get_next_thread).1.thread = sch.ready_queue.head? ∧
    (sch.get_next_thread).2.ready_queue = sch.ready_queue.tail := by
  refine ⟨?_, Scheduler.ready_queue_add sch, Scheduler.get_thread_queue sch⟩
  induction ops generalizing sch with
  | nil => simp [Scheduler.run_ops, SchedOp.admitted]
  | cons op ops ih =>
    cases op with
    | add thread =>
      simp only [Scheduler.run_ops, SchedOp.admitted]
      rw [ih, Scheduler.ready_queue_add]
      simp
    | get =>
      have hq := Scheduler.get_thread_queue sch
      have ih2 := ih (sch.get_next_thread).2
      simp only [Scheduler.run_ops, SchedOp.admitted]
      cases hh : sch.ready_queue with
      | nil =>
        rw [hh] at hq
        simp only [List.head?_nil, List.tail_nil] at hq
        rw [hq.1]
        simp only [ih2, hq.2, List.nil_append]
      | cons head rest =>
        rw [hh] at hq
        simp only [List.head?_cons, List.tail_cons] at hq
        rw [hq.1]
        simp only [List.cons_append, ih2, hq.2]

/-- C5: on a ready queue `head :: rest` of size n, `get_next_thread` of either
scheduler returns `head`, leaves `rest` queued in its order, and its
explanation starts with "Selected from n threads."; on the empty queue it
returns no thread, the explanation that no threads are left in the ready
queue, and the queue stays empty. -/
theorem get_next_thread_head (slice : Int) (head : Nat) (rest : List Nat) :
    (FCFSScheduler.get_next_thread { ready_queue := head :: rest } =
      ({ thread := some head, time_slice := -1,
         explanation := ("Selected from " ++ toString (head :: rest).length ++ " threads.") ++
           " Will run to completion of burst." },
       { ready_queue := rest })) ∧
    (RRScheduler.get_next_thread { time_slice := slice, ready_queue := head :: rest } =
      ({ thread := some head, time_slice := slice,
         explanation := ("Selected from " ++ toString (head :: rest).length ++ " threads.") ++
           (" Will run for at most " ++ toString slice ++ " ticks.") },
       { time_slice := slice, ready_queue := rest })) ∧
    rest.length = (head :: rest).length - 1 ∧
    (FCFSScheduler.get_next_thread { ready_queue := [] } =
      ({ thread := none, time_slice := -1,
         explanation := "No threads left in ready queue to execute." },
       { ready_queue := [] })) ∧
    (RRScheduler.get_next_thread { time_slice := slice, ready_queue := [] } =
      ({ thread := none, time_slice := -1,
         explanation := "No threads left in ready queue to execute." },
       { time_slice := slice, ready_queue := [] })) := by
  have e1 : ∀ a : String, (a ++ " threads.") ++ " Will run to completion of burst."
      = a ++ " threads. Will run to completion of burst." := by
    intro a; rw [String.append_assoc]; rfl
  have e2 : ∀ a b : String, (a ++ " threads.") ++ (" Will run for at most " ++ b ++ " ticks.")
      = a ++ " threads. " ++ "Will run for at most " ++ b ++ " ticks." := by
    intro a b
    have h3 : " threads." ++ " Will run for at most " = " threads. " ++ "Will run for at most " := by
      decide
    simp only [String.append_assoc]
    rw [← String.append_assoc " threads." " Will run for at most ", h3, String.append_assoc]
  refine ⟨?_, ?_, by simp, FCFSScheduler.get_nil_fcfs, RRScheduler.get_nil_rr slice⟩
  · rw [FCFSScheduler.get_cons_fcfs, e1]; rfl
  · rw [RRScheduler.get_cons_rr, e2]; rfl

/-! ## Composition of loop iterations -/

theorem pop_min_eq_none {l : List Event} : pop_min l = none ↔ l = [] := by
  cases l with
  | nil => simp [pop_min]
  | cons e es =>
    simp only [pop_min]
    cases pop_min es with
    | none => simp
    | some p => by_cases h : e.before p.1 <;> simp [h]

theorem Simulation.step_of_nil {s : Simulation} (h : s.events = []) : s.step = .ok s := by
  simp [Simulation.step, h, pop_min]

theorem Simulation.run_loop_of_nil (n : Nat) {s : Simulation} (h : s.events = []) :
    s.run_loop n = .ok s := by
  cases n <;> simp [Simulation.run_loop, h]

theorem Simulation.run_loop_succ (n : Nat) (s : Simulation) :
    s.run_loop (n + 1) = match s.step with
      | .error e => .error e
      | .ok s1 => s1.run_loop n := by
  cases h : s.events with
  | nil => simp [Simulation.run_loop, h, Simulation.step_of_nil h, Simulation.run_loop_of_nil n h]
  | cons e es => simp [Simulation.run_loop, h]

theorem Simulation.run_loop_add (m n : Nat) (s : Simulation) :
    s.run_loop (m + n) = match s.run_loop m with
      | .error e => .error e
      | .ok s1 => s1.run_loop n := by
  induction m generalizing s with
  | zero => simp [Simulation.run_loop]
  | succ m ih =>
    rw [show m + 1 + n = (m + n) + 1 by omega, Simulation.run_loop_succ,
      Simulation.run_loop_succ]
    cases s.step with
    | error e => rfl
    | ok s1 => exact ih s1

theorem Simulation.popped_of_nil (n : Nat) {s : Simulation} (h : s.events = []) :
    s.popped n = [] := by
  cases n <;> simp [Simulation.popped, h, pop_min]

theorem Simulation.popped_add (m n : Nat) (s : Simulation) :
    s.popped (m + n) = s.popped m ++ (match s.run_loop m with
      | .error _ => []
      | .ok s1 => s1.popped n) := by
  induction m generalizing s with
  | zero => simp [Simulation.popped, Simulation.run_loop]
  | succ m ih =>
    rw [show m + 1 + n = (m + n) + 1 by omega, Simulation.run_loop_succ]
    cases hp : pop_min s.events with
    | none =>
      have hnil := pop_min_eq_none.mp hp
      simp [Simulation.popped, hp, Simulation.step_of_nil hnil,
        Simulation.run_loop_of_nil m hnil, Simulation.popped_of_nil n hnil]
    | some p =>
      simp only [Simulation.popped, hp, List.cons_append, List.cons.injEq, true_and]
      cases s.step with
      | error e => simp
      | ok s1 => exact ih s1

/-! ## Scenario: two threads arrive together -/

/-- C1: on the input `two_arrivals` under FCFS the run loop leaves two threads
RUNNING after its sixth handler returns: each of the two arrivals finds the
CPU idle and enqueues its own DISPATCHER_INVOKED event, and the second
dispatcher call selects the second thread while the first is being
dispatched. -/
theorem two_threads_running_at_once :
    ∃ s, Simulation.run 6 (Scheduler.fcfs {}) two_arrivals = .ok s ∧
      s.threads.map (fun t => t.current_state) = [ThreadState.RUNNING, ThreadState.RUNNING] ∧
      s.running_count = 2 :=
  ⟨_, rfl, rfl, rfl⟩

/-- C6: on `two_arrivals` under FCFS the second thread does not wait for the
first thread's burst. The only dispatch-completed event of the second thread
(arena index 1) is popped at time 2, not at time 12, while the first thread,
dispatched at time 2 as well, is RUNNING until its THREAD_COMPLETED event at
time 12: the check `active_thread == nullptr` in `handle_thread_arrived`
does not see the dispatch that the first arrival has already requested. -/
theorem second_dispatch_completed_not_at_12 :
    ((Simulation.run_popped 8 (Scheduler.fcfs {}) two_arrivals).filter
        (fun e => e.type.is_dispatch_completed && decide (e.thread = some 1))).map
      (fun e => e.time) = [2] ∧
    ¬ (((Simulation.run_popped 8 (Scheduler.fcfs {}) two_arrivals).filter
        (fun e => e.type.is_dispatch_completed && decide (e.thread = some 1))).map
      (fun e => e.time) = [12]) ∧
    ((Simulation.run_popped 8 (Scheduler.fcfs {}) two_arrivals).filter
        (fun e => e.type.is_dispatch_completed && decide (e.thread = some 0))).map
      (fun e => e.time) = [2] ∧
    ((Simulation.run_popped 8 (Scheduler.fcfs {}) two_arrivals).filter
        (fun e => decide (e.type = EventType.THREAD_COMPLETED) && decide (e.thread = some 0))).map
      (fun e => e.time) = [12] := by
  have h : ((Simulation.run_popped 8 (Scheduler.fcfs {}) two_arrivals).filter
        (fun e => e.type.is_dispatch_completed && decide (e.thread = some 1))).map
      (fun e => e.time) = [2] := by rfl
  rw [h]
  exact ⟨rfl, by decide, rfl, rfl⟩

/-! ## Scenario: one thread, one burst, FCFS, no overhead -/

/-- C9: one process with one thread that arrives at 0 with a single CPU burst
of length `L ≥ 1`, both overheads 0, FCFS. The first handler takes the thread
NEW→READY at 0, the third READY→RUNNING at 0, the fourth RUNNING→EXIT at `L`
and empties the event queue; then response_time = 0, turnaround_time = `L`,
total_idle_time = 0 and cpu_utilization = 100. -/
theorem single_thread_fcfs_run (process_id : Int) (priority : Fin 4) (L : Int) (hL : 1 ≤ L) :
    (∃ s, Simulation.run 1 (Scheduler.fcfs {})
        (single_thread_input 0 0 process_id priority 0 [L]) = .ok s ∧
      s.threads.map (fun t => (t.previous_state, t.current_state, t.state_change_time))
        = [(ThreadState.NEW, ThreadState.READY, 0)]) ∧
    (∃ s, Simulation.run 3 (Scheduler.fcfs {})
        (single_thread_input 0 0 process_id priority 0 [L]) = .ok s ∧
      s.threads.map (fun t => (t.previous_state, t.current_state, t.state_change_time))
        = [(ThreadState.READY, ThreadState.RUNNING, 0)]) ∧
    (∃ s, Simulation.run 4 (Scheduler.fcfs {})
        (single_thread_input 0 0 process_id priority 0 [L]) = .ok s ∧
      s.events = [] ∧
      s.threads.map (fun t => (t.previous_state, t.current_state, t.state_change_time))
        = [(ThreadState.RUNNING, ThreadState.EXIT, L)] ∧
      s.threads.map (fun t => (t.response_time, t.turnaround_time)) = [(0, L)] ∧
      s.system_stats.total_time = L ∧
      s.system_stats.total_idle_time = 0 ∧
      s.calculate_statistics.cpu_utilization = 100) := by
  have hL0 : (L : Rat) ≠ 0 := by
    have : (0 : Int) < L := by omega
    exact_mod_cast this.ne'
  refine ⟨?_, ?_, ?_⟩ <;>
  simp [Simulation.run, Simulation.run_loop, Simulation.step, Simulation.init,
    Simulation.read_file, single_thread_input, Simulation.read_process,
    Simulation.read_threads, Simulation.read_thread, pop_min, Event.before, mk_bursts,
    Simulation.handle, Simulation.handle_thread_arrived, Simulation.deref, Thread.set_ready,
    Thread.is_valid_transition, Thread.valid_transitions, Simulation.set_thread,
    Simulation.new_event, Simulation.add_event, Scheduler.add_to_ready_queue,
    FCFSScheduler.add_to_ready_queue, Simulation.handle_dispatcher_invoked, Simulation.dispatch_next,
    Simulation.dispatch_with,
    Scheduler.get_next_thread, FCFSScheduler.get_next_thread, FCFSScheduler.size,
    Simulation.handle_dispatch_completed, Thread.set_running, Thread.get_next_burst,
    Simulation.dispatch_completed_full, Thread.pop_next_burst,
    Simulation.handle_thread_completed, Thread.set_finished, Scheduler.empty, Scheduler.size,
    Thread.response_time, Thread.turnaround_time, Simulation.calculate_statistics]

/-- Witness of C9: the case `L = 5` of the specification. -/
theorem single_thread_fcfs_run_witness :
    (1 : Int) ≤ 5 ∧
    (∃ s, Simulation.run 4 (Scheduler.fcfs {}) (single_thread_input 0 0 1 0 0 [5]) = .ok s ∧
      s.events = [] ∧
      s.threads.map (fun t => (t.previous_state, t.current_state, t.state_change_time))
        = [(ThreadState.RUNNING, ThreadState.EXIT, 5)] ∧
      s.threads.map (fun t => (t.response_time, t.turnaround_time)) = [(0, 5)] ∧
      s.system_stats.total_time = 5 ∧
      s.system_stats.total_idle_time = 0 ∧
      s.calculate_statistics.cpu_utilization = 100) :=
  ⟨by decide, (single_thread_fcfs_run 1 0 5 (by decide)).2.2⟩


/-! ## The engine over machine integers agrees with the engine over the integers

As long as no event time leaves the range of `int`, the handlers with `int`
sums return what the handlers with sums in the integers return. -/

theorem wrap32_of_in_int {x : Int} (h : in_int x) : wrap32 x = x := by
  unfold in_int at h
  unfold wrap32
  omega

theorem int_add_of_in_int {a b : Int} (h : in_int (a + b)) : int_add a b = a + b :=
  wrap32_of_in_int h

theorem Simulation.fits_result_ok {r : Except SimError Simulation} {s1 : Simulation}
    (h : Simulation.fits_result r) (hr : r = .ok s1) : s1.times_fit := by
  subst hr
  exact h

theorem Simulation.dispatch_completed_slice_int_eq {s : Simulation} {m : Event} {i : Nat}
    {t : Thread} {b : Burst} {ts : Int}
    (hfit : (s.dispatch_completed_slice m i t b ts).times_fit) :
    s.dispatch_completed_slice_int m i t b ts = s.dispatch_completed_slice m i t b ts := by
  have h : in_int (m.time + ts) := by
    have := hfit { type := EventType.DISPATCHER_INVOKED, time := m.time + ts,
                   event_num := s.event_num + 1, thread := m.thread,
                   scheduling_decision := none }
      (by simp [Simulation.dispatch_completed_slice, Simulation.new_event,
            Simulation.add_event, Simulation.set_thread])
    exact this
  unfold Simulation.dispatch_completed_slice_int Simulation.dispatch_completed_slice
  rw [int_add_of_in_int h]

theorem Simulation.dispatch_completed_full_int_eq {s : Simulation} {m : Event} {i : Nat}
    {t : Thread}
    (hfit : ∀ s1, s.dispatch_completed_full m i t = .ok s1 → s1.times_fit) :
    s.dispatch_completed_full_int m i t = s.dispatch_completed_full m i t := by
  unfold Simulation.dispatch_completed_full_int
  unfold Simulation.dispatch_completed_full at hfit ⊢
  split
  · rfl
  · rfl
  · rename_i burst t1 hpop
    simp only [hpop] at hfit ⊢
    split
    · rfl
    · rename_i hget
      simp only [hget] at hfit ⊢
      have h : in_int (m.time + burst.length) :=
        hfit _ rfl { type := EventType.THREAD_COMPLETED, time := m.time + burst.length,
                     event_num := s.event_num, thread := m.thread,
                     scheduling_decision := none }
          (by simp [Simulation.new_event, Simulation.add_event, Simulation.set_thread])
      rw [int_add_of_in_int h]
    · rename_i b2 hget
      simp only [hget] at hfit ⊢
      have h : in_int (m.time + burst.length) :=
        hfit _ rfl { type := EventType.CPU_BURST_COMPLETED, time := m.time + burst.length,
                     event_num := s.event_num, thread := m.thread,
                     scheduling_decision := none }
          (by simp [Simulation.new_event, Simulation.add_event, Simulation.set_thread])
      rw [int_add_of_in_int h]

theorem Simulation.handle_dispatch_completed_int_eq {s : Simulation} {m : Event}
    (hfit : ∀ s1, s.handle_dispatch_completed m = .ok s1 → s1.times_fit) :
    s.handle_dispatch_completed_int m = s.handle_dispatch_completed m := by
  unfold Simulation.handle_dispatch_completed_int
  unfold Simulation.handle_dispatch_completed at hfit ⊢
  split
  · rfl
  · rename_i i t hd
    simp only [hd] at hfit ⊢
    split
    · rfl
    · rename_i u t1 hset
      simp only [hset] at hfit ⊢
      split
      · rfl
      · rename_i oburst hget
        simp only [hget] at hfit ⊢
        split
        · rfl
        · rename_i sd hsd
          simp only [hsd] at hfit ⊢
          split
          · rename_i hne
            rw [if_pos hne] at hfit
            split
            · rfl
            · rename_i burst
              simp only at hfit
              split
              · rename_i hgt
                rw [if_pos hgt] at hfit
                rw [Simulation.dispatch_completed_slice_int_eq (hfit _ rfl)]
              · rename_i hgt
                rw [if_neg hgt] at hfit
                exact Simulation.dispatch_completed_full_int_eq hfit
          · rename_i hne
            rw [if_neg hne] at hfit
            exact Simulation.dispatch_completed_full_int_eq hfit

theorem Simulation.handle_cpu_burst_completed_int_eq {s : Simulation} {m : Event}
    (hfit : ∀ s1, s.handle_cpu_burst_completed m = .ok s1 → s1.times_fit) :
    s.handle_cpu_burst_completed_int m = s.handle_cpu_burst_completed m := by
  unfold Simulation.handle_cpu_burst_completed_int
  unfold Simulation.handle_cpu_burst_completed at hfit ⊢
  split
  · rfl
  · rename_i i t hd
    simp only [hd] at hfit ⊢
    split
    · rfl
    · rename_i u t1 hset
      simp only [hset] at hfit ⊢
      split
      · rfl
      · rfl
      · rename_i io_burst t2 hpop
        simp only [hpop] at hfit ⊢
        have h : in_int (m.time + io_burst.length) :=
          hfit _ rfl { type := EventType.IO_BURST_COMPLETED, time := m.time + io_burst.length,
                       event_num := s.event_num, thread := m.thread,
                       scheduling_decision := none }
            (by simp [Simulation.new_event, Simulation.add_event, Simulation.set_thread])
        rw [int_add_of_in_int h]

theorem Simulation.dispatch_with_int_eq {s : Simulation} {m : Event} {sd : SchedulingDecision}
    {ty : EventType} {o : Int} (hfit : (s.dispatch_with m sd ty o).times_fit) :
    s.dispatch_with_int m sd ty o = s.dispatch_with m sd ty o := by
  have h : in_int (m.time + o) :=
    hfit { type := ty, time := m.time + o, event_num := s.event_num, thread := sd.thread,
           scheduling_decision := some sd }
      (by simp [Simulation.dispatch_with, Simulation.new_event, Simulation.add_event])
  unfold Simulation.dispatch_with_int Simulation.dispatch_with
  rw [int_add_of_in_int h]

theorem Simulation.dispatch_next_int_eq {s : Simulation} {m : Event}
    (hfit : ∀ s1, s.dispatch_next m = .ok s1 → s1.times_fit) :
    s.dispatch_next_int m = s.dispatch_next m := by
  unfold Simulation.dispatch_next_int
  unfold Simulation.dispatch_next at hfit ⊢
  dsimp only at hfit ⊢
  split
  · rfl
  · rename_i a ha
    simp only [ha] at hfit ⊢
    split
    · rfl
    · rename_i active hact
      simp only [hact] at hfit ⊢
      split
      · rename_i hp
        simp only [hp] at hfit ⊢
        rw [Simulation.dispatch_with_int_eq (hfit _ rfl)]
      · rename_i p hp
        simp only [hp] at hfit ⊢
        split
        · rfl
        · rename_i prev hprev
          simp only [hprev] at hfit ⊢
          split
          · rename_i heq
            rw [if_pos heq] at hfit
            rw [Simulation.dispatch_with_int_eq (hfit _ rfl)]
          · rename_i heq
            rw [if_neg heq] at hfit
            rw [Simulation.dispatch_with_int_eq (hfit _ rfl)]

theorem Simulation.handle_int_eq {s : Simulation} {m : Event}
    (hfit : ∀ s1, s.handle m = .ok s1 → s1.times_fit) : s.handle_int m = s.handle m := by
  unfold Simulation.handle_int
  unfold Simulation.handle at hfit ⊢
  split <;> rename_i hty <;> simp only [hty] at hfit
  · rfl
  · exact Simulation.handle_dispatch_completed_int_eq hfit
  · exact Simulation.handle_dispatch_completed_int_eq hfit
  · exact Simulation.handle_cpu_burst_completed_int_eq hfit
  · rfl
  · rfl
  · rfl
  · exact Simulation.dispatch_next_int_eq hfit

theorem Simulation.step_int_eq {s : Simulation}
    (hfit : ∀ s1, s.step = .ok s1 → s1.times_fit) : s.step_int = s.step := by
  unfold Simulation.step_int
  unfold Simulation.step at hfit ⊢
  split
  · rfl
  · rename_i event rest hp
    simp only [hp] at hfit
    have h : Simulation.handle_int { s with events := rest } event =
        Simulation.handle { s with events := rest } event := by
      apply Simulation.handle_int_eq
      intro s1 hs1
      simp only [hs1] at hfit
      have h := hfit _ rfl
      exact h
    rw [h]

theorem Simulation.run_loop_int_eq (fuel : Nat) (s : Simulation)
    (hfit : ∀ k, k < fuel → Simulation.next_fits (s.run_loop_int k)) :
    s.run_loop_int fuel = s.run_loop fuel ∧ s.popped_int fuel = s.popped fuel := by
  induction fuel generalizing s with
  | zero => exact ⟨rfl, rfl⟩
  | succ n ih =>
    have hstep : s.step_int = s.step :=
      Simulation.step_int_eq
        (fun _ hs1 => Simulation.fits_result_ok (hfit 0 (Nat.succ_pos n)) hs1)
    unfold Simulation.run_loop_int Simulation.popped_int Simulation.run_loop Simulation.popped
    rw [hstep]
    cases hs : s.step with
    | error e => simp
    | ok s1 =>
      have h1 := ih s1 (fun k hk => by
        cases hev : s.events with
        | nil =>
          have hs1 : s1 = s := by
            simp only [Simulation.step, hev, pop_min] at hs
            exact (Except.ok.inj hs).symm
          subst hs1
          exact hfit k (by omega)
        | cons e es =>
          have h2 := hfit (k + 1) (by omega)
          have h3 : s.run_loop_int (k + 1) = s1.run_loop_int k := by
            simp only [Simulation.run_loop_int, hev, hstep, hs]
          rw [h3] at h2
          exact h2)
      simp [h1.1, h1.2]

theorem Simulation.handle_int_of_sums_fit {s : Simulation} {m : Event} (h : s.sums_fit m) :
    s.handle_int m = s.handle m :=
  Simulation.handle_int_eq (fun _ hs1 => Simulation.fits_result_ok h hs1)

theorem Simulation.run_int_of_run_fits {fuel : Nat} {sched : Scheduler} {inp : SimInput}
    (h : Simulation.run_fits fuel sched inp) :
    Simulation.run_int fuel sched inp = Simulation.run fuel sched inp ∧
    Simulation.run_popped_int fuel sched inp = Simulation.run_popped fuel sched inp :=
  Simulation.run_loop_int_eq fuel _ h

theorem late_state_reached :
    Simulation.run_int 2 (Scheduler.fcfs {}) late_input =
      .ok { late_state with events := [late_event] } := rfl
/-! ## Order of the popped events -/

theorem pop_min_split {l : List Event} {m : Event} {rest : List Event}
    (h : pop_min l = some (m, rest)) :
    (∃ l1 l2, l = l1 ++ m :: l2 ∧ rest = l1 ++ l2) ∧ ∀ x ∈ rest, x.before m = false := by
  induction l generalizing m rest with
  | nil => simp [pop_min] at h
  | cons e es ih =>
    simp only [pop_min] at h
    cases hp : pop_min es with
    | none =>
      rw [hp] at h
      simp only [Option.some.injEq, Prod.mk.injEq] at h
      obtain ⟨rfl, rfl⟩ := h
      have : es = [] := pop_min_eq_none.mp hp
      subst this
      exact ⟨⟨[], [], rfl, rfl⟩, by simp⟩
    | some p =>
      obtain ⟨m0, rest0⟩ := p
      rw [hp] at h
      obtain ⟨⟨l1, l2, hl, hr⟩, hmin⟩ := ih hp
      by_cases hb : e.before m0 = true
      · simp only [hb, if_true, Option.some.injEq, Prod.mk.injEq] at h
        obtain ⟨rfl, rfl⟩ := h
        refine ⟨⟨[], _, rfl, rfl⟩, ?_⟩
        intro x hx
        have hx' : x = m0 ∨ x ∈ rest0 := by
          rw [hl] at hx
          rw [hr]
          simp only [List.mem_append, List.mem_cons] at hx ⊢
          tauto
        simp only [Event.before, Bool.or_eq_true, Bool.and_eq_true, decide_eq_true_eq] at hb
        rcases hx' with rfl | hx'
        · simp only [Event.before, Bool.or_eq_false_iff, Bool.and_eq_false_iff,
            decide_eq_false_iff_not]
          omega
        · have := hmin x hx'
          simp only [Event.before, Bool.or_eq_false_iff, Bool.and_eq_false_iff,
            decide_eq_false_iff_not] at this ⊢
          omega
      · simp only [hb, Option.some.injEq, Prod.mk.injEq] at h
        obtain ⟨rfl, rfl⟩ := h
        refine ⟨⟨e :: l1, l2, by simp [hl], by simp [hr]⟩, ?_⟩
        intro x hx
        rcases List.mem_cons.mp hx with rfl | hx
        · simpa using hb
        · exact hmin x hx

/-! ## The handlers keep the loop invariant -/

theorem EventsAfter.push {P : InvParams} {m : Event} {evs : List Event} {n : Nat}
    (h : EventsAfter P m evs n) (ty : EventType) {time : Int} (ht : P.time_ok m time)
    (th : Option Nat) {sd : Option SchedulingDecision}
    (hsd : ∀ d, sd = some d → P.slice_ok d.time_slice) :
    EventsAfter P m (evs ++ [{ type := ty, time := time, event_num := n, thread := th,
                               scheduling_decision := sd }]) (n + 1) := by
  obtain ⟨h1, h2, h3, h4⟩ := h
  refine ⟨?_, ?_, by omega, h4⟩
  · rw [List.pairwise_append]
    refine ⟨h1, by simp, ?_⟩
    intro a ha b hb
    simp only [List.mem_singleton] at hb
    subst hb
    exact (h2 a ha).1
  · intro e he
    rcases List.mem_append.mp he with he | he
    · obtain ⟨a, b, c, d⟩ := h2 e he
      exact ⟨by omega, b, c, d⟩
    · simp only [List.mem_singleton] at he
      subst he
      exact ⟨by simp, ht, fun _ => h3, hsd⟩

theorem Simulation.LoopInv.new_event {P : InvParams} {m : Event} {s : Simulation}
    (h : s.LoopInv P m) (ty : EventType) {time : Int} (ht : P.time_ok m time)
    (th : Option Nat) {sd : Option SchedulingDecision}
    (hsd : ∀ d, sd = some d → P.slice_ok d.time_slice) :
    (s.new_event ty time th sd).LoopInv P m := by
  obtain ⟨h1, h2, h3, h4, h5⟩ := h
  exact ⟨h1.push ty ht th hsd, h2, h3, h4, h5⟩

theorem bursts_ok.set {P : InvParams} {ths : List Thread} (h : bursts_ok P ths) (i : Nat)
    {t : Thread} (ht : ∀ b ∈ t.bursts, P.burst_ok b) : bursts_ok P (ths.set i t) := by
  intro t1 ht1
  rcases List.mem_or_eq_of_mem_set ht1 with h1 | rfl
  · exact h t1 h1
  · exact ht

theorem Simulation.deref_mem {s : Simulation} {r : Option Nat} {i : Nat} {t : Thread}
    (h : s.deref r = .ok (i, t)) : s.threads[i]? = some t ∧ t ∈ s.threads ∧ r = some i := by
  unfold Simulation.deref at h
  split at h
  · simp at h
  · split at h
    · simp at h
    · rename_i j _ t0 ht0
      simp only [Except.ok.injEq, Prod.mk.injEq] at h
      obtain ⟨rfl, rfl⟩ := h
      exact ⟨ht0, List.getElem?_mem ht0, rfl⟩

theorem Thread.set_ready_bursts (t : Thread) (time : Int) :
    (t.set_ready time).2.bursts = t.bursts := by
  unfold Thread.set_ready; split <;> rfl

theorem Thread.set_running_bursts (t : Thread) (time : Int) :
    (t.set_running time).2.bursts = t.bursts := by
  unfold Thread.set_running; split <;> rfl

theorem Thread.set_blocked_bursts (t : Thread) (time : Int) :
    (t.set_blocked time).2.bursts = t.bursts := by
  unfold Thread.set_blocked; split <;> rfl

theorem Thread.set_finished_bursts (t : Thread) (time : Int) :
    (t.set_finished time).2.bursts = t.bursts := by
  unfold Thread.set_finished; split <;> rfl

theorem Thread.set_ready_time {t t1 : Thread} {time : Int} {u : Unit}
    (h : t.set_ready time = (.ok u, t1)) : t1.state_change_time = time := by
  unfold Thread.set_ready at h
  split at h
  · simp at h
  · simp only [Prod.mk.injEq, true_and] at h
    rw [← h]

theorem Thread.get_next_burst_some {t : Thread} {ty : BurstType} {b : Burst}
    (h : t.get_next_burst ty = .ok (some b)) :
    t.bursts = b :: t.bursts.tail ∧ b.burst_type = ty := by
  unfold Thread.get_next_burst at h
  split at h
  · simp at h
  · rename_i b0 rest hb
    split at h
    · simp at h
    · rename_i hty
      simp only [Except.ok.injEq, Option.some.injEq] at h
      subst h
      exact ⟨by rw [hb]; rfl, by simpa using hty⟩

theorem Thread.pop_next_burst_some {t t1 : Thread} {ty : BurstType} {b : Burst}
    (h : t.pop_next_burst ty = (.ok (some b), t1)) :
    t.bursts = b :: t.bursts.tail ∧ b.burst_type = ty ∧
      t1 = { t with bursts := t.bursts.tail } := by
  unfold Thread.pop_next_burst at h
  split at h
  · simp at h
  · simp at h
  · rename_i b0 hg
    simp only [Prod.mk.injEq, Except.ok.injEq, Option.some.injEq] at h
    obtain ⟨rfl, rfl⟩ := h
    exact ⟨(Thread.get_next_burst_some hg).1, (Thread.get_next_burst_some hg).2, rfl⟩

theorem Scheduler.slice_ok_add {P : InvParams} {sch : Scheduler} (h : sch.slice_ok P)
    (i : Nat) : (sch.add_to_ready_queue i).slice_ok P := by
  cases sch <;> exact h

theorem Scheduler.slice_ok_get {P : InvParams} (hP : P.Closed) {sch : Scheduler}
    (h : sch.slice_ok P) :
    (sch.get_next_thread).2.slice_ok P ∧ P.slice_ok (sch.get_next_thread).1.time_slice := by
  have hd := hP.slice_default
  rcases sch with ⟨⟨q⟩⟩ | ⟨⟨slice, q⟩⟩
  · cases q <;>
      simp [Scheduler.get_next_thread, FCFSScheduler.get_next_thread, FCFSScheduler.size,
        Scheduler.slice_ok, hd]
  · have h0 : P.slice_ok slice := h
    cases q <;>
      simp [Scheduler.get_next_thread, RRScheduler.get_next_thread, RRScheduler.size,
        Scheduler.slice_ok, h0, hd]

theorem Simulation.LoopInv.of_fields {P : InvParams} {m : Event} {s s1 : Simulation}
    (h : s.LoopInv P m)
    (he : s1.events = s.events) (hn : s1.event_num = s.event_num)
    (hth : bursts_ok P s1.threads) (hsch : s1.scheduler.slice_ok P)
    (ho1 : s1.thread_switch_overhead = s.thread_switch_overhead)
    (ho2 : s1.process_switch_overhead = s.process_switch_overhead) : s1.LoopInv P m := by
  obtain ⟨h1, h2, h3, h4, h5⟩ := h
  refine ⟨by rw [he, hn]; exact h1, hth, hsch, by rw [ho1]; exact h4, by rw [ho2]; exact h5⟩

theorem Simulation.LoopInv.thread_arrived {P : InvParams} (hP : P.Closed) {m : Event}
    {s s1 : Simulation} (h : s.LoopInv P m)
    (hr : s.handle_thread_arrived m = .ok s1) : s1.LoopInv P m := by
  unfold Simulation.handle_thread_arrived at hr
  split at hr
  · simp at hr
  · rename_i i t hd
    split at hr
    · simp at hr
    · rename_i u t1 hset
      have hb1 : t1.bursts = t.bursts := by
        have := Thread.set_ready_bursts t m.time
        rw [hset] at this; exact this
      have hnn : ∀ b ∈ t1.bursts, P.burst_ok b := by
        rw [hb1]; exact h.2.1 t (Simulation.deref_mem hd).2.1
      dsimp only at hr
      split at hr <;> simp only [Except.ok.injEq] at hr <;> subst hr
      · exact h.of_fields rfl rfl (h.2.1.set i hnn) (Scheduler.slice_ok_add h.2.2.1 i) rfl rfl
      · refine Simulation.LoopInv.new_event ?_ _ (hP.time_now m) _ (by simp)
        exact h.of_fields rfl rfl (h.2.1.set i hnn) (Scheduler.slice_ok_add h.2.2.1 i) rfl rfl

theorem Simulation.LoopInv.dispatch_completed_slice {P : InvParams} (hP : P.Closed)
    {m : Event} {s : Simulation} (h : s.LoopInv P m) (i : Nat) {t : Thread}
    (ht : ∀ b ∈ t.bursts, P.burst_ok b) {burst : Burst} (hb : burst ∈ t.bursts)
    (hty : burst.burst_type = BurstType.CPU) {ts : Int}
    (hts : P.slice_ok ts) (hne : ts ≠ -1) (hlt : burst.length > ts) :
    (s.dispatch_completed_slice m i t burst ts).LoopInv P m := by
  unfold Simulation.dispatch_completed_slice
  refine Simulation.LoopInv.new_event ?_ _ (hP.time_slice m ts hts hne) _ (by simp)
  refine Simulation.LoopInv.new_event ?_ _ (hP.time_slice m ts hts hne) _ h.1.2.2.2
  refine h.of_fields rfl rfl (h.2.1.set i ?_) h.2.2.1 rfl rfl
  intro b hb2
  rcases List.mem_cons.mp hb2 with rfl | hb2
  · exact hP.burst_slice burst ts (ht burst hb) hts hne hty hlt
  · exact ht b (List.mem_of_mem_tail hb2)

theorem Simulation.LoopInv.dispatch_completed_full {P : InvParams} (hP : P.Closed)
    {m : Event} {s s1 : Simulation} (h : s.LoopInv P m) (i : Nat) {t : Thread}
    (ht : ∀ b ∈ t.bursts, P.burst_ok b)
    (hr : s.dispatch_completed_full m i t = .ok s1) : s1.LoopInv P m := by
  unfold Simulation.dispatch_completed_full at hr
  split at hr
  · simp at hr
  · simp at hr
  · rename_i burst t1 hpop
    obtain ⟨hb, -, rfl⟩ := Thread.pop_next_burst_some hpop
    have hlen : P.burst_ok burst := ht burst (by rw [hb]; exact List.mem_cons_self _ _)
    have hbase : ∀ s2 : Simulation, s2.events = s.events → s2.event_num = s.event_num →
        s2.threads = s.threads.set i
          { t with bursts := t.bursts.tail, service_time := t.service_time + burst.length } →
        s2.scheduler = s.scheduler →
        s2.thread_switch_overhead = s.thread_switch_overhead →
        s2.process_switch_overhead = s.process_switch_overhead → s2.LoopInv P m := by
      intro s2 e1 e2 e3 e4 e5 e6
      refine h.of_fields e1 e2 ?_ (by rw [e4]; exact h.2.2.1) e5 e6
      rw [e3]
      exact h.2.1.set i (fun b hb => ht b (List.mem_of_mem_tail hb))
    dsimp only at hr
    split at hr
    · simp at hr
    · simp only [Except.ok.injEq] at hr
      subst hr
      refine Simulation.LoopInv.new_event ?_ _ (hP.time_burst m burst hlen) _ (by simp)
      exact hbase _ rfl rfl rfl rfl rfl rfl
    · simp only [Except.ok.injEq] at hr
      subst hr
      refine Simulation.LoopInv.new_event ?_ _ (hP.time_burst m burst hlen) _ (by simp)
      exact hbase _ rfl rfl rfl rfl rfl rfl

theorem Simulation.LoopInv.dispatch_completed {P : InvParams} (hP : P.Closed) {m : Event}
    {s s1 : Simulation} (h : s.LoopInv P m)
    (hr : s.handle_dispatch_completed m = .ok s1) : s1.LoopInv P m := by
  unfold Simulation.handle_dispatch_completed at hr
  split at hr
  · simp at hr
  · rename_i i t hd
    split at hr
    · simp at hr
    · rename_i u t1 hset
      have hb1 : t1.bursts = t.bursts := by
        have := Thread.set_running_bursts t m.time
        rw [hset] at this; exact this
      have hnn : ∀ b ∈ t1.bursts, P.burst_ok b := by
        rw [hb1]; exact h.2.1 t (Simulation.deref_mem hd).2.1
      split at hr
      · simp at hr
      · rename_i oburst hget
        split at hr
        · simp at hr
        · rename_i sd hsd
          have hok : P.slice_ok sd.time_slice := h.1.2.2.2 sd hsd
          split at hr
          · rename_i hne
            split at hr
            · simp at hr
            · rename_i burst
              obtain ⟨hbm, hbt⟩ := Thread.get_next_burst_some hget
              split at hr
              · rename_i hlt
                simp only [Except.ok.injEq] at hr
                subst hr
                exact h.dispatch_completed_slice hP i hnn
                  (by rw [hbm]; exact List.mem_cons_self _ _) hbt hok hne hlt
              · exact h.dispatch_completed_full hP i hnn hr
          · exact h.dispatch_completed_full hP i hnn hr

theorem Simulation.LoopInv.cpu_burst_completed {P : InvParams} (hP : P.Closed) {m : Event}
    {s s1 : Simulation} (h : s.LoopInv P m)
    (hr : s.handle_cpu_burst_completed m = .ok s1) : s1.LoopInv P m := by
  unfold Simulation.handle_cpu_burst_completed at hr
  split at hr
  · simp at hr
  · rename_i i t hd
    split at hr
    · simp at hr
    · rename_i u t1 hset
      have hb1 : t1.bursts = t.bursts := by
        have := Thread.set_blocked_bursts t m.time
        rw [hset] at this; exact this
      have hnn : ∀ b ∈ t1.bursts, P.burst_ok b := by
        rw [hb1]; exact h.2.1 t (Simulation.deref_mem hd).2.1
      split at hr
      · simp at hr
      · simp at hr
      · rename_i io_burst t2 hpop
        obtain ⟨hb, -, rfl⟩ := Thread.pop_next_burst_some hpop
        have hlen : P.burst_ok io_burst :=
          hnn io_burst (by rw [hb]; exact List.mem_cons_self _ _)
        simp only [Except.ok.injEq] at hr
        subst hr
        refine Simulation.LoopInv.new_event ?_ _ (hP.time_now m) _ (by simp)
        refine Simulation.LoopInv.new_event ?_ _ (hP.time_burst m io_burst hlen) _ (by simp)
        exact h.of_fields rfl rfl
          (h.2.1.set i (fun b hb => hnn b (List.mem_of_mem_tail hb))) h.2.2.1 rfl rfl

theorem Simulation.LoopInv.io_burst_completed {P : InvParams} (hP : P.Closed) {m : Event}
    {s s1 : Simulation} (h : s.LoopInv P m)
    (hr : s.handle_io_burst_completed m = .ok s1) : s1.LoopInv P m := by
  unfold Simulation.handle_io_burst_completed at hr
  split at hr
  · simp at hr
  · rename_i i t hd
    split at hr
    · simp at hr
    · rename_i u t1 hset
      have hb1 : t1.bursts = t.bursts := by
        have := Thread.set_ready_bursts t m.time
        rw [hset] at this; exact this
      have hnn : ∀ b ∈ t1.bursts, P.burst_ok b := by
        rw [hb1]; exact h.2.1 t (Simulation.deref_mem hd).2.1
      dsimp only at hr
      split at hr <;> simp only [Except.ok.injEq] at hr <;> subst hr
      · exact h.of_fields rfl rfl (h.2.1.set i hnn) (Scheduler.slice_ok_add h.2.2.1 i) rfl rfl
      · refine Simulation.LoopInv.new_event ?_ _ (hP.time_now m) _ (by simp)
        exact h.of_fields rfl rfl (h.2.1.set i hnn) (Scheduler.slice_ok_add h.2.2.1 i) rfl rfl

theorem Simulation.LoopInv.thread_completed {P : InvParams} (hP : P.Closed) {m : Event}
    {s s1 : Simulation} (h : s.LoopInv P m)
    (hr : s.handle_thread_completed m = .ok s1) : s1.LoopInv P m := by
  unfold Simulation.handle_thread_completed at hr
  split at hr
  · simp at hr
  · rename_i i t hd
    split at hr
    · simp at hr
    · rename_i u t1 hset
      have hb1 : t1.bursts = t.bursts := by
        have := Thread.set_finished_bursts t m.time
        rw [hset] at this; exact this
      have hnn : ∀ b ∈ t1.bursts, P.burst_ok b := by
        rw [hb1]; exact h.2.1 t (Simulation.deref_mem hd).2.1
      dsimp only at hr
      split at hr <;> simp only [Except.ok.injEq] at hr <;> subst hr
      · exact h.of_fields rfl rfl (h.2.1.set i hnn) h.2.2.1 rfl rfl
      · refine Simulation.LoopInv.new_event ?_ _ (hP.time_now m) _ (by simp)
        exact h.of_fields rfl rfl (h.2.1.set i hnn) h.2.2.1 rfl rfl

theorem Burst.update_time_zero (b : Burst) : b.update_time 0 = b := by
  simp [Burst.update_time]

theorem Simulation.LoopInv.thread_preempted {P : InvParams} (hP : P.Closed) {m : Event}
    {s s1 : Simulation} (h : s.LoopInv P m)
    (hr : s.handle_thread_preempted m = .ok s1) : s1.LoopInv P m := by
  unfold Simulation.handle_thread_preempted at hr
  split at hr
  · simp at hr
  · rename_i i t hd
    split at hr
    · simp at hr
    · rename_i u t1 hset
      have hb1 : t1.bursts = t.bursts := by
        have := Thread.set_ready_bursts t m.time
        rw [hset] at this; exact this
      have hnn : ∀ b ∈ t1.bursts, P.burst_ok b := by
        rw [hb1]; exact h.2.1 t (Simulation.deref_mem hd).2.1
      have htime : m.time - t1.state_change_time = 0 := by
        rw [Thread.set_ready_time hset]; omega
      split at hr
      · simp at hr
      · simp at hr
      · rename_i cpu_burst hget
        obtain ⟨hb, -⟩ := Thread.get_next_burst_some hget
        have hnn2 : ∀ b ∈ cpu_burst.update_time (m.time - t1.state_change_time)
            :: t1.bursts.tail, P.burst_ok b := by
          intro b hb2
          rw [htime, Burst.update_time_zero, ← hb] at hb2
          exact hnn b hb2
        dsimp only at hr
        split at hr <;> simp only [Except.ok.injEq] at hr <;> subst hr
        · exact h.of_fields rfl rfl (h.2.1.set i hnn2) (Scheduler.slice_ok_add h.2.2.1 i)
            rfl rfl
        · refine Simulation.LoopInv.new_event ?_ _ (hP.time_now m) _ (by simp)
          exact h.of_fields rfl rfl (h.2.1.set i hnn2) (Scheduler.slice_ok_add h.2.2.1 i)
            rfl rfl

theorem Simulation.LoopInv.dispatch_with {P : InvParams} (hP : P.Closed) {m : Event}
    {s : Simulation} (h : s.LoopInv P m)
    {sd : SchedulingDecision} (hsd : P.slice_ok sd.time_slice) (ty : EventType)
    {overhead : Int} (ho : P.overhead_ok overhead) :
    (s.dispatch_with m sd ty overhead).LoopInv P m := by
  have h1 : (s.new_event ty (m.time + overhead) sd.thread (some sd)).LoopInv P m :=
    h.new_event ty (hP.time_overhead m overhead ho) _ (by
      intro d hd
      simp only [Option.some.injEq] at hd
      subst hd
      exact hsd)
  exact h1.of_fields rfl rfl h1.2.1 h1.2.2.1 rfl rfl

theorem Simulation.LoopInv.dispatch_next {P : InvParams} (hP : P.Closed) {m : Event}
    {s s1 : Simulation} (h : s.LoopInv P m)
    (hr : s.dispatch_next m = .ok s1) : s1.LoopInv P m := by
  obtain ⟨g1, g2⟩ := Scheduler.slice_ok_get hP h.2.2.1
  unfold Simulation.dispatch_next at hr
  dsimp only at hr
  split at hr
  · simp only [Except.ok.injEq] at hr
    subst hr
    exact h.of_fields rfl rfl h.2.1 g1 rfl rfl
  · rename_i a _
    have hbase : (Simulation.mk (s.scheduler.get_next_thread).2 s.threads s.events s.event_num
        (some a) s.prev_thread s.thread_switch_overhead s.process_switch_overhead
        s.io_time_start s.system_stats s.all_threads s.first_event).LoopInv P m :=
      h.of_fields rfl rfl h.2.1 g1 rfl rfl
    split at hr
    · simp at hr
    · split at hr
      · simp only [Except.ok.injEq] at hr
        subst hr
        exact hbase.dispatch_with hP g2 _ h.2.2.2.2
      · split at hr
        · simp at hr
        · split at hr <;> simp only [Except.ok.injEq] at hr <;> subst hr
          · exact hbase.dispatch_with hP g2 _ h.2.2.2.1
          · exact hbase.dispatch_with hP g2 _ h.2.2.2.2

theorem Simulation.LoopInv.dispatcher_invoked {P : InvParams} (hP : P.Closed) {m : Event}
    {s s1 : Simulation} (h : s.LoopInv P m)
    (hr : s.handle_dispatcher_invoked m = .ok s1) : s1.LoopInv P m := by
  unfold Simulation.handle_dispatcher_invoked at hr
  dsimp only at hr
  split at hr
  · refine Simulation.LoopInv.dispatch_next hP ?_ hr
    exact h.of_fields rfl rfl h.2.1 h.2.2.1 rfl rfl
  · exact h.dispatch_next hP hr

theorem Simulation.LoopInv.handle {P : InvParams} (hP : P.Closed) {m : Event}
    {s s1 : Simulation} (h : s.LoopInv P m) (hr : s.handle m = .ok s1) : s1.LoopInv P m := by
  unfold Simulation.handle at hr
  split at hr
  · split at hr
    · refine Simulation.LoopInv.thread_arrived hP ?_ hr
      exact h.of_fields rfl rfl h.2.1 h.2.2.1 rfl rfl
    · exact h.thread_arrived hP hr
  · exact h.dispatch_completed hP hr
  · exact h.dispatch_completed hP hr
  · exact h.cpu_burst_completed hP hr
  · exact h.io_burst_completed hP hr
  · exact h.thread_completed hP hr
  · exact h.thread_preempted hP hr
  · exact h.dispatcher_invoked hP hr

theorem Event.pops_before_trans {a b c : Event} (h1 : a.pops_before b)
    (h2 : b.pops_before c) : a.pops_before c := by
  obtain ⟨x1, x2⟩ := h1
  obtain ⟨y1, y2⟩ := h2
  refine ⟨by omega, fun he => ?_⟩
  have e1 : a.time = b.time := by omega
  have e2 : b.time = c.time := by omega
  have := x2 e1
  have := y2 e2
  omega

theorem pop_min_mem {l : List Event} {m : Event} {rest : List Event}
    (hp : pop_min l = some (m, rest)) : m ∈ l ∧ ∀ x ∈ rest, x ∈ l := by
  obtain ⟨⟨l1, l2, hl, hrest⟩, -⟩ := pop_min_split hp
  subst hl hrest
  refine ⟨by simp, fun x hx => ?_⟩
  simp only [List.mem_append, List.mem_cons] at hx ⊢
  tauto

/-- After a pop from a queue with increasing event numbers, every remaining
event comes after the popped one in the pop order. -/
theorem pop_min_pops_before {l : List Event} {m : Event} {rest : List Event}
    (h1 : l.Pairwise (fun a b => a.event_num < b.event_num))
    (hp : pop_min l = some (m, rest)) :
    rest.Pairwise (fun a b => a.event_num < b.event_num) ∧ ∀ e ∈ rest, m.pops_before e := by
  obtain ⟨⟨l1, l2, hl, hrest⟩, hmin⟩ := pop_min_split hp
  have hpw := h1
  rw [hl, List.pairwise_append] at hpw
  obtain ⟨p1, p2, p3⟩ := hpw
  rw [List.pairwise_cons] at p2
  refine ⟨?_, ?_⟩
  · rw [hrest, List.pairwise_append]
    exact ⟨p1, p2.2, fun a ha b hb => p3 a ha b (List.mem_cons_of_mem _ hb)⟩
  · intro e he
    have hne : e.event_num ≠ m.event_num := by
      rw [hrest] at he
      rcases List.mem_append.mp he with h0 | h0
      · exact (p3 e h0 m (List.mem_cons_self _ _)).ne
      · exact (p2.1 e h0).ne'
    have hb := hmin e he
    simp only [Event.before, Bool.or_eq_false_iff, Bool.and_eq_false_iff,
      decide_eq_false_iff_not] at hb
    exact ⟨by omega, fun _ => by omega⟩

theorem Simulation.LoopInv.of_pop {P : InvParams} (hP : P.Closed) {s : Simulation}
    {m : Event} {rest : List Event} (h : s.StartInv P)
    (hp : pop_min s.events = some (m, rest)) :
    (Simulation.mk s.scheduler s.threads rest s.event_num s.active_thread s.prev_thread
      s.thread_switch_overhead s.process_switch_overhead s.io_time_start s.system_stats
      s.all_threads s.first_event).LoopInv P m := by
  obtain ⟨h1, h2, h3, h4, h5, h6⟩ := h
  obtain ⟨hm, hsub⟩ := pop_min_mem hp
  obtain ⟨q1, q2⟩ := pop_min_pops_before h1 hp
  refine ⟨⟨q1, ?_, (h2 m hm).1, (h2 m hm).2⟩, h3, h4, h5, h6⟩
  intro e he
  exact ⟨(h2 e (hsub e he)).1, hP.time_le m e.time (q2 e he).1, (q2 e he).2,
    (h2 e (hsub e he)).2⟩

theorem Simulation.LoopInv.start {P : InvParams} {s : Simulation} {m : Event}
    (h : s.LoopInv P m) : s.StartInv P := by
  obtain ⟨⟨q1, q2, q3, q4⟩, q5, q6, q7, q8⟩ := h
  exact ⟨q1, fun e he => ⟨(q2 e he).1, (q2 e he).2.2.2⟩, q5, q6, q7, q8⟩

theorem Simulation.step_of_pop {s s1 : Simulation} {m : Event} {rest : List Event}
    (hp : pop_min s.events = some (m, rest)) (hs : s.step = .ok s1) :
    ∃ s0, (Simulation.mk s.scheduler s.threads rest s.event_num s.active_thread s.prev_thread
        s.thread_switch_overhead s.process_switch_overhead s.io_time_start s.system_stats
        s.all_threads s.first_event).handle m = .ok s0 ∧
      s1 = { s0 with system_stats := { s0.system_stats with total_time := m.time } } := by
  unfold Simulation.step at hs
  rw [hp] at hs
  dsimp only at hs
  split at hs
  · simp at hs
  · rename_i s0 h0
    simp only [Except.ok.injEq] at hs
    exact ⟨s0, h0, hs.symm⟩

theorem Simulation.StartInv.step {P : InvParams} (hP : P.Closed) {s s1 : Simulation}
    {m : Event} {rest : List Event} (h : s.StartInv P)
    (hp : pop_min s.events = some (m, rest)) (hs : s.step = .ok s1) : s1.LoopInv P m := by
  obtain ⟨s0, h0, hs1⟩ := Simulation.step_of_pop hp hs
  have hinv0 : s0.LoopInv P m := (Simulation.LoopInv.of_pop hP h hp).handle hP h0
  rw [hs1]
  exact hinv0.of_fields rfl rfl hinv0.2.1 hinv0.2.2.1 rfl rfl

theorem order_params_closed : order_params.Closed where
  time_le := fun _ _ h => h
  time_now := fun _ => le_refl _
  time_burst := fun m b (h : 0 ≤ b.length) => by
    show m.time ≤ m.time + b.length
    omega
  time_slice := fun m ts (h : PSched.slice_ok ts) hne => by
    show m.time ≤ m.time + ts
    rcases h with h | h
    · exact absurd h hne
    · omega
  time_overhead := fun m o (h : 0 ≤ o) => by
    show m.time ≤ m.time + o
    omega
  slice_default := Or.inl rfl
  burst_slice := fun b ts _ _ _ _ hlt => by
    show 0 ≤ b.length - ts
    have hs : PSched.slice_ok ts := ‹order_params.slice_ok ts›
    rcases hs with h | h
    · exact absurd h ‹ts ≠ -1›
    · omega

theorem Simulation.popped_chain (fuel : Nat) :
    ∀ (s : Simulation), s.StartInv order_params →
      (s.popped fuel).Chain' Event.pops_before ∧
      ∀ lo : Event, (∀ e ∈ s.events, lo.pops_before e) → ∀ x ∈ s.popped fuel,
        lo.pops_before x := by
  induction fuel with
  | zero => intro s _; simp [Simulation.popped]
  | succ fuel ih =>
    intro s h
    simp only [Simulation.popped]
    cases hp : pop_min s.events with
    | none => simp
    | some p =>
      obtain ⟨m, rest⟩ := p
      have hm : m ∈ s.events := (pop_min_mem hp).1
      dsimp only
      cases hs : s.step with
      | error e =>
        simp only [List.chain'_singleton, List.mem_singleton, true_and]
        intro lo hlo x hx
        subst hx
        exact hlo _ hm
      | ok s1 =>
        dsimp only
        have hinv1 : s1.LoopInv order_params m := h.step order_params_closed hp hs
        obtain ⟨c1, c2⟩ := ih s1 hinv1.start
        have hlow := c2 m (fun e he => ⟨(hinv1.1.2.1 e he).2.1, (hinv1.1.2.1 e he).2.2.1⟩)
        refine ⟨?_, ?_⟩
        · rw [List.chain'_cons']
          refine ⟨?_, c1⟩
          intro y hy
          exact hlow y (List.mem_of_mem_head? hy)
        · intro lo hlo x hx
          rcases List.mem_cons.mp hx with rfl | hx
          · exact hlo _ hm
          · exact Event.pops_before_trans (hlo _ hm) (hlow x hx)

theorem Simulation.StartInv.read_thread {P : InvParams} {s : Simulation} (h : s.StartInv P)
    (inp : ThreadInput) (hin : ∀ b ∈ mk_bursts 0 inp.burst_lengths, P.burst_ok b)
    (tid pid : Int) (prio : Fin 4) : (s.read_thread inp tid pid prio).StartInv P := by
  obtain ⟨h1, h2, h3, h4, h5, h6⟩ := h
  refine ⟨?_, ?_, ?_, h4, h5, h6⟩
  · show (s.events ++ [_]).Pairwise _
    rw [List.pairwise_append]
    refine ⟨h1, by simp, ?_⟩
    intro a ha b hb
    simp only [List.mem_singleton] at hb
    subst hb
    exact (h2 a ha).1
  · intro e he
    have he' : e ∈ s.events ++ [_] := he
    rcases List.mem_append.mp he' with h0 | h0
    · exact ⟨Nat.lt_succ_of_lt (h2 e h0).1, (h2 e h0).2⟩
    · simp only [List.mem_singleton] at h0
      subst h0
      exact ⟨Nat.lt_succ_self _, by intro sd hsd; simp at hsd⟩
  · intro t ht
    have ht' : t ∈ s.threads ++ [_] := ht
    rcases List.mem_append.mp ht' with h0 | h0
    · exact h3 t h0
    · simp only [List.mem_singleton] at h0
      subst h0
      exact hin

theorem Simulation.StartInv.read_threads {P : InvParams} (pid : Int) (prio : Fin 4)
    (l : List ThreadInput) :
    ∀ (s : Simulation) (tid : Int), s.StartInv P →
      (∀ t ∈ l, ∀ b ∈ mk_bursts 0 t.burst_lengths, P.burst_ok b) →
      (s.read_threads pid prio tid l).StartInv P := by
  induction l with
  | nil => intro s tid h _; exact h
  | cons t l ih =>
    intro s tid h hin
    simp only [Simulation.read_threads]
    exact ih _ _ (h.read_thread t (hin t (List.mem_cons_self _ _)) tid pid prio)
      (fun t' ht' => hin t' (List.mem_cons_of_mem _ ht'))

theorem Simulation.StartInv.read_processes {P : InvParams} (ps : List ProcessInput) :
    ∀ (s : Simulation), s.StartInv P →
      (∀ p ∈ ps, ∀ t ∈ p.threads, ∀ b ∈ mk_bursts 0 t.burst_lengths, P.burst_ok b) →
      (ps.foldl Simulation.read_process s).StartInv P := by
  induction ps with
  | nil => intro s h _; exact h
  | cons p ps ih =>
    intro s h hin
    simp only [List.foldl_cons]
    exact ih _ (Simulation.StartInv.read_threads _ _ _ _ _ h (hin p (List.mem_cons_self _ _)))
      (fun p' hp' => hin p' (List.mem_cons_of_mem _ hp'))

theorem Simulation.StartInv.read_file {P : InvParams} {sched : Scheduler} {inp : SimInput}
    (hs : sched.slice_ok P) (hi : inp.ok P) :
    ((Simulation.init sched).read_file inp).StartInv P := by
  unfold Simulation.read_file
  refine Simulation.StartInv.read_processes _ _ ?_ hi.2.2
  refine ⟨?_, ?_, ?_, hs, hi.1, hi.2.1⟩
  · show List.Pairwise _ []
    exact List.Pairwise.nil
  · intro e he
    exact absurd he (List.not_mem_nil _)
  · intro t ht
    exact absurd ht (List.not_mem_nil _)

theorem mk_bursts_length (n : Nat) (ls : List Int) :
    ∀ b ∈ mk_bursts n ls, b.length ∈ ls := by
  induction ls generalizing n with
  | nil => simp [mk_bursts]
  | cons l ls ih =>
    intro b hb
    simp only [mk_bursts, List.mem_cons] at hb ⊢
    rcases hb with rfl | hb
    · exact Or.inl rfl
    · exact Or.inr (ih _ b hb)

theorem Simulation.run_popped_chain (sched : Scheduler) (inp : SimInput) (fuel : Nat)
    (hs : sched.slice_ok order_params) (hi : inp.nonneg) :
    (Simulation.run_popped fuel sched inp).Chain' Event.pops_before := by
  have hok : inp.ok order_params :=
    ⟨hi.1, hi.2.1, fun p hp t ht b hb => hi.2.2 p hp t ht _ (mk_bursts_length 0 _ b hb)⟩
  exact (Simulation.popped_chain fuel _ (Simulation.StartInv.read_file hs hok)).1

/-- C2, as stated, fails: on `late_input` under FCFS (overheads 0, one burst
of length 1000, arrival at 2147483000) the dispatch-completed event is popped
at time 2147483000 and the THREAD_COMPLETED event after it at time
-2147483296: the `int` sum `event->time + burst->length` has left the range of
`int`, and the times of the popped events decrease. -/
theorem popped_time_decreases :
    (Scheduler.fcfs {}).slice_ok order_params ∧ late_input.nonneg ∧
    (Simulation.run_popped_int 4 (Scheduler.fcfs {}) late_input).map
        (fun e => (e.type, e.time, e.event_num)) =
      [(EventType.THREAD_ARRIVED, 2147483000, 0), (EventType.DISPATCHER_INVOKED, 2147483000, 1),
       (EventType.PROCESS_DISPATCH_COMPLETED, 2147483000, 2),
       (EventType.THREAD_COMPLETED, -2147483296, 3)] ∧
    ¬ (Simulation.run_popped_int 4 (Scheduler.fcfs {}) late_input).Chain' Event.pops_before := by
  refine ⟨trivial, by simp [SimInput.nonneg, late_input], rfl, ?_⟩
  have h : Simulation.run_popped_int 4 (Scheduler.fcfs {}) late_input =
      [⟨EventType.THREAD_ARRIVED, 2147483000, 0, some 0, none⟩,
       ⟨EventType.DISPATCHER_INVOKED, 2147483000, 1, some 0, none⟩,
       late_event,
       ⟨EventType.THREAD_COMPLETED, -2147483296, 3, some 0, none⟩] := rfl
  rw [h]
  intro hc
  simp only [List.chain'_cons] at hc
  exact absurd hc.2.2.1.1 (by decide)

/-- C2, amended: for every input with non-negative overheads and burst lengths
and a scheduler that is FCFS or round-robin with a slice that is −1 or
non-negative, and for every number of iterations during which no event time
leaves the range of `int`, the events popped by the run loop with `int` event
times, in pop order, have non-decreasing times, and of two events popped one
after the other at the same time the second has the greater event number. -/
theorem popped_events_ordered (sched : Scheduler) (inp : SimInput) (fuel : Nat)
    (hs : sched.slice_ok order_params) (hi : inp.nonneg)
    (hfit : Simulation.run_fits fuel sched inp) :
    (Simulation.run_popped_int fuel sched inp).Chain' Event.pops_before := by
  rw [(Simulation.run_int_of_run_fits hfit).2]
  exact Simulation.run_popped_chain sched inp fuel hs hi

/-- Witness of C2, amended: the two-thread input under round-robin with slice
3; its event times stay below 30. -/
theorem popped_events_ordered_witness :
    (Scheduler.rr (RRScheduler.create 3)).slice_ok order_params ∧ two_arrivals.nonneg ∧
    Simulation.run_fits 30 (Scheduler.rr (RRScheduler.create 3)) two_arrivals ∧
    (Simulation.run_popped_int 30 (Scheduler.rr (RRScheduler.create 3)) two_arrivals).Chain'
      Event.pops_before :=
  ⟨Or.inr (by decide), by simp [SimInput.nonneg, two_arrivals], by decide,
   popped_events_ordered (Scheduler.rr (RRScheduler.create 3)) two_arrivals 30
     (Or.inr (by decide)) (by simp [SimInput.nonneg, two_arrivals]) (by decide)⟩

theorem SchedulingDecision.erase_idem_decision (sd : SchedulingDecision) : sd.erase.erase = sd.erase :=
  rfl

theorem Event.erase_idem_event (e : Event) : e.erase.erase = e.erase := by
  cases e with
  | mk ty time n th sd => cases sd <;> rfl

theorem Simulation.erase_deref (s : Simulation) (r : Option Nat) :
    s.erase.deref r = s.deref r := rfl

theorem Scheduler.erase_add (sch : Scheduler) (i : Nat) :
    ((Scheduler.fcfs { ready_queue := sch.ready_queue }).add_to_ready_queue i).ready_queue
      = (sch.add_to_ready_queue i).ready_queue := by
  cases sch <;> rfl

theorem Simulation.erase_new_event (s : Simulation) (ty : EventType) (time : Int)
    (th : Option Nat) (sd : Option SchedulingDecision) :
    (s.new_event ty time th sd).erase
      = s.erase.new_event ty time th (sd.map SchedulingDecision.erase) := by
  simp [Simulation.new_event, Simulation.add_event, Simulation.erase, Event.erase]


theorem Event.erase_thread (e : Event) : e.erase.thread = e.thread := rfl
theorem Event.erase_time (e : Event) : e.erase.time = e.time := rfl
theorem Event.erase_type (e : Event) : e.erase.type = e.type := rfl
theorem Event.erase_event_num (e : Event) : e.erase.event_num = e.event_num := rfl


theorem SchedulingDecision.erase_comp :
    SchedulingDecision.erase ∘ SchedulingDecision.erase = SchedulingDecision.erase :=
  funext fun _ => rfl

theorem Scheduler.ready_queue_fcfs (q : List Nat) :
    (Scheduler.fcfs { ready_queue := q }).ready_queue = q := rfl

theorem Simulation.erase_active (s : Simulation) : s.erase.active_thread = s.active_thread :=
  rfl

theorem Simulation.erase_set_thread_active (s : Simulation) (i : Nat) (t : Thread) :
    (s.erase.set_thread i t).active_thread = (s.set_thread i t).active_thread := rfl

theorem Simulation.erase_handle_thread_arrived (s : Simulation) (m : Event) :
    (s.handle_thread_arrived m).map Simulation.erase
      = (s.erase.handle_thread_arrived m.erase).map Simulation.erase := by
  unfold Simulation.handle_thread_arrived
  simp only [Simulation.erase_deref, Event.erase_thread, Event.erase_time]
  cases hd : s.deref m.thread with
  | error e => rfl
  | ok p =>
    obtain ⟨i, t⟩ := p
    dsimp only
    cases hs : t.set_ready m.time with
    | mk r t1 =>
      cases r with
      | error e => rfl
      | ok u =>
        dsimp only
        simp only [Simulation.erase_set_thread_active]
        split <;>
        simp [Except.map, Simulation.erase, Simulation.set_thread, Simulation.new_event,
          Simulation.add_event, Scheduler.ready_queue_add, Scheduler.ready_queue_fcfs,
          Event.erase, SchedulingDecision.erase_comp]

theorem Scheduler.empty_erase (sch : Scheduler) :
    (Scheduler.fcfs { ready_queue := sch.ready_queue }).empty = sch.empty := by
  cases sch <;> rfl

theorem Simulation.erase_handle_cpu_burst_completed (s : Simulation) (m : Event) :
    (s.handle_cpu_burst_completed m).map Simulation.erase
      = (s.erase.handle_cpu_burst_completed m.erase).map Simulation.erase := by
  unfold Simulation.handle_cpu_burst_completed
  simp only [Simulation.erase_deref, Event.erase_thread, Event.erase_time]
  cases hd : s.deref m.thread with
  | error e => rfl
  | ok p =>
    obtain ⟨i, t⟩ := p
    dsimp only
    cases hs : t.set_blocked m.time with
    | mk r t1 =>
      cases r with
      | error e => rfl
      | ok u =>
        dsimp only
        cases hpop : t1.pop_next_burst BurstType.Io with
        | mk r2 t2 =>
          cases r2 with
          | error e => rfl
          | ok ob =>
            cases ob with
            | none => rfl
            | some io_burst =>
              simp [Except.map, Simulation.erase, Simulation.set_thread, Simulation.new_event,
                Simulation.add_event, Event.erase, SchedulingDecision.erase_comp,
                Scheduler.ready_queue_fcfs]

theorem Simulation.erase_handle_io_burst_completed (s : Simulation) (m : Event) :
    (s.handle_io_burst_completed m).map Simulation.erase
      = (s.erase.handle_io_burst_completed m.erase).map Simulation.erase := by
  unfold Simulation.handle_io_burst_completed
  simp only [Simulation.erase_deref, Event.erase_thread, Event.erase_time]
  cases hd : s.deref m.thread with
  | error e => rfl
  | ok p =>
    obtain ⟨i, t⟩ := p
    dsimp only
    cases hs : t.set_ready m.time with
    | mk r t1 =>
      cases r with
      | error e => rfl
      | ok u =>
        dsimp only
        simp only [Simulation.erase_set_thread_active]
        split <;>
        simp [Except.map, Simulation.erase, Simulation.set_thread, Simulation.new_event,
          Simulation.add_event, Scheduler.ready_queue_add, Scheduler.ready_queue_fcfs,
          Event.erase, SchedulingDecision.erase_comp]

theorem Simulation.erase_handle_thread_completed (s : Simulation) (m : Event) :
    (s.handle_thread_completed m).map Simulation.erase
      = (s.erase.handle_thread_completed m.erase).map Simulation.erase := by
  unfold Simulation.handle_thread_completed
  simp only [Simulation.erase_deref, Event.erase_thread, Event.erase_time]
  cases hd : s.deref m.thread with
  | error e => rfl
  | ok p =>
    obtain ⟨i, t⟩ := p
    dsimp only
    cases hs : t.set_finished m.time with
    | mk r t1 =>
      cases r with
      | error e => rfl
      | ok u =>
        dsimp only
        have he : (s.erase.set_thread i t1).scheduler.empty = (s.set_thread i t1).scheduler.empty :=
          Scheduler.empty_erase s.scheduler
        simp only [he]
        split <;>
        simp [Except.map, Simulation.erase, Simulation.set_thread, Simulation.new_event,
          Simulation.add_event, Scheduler.ready_queue_fcfs,
          Event.erase, SchedulingDecision.erase_comp]

theorem Simulation.erase_handle_thread_preempted (s : Simulation) (m : Event) :
    (s.handle_thread_preempted m).map Simulation.erase
      = (s.erase.handle_thread_preempted m.erase).map Simulation.erase := by
  unfold Simulation.handle_thread_preempted
  simp only [Simulation.erase_deref, Event.erase_thread, Event.erase_time]
  cases hd : s.deref m.thread with
  | error e => rfl
  | ok p =>
    obtain ⟨i, t⟩ := p
    dsimp only
    cases hs : t.set_ready m.time with
    | mk r t1 =>
      cases r with
      | error e => rfl
      | ok u =>
        dsimp only
        cases hget : t1.get_next_burst BurstType.CPU with
        | error e => rfl
        | ok ob =>
          cases ob with
          | none => rfl
          | some cpu_burst =>
            dsimp only
            simp only [Simulation.erase_set_thread_active]
            split <;>
            simp [Except.map, Simulation.erase, Simulation.set_thread, Simulation.new_event,
              Simulation.add_event, Scheduler.ready_queue_add, Scheduler.ready_queue_fcfs,
              Event.erase, SchedulingDecision.erase_comp]

theorem Simulation.erase_dispatch_completed_full (s : Simulation) (m : Event) (i : Nat)
    (t : Thread) :
    (s.dispatch_completed_full m i t).map Simulation.erase
      = (s.erase.dispatch_completed_full m.erase i t).map Simulation.erase := by
  unfold Simulation.dispatch_completed_full
  simp only [Event.erase_thread, Event.erase_time]
  cases hpop : t.pop_next_burst BurstType.CPU with
  | mk r t1 =>
    cases r with
    | error e => rfl
    | ok ob =>
      cases ob with
      | none => rfl
      | some burst =>
        dsimp only
        split <;>
        simp [Except.map, Simulation.erase, Simulation.set_thread, Simulation.new_event,
          Simulation.add_event, Event.erase, SchedulingDecision.erase_comp,
                Scheduler.ready_queue_fcfs]

theorem Simulation.erase_handle_dispatch_completed (s : Simulation) (m : Event)
    (hno : ∀ i t sd burst, s.deref m.thread = .ok (i, t) →
      m.scheduling_decision = some sd → sd.time_slice ≠ -1 →
      (t.set_running m.time).2.get_next_burst BurstType.CPU = .ok (some burst) →
      ¬ burst.length > sd.time_slice) :
    (s.handle_dispatch_completed m).map Simulation.erase
      = (s.erase.handle_dispatch_completed m.erase).map Simulation.erase := by
  unfold Simulation.handle_dispatch_completed
  simp only [Simulation.erase_deref, Event.erase_thread, Event.erase_time]
  cases hd : s.deref m.thread with
  | error e => rfl
  | ok p =>
    obtain ⟨i, t⟩ := p
    dsimp only
    cases hs : t.set_running m.time with
    | mk r t1 =>
      cases r with
      | error e => rfl
      | ok u =>
        dsimp only
        cases hget : t1.get_next_burst BurstType.CPU with
        | error e => rfl
        | ok ob =>
          dsimp only
          cases hsd : m.scheduling_decision with
          | none => simp [Event.erase, hsd, Except.map]
          | some sd =>
            have hR : m.erase.scheduling_decision = some sd.erase := by
              simp [Event.erase, hsd]
            rw [hR]
            dsimp only
            have hm1 : ¬ (sd.erase.time_slice ≠ -1) := by simp [SchedulingDecision.erase]
            rw [if_neg hm1]
            by_cases hne : sd.time_slice ≠ -1
            · rw [if_pos hne]
              cases ob with
              | none =>
                dsimp only
                have hpop : t1.pop_next_burst BurstType.CPU = (.ok none, t1) := by
                  simp [Thread.pop_next_burst, hget]
                simp [Simulation.dispatch_completed_full, hpop, Except.map]
              | some burst =>
                dsimp only
                have := hno i t sd burst hd hsd hne (by rw [hs]; exact hget)
                rw [if_neg this]
                exact Simulation.erase_dispatch_completed_full s m i t1
            · rw [if_neg hne]
              exact Simulation.erase_dispatch_completed_full s m i t1

theorem Scheduler.get_thread_erase (sch : Scheduler) :
    ((Scheduler.fcfs { ready_queue := sch.ready_queue }).get_next_thread).1.thread
        = (sch.get_next_thread).1.thread ∧
    ((Scheduler.fcfs { ready_queue := sch.ready_queue }).get_next_thread).2.ready_queue
        = (sch.get_next_thread).2.ready_queue := by
  have h1 := Scheduler.get_thread_queue sch
  have h2 := Scheduler.get_thread_queue (Scheduler.fcfs { ready_queue := sch.ready_queue })
  rw [Scheduler.ready_queue_fcfs] at h2
  exact ⟨h2.1.trans h1.1.symm, h2.2.trans h1.2.symm⟩

theorem Simulation.erase_dispatch_with (s s' : Simulation) (m : Event)
    (sd sd' : SchedulingDecision) (ty : EventType) (o : Int)
    (hs : s.erase = s'.erase) (hsd : sd.thread = sd'.thread) :
    (s.dispatch_with m sd ty o).erase = (s'.dispatch_with m.erase sd' ty o).erase := by
  rcases s with ⟨sched, threads, events, event_num, active, prev, tso, pso, iots, stats,
    allt, fe⟩
  rcases s' with ⟨sched', threads', events', event_num', active', prev', tso', pso', iots',
    stats', allt', fe'⟩
  simp only [Simulation.erase, Simulation.mk.injEq, Scheduler.fcfs.injEq,
    FCFSScheduler.mk.injEq] at hs
  obtain ⟨h1, h2, h3, h4, h5, h6, h7, h8, h9, h10, h11, h12⟩ := hs
  subst h2 h4 h5 h6 h7 h8 h9 h10 h11 h12
  simp [Simulation.dispatch_with, Simulation.erase, Simulation.new_event, Simulation.add_event,
    Event.erase, SchedulingDecision.erase, h1, h3, hsd]

theorem Simulation.erase_dispatch_next (s : Simulation) (m : Event) :
    (s.dispatch_next m).map Simulation.erase
      = (s.erase.dispatch_next m.erase).map Simulation.erase := by
  obtain ⟨g1, g2⟩ := Scheduler.get_thread_erase s.scheduler
  unfold Simulation.dispatch_next
  dsimp only
  have hsch : s.erase.scheduler = Scheduler.fcfs { ready_queue := s.scheduler.ready_queue } :=
    rfl
  have hth : s.erase.threads = s.threads := rfl
  have hprev : s.erase.prev_thread = s.prev_thread := rfl
  have htso : s.erase.thread_switch_overhead = s.thread_switch_overhead := rfl
  have hpso : s.erase.process_switch_overhead = s.process_switch_overhead := rfl
  rw [hsch, g1, hth, hprev, htso, hpso]
  cases hh : (s.scheduler.get_next_thread).1.thread with
  | none =>
    dsimp only
    simp [Except.map, Simulation.erase, g2, Scheduler.ready_queue_fcfs,
      SchedulingDecision.erase_comp, Event.erase_idem_event]
  | some a =>
    dsimp only
    have hbase : ∀ pv : Option Nat,
        (Simulation.mk (s.scheduler.get_next_thread).2 s.threads s.events s.event_num
          (some a) pv s.thread_switch_overhead s.process_switch_overhead
          s.io_time_start s.system_stats s.all_threads s.first_event).erase
        = (Simulation.mk (Scheduler.fcfs { ready_queue := s.scheduler.ready_queue }
            ).get_next_thread.2 s.threads s.erase.events s.erase.event_num
          (some a) pv s.thread_switch_overhead
          s.process_switch_overhead
          s.erase.io_time_start s.erase.system_stats s.erase.all_threads
          s.erase.first_event).erase := by
      intro pv
      simp [Simulation.erase, g2, SchedulingDecision.erase_comp, Event.erase_idem_event]
    have hsdt : (s.scheduler.get_next_thread).1.thread
        = ((Scheduler.fcfs { ready_queue := s.scheduler.ready_queue }).get_next_thread).1.thread :=
      g1.symm
    cases s.threads[a]? with
    | none => rfl
    | some active =>
      dsimp only
      cases s.prev_thread with
      | none =>
        dsimp only
        simp only [Except.map, Except.ok.injEq]
        exact Simulation.erase_dispatch_with _ _ m _ _ _ _ (hbase _) hsdt
      | some p =>
        dsimp only
        cases s.threads[p]? with
        | none => rfl
        | some prev =>
          dsimp only
          split <;> simp only [Except.map, Except.ok.injEq] <;>
            exact Simulation.erase_dispatch_with _ _ m _ _ _ _ (hbase _) hsdt

theorem Simulation.erase_handle_dispatcher_invoked (s : Simulation) (m : Event) :
    (s.handle_dispatcher_invoked m).map Simulation.erase
      = (s.erase.handle_dispatcher_invoked m.erase).map Simulation.erase := by
  unfold Simulation.handle_dispatcher_invoked
  dsimp only
  rw [Simulation.erase_active]
  split
  · exact Simulation.erase_dispatch_next _ m
  · exact Simulation.erase_dispatch_next _ m

/-- The handler of `m` in state `s` does not take the slice branch of
`handle_dispatch_completed`. -/
theorem Simulation.no_slice_of_inv {σ : Int} {s : Simulation} {m : Event}
    (h : s.LoopInv (cover_params σ) m) :
    ∀ i t sd burst, s.deref m.thread = .ok (i, t) →
      m.scheduling_decision = some sd → sd.time_slice ≠ -1 →
      (t.set_running m.time).2.get_next_burst BurstType.CPU = .ok (some burst) →
      ¬ burst.length > sd.time_slice := by
  intro i t sd burst hd hsd hne hget
  obtain ⟨hb, hty⟩ := Thread.get_next_burst_some hget
  rw [Thread.set_running_bursts] at hb
  have hmem : burst ∈ t.bursts := by rw [hb]; exact List.mem_cons_self _ _
  have hbok := h.2.1 t (Simulation.deref_mem hd).2.1 burst hmem
  have hsl : sd.time_slice = -1 ∨ sd.time_slice = σ := h.1.2.2.2 sd hsd
  rcases hsl with h0 | h0
  · exact absurd h0 hne
  · have : burst.length ≤ σ := hbok (by rw [← h0]; exact hne) hty
    rw [h0]
    omega

theorem cover_params_closed (σ : Int) : (cover_params σ).Closed where
  time_le := fun _ _ _ => trivial
  time_now := fun _ => trivial
  time_burst := fun _ _ _ => trivial
  time_slice := fun _ _ _ _ => trivial
  time_overhead := fun _ _ _ => trivial
  slice_default := Or.inl rfl
  burst_slice := fun b ts hb hs hne hty hlt => by
    have hs' : ts = -1 ∨ ts = σ := hs
    have hb' : σ ≠ -1 → b.burst_type = BurstType.CPU → b.length ≤ σ := hb
    rcases hs' with h0 | h0
    · exact absurd h0 hne
    · have := hb' (by rw [← h0]; exact hne) hty
      omega

theorem Simulation.erase_handle (s : Simulation) (m : Event)
    (hno : ∀ (s0 : Simulation), s0.threads = s.threads → ∀ i t sd burst,
      s0.deref m.thread = .ok (i, t) →
      m.scheduling_decision = some sd → sd.time_slice ≠ -1 →
      (t.set_running m.time).2.get_next_burst BurstType.CPU = .ok (some burst) →
      ¬ burst.length > sd.time_slice) :
    (s.handle m).map Simulation.erase = (s.erase.handle m.erase).map Simulation.erase := by
  unfold Simulation.handle
  rw [Event.erase_type]
  cases m.type with
  | THREAD_ARRIVED =>
    dsimp only
    have hfe : s.erase.first_event = s.first_event := rfl
    rw [hfe]
    split
    · exact Simulation.erase_handle_thread_arrived _ m
    · exact Simulation.erase_handle_thread_arrived _ m
  | DISPATCHER_INVOKED => exact Simulation.erase_handle_dispatcher_invoked s m
  | THREAD_DISPATCH_COMPLETED => exact Simulation.erase_handle_dispatch_completed s m (hno s rfl)
  | PROCESS_DISPATCH_COMPLETED =>
    exact Simulation.erase_handle_dispatch_completed s m (hno s rfl)
  | CPU_BURST_COMPLETED => exact Simulation.erase_handle_cpu_burst_completed s m
  | IO_BURST_COMPLETED => exact Simulation.erase_handle_io_burst_completed s m
  | THREAD_COMPLETED => exact Simulation.erase_handle_thread_completed s m
  | THREAD_PREEMPTED => exact Simulation.erase_handle_thread_preempted s m

theorem Event.erase_before (a b : Event) : a.erase.before b.erase = a.before b := rfl

theorem pop_min_erase (l : List Event) :
    pop_min (l.map Event.erase)
      = (pop_min l).map (fun p => (p.1.erase, p.2.map Event.erase)) := by
  induction l with
  | nil => rfl
  | cons e es ih =>
    simp only [List.map_cons, pop_min, ih]
    cases pop_min es with
    | none => rfl
    | some p =>
      simp only [Option.map_some', Event.erase_before]
      split <;> rfl

theorem Simulation.erase_idem_state (s : Simulation) : s.erase.erase = s.erase := by
  simp [Simulation.erase, Scheduler.ready_queue_fcfs, Event.erase_idem_event]

theorem Simulation.erase_total_time {s s' : Simulation} (h : s.erase = s'.erase) (time : Int) :
    ({ s with system_stats := { s.system_stats with total_time := time } } : Simulation).erase
      = ({ s' with system_stats := { s'.system_stats with total_time := time } }
          : Simulation).erase := by
  have h1 : ({ s with system_stats := { s.system_stats with total_time := time } }
      : Simulation).erase
      = { s.erase with system_stats := { s.erase.system_stats with total_time := time } } := rfl
  have h2 : ({ s' with system_stats := { s'.system_stats with total_time := time } }
      : Simulation).erase
      = { s'.erase with system_stats := { s'.erase.system_stats with total_time := time } } :=
    rfl
  rw [h1, h2, h]

theorem Simulation.erase_step (s : Simulation)
    (hno : ∀ m rest, pop_min s.events = some (m, rest) → ∀ (s0 : Simulation),
      s0.threads = s.threads → ∀ i t sd burst,
      s0.deref m.thread = .ok (i, t) →
      m.scheduling_decision = some sd → sd.time_slice ≠ -1 →
      (t.set_running m.time).2.get_next_burst BurstType.CPU = .ok (some burst) →
      ¬ burst.length > sd.time_slice) :
    (s.step).map Simulation.erase = (s.erase.step).map Simulation.erase := by
  unfold Simulation.step
  have hev : s.erase.events = s.events.map Event.erase := rfl
  rw [hev, pop_min_erase]
  cases hp : pop_min s.events with
  | none =>
    simp only [Option.map_none', Except.map, Simulation.erase_idem_state]
  | some p =>
    obtain ⟨m, rest⟩ := p
    simp only [Option.map_some']
    have hcomm := Simulation.erase_handle
      (Simulation.mk s.scheduler s.threads rest s.event_num s.active_thread s.prev_thread
        s.thread_switch_overhead s.process_switch_overhead s.io_time_start s.system_stats
        s.all_threads s.first_event) m (fun s0 h0 => hno m rest hp s0 h0)
    have hre : (Simulation.mk s.scheduler s.threads rest s.event_num s.active_thread
        s.prev_thread s.thread_switch_overhead s.process_switch_overhead s.io_time_start
        s.system_stats s.all_threads s.first_event).erase
        = { s.erase with events := rest.map Event.erase } := rfl
    rw [hre] at hcomm
    revert hcomm
    cases (Simulation.mk s.scheduler s.threads rest s.event_num s.active_thread
        s.prev_thread s.thread_switch_overhead s.process_switch_overhead s.io_time_start
        s.system_stats s.all_threads s.first_event).handle m with
    | error e =>
      cases ({ s.erase with events := rest.map Event.erase } : Simulation).handle m.erase with
      | error e' =>
        intro hcomm
        simpa [Except.map] using hcomm
      | ok s0' => intro hcomm; simp [Except.map] at hcomm
    | ok s0 =>
      cases ({ s.erase with events := rest.map Event.erase } : Simulation).handle m.erase with
      | error e' => intro hcomm; simp [Except.map] at hcomm
      | ok s0' =>
        intro hcomm
        simp only [Except.map, Except.ok.injEq] at hcomm ⊢
        exact Simulation.erase_total_time hcomm _

theorem Simulation.deref_of_threads {s s0 : Simulation} (h : s0.threads = s.threads)
    (r : Option Nat) : s0.deref r = s.deref r := by
  unfold Simulation.deref
  rw [h]

theorem Simulation.StartInv.of_step {P : InvParams} (hP : P.Closed) {s s1 : Simulation}
    (h : s.StartInv P) (hs : s.step = .ok s1) : s1.StartInv P := by
  cases hp : pop_min s.events with
  | none =>
    rw [Simulation.step_of_nil (pop_min_eq_none.mp hp)] at hs
    simp only [Except.ok.injEq] at hs
    rw [← hs]; exact h
  | some p =>
    obtain ⟨m, rest⟩ := p
    exact (h.step hP hp hs).start

theorem Simulation.StartInv.erase {P : InvParams} {s : Simulation} (h : s.StartInv P) :
    s.erase.StartInv (cover_params (-1)) := by
  obtain ⟨h1, h2, -, -, -, -⟩ := h
  refine ⟨?_, ?_, ?_, trivial, trivial, trivial⟩
  · show (s.events.map Event.erase).Pairwise _
    rw [List.pairwise_map]
    exact h1
  · intro e he
    have he' : e ∈ s.events.map Event.erase := he
    obtain ⟨e0, he0, rfl⟩ := List.mem_map.mp he'
    refine ⟨(h2 e0 he0).1, ?_⟩
    intro sd hsd
    have : e0.erase.scheduling_decision
        = e0.scheduling_decision.map SchedulingDecision.erase := rfl
    rw [this] at hsd
    cases hd : e0.scheduling_decision with
    | none => rw [hd] at hsd; simp at hsd
    | some d =>
      rw [hd] at hsd
      simp only [Option.map_some', Option.some.injEq] at hsd
      subst hsd
      exact Or.inl rfl
  · intro t _ b _ hne
    exact absurd rfl hne

theorem Simulation.erase_run (fuel : Nat) :
    ∀ (s : Simulation) (σ : Int), s.StartInv (cover_params σ) →
      (s.run_loop fuel).map Simulation.erase = (s.erase.run_loop fuel).map Simulation.erase ∧
      (s.popped fuel).map Event.erase = (s.erase.popped fuel).map Event.erase := by
  induction fuel with
  | zero =>
    intro s σ _
    simp [Simulation.run_loop, Simulation.popped, Except.map, Simulation.erase_idem_state]
  | succ n ih =>
    intro s σ h
    have hno : ∀ m rest, pop_min s.events = some (m, rest) → ∀ (s0 : Simulation),
        s0.threads = s.threads → ∀ i t sd burst,
        s0.deref m.thread = .ok (i, t) →
        m.scheduling_decision = some sd → sd.time_slice ≠ -1 →
        (t.set_running m.time).2.get_next_burst BurstType.CPU = .ok (some burst) →
        ¬ burst.length > sd.time_slice := by
      intro m rest hp s0 h0 i t sd burst hd
      have hinv := Simulation.LoopInv.of_pop (cover_params_closed σ) h hp
      rw [Simulation.deref_of_threads (h0.trans rfl)] at hd
      exact Simulation.no_slice_of_inv hinv i t sd burst hd
    have hstep := Simulation.erase_step s hno
    have hpop := pop_min_erase s.events
    have hev : s.erase.events = s.events.map Event.erase := rfl
    rw [Simulation.run_loop_succ, Simulation.run_loop_succ]
    simp only [Simulation.popped, hev, hpop]
    cases hs : s.step with
    | error e =>
      rw [hs] at hstep
      cases hs' : s.erase.step with
      | ok s1' => rw [hs'] at hstep; simp [Except.map] at hstep
      | error e' =>
        rw [hs'] at hstep
        simp only [Except.map, Except.error.injEq] at hstep
        subst hstep
        refine ⟨rfl, ?_⟩
        cases pop_min s.events with
        | none => rfl
        | some p => simp [Event.erase_idem_event]
    | ok s1 =>
      rw [hs] at hstep
      cases hs' : s.erase.step with
      | error e' => rw [hs'] at hstep; simp [Except.map] at hstep
      | ok s1' =>
        rw [hs'] at hstep
        simp only [Except.map, Except.ok.injEq] at hstep
        have i1 := ih s1 σ (h.of_step (cover_params_closed σ) hs)
        have i2 := ih s1' (-1) (h.erase.of_step (cover_params_closed (-1)) hs')
        rw [← hstep] at i2
        dsimp only
        refine ⟨i1.1.trans i2.1.symm, ?_⟩
        cases pop_min s.events with
        | none => rfl
        | some p =>
          simp only [Option.map_some', List.map_cons, List.cons.injEq]
          exact ⟨(Event.erase_idem_event _).symm, i1.2.trans i2.2.symm⟩

theorem Simulation.erase_read_thread (s : Simulation) (inp : ThreadInput) (tid pid : Int)
    (prio : Fin 4) :
    (s.read_thread inp tid pid prio).erase = s.erase.read_thread inp tid pid prio := by
  simp [Simulation.read_thread, Simulation.erase, Event.erase]

theorem Simulation.erase_read_threads (pid : Int) (prio : Fin 4) (l : List ThreadInput) :
    ∀ (s : Simulation) (tid : Int),
      (s.read_threads pid prio tid l).erase = s.erase.read_threads pid prio tid l := by
  induction l with
  | nil => intro s tid; rfl
  | cons t l ih =>
    intro s tid
    simp only [Simulation.read_threads]
    rw [ih, Simulation.erase_read_thread]

theorem Simulation.erase_read_processes (ps : List ProcessInput) :
    ∀ (s : Simulation),
      (ps.foldl Simulation.read_process s).erase = ps.foldl Simulation.read_process s.erase := by
  induction ps with
  | nil => intro s; rfl
  | cons p ps ih =>
    intro s
    simp only [List.foldl_cons]
    rw [ih]
    unfold Simulation.read_process
    rw [Simulation.erase_read_threads]

theorem Simulation.erase_read_file (sched : Scheduler) (inp : SimInput) :
    ((Simulation.init sched).read_file inp).erase
      = (Simulation.init (Scheduler.fcfs { ready_queue := sched.ready_queue })).read_file inp := by
  unfold Simulation.read_file
  rw [Simulation.erase_read_processes]
  rfl

theorem Simulation.timings_erase (s : Simulation) : s.erase.timings = s.timings := rfl

theorem completion_order_erase (l : List Event) :
    completion_order (l.map Event.erase) = completion_order l := by
  induction l with
  | nil => rfl
  | cons e l ih =>
    simp only [completion_order, List.map_cons, List.filter_cons, Event.erase_type] at ih ⊢
    split
    · simp only [List.map_cons, Event.erase_thread, ih]
    · exact ih

theorem Except.map_erase_congr {f : Simulation → α} (hf : ∀ s : Simulation, f s.erase = f s)
    {x y : Except SimError Simulation}
    (h : x.map Simulation.erase = y.map Simulation.erase) : x.map f = y.map f := by
  cases x with
  | error e =>
    cases y with
    | error e' => simpa [Except.map] using h
    | ok b => simp [Except.map] at h
  | ok a =>
    cases y with
    | error e' => simp [Except.map] at h
    | ok b =>
      simp only [Except.map, Except.ok.injEq] at h ⊢
      rw [← hf a, ← hf b, h]

/-- C7: for every input and every slice that no CPU burst of the input
outruns, the run under round-robin with that slice and the run under FCFS are,
after any number of loop iterations, in states that differ only in the scheduler
object and the decisions attached to events: they fail or succeed together,
have the same threads with the same start, end, service and I/O times, the
same total, idle and dispatch time, as many events left in the queue, and they
have popped the same events and so completed the same threads in the same
order. -/
theorem rr_covering_slice_eq_fcfs (inp : SimInput) (slice : Int) (fuel : Nat)
    (hslice : ∀ p ∈ inp.processes, ∀ t ∈ p.threads, ∀ b ∈ mk_bursts 0 t.burst_lengths,
      b.burst_type = BurstType.CPU → b.length ≤ slice) :
    (Simulation.run fuel (Scheduler.rr (RRScheduler.create slice)) inp).map Simulation.erase
      = (Simulation.run fuel (Scheduler.fcfs {}) inp).map Simulation.erase ∧
    (Simulation.run_popped fuel (Scheduler.rr (RRScheduler.create slice)) inp).map Event.erase
      = (Simulation.run_popped fuel (Scheduler.fcfs {}) inp).map Event.erase ∧
    (Simulation.run fuel (Scheduler.rr (RRScheduler.create slice)) inp).map Simulation.timings
      = (Simulation.run fuel (Scheduler.fcfs {}) inp).map Simulation.timings ∧
    (Simulation.run fuel (Scheduler.rr (RRScheduler.create slice)) inp).map
        (fun s => s.events.length)
      = (Simulation.run fuel (Scheduler.fcfs {}) inp).map (fun s => s.events.length) ∧
    completion_order (Simulation.run_popped fuel (Scheduler.rr (RRScheduler.create slice)) inp)
      = completion_order (Simulation.run_popped fuel (Scheduler.fcfs {}) inp) := by
  have hrr : ((Simulation.init (Scheduler.rr (RRScheduler.create slice))).read_file
      inp).StartInv (cover_params slice) :=
    Simulation.StartInv.read_file (Or.inr rfl)
      ⟨trivial, trivial, fun p hp t ht b hb _ hty => hslice p hp t ht b hb hty⟩
  have hff : ((Simulation.init (Scheduler.fcfs {})).read_file inp).StartInv
      (cover_params (-1)) :=
    Simulation.StartInv.read_file trivial
      ⟨trivial, trivial, fun p hp t ht b hb hne => absurd rfl hne⟩
  obtain ⟨a1, a2⟩ := Simulation.erase_run fuel _ _ hrr
  obtain ⟨b1, b2⟩ := Simulation.erase_run fuel _ _ hff
  rw [Simulation.erase_read_file] at a1 a2 b1 b2
  have hq : (Scheduler.rr (RRScheduler.create slice)).ready_queue
      = (Scheduler.fcfs {}).ready_queue := rfl
  rw [hq] at a1 a2
  have e1 : (Simulation.run fuel (Scheduler.rr (RRScheduler.create slice)) inp).map
      Simulation.erase = (Simulation.run fuel (Scheduler.fcfs {}) inp).map Simulation.erase :=
    a1.trans b1.symm
  have e2 : (Simulation.run_popped fuel (Scheduler.rr (RRScheduler.create slice)) inp).map
      Event.erase = (Simulation.run_popped fuel (Scheduler.fcfs {}) inp).map Event.erase :=
    a2.trans b2.symm
  refine ⟨e1, e2, Except.map_erase_congr Simulation.timings_erase e1,
    Except.map_erase_congr (fun s => ?_) e1, ?_⟩
  · show (s.events.map Event.erase).length = s.events.length
    exact List.length_map _ _
  · rw [← completion_order_erase, e2, completion_order_erase]

/-- Witness of C7: `mixed_input` with slice 4, which covers its CPU bursts (of
lengths 3, 4, 2 and 4) though not its I/O burst of length 10. -/
theorem rr_covering_slice_eq_fcfs_witness :
    (∀ p ∈ mixed_input.processes, ∀ t ∈ p.threads, ∀ b ∈ mk_bursts 0 t.burst_lengths,
      b.burst_type = BurstType.CPU → b.length ≤ 4) ∧
    (Simulation.run 40 (Scheduler.rr (RRScheduler.create 4)) mixed_input).map Simulation.timings
      = (Simulation.run 40 (Scheduler.fcfs {}) mixed_input).map Simulation.timings ∧
    completion_order (Simulation.run_popped 40 (Scheduler.rr (RRScheduler.create 4)) mixed_input)
      = completion_order (Simulation.run_popped 40 (Scheduler.fcfs {}) mixed_input) :=
  ⟨by simp [mixed_input, mk_bursts],
   (rr_covering_slice_eq_fcfs mixed_input 4 40 (by simp [mixed_input, mk_bursts])).2.2.1,
   (rr_covering_slice_eq_fcfs mixed_input 4 40 (by simp [mixed_input, mk_bursts])).2.2.2.2⟩

/-- The scheduler the constructor builds has a slice that is −1 or
non-negative, provided the default slice of `RRScheduler()` is. -/
theorem Simulation.choose_scheduler_slice_ok {name : String} {time_slice d : Int}
    {sched : Scheduler} (hd : PSched.slice_ok d)
    (h : Simulation.choose_scheduler name time_slice d = some sched) :
    sched.slice_ok order_params := by
  unfold Simulation.choose_scheduler at h
  split at h
  · simp only [Option.some.injEq] at h
    subst h
    trivial
  · split at h
    · split at h
      · rename_i hts
        simp only [Option.some.injEq] at h
        subst h
        exact Or.inr (show (0 : Int) ≤ time_slice by omega)
      · simp only [Option.some.injEq] at h
        subst h
        exact hd
    · simp at h

/-! ## Runs with a single thread -/

theorem preemptions_append (a b : List Event) :
    preemptions (a ++ b) = preemptions a + preemptions b := by
  simp [preemptions, List.filter_append]

theorem thread_dispatches_append (a b : List Event) :
    thread_dispatches (a ++ b) = thread_dispatches a + thread_dispatches b := by
  simp [thread_dispatches, List.filter_append]

/-- The cycle of a preemption: the burst outruns the slice, the thread is
preempted after `slice` and dispatched again. -/
theorem dispatch_pending_preempt {st : Simulation} {slice τ r : Int} {t : Thread}
    {ty : EventType} {rest : List Burst}
    (h : DispatchPending st slice t ty τ) (hst : t.current_state = ThreadState.READY)
    (hb : t.bursts = { burst_type := BurstType.CPU, length := r } :: rest)
    (hne : slice ≠ -1) (hr : slice < r) :
    (∃ st2, st.run_loop 2 = .ok st2 ∧
      st2.threads = [{ t with previous_state := ThreadState.RUNNING,
                              current_state := ThreadState.READY,
                              state_change_time := τ + slice,
                              start_time := if t.start_time = -1 then τ else t.start_time,
                              service_time := t.service_time + slice,
                              bursts := { burst_type := BurstType.CPU, length := r - slice }
                                :: rest }] ∧
      ((st.popped 2).map (fun e => e.type)).getLast? = some EventType.THREAD_PREEMPTED ∧
      preemptions (st.popped 2) = 1) ∧
    (∃ st3, st.run_loop 3 = .ok st3 ∧
      DispatchPending st3 slice
        { t with previous_state := ThreadState.RUNNING,
                 current_state := ThreadState.READY,
                 state_change_time := τ + slice,
                 start_time := if t.start_time = -1 then τ else t.start_time,
                 service_time := t.service_time + slice,
                 bursts := { burst_type := BurstType.CPU, length := r - slice } :: rest }
        EventType.THREAD_DISPATCH_COMPLETED
        (τ + slice + st.thread_switch_overhead) ∧
      st3.thread_switch_overhead = st.thread_switch_overhead ∧
      (st.popped 3).length = 3 ∧
      preemptions (st.popped 3) = 1 ∧
      thread_dispatches (st.popped 3)
        = if ty = EventType.THREAD_DISPATCH_COMPLETED then 1 else 0) := by
  obtain ⟨h1, h5, ⟨n, sd_expl, h6⟩, h7, h8⟩ := h
  rcases st with ⟨sched, threads, events, event_num, active, prev, tso, pso, iots, stats,
    allt, fe⟩
  rcases t with ⟨tid, pid, arr, stt, ent, svc0, iot, sct, prio, cs, ps, bursts⟩
  simp only at h1 hst hb h6 h7 h8
  subst h1 hst hb h6 h7
  have hty : ty = EventType.THREAD_DISPATCH_COMPLETED ∨
      ty = EventType.PROCESS_DISPATCH_COMPLETED := by
    simpa [EventType.is_dispatch_completed] using h5
  rcases h8 with h8 | ⟨h8, -⟩
  · subst h8
    constructor
    · rcases hty with rfl | rfl <;>
      simp [Simulation.run_loop, Simulation.step, pop_min, Event.before, Simulation.handle,
      Simulation.deref, Thread.is_valid_transition, Thread.valid_transitions,
      Simulation.set_thread, Simulation.new_event, Simulation.add_event,
      Simulation.handle_dispatch_completed, Thread.set_running, Thread.get_next_burst,
      Simulation.dispatch_completed_slice, Simulation.dispatch_completed_full,
      Thread.pop_next_burst, Simulation.handle_thread_preempted, Thread.set_ready,
      Burst.update_time, Scheduler.add_to_ready_queue, RRScheduler.add_to_ready_queue,
      FCFSScheduler.add_to_ready_queue, Simulation.handle_dispatcher_invoked,
      Simulation.dispatch_next, Simulation.dispatch_with, Scheduler.get_next_thread,
      RRScheduler.get_next_thread, RRScheduler.size, FCFSScheduler.get_next_thread,
      FCFSScheduler.size, Simulation.handle_thread_completed, Thread.set_finished,
      Scheduler.empty, Scheduler.size, Simulation.handle_cpu_burst_completed,
      Thread.set_blocked, Simulation.handle_io_burst_completed, Simulation.popped,
      preemptions, thread_dispatches, DispatchPending, EventType.is_dispatch_completed, hne, hr]
    · rcases hty with rfl | rfl <;>
      simp [Simulation.run_loop, Simulation.step, pop_min, Event.before, Simulation.handle,
      Simulation.deref, Thread.is_valid_transition, Thread.valid_transitions,
      Simulation.set_thread, Simulation.new_event, Simulation.add_event,
      Simulation.handle_dispatch_completed, Thread.set_running, Thread.get_next_burst,
      Simulation.dispatch_completed_slice, Simulation.dispatch_completed_full,
      Thread.pop_next_burst, Simulation.handle_thread_preempted, Thread.set_ready,
      Burst.update_time, Scheduler.add_to_ready_queue, RRScheduler.add_to_ready_queue,
      FCFSScheduler.add_to_ready_queue, Simulation.handle_dispatcher_invoked,
      Simulation.dispatch_next, Simulation.dispatch_with, Scheduler.get_next_thread,
      RRScheduler.get_next_thread, RRScheduler.size, FCFSScheduler.get_next_thread,
      FCFSScheduler.size, Simulation.handle_thread_completed, Thread.set_finished,
      Scheduler.empty, Scheduler.size, Simulation.handle_cpu_burst_completed,
      Thread.set_blocked, Simulation.handle_io_burst_completed, Simulation.popped,
      preemptions, thread_dispatches, DispatchPending, EventType.is_dispatch_completed, hne, hr]
  · exact absurd h8 hne

/-- The last burst: it fits the slice, runs to its end and the thread exits. -/
theorem dispatch_pending_finish {st : Simulation} {slice τ r : Int} {t : Thread}
    {ty : EventType}
    (h : DispatchPending st slice t ty τ) (hst : t.current_state = ThreadState.READY)
    (hb : t.bursts = [{ burst_type := BurstType.CPU, length := r }])
    (hr : slice = -1 ∨ r ≤ slice) :
    ∃ st2, st.run_loop 2 = .ok st2 ∧ st2.events = [] ∧
      st2.threads = [{ t with previous_state := ThreadState.RUNNING,
                              current_state := ThreadState.EXIT,
                              state_change_time := τ + r,
                              end_time := τ + r,
                              start_time := if t.start_time = -1 then τ else t.start_time,
                              service_time := t.service_time + r,
                              bursts := [] }] ∧
      (st.popped 2).length = 2 ∧
      preemptions (st.popped 2) = 0 ∧
      thread_dispatches (st.popped 2)
        = if ty = EventType.THREAD_DISPATCH_COMPLETED then 1 else 0 := by
  obtain ⟨h1, h5, ⟨n, sd_expl, h6⟩, h7, h8⟩ := h
  rcases st with ⟨sched, threads, events, event_num, active, prev, tso, pso, iots, stats,
    allt, fe⟩
  rcases t with ⟨tid, pid, arr, stt, ent, svc0, iot, sct, prio, cs, ps, bursts⟩
  simp only at h1 hst hb h6 h7 h8
  subst h1 hst hb h6 h7
  have hty : ty = EventType.THREAD_DISPATCH_COMPLETED ∨
      ty = EventType.PROCESS_DISPATCH_COMPLETED := by
    simpa [EventType.is_dispatch_completed] using h5
  have hnr : ¬ (slice < r) ∨ slice = -1 := by
    rcases hr with h | h
    · exact Or.inr h
    · exact Or.inl (by omega)
  rcases h8 with h8 | ⟨hm1, h8⟩
  · subst h8
    rcases hnr with hnr | rfl
    · rcases hty with rfl | rfl <;>
      simp [Simulation.run_loop, Simulation.step, pop_min, Event.before, Simulation.handle,
      Simulation.deref, Thread.is_valid_transition, Thread.valid_transitions,
      Simulation.set_thread, Simulation.new_event, Simulation.add_event,
      Simulation.handle_dispatch_completed, Thread.set_running, Thread.get_next_burst,
      Simulation.dispatch_completed_slice, Simulation.dispatch_completed_full,
      Thread.pop_next_burst, Simulation.handle_thread_preempted, Thread.set_ready,
      Burst.update_time, Scheduler.add_to_ready_queue, RRScheduler.add_to_ready_queue,
      FCFSScheduler.add_to_ready_queue, Simulation.handle_dispatcher_invoked,
      Simulation.dispatch_next, Simulation.dispatch_with, Scheduler.get_next_thread,
      RRScheduler.get_next_thread, RRScheduler.size, FCFSScheduler.get_next_thread,
      FCFSScheduler.size, Simulation.handle_thread_completed, Thread.set_finished,
      Scheduler.empty, Scheduler.size, Simulation.handle_cpu_burst_completed,
      Thread.set_blocked, Simulation.handle_io_burst_completed, Simulation.popped,
      preemptions, thread_dispatches, DispatchPending, EventType.is_dispatch_completed, hnr]
    · rcases hty with rfl | rfl <;>
      simp [Simulation.run_loop, Simulation.step, pop_min, Event.before, Simulation.handle,
      Simulation.deref, Thread.is_valid_transition, Thread.valid_transitions,
      Simulation.set_thread, Simulation.new_event, Simulation.add_event,
      Simulation.handle_dispatch_completed, Thread.set_running, Thread.get_next_burst,
      Simulation.dispatch_completed_slice, Simulation.dispatch_completed_full,
      Thread.pop_next_burst, Simulation.handle_thread_preempted, Thread.set_ready,
      Burst.update_time, Scheduler.add_to_ready_queue, RRScheduler.add_to_ready_queue,
      FCFSScheduler.add_to_ready_queue, Simulation.handle_dispatcher_invoked,
      Simulation.dispatch_next, Simulation.dispatch_with, Scheduler.get_next_thread,
      RRScheduler.get_next_thread, RRScheduler.size, FCFSScheduler.get_next_thread,
      FCFSScheduler.size, Simulation.handle_thread_completed, Thread.set_finished,
      Scheduler.empty, Scheduler.size, Simulation.handle_cpu_burst_completed,
      Thread.set_blocked, Simulation.handle_io_burst_completed, Simulation.popped,
      preemptions, thread_dispatches, DispatchPending, EventType.is_dispatch_completed]
  · subst h8 hm1
    rcases hty with rfl | rfl <;>
    simp [Simulation.run_loop, Simulation.step, pop_min, Event.before, Simulation.handle,
      Simulation.deref, Thread.is_valid_transition, Thread.valid_transitions,
      Simulation.set_thread, Simulation.new_event, Simulation.add_event,
      Simulation.handle_dispatch_completed, Thread.set_running, Thread.get_next_burst,
      Simulation.dispatch_completed_slice, Simulation.dispatch_completed_full,
      Thread.pop_next_burst, Simulation.handle_thread_preempted, Thread.set_ready,
      Burst.update_time, Scheduler.add_to_ready_queue, RRScheduler.add_to_ready_queue,
      FCFSScheduler.add_to_ready_queue, Simulation.handle_dispatcher_invoked,
      Simulation.dispatch_next, Simulation.dispatch_with, Scheduler.get_next_thread,
      RRScheduler.get_next_thread, RRScheduler.size, FCFSScheduler.get_next_thread,
      FCFSScheduler.size, Simulation.handle_thread_completed, Thread.set_finished,
      Scheduler.empty, Scheduler.size, Simulation.handle_cpu_burst_completed,
      Thread.set_blocked, Simulation.handle_io_burst_completed, Simulation.popped,
      preemptions, thread_dispatches, DispatchPending, EventType.is_dispatch_completed]

/-- The cycle of an I/O burst: the CPU burst fits the slice and runs to its
end, the thread blocks for the I/O burst and is dispatched again. -/
theorem dispatch_pending_io {st : Simulation} {slice τ r q : Int} {t : Thread}
    {ty : EventType} {rest : List Burst}
    (h : DispatchPending st slice t ty τ) (hst : t.current_state = ThreadState.READY)
    (hb : t.bursts = { burst_type := BurstType.CPU, length := r } ::
      { burst_type := BurstType.Io, length := q } :: rest)
    (hr : slice = -1 ∨ r ≤ slice) (hq : 0 ≤ q) :
    ∃ k st2, st.run_loop k = .ok st2 ∧
      DispatchPending st2 slice
        { t with previous_state := ThreadState.BLOCKED,
                 current_state := ThreadState.READY,
                 state_change_time := τ + r + q,
                 start_time := if t.start_time = -1 then τ else t.start_time,
                 service_time := t.service_time + r,
                 io_time := t.io_time + q,
                 bursts := rest }
        EventType.THREAD_DISPATCH_COMPLETED
        (τ + r + q + st.thread_switch_overhead) ∧
      st2.thread_switch_overhead = st.thread_switch_overhead ∧
      preemptions (st.popped k) = 0 ∧
      thread_dispatches (st.popped k)
        = if ty = EventType.THREAD_DISPATCH_COMPLETED then 1 else 0 := by
  obtain ⟨h1, h5, ⟨n, sd_expl, h6⟩, h7, h8⟩ := h
  rcases st with ⟨sched, threads, events, event_num, active, prev, tso, pso, iots, stats,
    allt, fe⟩
  rcases t with ⟨tid, pid, arr, stt, ent, svc0, iot, sct, prio, cs, ps, bursts⟩
  simp only at h1 hst hb h6 h7 h8
  subst h1 hst hb h6 h7
  have hty : ty = EventType.THREAD_DISPATCH_COMPLETED ∨
      ty = EventType.PROCESS_DISPATCH_COMPLETED := by
    simpa [EventType.is_dispatch_completed] using h5
  have hnr : ¬ (slice < r) ∨ slice = -1 := by
    rcases hr with h | h
    · exact Or.inr h
    · exact Or.inl (by omega)
  have hcase : 0 < q ∨ 0 = q := by omega
  rcases hcase with hq0 | hq0
  · have hq1 : ¬ (τ + r + q < τ + r) := by omega
    have hq2 : ¬ (τ + r + q = τ + r) := by omega
    have hq3 : ¬ (q = 0) := by omega
    refine ⟨5, ?_⟩
    rcases h8 with h8 | ⟨hm1, h8⟩
    · subst h8
      rcases hnr with hnr | rfl
      · rcases hty with rfl | rfl <;>
        simp [Simulation.run_loop, Simulation.step, pop_min, Event.before, Simulation.handle,
      Simulation.deref, Thread.is_valid_transition, Thread.valid_transitions,
      Simulation.set_thread, Simulation.new_event, Simulation.add_event,
      Simulation.handle_dispatch_completed, Thread.set_running, Thread.get_next_burst,
      Simulation.dispatch_completed_slice, Simulation.dispatch_completed_full,
      Thread.pop_next_burst, Simulation.handle_thread_preempted, Thread.set_ready,
      Burst.update_time, Scheduler.add_to_ready_queue, RRScheduler.add_to_ready_queue,
      FCFSScheduler.add_to_ready_queue, Simulation.handle_dispatcher_invoked,
      Simulation.dispatch_next, Simulation.dispatch_with, Scheduler.get_next_thread,
      RRScheduler.get_next_thread, RRScheduler.size, FCFSScheduler.get_next_thread,
      FCFSScheduler.size, Simulation.handle_thread_completed, Thread.set_finished,
      Scheduler.empty, Scheduler.size, Simulation.handle_cpu_burst_completed,
      Thread.set_blocked, Simulation.handle_io_burst_completed, Simulation.popped,
      preemptions, thread_dispatches, DispatchPending, EventType.is_dispatch_completed, hnr, hq1, hq2, hq3]
      · rcases hty with rfl | rfl <;>
        simp [Simulation.run_loop, Simulation.step, pop_min, Event.before, Simulation.handle,
      Simulation.deref, Thread.is_valid_transition, Thread.valid_transitions,
      Simulation.set_thread, Simulation.new_event, Simulation.add_event,
      Simulation.handle_dispatch_completed, Thread.set_running, Thread.get_next_burst,
      Simulation.dispatch_completed_slice, Simulation.dispatch_completed_full,
      Thread.pop_next_burst, Simulation.handle_thread_preempted, Thread.set_ready,
      Burst.update_time, Scheduler.add_to_ready_queue, RRScheduler.add_to_ready_queue,
      FCFSScheduler.add_to_ready_queue, Simulation.handle_dispatcher_invoked,
      Simulation.dispatch_next, Simulation.dispatch_with, Scheduler.get_next_thread,
      RRScheduler.get_next_thread, RRScheduler.size, FCFSScheduler.get_next_thread,
      FCFSScheduler.size, Simulation.handle_thread_completed, Thread.set_finished,
      Scheduler.empty, Scheduler.size, Simulation.handle_cpu_burst_completed,
      Thread.set_blocked, Simulation.handle_io_burst_completed, Simulation.popped,
      preemptions, thread_dispatches, DispatchPending, EventType.is_dispatch_completed, hq1, hq2, hq3]
    · subst h8 hm1
      rcases hty with rfl | rfl <;>
      simp [Simulation.run_loop, Simulation.step, pop_min, Event.before, Simulation.handle,
      Simulation.deref, Thread.is_valid_transition, Thread.valid_transitions,
      Simulation.set_thread, Simulation.new_event, Simulation.add_event,
      Simulation.handle_dispatch_completed, Thread.set_running, Thread.get_next_burst,
      Simulation.dispatch_completed_slice, Simulation.dispatch_completed_full,
      Thread.pop_next_burst, Simulation.handle_thread_preempted, Thread.set_ready,
      Burst.update_time, Scheduler.add_to_ready_queue, RRScheduler.add_to_ready_queue,
      FCFSScheduler.add_to_ready_queue, Simulation.handle_dispatcher_invoked,
      Simulation.dispatch_next, Simulation.dispatch_with, Scheduler.get_next_thread,
      RRScheduler.get_next_thread, RRScheduler.size, FCFSScheduler.get_next_thread,
      FCFSScheduler.size, Simulation.handle_thread_completed, Thread.set_finished,
      Scheduler.empty, Scheduler.size, Simulation.handle_cpu_burst_completed,
      Thread.set_blocked, Simulation.handle_io_burst_completed, Simulation.popped,
      preemptions, thread_dispatches, DispatchPending, EventType.is_dispatch_completed, hq1, hq2, hq3]
  · subst hq0
    refine ⟨4, ?_⟩
    rcases h8 with h8 | ⟨hm1, h8⟩
    · subst h8
      rcases hnr with hnr | rfl
      · rcases hty with rfl | rfl <;>
        simp [Simulation.run_loop, Simulation.step, pop_min, Event.before, Simulation.handle,
      Simulation.deref, Thread.is_valid_transition, Thread.valid_transitions,
      Simulation.set_thread, Simulation.new_event, Simulation.add_event,
      Simulation.handle_dispatch_completed, Thread.set_running, Thread.get_next_burst,
      Simulation.dispatch_completed_slice, Simulation.dispatch_completed_full,
      Thread.pop_next_burst, Simulation.handle_thread_preempted, Thread.set_ready,
      Burst.update_time, Scheduler.add_to_ready_queue, RRScheduler.add_to_ready_queue,
      FCFSScheduler.add_to_ready_queue, Simulation.handle_dispatcher_invoked,
      Simulation.dispatch_next, Simulation.dispatch_with, Scheduler.get_next_thread,
      RRScheduler.get_next_thread, RRScheduler.size, FCFSScheduler.get_next_thread,
      FCFSScheduler.size, Simulation.handle_thread_completed, Thread.set_finished,
      Scheduler.empty, Scheduler.size, Simulation.handle_cpu_burst_completed,
      Thread.set_blocked, Simulation.handle_io_burst_completed, Simulation.popped,
      preemptions, thread_dispatches, DispatchPending, EventType.is_dispatch_completed, hnr]
      · rcases hty with rfl | rfl <;>
        simp [Simulation.run_loop, Simulation.step, pop_min, Event.before, Simulation.handle,
      Simulation.deref, Thread.is_valid_transition, Thread.valid_transitions,
      Simulation.set_thread, Simulation.new_event, Simulation.add_event,
      Simulation.handle_dispatch_completed, Thread.set_running, Thread.get_next_burst,
      Simulation.dispatch_completed_slice, Simulation.dispatch_completed_full,
      Thread.pop_next_burst, Simulation.handle_thread_preempted, Thread.set_ready,
      Burst.update_time, Scheduler.add_to_ready_queue, RRScheduler.add_to_ready_queue,
      FCFSScheduler.add_to_ready_queue, Simulation.handle_dispatcher_invoked,
      Simulation.dispatch_next, Simulation.dispatch_with, Scheduler.get_next_thread,
      RRScheduler.get_next_thread, RRScheduler.size, FCFSScheduler.get_next_thread,
      FCFSScheduler.size, Simulation.handle_thread_completed, Thread.set_finished,
      Scheduler.empty, Scheduler.size, Simulation.handle_cpu_burst_completed,
      Thread.set_blocked, Simulation.handle_io_burst_completed, Simulation.popped,
      preemptions, thread_dispatches, DispatchPending, EventType.is_dispatch_completed]
    · subst h8 hm1
      rcases hty with rfl | rfl <;>
      simp [Simulation.run_loop, Simulation.step, pop_min, Event.before, Simulation.handle,
      Simulation.deref, Thread.is_valid_transition, Thread.valid_transitions,
      Simulation.set_thread, Simulation.new_event, Simulation.add_event,
      Simulation.handle_dispatch_completed, Thread.set_running, Thread.get_next_burst,
      Simulation.dispatch_completed_slice, Simulation.dispatch_completed_full,
      Thread.pop_next_burst, Simulation.handle_thread_preempted, Thread.set_ready,
      Burst.update_time, Scheduler.add_to_ready_queue, RRScheduler.add_to_ready_queue,
      FCFSScheduler.add_to_ready_queue, Simulation.handle_dispatcher_invoked,
      Simulation.dispatch_next, Simulation.dispatch_with, Scheduler.get_next_thread,
      RRScheduler.get_next_thread, RRScheduler.size, FCFSScheduler.get_next_thread,
      FCFSScheduler.size, Simulation.handle_thread_completed, Thread.set_finished,
      Scheduler.empty, Scheduler.size, Simulation.handle_cpu_burst_completed,
      Thread.set_blocked, Simulation.handle_io_burst_completed, Simulation.popped,
      preemptions, thread_dispatches, DispatchPending, EventType.is_dispatch_completed]

/-- The first two events of a run with one thread: its arrival and the first
dispatcher call. -/
theorem single_thread_start (tso pso pid : Int) (prio : Fin 4) (a : Int) (lengths : List Int)
    (sched : Scheduler) (slice : Int)
    (hsched : sched = Scheduler.rr (RRScheduler.create slice) ∨
      (slice = -1 ∧ sched = Scheduler.fcfs {})) :
    ∃ st, ((Simulation.init sched).read_file
        (single_thread_input tso pso pid prio a lengths)).run_loop 2 = .ok st ∧
      DispatchPending st slice
        { thread_id := 0, process_id := pid, arrival_time := a, priority := prio,
          previous_state := ThreadState.NEW, current_state := ThreadState.READY,
          state_change_time := a, bursts := mk_bursts 0 lengths }
        EventType.PROCESS_DISPATCH_COMPLETED (a + pso) ∧
      st.thread_switch_overhead = tso ∧
      (((Simulation.init sched).read_file
        (single_thread_input tso pso pid prio a lengths)).popped 2).length = 2 ∧
      preemptions (((Simulation.init sched).read_file
        (single_thread_input tso pso pid prio a lengths)).popped 2) = 0 ∧
      thread_dispatches (((Simulation.init sched).read_file
        (single_thread_input tso pso pid prio a lengths)).popped 2) = 0 := by
  rcases hsched with rfl | ⟨rfl, rfl⟩ <;>
  simp [Simulation.init, Simulation.read_file, single_thread_input, Simulation.read_process,
    Simulation.read_threads, Simulation.read_thread, Simulation.handle_thread_arrived,
    RRScheduler.create, Simulation.run_loop, Simulation.step, pop_min, Event.before, Simulation.handle,
      Simulation.deref, Thread.is_valid_transition, Thread.valid_transitions,
      Simulation.set_thread, Simulation.new_event, Simulation.add_event,
      Simulation.handle_dispatch_completed, Thread.set_running, Thread.get_next_burst,
      Simulation.dispatch_completed_slice, Simulation.dispatch_completed_full,
      Thread.pop_next_burst, Simulation.handle_thread_preempted, Thread.set_ready,
      Burst.update_time, Scheduler.add_to_ready_queue, RRScheduler.add_to_ready_queue,
      FCFSScheduler.add_to_ready_queue, Simulation.handle_dispatcher_invoked,
      Simulation.dispatch_next, Simulation.dispatch_with, Scheduler.get_next_thread,
      RRScheduler.get_next_thread, RRScheduler.size, FCFSScheduler.get_next_thread,
      FCFSScheduler.size, Simulation.handle_thread_completed, Thread.set_finished,
      Scheduler.empty, Scheduler.size, Simulation.handle_cpu_burst_completed,
      Thread.set_blocked, Simulation.handle_io_burst_completed, Simulation.popped,
      preemptions, thread_dispatches, DispatchPending, EventType.is_dispatch_completed]

theorem rr_burst_loop {slice : Int} (hs : 1 ≤ slice) (n : Nat) :
    ∀ (st : Simulation) (t : Thread) (ty : EventType) (τ r : Int),
      DispatchPending st slice t ty τ → t.current_state = ThreadState.READY →
      t.bursts = [{ burst_type := BurstType.CPU, length := r }] →
      (n : Int) * slice < r → r ≤ ((n : Int) + 1) * slice →
      ∃ st2 σ, st.run_loop (3 * n + 2) = .ok st2 ∧ st2.events = [] ∧
        st2.threads = [{ t with previous_state := ThreadState.RUNNING,
                                current_state := ThreadState.EXIT,
                                state_change_time := τ + r + n * st.thread_switch_overhead,
                                end_time := τ + r + n * st.thread_switch_overhead,
                                start_time := σ,
                                service_time := t.service_time + r,
                                bursts := [] }] ∧
        (st.popped (3 * n + 2)).length = 3 * n + 2 ∧
        preemptions (st.popped (3 * n + 2)) = n := by
  induction n with
  | zero =>
    intro st t ty τ r h hst hb _ hr2
    obtain ⟨st2, h1, h2, h3, h4, h5, -⟩ :=
      dispatch_pending_finish h hst hb (Or.inr (by simpa using hr2))
    exact ⟨st2, _, h1, h2, by simpa using h3, h4, h5⟩
  | succ n ih =>
    intro st t ty τ r h hst hb hr1 hr2
    have hn : (0 : Int) ≤ (n : Int) * slice := by positivity
    push_cast at hr1 hr2
    have hlt : slice < r := by nlinarith
    obtain ⟨-, st3, h1, h2, h3, h4, h5, -⟩ :=
      dispatch_pending_preempt h hst hb (by omega) hlt
    obtain ⟨st2, σ, g1, g2, g3, g4, g5⟩ := ih st3 _ _ _ (r - slice) h2 rfl rfl
      (by nlinarith) (by nlinarith)
    refine ⟨st2, σ, ?_, g2, ?_, ?_, ?_⟩
    · rw [show 3 * (n + 1) + 2 = 3 + (3 * n + 2) by omega, Simulation.run_loop_add, h1]
      exact g1
    · rw [g3, h3]
      rcases t with ⟨tid, pid, arr, stt, ent, svc0, iot, sct, prio, cs, ps, bursts⟩
      simp only [List.cons.injEq, and_true, Thread.mk.injEq, true_and]
      refine ⟨?_, ?_, ?_⟩
      · push_cast; ring
      · ring
      · push_cast; ring
    · rw [show 3 * (n + 1) + 2 = 3 + (3 * n + 2) by omega, Simulation.popped_add, h1]
      simp only [List.length_append, h4, g4]
    · rw [show 3 * (n + 1) + 2 = 3 + (3 * n + 2) by omega, Simulation.popped_add, h1]
      simp only [preemptions_append, h5, g5]
      omega

theorem rr_burst_prefix {slice : Int} (hs : 1 ≤ slice) (k : Nat) :
    ∀ (st : Simulation) (t : Thread) (ty : EventType) (τ r : Int),
      DispatchPending st slice t ty τ → t.current_state = ThreadState.READY →
      t.bursts = [{ burst_type := BurstType.CPU, length := r }] →
      (k : Int) * slice < r →
      ∃ st2 t2 ty2 τ2, st.run_loop (3 * k) = .ok st2 ∧ DispatchPending st2 slice t2 ty2 τ2 ∧
        t2.current_state = ThreadState.READY ∧
        t2.bursts = [{ burst_type := BurstType.CPU, length := r - k * slice }] ∧
        (st.popped (3 * k)).length = 3 * k ∧
        preemptions (st.popped (3 * k)) = k := by
  induction k with
  | zero =>
    intro st t ty τ r h hst hb _
    exact ⟨st, t, ty, τ, rfl, h, hst, by simpa using hb, rfl, rfl⟩
  | succ k ih =>
    intro st t ty τ r h hst hb hr1
    have hn : (0 : Int) ≤ (k : Int) * slice := by positivity
    push_cast at hr1
    have hlt : slice < r := by nlinarith
    obtain ⟨-, st3, h1, h2, h3, h4, h5, -⟩ :=
      dispatch_pending_preempt h hst hb (by omega) hlt
    obtain ⟨st2, t2, ty2, τ2, g1, g2, g3, g4, g5, g6⟩ := ih st3 _ _ _ (r - slice) h2 rfl rfl
      (by nlinarith)
    refine ⟨st2, t2, ty2, τ2, ?_, g2, g3, ?_, ?_, ?_⟩
    · rw [show 3 * (k + 1) = 3 + 3 * k by omega, Simulation.run_loop_add, h1]
      exact g1
    · rw [g4]
      simp only [List.cons.injEq, and_true, Burst.mk.injEq, true_and]
      push_cast; ring
    · rw [show 3 * (k + 1) = 3 + 3 * k by omega, Simulation.popped_add, h1]
      simp only [List.length_append, h4, g5]
    · rw [show 3 * (k + 1) = 3 + 3 * k by omega, Simulation.popped_add, h1]
      simp only [preemptions_append, h5, g6]
      omega

theorem rr_preemptions_spec {L s : Int} (hL : 1 ≤ L) (hs : 1 ≤ s) :
    ((rr_preemptions L s : Nat) : Int) * s < L ∧
    L ≤ (((rr_preemptions L s : Nat) : Int) + 1) * s ∧
    ((rr_preemptions L s : Nat) : Int) = ⌈(L : ℚ) / (s : ℚ)⌉ - 1 := by
  have hs0 : (0 : Int) < s := by omega
  have hq0 : 0 ≤ (L - 1) / s := Int.ediv_nonneg (by omega) (by omega)
  have hcast : ((rr_preemptions L s : Nat) : Int) = (L - 1) / s := by
    simp [rr_preemptions, Int.toNat_of_nonneg hq0]
  have h1 : (L - 1) / s * s ≤ L - 1 := Int.ediv_mul_le _ (by omega)
  have h2 : L - 1 < ((L - 1) / s + 1) * s := Int.lt_ediv_add_one_mul_self _ hs0
  rw [hcast]
  refine ⟨by omega, by omega, ?_⟩
  have hsq : (0 : ℚ) < (s : ℚ) := by exact_mod_cast hs0
  have hc : ⌈(L : ℚ) / (s : ℚ)⌉ = (L - 1) / s + 1 := by
    rw [Int.ceil_eq_iff]
    constructor
    · rw [lt_div_iff₀ hsq]
      have : (((L - 1) / s) * s : Int) < L := by omega
      have h3 : ((((L - 1) / s) * s : Int) : ℚ) < (L : ℚ) := by exact_mod_cast this
      push_cast at h3 ⊢
      linarith
    · rw [div_le_iff₀ hsq]
      have : L ≤ ((L - 1) / s + 1) * s := by omega
      exact_mod_cast this
  rw [hc]; ring

/-- C8: one thread with a single CPU burst of length `L ≥ 1` under round-robin
with slice `s ≥ 1`, for any overheads and arrival time. The run ends after
`3 * (⌈L/s⌉ − 1) + 4` events with the thread in EXIT and service_time = `L`;
exactly `⌈L/s⌉ − 1` THREAD_PREEMPTED events are popped; and when the handler
of the `k`-th of them returns, the burst has `L − k * s` left. -/
theorem rr_single_burst_run (tso pso pid : Int) (prio : Fin 4) (a L s : Int)
    (hL : 1 ≤ L) (hs : 1 ≤ s) :
    ((rr_preemptions L s : Nat) : Int) = ⌈(L : ℚ) / (s : ℚ)⌉ - 1 ∧
    (∃ st, Simulation.run (3 * rr_preemptions L s + 4) (Scheduler.rr (RRScheduler.create s))
        (single_thread_input tso pso pid prio a [L]) = .ok st ∧
      st.events = [] ∧
      st.threads.map (fun t => (t.current_state, t.service_time, t.bursts))
        = [(ThreadState.EXIT, L, [])]) ∧
    preemptions (Simulation.run_popped (3 * rr_preemptions L s + 4)
        (Scheduler.rr (RRScheduler.create s))
        (single_thread_input tso pso pid prio a [L])) = rr_preemptions L s ∧
    (∀ k : Nat, 1 ≤ k → k ≤ rr_preemptions L s →
      ∃ st, Simulation.run (3 * k + 1) (Scheduler.rr (RRScheduler.create s))
          (single_thread_input tso pso pid prio a [L]) = .ok st ∧
        st.threads.map (fun t => t.bursts)
          = [[{ burst_type := BurstType.CPU, length := L - k * s }]] ∧
        ((Simulation.run_popped (3 * k + 1) (Scheduler.rr (RRScheduler.create s))
          (single_thread_input tso pso pid prio a [L])).map (fun e => e.type)).getLast?
          = some EventType.THREAD_PREEMPTED ∧
        preemptions (Simulation.run_popped (3 * k + 1) (Scheduler.rr (RRScheduler.create s))
          (single_thread_input tso pso pid prio a [L])) = k) := by
  obtain ⟨hP1, hP2, hP3⟩ := rr_preemptions_spec hL hs
  obtain ⟨st0, i1, i2, i3, i4, i5, -⟩ := single_thread_start tso pso pid prio a [L]
    (Scheduler.rr (RRScheduler.create s)) s (Or.inl rfl)
  have i2' : DispatchPending st0 s
      { thread_id := 0, process_id := pid, arrival_time := a, priority := prio,
        previous_state := ThreadState.NEW, current_state := ThreadState.READY,
        state_change_time := a,
        bursts := [{ burst_type := BurstType.CPU, length := L }] }
      EventType.PROCESS_DISPATCH_COMPLETED (a + pso) := by
    simpa [mk_bursts] using i2
  refine ⟨hP3, ?_, ?_, ?_⟩
  · obtain ⟨st2, σ, g1, g2, g3, g4, g5⟩ :=
      rr_burst_loop hs (rr_preemptions L s) st0 _ _ _ L i2' rfl rfl hP1 hP2
    refine ⟨st2, ?_, g2, ?_⟩
    · rw [Simulation.run, show 3 * rr_preemptions L s + 4 = 2 + (3 * rr_preemptions L s + 2) by
        omega, Simulation.run_loop_add, i1]
      exact g1
    · rw [g3]; simp
  · obtain ⟨st2, σ, g1, g2, g3, g4, g5⟩ :=
      rr_burst_loop hs (rr_preemptions L s) st0 _ _ _ L i2' rfl rfl hP1 hP2
    rw [Simulation.run_popped, show 3 * rr_preemptions L s + 4
      = 2 + (3 * rr_preemptions L s + 2) by omega, Simulation.popped_add, i1]
    simp only [preemptions_append, i5, g5]
    omega
  · intro k hk1 hk2
    obtain ⟨j, rfl⟩ : ∃ j, k = j + 1 := ⟨k - 1, by omega⟩
    have hkP : ((j + 1 : Nat) : Int) ≤ ((rr_preemptions L s : Nat) : Int) := by
      exact_mod_cast hk2
    have hks : ((j + 1 : Nat) : Int) * s < L := by
      push_cast at hkP ⊢
      nlinarith
    have hjs : (j : Int) * s < L := by
      push_cast at hks
      nlinarith
    obtain ⟨st1, t1, ty1, τ1, p1, p2, p3, p4, p5, p6⟩ :=
      rr_burst_prefix hs j st0 _ _ _ L i2' rfl rfl hjs
    obtain ⟨⟨st2, q1, q2, q3, q4⟩, -⟩ :=
      dispatch_pending_preempt p2 p3 p4 (by omega) (by push_cast at hks; nlinarith)
    have hfuel : 3 * (j + 1) + 1 = 2 + (3 * j + 2) := by omega
    refine ⟨st2, ?_, ?_, ?_, ?_⟩
    · rw [Simulation.run, hfuel, Simulation.run_loop_add, i1]
      dsimp only
      rw [Simulation.run_loop_add, p1]
      exact q1
    · rw [q2]
      simp only [List.map_cons, List.map_nil, List.cons.injEq, and_true, Burst.mk.injEq, true_and]
      push_cast; ring
    · rw [Simulation.run_popped, hfuel, Simulation.popped_add, i1]
      dsimp only
      rw [Simulation.popped_add, p1]
      simp only [List.map_append]
      rw [← List.append_assoc, List.getLast?_append, q3]
      rfl
    · rw [Simulation.run_popped, hfuel, Simulation.popped_add, i1]
      dsimp only
      rw [Simulation.popped_add, p1]
      simp only [preemptions_append, i5, p6, q4]
      omega

/-- Witness of C8: the case `L = 8`, `s = 3` without overhead of the
specification: two preemptions, with 5 and then 2 left, and service_time 8. -/
theorem rr_single_burst_run_witness :
    (1 : Int) ≤ 8 ∧ (1 : Int) ≤ 3 ∧
    (((rr_preemptions 8 3 : Nat) : Int) = ⌈((8 : Int) : ℚ) / ((3 : Int) : ℚ)⌉ - 1 ∧
    (∃ st, Simulation.run (3 * rr_preemptions 8 3 + 4) (Scheduler.rr (RRScheduler.create 3))
        (single_thread_input 0 0 1 0 0 [8]) = .ok st ∧
      st.events = [] ∧
      st.threads.map (fun t => (t.current_state, t.service_time, t.bursts))
        = [(ThreadState.EXIT, 8, [])]) ∧
    preemptions (Simulation.run_popped (3 * rr_preemptions 8 3 + 4)
        (Scheduler.rr (RRScheduler.create 3))
        (single_thread_input 0 0 1 0 0 [8])) = rr_preemptions 8 3 ∧
    (∀ k : Nat, 1 ≤ k → k ≤ rr_preemptions 8 3 →
      ∃ st, Simulation.run (3 * k + 1) (Scheduler.rr (RRScheduler.create 3))
          (single_thread_input 0 0 1 0 0 [8]) = .ok st ∧
        st.threads.map (fun t => t.bursts)
          = [[{ burst_type := BurstType.CPU, length := 8 - k * 3 }]] ∧
        ((Simulation.run_popped (3 * k + 1) (Scheduler.rr (RRScheduler.create 3))
          (single_thread_input 0 0 1 0 0 [8])).map (fun e => e.type)).getLast?
          = some EventType.THREAD_PREEMPTED ∧
        preemptions (Simulation.run_popped (3 * k + 1) (Scheduler.rr (RRScheduler.create 3))
          (single_thread_input 0 0 1 0 0 [8])) = k)) ∧
    rr_preemptions 8 3 = 2 :=
  ⟨by decide, by decide, rr_single_burst_run 0 0 1 0 0 8 3 (by decide) (by decide), by decide⟩


/-! ## Turnaround time of a single thread -/

theorem alternating_mk_bursts : ∀ (ls : List Int) (n : Nat), n % 2 = 0 →
    ls.length % 2 = 1 → (∀ l ∈ ls, (0 : Int) ≤ l) → alternating (mk_bursts n ls)
  | [], _, _, h, _ => by simp at h
  | [a], n, hn, _, _ => by simp [mk_bursts, alternating, hn]
  | a :: b :: rest, n, hn, hlen, hnn => by
    have hn1 : ¬ ((n + 1) % 2 = 0) := by omega
    have hn2 : (n + 1 + 1) % 2 = 0 := by omega
    have hrest := alternating_mk_bursts rest (n + 1 + 1) hn2
      (by simp only [List.length_cons] at hlen; omega)
      (fun l hl => hnn l (List.mem_cons_of_mem _ (List.mem_cons_of_mem _ hl)))
    simp only [mk_bursts, alternating, hn, hn1, if_true, if_false, true_and]
    exact ⟨hnn b (List.mem_cons_of_mem _ (List.mem_cons_self _ _)), hrest⟩

/-- From a pending dispatch of the only thread, with a well-formed burst
sequence left, the run ends with the thread in EXIT at the time of the
dispatch plus the lengths of all bursts left plus one thread-switch overhead
for each later dispatch. -/
theorem single_thread_loop {slice : Int} (hs : slice = -1 ∨ 1 ≤ slice) (N : Nat) :
    ∀ (st : Simulation) (t : Thread) (ty : EventType) (τ : Int) (bs : List Burst),
      DispatchPending st slice t ty τ → t.current_state = ThreadState.READY →
      t.bursts = bs → alternating bs → burst_measure bs ≤ N →
      (t.start_time = -1 → τ ≠ -1) →
      ∃ (fuel : Nat) (st2 : Simulation) (d : Nat),
        st.run_loop fuel = .ok st2 ∧ st2.events = [] ∧
        st2.threads = [{ t with
          previous_state := ThreadState.RUNNING,
          current_state := ThreadState.EXIT,
          state_change_time := τ + burst_total BurstType.CPU bs + burst_total BurstType.Io bs
            + d * st.thread_switch_overhead,
          end_time := τ + burst_total BurstType.CPU bs + burst_total BurstType.Io bs
            + d * st.thread_switch_overhead,
          start_time := if t.start_time = -1 then τ else t.start_time,
          service_time := t.service_time + burst_total BurstType.CPU bs,
          io_time := t.io_time + burst_total BurstType.Io bs,
          bursts := [] }] ∧
        thread_dispatches (st.popped fuel)
          = d + (if ty = EventType.THREAD_DISPATCH_COMPLETED then 1 else 0) := by
  induction N with
  | zero =>
    intro st t ty τ bs _ _ _ halt hm _
    cases bs with
    | nil => exact absurd halt (by simp [alternating])
    | cons b rest => simp [burst_measure] at hm
  | succ N ih =>
    intro st t ty τ bs h hst hb halt hm hstart
    have hstart1 : (if t.start_time = -1 then τ else t.start_time) ≠ -1 := by
      split
      · exact hstart ‹_›
      · assumption
    cases bs with
    | nil => exact absurd halt (by simp [alternating])
    | cons b rest =>
      obtain ⟨bt, r⟩ := b
      have hbt : bt = BurstType.CPU := by
        cases rest with
        | nil => exact halt
        | cons c rest2 => exact halt.1
      subst hbt
      by_cases hpre : slice ≠ -1 ∧ slice < r
      · -- the burst outruns the slice
        obtain ⟨hne, hlt⟩ := hpre
        have hs1 : 1 ≤ slice := by
          rcases hs with h0 | h0
          · exact absurd h0 hne
          · exact h0
        obtain ⟨-, st3, h1, h2, h3, -, -, h6⟩ := dispatch_pending_preempt h hst hb hne hlt
        have halt2 : alternating ({ burst_type := BurstType.CPU, length := r - slice } :: rest) := by
          cases rest with
          | nil => exact halt
          | cons c rest2 => exact halt
        have hm2 : burst_measure ({ burst_type := BurstType.CPU, length := r - slice } :: rest)
            ≤ N := by
          simp only [burst_measure] at hm ⊢
          omega
        obtain ⟨fuel, st2, d, g1, g2, g3, g4⟩ := ih st3 _ _ _ _ h2 rfl rfl halt2 hm2
          (fun h0 => absurd h0 hstart1)
        refine ⟨3 + fuel, st2, d + 1, ?_, g2, ?_, ?_⟩
        · rw [Simulation.run_loop_add, h1]; exact g1
        · rw [g3, h3]
          rcases t with ⟨tid, pid, arr, stt, ent, svc0, iot, sct, prio, cs, ps, bursts⟩
          simp only at hstart1
          simp only [List.cons.injEq, and_true, Thread.mk.injEq, true_and, burst_total,
            if_true, hstart1, if_false]
          refine ⟨?_, ?_, ?_, ?_⟩ <;> push_cast <;> (try simp) <;> ring
        · rw [Simulation.popped_add, h1]
          simp only [thread_dispatches_append, h6, g4, if_true]
          omega
      · -- the burst fits the slice
        have hfit : slice = -1 ∨ r ≤ slice := by
          by_cases h0 : slice = -1
          · exact Or.inl h0
          · exact Or.inr (by
              by_contra hcon
              exact hpre ⟨h0, by omega⟩)
        cases rest with
        | nil =>
          obtain ⟨st2, h1, h2, h3, -, -, h6⟩ := dispatch_pending_finish h hst hb hfit
          refine ⟨2, st2, 0, h1, h2, ?_, ?_⟩
          · rw [h3]
            simp [burst_total]
          · rw [h6]; simp
        | cons c rest2 =>
          obtain ⟨ct, q⟩ := c
          obtain ⟨-, hct, hq, halt2⟩ := halt
          simp only at hct hq
          subst hct
          obtain ⟨k, st3, h1, h2, h3, -, h6⟩ := dispatch_pending_io h hst hb hfit hq
          have hm2 : burst_measure rest2 ≤ N := by
            simp only [burst_measure] at hm ⊢
            omega
          obtain ⟨fuel, st2, d, g1, g2, g3, g4⟩ := ih st3 _ _ _ _ h2 rfl rfl halt2 hm2
            (fun h0 => absurd h0 hstart1)
          refine ⟨k + fuel, st2, d + 1, ?_, g2, ?_, ?_⟩
          · rw [Simulation.run_loop_add, h1]; exact g1
          · rw [g3, h3]
            rcases t with ⟨tid, pid, arr, stt, ent, svc0, iot, sct, prio, cs, ps, bursts⟩
            simp only at hstart1
            simp only [List.cons.injEq, and_true, Thread.mk.injEq, true_and, burst_total,
              if_true, hstart1, if_false]
            refine ⟨?_, ?_, ?_, ?_⟩ <;> push_cast <;> (try simp) <;> ring
          · rw [Simulation.popped_add, h1]
            simp only [thread_dispatches_append, h6, g4, if_true]
            omega

/-- C10, as stated, fails: on `io_input` (one thread, bursts CPU 1, I/O 1,
CPU 1, thread-switch overhead 1) the FCFS run ends after nine events with the
thread in EXIT, turnaround_time 4, service_time 2, io_time 1 and start_time
equal to arrival_time; under round-robin with slice 1 a single burst of
length 2 with thread-switch overhead 1 ends with turnaround_time 3 and
service_time 2; and on `waiting_input` (two threads, both overheads 0) the
FCFS run ends after sixteen events with the second thread in EXIT,
turnaround_time 12, service_time 2, io_time 1 and start_time equal to
arrival_time: from time 3 to time 12 the thread waits READY. The runs are
those of the engine with `int` event times; in these three no sum leaves the
range of `int`, and the engine with sums in the integers returns the same
states. On `late_io_input` (arrival at 2147483000, bursts CPU 1, I/O 1000,
CPU 1, overheads 0) the `int` sum `event->time + io_burst->length` leaves the
range of `int`, the IO_BURST_COMPLETED event is popped at once, and the thread
ends with turnaround_time 2, below its service_time 2 plus its io_time
1000. -/
theorem turnaround_exceeds_service_io_wait :
    (∃ st t, Simulation.run_int 9 (Scheduler.fcfs {}) io_input = .ok st ∧
      Simulation.run 9 (Scheduler.fcfs {}) io_input = .ok st ∧ st.events = [] ∧
      st.threads = [t] ∧ t.current_state = ThreadState.EXIT ∧
      t.turnaround_time = 4 ∧ t.service_time = 2 ∧ t.io_time = 1 ∧
      t.start_time - t.arrival_time = 0 ∧
      t.turnaround_time ≠ t.service_time + t.io_time + (t.start_time - t.arrival_time)) ∧
    (∃ st t, Simulation.run_int 7 (Scheduler.rr (RRScheduler.create 1))
        (single_thread_input 1 0 1 0 0 [2]) = .ok st ∧
      Simulation.run 7 (Scheduler.rr (RRScheduler.create 1))
        (single_thread_input 1 0 1 0 0 [2]) = .ok st ∧ st.events = [] ∧
      st.threads = [t] ∧ t.current_state = ThreadState.EXIT ∧
      t.turnaround_time = 3 ∧ t.service_time = 2 ∧ t.io_time = 0 ∧
      t.start_time - t.arrival_time = 0 ∧
      t.turnaround_time ≠ t.service_time + t.io_time + (t.start_time - t.arrival_time)) ∧
    (∃ st t0 t, Simulation.run_int 16 (Scheduler.fcfs {}) waiting_input = .ok st ∧
      Simulation.run 16 (Scheduler.fcfs {}) waiting_input = .ok st ∧ st.events = [] ∧
      st.threads = [t0, t] ∧ t.current_state = ThreadState.EXIT ∧
      t.turnaround_time = 12 ∧ t.service_time = 2 ∧ t.io_time = 1 ∧
      t.start_time - t.arrival_time = 0 ∧
      t.turnaround_time ≠ t.service_time + t.io_time + (t.start_time - t.arrival_time)) ∧
    (∃ st t, Simulation.run_int 8 (Scheduler.fcfs {}) late_io_input = .ok st ∧
      st.events = [] ∧ st.threads = [t] ∧ t.current_state = ThreadState.EXIT ∧
      t.turnaround_time = 2 ∧ t.service_time = 2 ∧ t.io_time = 1000 ∧
      t.start_time - t.arrival_time = 0 ∧
      t.turnaround_time < t.service_time + t.io_time + (t.start_time - t.arrival_time)) := by
  have h1 := (Simulation.run_int_of_run_fits
    (show Simulation.run_fits 9 (Scheduler.fcfs {}) io_input by decide)).1
  have h2 := (Simulation.run_int_of_run_fits
    (show Simulation.run_fits 7 (Scheduler.rr (RRScheduler.create 1))
      (single_thread_input 1 0 1 0 0 [2]) by decide)).1
  have h3 := (Simulation.run_int_of_run_fits
    (show Simulation.run_fits 16 (Scheduler.fcfs {}) waiting_input by decide)).1
  exact
    ⟨⟨_, _, rfl, h1.symm.trans rfl, rfl, rfl, rfl, rfl, rfl, rfl, rfl, by decide⟩,
     ⟨_, _, rfl, h2.symm.trans rfl, rfl, rfl, rfl, rfl, rfl, rfl, rfl, by decide⟩,
     ⟨_, _, _, rfl, h3.symm.trans rfl, rfl, rfl, rfl, rfl, rfl, rfl, rfl, by decide⟩,
     ⟨_, _, rfl, rfl, rfl, rfl, rfl, rfl, rfl, rfl, by decide⟩⟩

/-- A run with a single thread, in the engine with sums in the integers: when
the record of the thread is well-formed (an odd number of non-negative burst
lengths, alternating CPU and I/O), with non-negative arrival time and
process-switch overhead, under FCFS or round-robin with a slice of at least 1,
the run ends with the thread in EXIT, service_time and io_time are the sums of
its CPU and I/O burst lengths, and turnaround_time exceeds
service_time + io_time + (start_time − arrival_time) by
thread_switch_overhead × the number of THREAD_DISPATCH_COMPLETED events of
the run, one for each dispatch of the thread after its first. -/
theorem single_thread_turnaround (tso pso pid : Int) (prio : Fin 4) (a : Int)
    (lengths : List Int) (sched : Scheduler) (slice : Int)
    (hsched : (sched = Scheduler.rr (RRScheduler.create slice) ∧ 1 ≤ slice) ∨
      (slice = -1 ∧ sched = Scheduler.fcfs {}))
    (hodd : lengths.length % 2 = 1) (hnn : ∀ l ∈ lengths, (0 : Int) ≤ l)
    (ha : 0 ≤ a) (hpso : 0 ≤ pso) :
    ∃ (fuel : Nat) (st : Simulation) (t : Thread),
      Simulation.run fuel sched (single_thread_input tso pso pid prio a lengths) = .ok st ∧
      st.events = [] ∧ st.threads = [t] ∧ t.current_state = ThreadState.EXIT ∧
      t.service_time = burst_total BurstType.CPU (mk_bursts 0 lengths) ∧
      t.io_time = burst_total BurstType.Io (mk_bursts 0 lengths) ∧
      t.turnaround_time = t.service_time + t.io_time + (t.start_time - t.arrival_time)
        + tso * thread_dispatches (Simulation.run_popped fuel sched
            (single_thread_input tso pso pid prio a lengths)) ∧
      (tso = 0 →
        t.turnaround_time = t.service_time + t.io_time + (t.start_time - t.arrival_time)) := by
  have hs : slice = -1 ∨ 1 ≤ slice := by
    rcases hsched with ⟨-, h⟩ | ⟨h, -⟩
    · exact Or.inr h
    · exact Or.inl h
  have hsched2 : sched = Scheduler.rr (RRScheduler.create slice) ∨
      (slice = -1 ∧ sched = Scheduler.fcfs {}) := by
    rcases hsched with ⟨h, -⟩ | h
    · exact Or.inl h
    · exact Or.inr h
  obtain ⟨st0, i1, i2, i3, -, -, i6⟩ :=
    single_thread_start tso pso pid prio a lengths sched slice hsched2
  have halt := alternating_mk_bursts lengths 0 rfl hodd hnn
  obtain ⟨fuel, st2, d, g1, g2, g3, g4⟩ :=
    single_thread_loop hs (burst_measure (mk_bursts 0 lengths)) st0 _ _ _ _ i2 rfl rfl halt
      (le_refl _) (fun _ => by omega)
  have hpop : thread_dispatches (Simulation.run_popped (2 + fuel) sched
      (single_thread_input tso pso pid prio a lengths)) = d := by
    rw [Simulation.run_popped, Simulation.popped_add, i1]
    simp only [thread_dispatches_append, i6, g4]
    simp
  have hturn : ∀ t : Thread, st2.threads = [t] →
      t.turnaround_time = t.service_time + t.io_time + (t.start_time - t.arrival_time)
        + tso * d := by
    intro t ht
    rw [g3] at ht
    simp only [List.cons.injEq, and_true] at ht
    subst ht
    simp only [Thread.turnaround_time, i3, if_true]
    ring
  refine ⟨2 + fuel, st2, _, ?_, g2, g3, rfl, ?_, ?_, ?_, ?_⟩
  · rw [Simulation.run, Simulation.run_loop_add, i1]; exact g1
  · simp
  · simp
  · rw [hpop]; exact hturn _ g3
  · intro h0
    have := hturn _ g3
    rw [h0] at this
    simpa using this

/-! ## Field updates of the transitions -/

/-- C11: a successful transition at a time `time ≥ 0` rewrites
`previous_state` (old current state), `current_state` (the target) and
`state_change_time` (`time`); `set_running` also stores `time` in `start_time`
exactly when `start_time` still holds the initial −1, after which `start_time`
is no longer −1 and so is kept by every later entry into RUNNING;
`set_finished` also stores `time` in `end_time`; every other field is as
before. The generic `set_state` writes the three common fields only. -/
theorem transition_updates_fields (t : Thread) (time : Int) (htime : 0 ≤ time) :
    ((t.set_ready time).1 = Except.ok () →
      (t.set_ready time).2 =
        { t with previous_state := t.current_state, current_state := ThreadState.READY,
                 state_change_time := time }) ∧
    ((t.set_running time).1 = Except.ok () →
      (t.set_running time).2 =
        { t with previous_state := t.current_state, current_state := ThreadState.RUNNING,
                 state_change_time := time,
                 start_time := if t.start_time = -1 then time else t.start_time } ∧
      (t.set_running time).2.start_time ≠ -1) ∧
    ((t.set_blocked time).1 = Except.ok () →
      (t.set_blocked time).2 =
        { t with previous_state := t.current_state, current_state := ThreadState.BLOCKED,
                 state_change_time := time }) ∧
    ((t.set_finished time).1 = Except.ok () →
      (t.set_finished time).2 =
        { t with previous_state := t.current_state, current_state := ThreadState.EXIT,
                 state_change_time := time, end_time := time }) ∧
    (∀ dst, (t.set_state dst time).1 = Except.ok () →
      (t.set_state dst time).2 =
        { t with previous_state := t.current_state, current_state := dst,
                 state_change_time := time }) := by
  refine ⟨?_, ?_, ?_, ?_, ?_⟩
  · unfold Thread.set_ready
    split <;> simp
  · unfold Thread.set_running
    split
    · simp
    · refine fun _ => ⟨rfl, ?_⟩
      show (if t.start_time = -1 then time else t.start_time) ≠ -1
      split <;> omega
  · unfold Thread.set_blocked
    split <;> simp
  · unfold Thread.set_finished
    split <;> simp
  · intro dst
    unfold Thread.set_state
    split <;> simp

/-- Witness of C11: a READY thread that has not run yet enters RUNNING at time
3 and gets `start_time` 3. -/
theorem transition_updates_fields_witness :
    (0 : Int) ≤ 3 ∧
    (Thread.set_running
      { priority := 0, current_state := ThreadState.READY, previous_state := ThreadState.NEW,
        bursts := [] } 3).1 = Except.ok () ∧
    (Thread.set_running
      { priority := 0, current_state := ThreadState.READY, previous_state := ThreadState.NEW,
        bursts := [] } 3).2 =
      { priority := 0, current_state := ThreadState.RUNNING,
        previous_state := ThreadState.READY, bursts := [], state_change_time := 3,
        start_time := 3 } :=
  ⟨by decide, rfl,
   ((transition_updates_fields
      { priority := 0, current_state := ThreadState.READY, previous_state := ThreadState.NEW,
        bursts := [] } 3 (by decide)).2.1 rfl).1⟩

/-! ## The message of a refused transition -/

/-- The four dedicated setters name the current state and their own target in
the message of a refused transition. -/
theorem Thread.setter_message (t : Thread) (time : Int) :
    (Thread.is_valid_transition t.current_state ThreadState.READY = false →
      (t.set_ready time).1 = Except.error
        ("Invalid transition from " ++ Thread.threadstate_string t.current_state ++
          " to " ++ Thread.threadstate_string ThreadState.READY)) ∧
    (Thread.is_valid_transition t.current_state ThreadState.RUNNING = false →
      (t.set_running time).1 = Except.error
        ("Invalid transition from " ++ Thread.threadstate_string t.current_state ++
          " to " ++ Thread.threadstate_string ThreadState.RUNNING)) ∧
    (Thread.is_valid_transition t.current_state ThreadState.BLOCKED = false →
      (t.set_blocked time).1 = Except.error
        ("Invalid transition from " ++ Thread.threadstate_string t.current_state ++
          " to " ++ Thread.threadstate_string ThreadState.BLOCKED)) ∧
    (Thread.is_valid_transition t.current_state ThreadState.EXIT = false →
      (t.set_finished time).1 = Except.error
        ("Invalid transition from " ++ Thread.threadstate_string t.current_state ++
          " to " ++ Thread.threadstate_string ThreadState.EXIT)) := by
  refine ⟨?_, ?_, ?_, ?_⟩ <;> intro h <;>
    simp [Thread.set_ready, Thread.set_running, Thread.set_blocked, Thread.set_finished, h,
      Thread.threadstate_string, String.append_assoc]

/-- The generic `set_state` names EXIT as the target of every refused
transition. -/
theorem Thread.set_state_message (t : Thread) (dst : ThreadState) (time : Int)
    (h : Thread.is_valid_transition t.current_state dst = false) :
    (t.set_state dst time).1 = Except.error
      ("Invalid transition from " ++ Thread.threadstate_string t.current_state ++ " to EXIT") := by
  simp [Thread.set_state, h]

/-- C12: `set_state(RUNNING, 0)` on a NEW thread is refused with the message
"Invalid transition from NEW to EXIT", which names EXIT and not the requested
target RUNNING, while `set_running(0)` on the same thread names RUNNING. -/
theorem set_state_message_names_exit :
    (Thread.set_state { priority := 0, previous_state := ThreadState.NEW, bursts := [] }
        ThreadState.RUNNING 0).1 = Except.error "Invalid transition from NEW to EXIT" ∧
    (Thread.set_running { priority := 0, previous_state := ThreadState.NEW, bursts := [] } 0).1
      = Except.error "Invalid transition from NEW to RUNNING" ∧
    "Invalid transition from NEW to EXIT" ≠ "Invalid transition from NEW to RUNNING" :=
  ⟨rfl, rfl, by decide⟩

/-! ## Time slices of the two schedulers -/

/-- C13: the FCFS constructor raises an error exactly when the configured
slice is not −1, and every decision of `get_next_thread` of an FCFS scheduler,
taken directly or through the scheduler interface, has `time_slice` −1 (the
default of a fresh decision, which FCFS never writes). -/
theorem fcfs_slice_is_minus_one (k : Int) :
    ((∃ msg, FCFSScheduler.create k = Except.error msg) ↔ k ≠ -1) ∧
    (FCFSScheduler.create (-1) = Except.ok { ready_queue := [] }) ∧
    (∀ s : FCFSScheduler, (s.get_next_thread).1.time_slice = -1) ∧
    (∀ s : FCFSScheduler, ((Scheduler.fcfs s).get_next_thread).1.time_slice = -1) := by
  have hget : ∀ s : FCFSScheduler, (s.get_next_thread).1.time_slice = -1 := by
    intro s
    rcases s with ⟨_ | ⟨head, rest⟩⟩
    · rfl
    · rw [FCFSScheduler.get_cons_fcfs]
  refine ⟨?_, rfl, hget, fun s => hget s⟩
  unfold FCFSScheduler.create
  split
  · rename_i h
    exact ⟨fun _ => h, fun _ => ⟨_, rfl⟩⟩
  · rename_i h
    refine ⟨?_, fun h2 => absurd h2 h⟩
    rintro ⟨msg, hmsg⟩
    cases hmsg

/-- C14: a round-robin scheduler configured with the slice `slice` hands out
that slice with every decision that selects a thread, and neither
`get_next_thread` nor `add_to_ready_queue`, nor any sequence of such calls
through the scheduler interface, changes the configured slice. -/
theorem rr_decision_carries_slice (slice : Int) (queue : List Nat) :
    ((RRScheduler.get_next_thread ⟨slice, queue⟩).1.thread ≠ none →
      (RRScheduler.get_next_thread ⟨slice, queue⟩).1.time_slice = slice) ∧
    ((RRScheduler.get_next_thread ⟨slice, queue⟩).1.thread ≠ none ↔ queue ≠ []) ∧
    (RRScheduler.get_next_thread ⟨slice, queue⟩).2.time_slice = slice ∧
    (∀ thread, (RRScheduler.add_to_ready_queue ⟨slice, queue⟩ thread).time_slice = slice) ∧
    (∀ ops, ∃ rest, ((Scheduler.rr ⟨slice, queue⟩).run_ops ops).2 = Scheduler.rr ⟨slice, rest⟩) := by
  refine ⟨?_, ?_, ?_, fun _ => rfl, ?_⟩
  · cases queue with
    | nil => intro h; exact absurd rfl h
    | cons head rest => intro _; rw [RRScheduler.get_cons_rr]
  · cases queue with
    | nil => simp [RRScheduler.get_nil_rr]
    | cons head rest => simp [RRScheduler.get_cons_rr]
  · cases queue with
    | nil => rfl
    | cons head rest => rw [RRScheduler.get_cons_rr]
  · intro ops
    induction ops generalizing queue with
    | nil => exact ⟨queue, rfl⟩
    | cons op ops ih =>
      cases op with
      | add thread =>
        obtain ⟨rest, hrest⟩ := ih (queue ++ [thread])
        refine ⟨rest, ?_⟩
        simpa [Scheduler.run_ops, Scheduler.add_to_ready_queue,
          RRScheduler.add_to_ready_queue] using hrest
      | get =>
        cases queue with
        | nil =>
          obtain ⟨rest, hrest⟩ := ih []
          refine ⟨rest, ?_⟩
          simpa [Scheduler.run_ops, Scheduler.get_next_thread, RRScheduler.get_nil_rr]
            using hrest
        | cons head tail =>
          obtain ⟨rest, hrest⟩ := ih tail
          refine ⟨rest, ?_⟩
          simpa [Scheduler.run_ops, Scheduler.get_next_thread, RRScheduler.get_cons_rr]
            using hrest

/-! ## The head of the burst sequence -/

/-- C15: `get_next_burst(k)` and `pop_next_burst(k)` raise an error exactly
when the burst sequence is non-empty and its head has another kind than `k`,
and `pop_next_burst` then leaves the thread as it was; on a head of kind `k`
both return the head, and `pop_next_burst` removes exactly the head; on an
empty sequence both return no burst and no error. `get_next_burst` writes
nothing, so it has no thread in its result. -/
theorem burst_access_checks_head (t : Thread) (k : BurstType) :
    ((∃ msg, t.get_next_burst k = Except.error msg) ↔
      ∃ b rest, t.bursts = b :: rest ∧ b.burst_type ≠ k) ∧
    ((∃ msg, (t.pop_next_burst k).1 = Except.error msg) ↔
      ∃ b rest, t.bursts = b :: rest ∧ b.burst_type ≠ k) ∧
    (∀ msg, (t.pop_next_burst k).1 = Except.error msg → (t.pop_next_burst k).2 = t) ∧
    (∀ b rest, t.bursts = b :: rest → b.burst_type = k →
      t.get_next_burst k = Except.ok (some b) ∧
      t.pop_next_burst k = (Except.ok (some b), { t with bursts := rest })) ∧
    (t.bursts = [] →
      t.get_next_burst k = Except.ok none ∧ t.pop_next_burst k = (Except.ok none, t)) := by
  rcases hb : t.bursts with _ | ⟨b, rest⟩
  · simp [Thread.get_next_burst, Thread.pop_next_burst, hb]
  · by_cases hk : b.burst_type = k
    · simp [Thread.get_next_burst, Thread.pop_next_burst, hb, hk]
    · simp [Thread.get_next_burst, Thread.pop_next_burst, hb, hk]

/-! ## The statistics -/

theorem Simulation.sum_class (threads : List Thread) (f : Thread → Int) (l : List Nat) :
    (l.map (fun i => match threads[i]? with
                     | some t => f t
                     | none => 0)).sum =
      ((l.filterMap (fun j => threads[j]?)).map f).sum := by
  induction l with
  | nil => rfl
  | cons j l ih =>
    cases hj : threads[j]? with
    | none => simp [List.filterMap_cons, hj, ih]
    | some t => simp [List.filterMap_cons, hj, ih]

/-- C16: over exact rationals and with `total_time > 0`,
`calculate_statistics` gives `cpu_utilization = 100 * (1 - idle / total)` and
`cpu_efficiency = 100 * service / total`, so that
`cpu_utilization + 100 * idle / total = 100`; for each of the four priority
classes the average response (turnaround) time is the sum of the response
(turnaround) times of the threads that arrived in the class divided by the
class's thread count, and 0 when that count is 0; the accumulators are
returned as they were. -/
theorem statistics_formulas (s : Simulation) (htotal : 0 < s.system_stats.total_time) :
    s.calculate_statistics.cpu_utilization =
      100 * (1 - (s.system_stats.total_idle_time : Rat) / (s.system_stats.total_time : Rat)) ∧
    s.calculate_statistics.cpu_efficiency =
      100 * (s.system_stats.service_time : Rat) / (s.system_stats.total_time : Rat) ∧
    s.calculate_statistics.cpu_utilization +
      100 * (s.system_stats.total_idle_time : Rat) / (s.system_stats.total_time : Rat) = 100 ∧
    (∀ i, i < 4 →
      s.calculate_statistics.avg_thread_response_times.getD i 0 =
        if s.system_stats.thread_counts.getD i 0 = 0 then 0
        else ((((s.class_threads i).map Thread.response_time).sum : Int) : Rat) /
              ((s.system_stats.thread_counts.getD i 0 : Int) : Rat)) ∧
    (∀ i, i < 4 →
      s.calculate_statistics.avg_thread_turnaround_times.getD i 0 =
        if s.system_stats.thread_counts.getD i 0 = 0 then 0
        else ((((s.class_threads i).map Thread.turnaround_time).sum : Int) : Rat) /
              ((s.system_stats.thread_counts.getD i 0 : Int) : Rat)) ∧
    (s.calculate_statistics.total_time = s.system_stats.total_time ∧
     s.calculate_statistics.total_idle_time = s.system_stats.total_idle_time ∧
     s.calculate_statistics.service_time = s.system_stats.service_time ∧
     s.calculate_statistics.io_time = s.system_stats.io_time ∧
     s.calculate_statistics.dispatch_time = s.system_stats.dispatch_time ∧
     s.calculate_statistics.thread_counts = s.system_stats.thread_counts) := by
  have hne : (s.system_stats.total_time : Rat) ≠ 0 := by
    have : s.system_stats.total_time ≠ 0 := by omega
    exact_mod_cast this
  refine ⟨rfl, ?_, ?_, ?_, ?_, ⟨rfl, rfl, rfl, rfl, rfl, rfl⟩⟩
  · show 100 * ((s.system_stats.service_time : Rat) / (s.system_stats.total_time : Rat)) = _
    ring
  · show 100 * (1 - (s.system_stats.total_idle_time : Rat) / (s.system_stats.total_time : Rat))
      + _ = 100
    field_simp
    ring
  · intro i hi
    simp only [Simulation.class_threads, ← Simulation.sum_class s.threads Thread.response_time]
    interval_cases i <;>
      simp [Simulation.calculate_statistics, List.range, List.range.loop]
  · intro i hi
    simp only [Simulation.class_threads, ← Simulation.sum_class s.threads Thread.turnaround_time]
    interval_cases i <;>
      simp [Simulation.calculate_statistics, List.range, List.range.loop]

/-! ## The thread counts of the priority classes -/

theorem incr_at_push_at (l : List (List Nat)) (n v : Nat) :
    incr_at (l.map (fun x => (x.length : Int))) n =
      (push_at l n v).map (fun x => (x.length : Int)) := by
  induction l generalizing n with
  | nil => cases n <;> rfl
  | cons x xs ih =>
    cases n with
    | zero => simp [incr_at, push_at]
    | succ n => simp [incr_at, push_at, ih]

theorem Simulation.arrivals_new_event (s : Simulation) (ty : EventType) (time : Int)
    (th : Option Nat) (sd : Option SchedulingDecision) :
    (s.new_event ty time th sd).arrivals = s.arrivals := rfl

theorem Simulation.counts_match_thread_arrived {m : Event} {s s1 : Simulation}
    (hr : s.handle_thread_arrived m = .ok s1) (h : s.counts_match) : s1.counts_match := by
  unfold Simulation.handle_thread_arrived at hr
  split at hr
  · simp at hr
  · rename_i i t _
    split at hr
    · simp at hr
    · rename_i u t1 _
      have hbase : incr_at s.system_stats.thread_counts t1.priority =
          (push_at s.all_threads t1.priority i).map (fun l => (l.length : Int)) := by
        rw [← incr_at_push_at]
        exact congrArg (fun c => incr_at c t1.priority) h
      dsimp only at hr
      split at hr <;> simp only [Except.ok.injEq] at hr <;> subst hr
      · exact hbase
      · exact hbase

theorem Simulation.arrivals_dispatch_completed_full {m : Event} {s s1 : Simulation} {i : Nat}
    {t : Thread} (hr : s.dispatch_completed_full m i t = .ok s1) : s1.arrivals = s.arrivals := by
  unfold Simulation.dispatch_completed_full at hr
  split at hr
  · simp at hr
  · simp at hr
  · dsimp only at hr
    split at hr
    · simp at hr
    · simp only [Except.ok.injEq] at hr
      subst hr
      rfl
    · simp only [Except.ok.injEq] at hr
      subst hr
      rfl

theorem Simulation.arrivals_dispatch_completed {m : Event} {s s1 : Simulation}
    (hr : s.handle_dispatch_completed m = .ok s1) : s1.arrivals = s.arrivals := by
  unfold Simulation.handle_dispatch_completed at hr
  split at hr
  · simp at hr
  · split at hr
    · simp at hr
    · split at hr
      · simp at hr
      · split at hr
        · simp at hr
        · split at hr
          · split at hr
            · simp at hr
            · split at hr
              · simp only [Except.ok.injEq] at hr
                subst hr
                rfl
              · exact Simulation.arrivals_dispatch_completed_full hr
          · exact Simulation.arrivals_dispatch_completed_full hr

theorem Simulation.arrivals_cpu_burst_completed {m : Event} {s s1 : Simulation}
    (hr : s.handle_cpu_burst_completed m = .ok s1) : s1.arrivals = s.arrivals := by
  unfold Simulation.handle_cpu_burst_completed at hr
  split at hr
  · simp at hr
  · split at hr
    · simp at hr
    · split at hr
      · simp at hr
      · simp at hr
      · simp only [Except.ok.injEq] at hr
        subst hr
        rfl

theorem Simulation.arrivals_io_burst_completed {m : Event} {s s1 : Simulation}
    (hr : s.handle_io_burst_completed m = .ok s1) : s1.arrivals = s.arrivals := by
  unfold Simulation.handle_io_burst_completed at hr
  split at hr
  · simp at hr
  · split at hr
    · simp at hr
    · dsimp only at hr
      split at hr <;> simp only [Except.ok.injEq] at hr <;> subst hr <;> rfl

theorem Simulation.arrivals_thread_completed {m : Event} {s s1 : Simulation}
    (hr : s.handle_thread_completed m = .ok s1) : s1.arrivals = s.arrivals := by
  unfold Simulation.handle_thread_completed at hr
  split at hr
  · simp at hr
  · split at hr
    · simp at hr
    · dsimp only at hr
      split at hr <;> simp only [Except.ok.injEq] at hr <;> subst hr <;> rfl

theorem Simulation.arrivals_thread_preempted {m : Event} {s s1 : Simulation}
    (hr : s.handle_thread_preempted m = .ok s1) : s1.arrivals = s.arrivals := by
  unfold Simulation.handle_thread_preempted at hr
  split at hr
  · simp at hr
  · split at hr
    · simp at hr
    · split at hr
      · simp at hr
      · simp at hr
      · dsimp only at hr
        split at hr <;> simp only [Except.ok.injEq] at hr <;> subst hr <;> rfl

theorem Simulation.arrivals_dispatch_next {m : Event} {s s1 : Simulation}
    (hr : s.dispatch_next m = .ok s1) : s1.arrivals = s.arrivals := by
  unfold Simulation.dispatch_next at hr
  dsimp only at hr
  split at hr
  · simp only [Except.ok.injEq] at hr
    subst hr
    rfl
  · split at hr
    · simp at hr
    · split at hr
      · simp only [Except.ok.injEq] at hr
        subst hr
        rfl
      · split at hr
        · simp at hr
        · split at hr <;> simp only [Except.ok.injEq] at hr <;> subst hr <;> rfl

theorem Simulation.arrivals_dispatcher_invoked {m : Event} {s s1 : Simulation}
    (hr : s.handle_dispatcher_invoked m = .ok s1) : s1.arrivals = s.arrivals := by
  unfold Simulation.handle_dispatcher_invoked at hr
  dsimp only at hr
  split at hr
  · exact (Simulation.arrivals_dispatch_next hr).trans rfl
  · exact Simulation.arrivals_dispatch_next hr

theorem Simulation.counts_match_of_arrivals {s s1 : Simulation} (h : s.counts_match)
    (he : s1.arrivals = s.arrivals) : s1.counts_match := by
  have h1 : s1.system_stats.thread_counts = s.system_stats.thread_counts :=
    congrArg Prod.fst he
  have h2 : s1.all_threads = s.all_threads := congrArg Prod.snd he
  unfold Simulation.counts_match
  rw [h1, h2]
  exact h

theorem Simulation.counts_match_handle {m : Event} {s s1 : Simulation}
    (hr : s.handle m = .ok s1) (h : s.counts_match) : s1.counts_match := by
  unfold Simulation.handle at hr
  split at hr
  · split at hr
    · exact Simulation.counts_match_thread_arrived hr h
    · exact Simulation.counts_match_thread_arrived hr h
  · exact Simulation.counts_match_of_arrivals h (Simulation.arrivals_dispatch_completed hr)
  · exact Simulation.counts_match_of_arrivals h (Simulation.arrivals_dispatch_completed hr)
  · exact Simulation.counts_match_of_arrivals h (Simulation.arrivals_cpu_burst_completed hr)
  · exact Simulation.counts_match_of_arrivals h (Simulation.arrivals_io_burst_completed hr)
  · exact Simulation.counts_match_of_arrivals h (Simulation.arrivals_thread_completed hr)
  · exact Simulation.counts_match_of_arrivals h (Simulation.arrivals_thread_preempted hr)
  · exact Simulation.counts_match_of_arrivals h (Simulation.arrivals_dispatcher_invoked hr)

theorem Simulation.counts_match_step {s s1 : Simulation} (h : s.counts_match)
    (hs : s.step = .ok s1) : s1.counts_match := by
  cases hp : pop_min s.events with
  | none =>
    rw [Simulation.step_of_nil (pop_min_eq_none.mp hp)] at hs
    simp only [Except.ok.injEq] at hs
    rw [← hs]; exact h
  | some p =>
    obtain ⟨m, rest⟩ := p
    obtain ⟨s0, h0, hs1⟩ := Simulation.step_of_pop hp hs
    have h1 : s0.counts_match := Simulation.counts_match_handle h0 h
    rw [hs1]
    exact h1

theorem Simulation.counts_match_run_loop (fuel : Nat) :
    ∀ {s s1 : Simulation}, s.counts_match → s.run_loop fuel = .ok s1 → s1.counts_match := by
  induction fuel with
  | zero =>
    intro s s1 h hr
    simp only [Simulation.run_loop, Except.ok.injEq] at hr
    rw [← hr]; exact h
  | succ fuel ih =>
    intro s s1 h hr
    unfold Simulation.run_loop at hr
    split at hr
    · simp only [Except.ok.injEq] at hr
      rw [← hr]; exact h
    · split at hr
      · simp at hr
      · rename_i s2 hstep
        exact ih (Simulation.counts_match_step h hstep) hr

theorem Simulation.arrivals_read_threads (process_id : Int) (priority : Fin 4)
    (inps : List ThreadInput) :
    ∀ (s : Simulation) (thread_id : Int),
      (s.read_threads process_id priority thread_id inps).arrivals = s.arrivals := by
  induction inps with
  | nil => intro s thread_id; rfl
  | cons inp rest ih =>
    intro s thread_id
    simp only [Simulation.read_threads]
    rw [ih]
    rfl

theorem Simulation.arrivals_read_processes (ps : List ProcessInput) :
    ∀ s : Simulation, (ps.foldl Simulation.read_process s).arrivals = s.arrivals := by
  induction ps with
  | nil => intro s; rfl
  | cons p rest ih =>
    intro s
    simp only [List.foldl_cons]
    rw [ih]
    exact Simulation.arrivals_read_threads _ _ _ _ _

/-- Whenever a run returns, the thread count of every priority class is the
number of threads that arrived in the class. -/
theorem Simulation.counts_match_run (fuel : Nat) (sched : Scheduler) (inp : SimInput)
    (s : Simulation) (hr : Simulation.run fuel sched inp = .ok s) : s.counts_match := by
  refine Simulation.counts_match_run_loop fuel ?_ hr
  have he : ((Simulation.init sched).read_file inp).arrivals = (Simulation.init sched).arrivals :=
    Simulation.arrivals_read_processes _ _
  have h0 : (Simulation.init sched).counts_match := rfl
  exact Simulation.counts_match_of_arrivals h0 he

/-! ## The events a handler enqueues -/

theorem Simulation.Appends.nil_of_fields {m : Event} {s s1 : Simulation}
    (he : s1.events = s.events) (hn : s1.event_num = s.event_num) : s.Appends m s1 [] :=
  ⟨by simp [he], by simp [hn], rfl, fun _ h => absurd h (List.not_mem_nil _)⟩

theorem Simulation.Appends.snoc_event {m : Event} {s s1 : Simulation} {new : List Event}
    (h : s.Appends m s1 new) (ty : EventType) {time : Int} (ht : m.time ≤ time)
    (th : Option Nat) (sd : Option SchedulingDecision) :
    s.Appends m (s1.new_event ty time th sd) (new ++ [⟨ty, time, s1.event_num, th, sd⟩]) := by
  obtain ⟨h1, h2, h3, h4⟩ := h
  refine ⟨?_, ?_, ?_, ?_⟩
  · simp [Simulation.new_event, Simulation.add_event, h1]
  · simp [Simulation.new_event, Simulation.add_event, h2]; omega
  · simp [h3, h2, List.range'_concat]
  · intro e he
    rcases List.mem_append.mp he with he | he
    · exact h4 e he
    · rw [List.mem_singleton.mp he]
      exact ht

theorem Simulation.Appends.of_congr {m : Event} {s s1 s2 : Simulation} {new : List Event}
    (h : s.Appends m s1 new) (he : s2.events = s1.events)
    (hn : s2.event_num = s1.event_num) : s.Appends m s2 new := by
  obtain ⟨h1, h2, h3, h4⟩ := h
  exact ⟨by rw [he, h1], by rw [hn, h2], h3, h4⟩

theorem Simulation.appends_thread_arrived {m : Event} {s s1 : Simulation}
    (hr : s.handle_thread_arrived m = .ok s1) : ∃ new, s.Appends m s1 new := by
  unfold Simulation.handle_thread_arrived at hr
  split at hr
  · simp at hr
  · split at hr
    · simp at hr
    · dsimp only at hr
      split at hr <;> simp only [Except.ok.injEq] at hr <;> subst hr
      · exact ⟨_, Simulation.Appends.nil_of_fields rfl rfl⟩
      · exact ⟨_, (Simulation.Appends.nil_of_fields rfl rfl).snoc_event _ (le_refl _) _ _⟩

theorem Simulation.appends_dispatch_completed_full {m : Event} {s s1 : Simulation} {i : Nat}
    {t : Thread} (ht : ∀ b ∈ t.bursts, 0 ≤ b.length)
    (hr : s.dispatch_completed_full m i t = .ok s1) : ∃ new, s.Appends m s1 new := by
  unfold Simulation.dispatch_completed_full at hr
  split at hr
  · simp at hr
  · simp at hr
  · rename_i burst t1 hpop
    obtain ⟨hb, -, -⟩ := Thread.pop_next_burst_some hpop
    have hlen : 0 ≤ burst.length := ht burst (by rw [hb]; exact List.mem_cons_self _ _)
    have htime : m.time ≤ m.time + burst.length := by omega
    dsimp only at hr
    split at hr
    · simp at hr
    · simp only [Except.ok.injEq] at hr
      subst hr
      exact ⟨_, (Simulation.Appends.nil_of_fields rfl rfl).snoc_event _ htime _ _⟩
    · simp only [Except.ok.injEq] at hr
      subst hr
      exact ⟨_, (Simulation.Appends.nil_of_fields rfl rfl).snoc_event _ htime _ _⟩

theorem Simulation.appends_dispatch_completed {m : Event} {s s1 : Simulation}
    (hb : s.bursts_nonneg)
    (hd : ∀ sd, m.scheduling_decision = some sd → slice_ok sd.time_slice)
    (hr : s.handle_dispatch_completed m = .ok s1) : ∃ new, s.Appends m s1 new := by
  unfold Simulation.handle_dispatch_completed at hr
  split at hr
  · simp at hr
  · rename_i i t hderef
    split at hr
    · simp at hr
    · rename_i u t1 hset
      have hb1 : t1.bursts = t.bursts := by
        have := Thread.set_running_bursts t m.time
        rw [hset] at this; exact this
      have hnn : ∀ b ∈ t1.bursts, 0 ≤ b.length := by
        rw [hb1]; exact hb t (Simulation.deref_mem hderef).2.1
      split at hr
      · simp at hr
      · split at hr
        · simp at hr
        · rename_i sd hsd
          split at hr
          · rename_i hne
            have htime : m.time ≤ m.time + sd.time_slice := by
              rcases hd sd hsd with h | h
              · exact absurd h hne
              · omega
            split at hr
            · simp at hr
            · split at hr
              · simp only [Except.ok.injEq] at hr
                subst hr
                exact ⟨_, ((Simulation.Appends.nil_of_fields rfl rfl).snoc_event _ htime
                  _ _).snoc_event _ htime _ _⟩
              · exact Simulation.appends_dispatch_completed_full hnn hr
          · exact Simulation.appends_dispatch_completed_full hnn hr

theorem Simulation.appends_cpu_burst_completed {m : Event} {s s1 : Simulation}
    (hb : s.bursts_nonneg)
    (hr : s.handle_cpu_burst_completed m = .ok s1) : ∃ new, s.Appends m s1 new := by
  unfold Simulation.handle_cpu_burst_completed at hr
  split at hr
  · simp at hr
  · rename_i i t hderef
    split at hr
    · simp at hr
    · rename_i u t1 hset
      have hb1 : t1.bursts = t.bursts := by
        have := Thread.set_blocked_bursts t m.time
        rw [hset] at this; exact this
      have hnn : ∀ b ∈ t1.bursts, 0 ≤ b.length := by
        rw [hb1]; exact hb t (Simulation.deref_mem hderef).2.1
      split at hr
      · simp at hr
      · simp at hr
      · rename_i io_burst t2 hpop
        obtain ⟨hbm, -, -⟩ := Thread.pop_next_burst_some hpop
        have hlen : 0 ≤ io_burst.length :=
          hnn io_burst (by rw [hbm]; exact List.mem_cons_self _ _)
        have htime : m.time ≤ m.time + io_burst.length := by omega
        simp only [Except.ok.injEq] at hr
        subst hr
        exact ⟨_, ((Simulation.Appends.nil_of_fields rfl rfl).snoc_event _ htime
          _ _).snoc_event _ (le_refl _) _ _⟩

theorem Simulation.appends_io_burst_completed {m : Event} {s s1 : Simulation}
    (hr : s.handle_io_burst_completed m = .ok s1) : ∃ new, s.Appends m s1 new := by
  unfold Simulation.handle_io_burst_completed at hr
  split at hr
  · simp at hr
  · split at hr
    · simp at hr
    · dsimp only at hr
      split at hr <;> simp only [Except.ok.injEq] at hr <;> subst hr
      · exact ⟨_, Simulation.Appends.nil_of_fields rfl rfl⟩
      · exact ⟨_, (Simulation.Appends.nil_of_fields rfl rfl).snoc_event _ (le_refl _) _ _⟩

theorem Simulation.appends_thread_completed {m : Event} {s s1 : Simulation}
    (hr : s.handle_thread_completed m = .ok s1) : ∃ new, s.Appends m s1 new := by
  unfold Simulation.handle_thread_completed at hr
  split at hr
  · simp at hr
  · split at hr
    · simp at hr
    · dsimp only at hr
      split at hr <;> simp only [Except.ok.injEq] at hr <;> subst hr
      · exact ⟨_, Simulation.Appends.nil_of_fields rfl rfl⟩
      · exact ⟨_, (Simulation.Appends.nil_of_fields rfl rfl).snoc_event _ (le_refl _) _ _⟩

theorem Simulation.appends_thread_preempted {m : Event} {s s1 : Simulation}
    (hr : s.handle_thread_preempted m = .ok s1) : ∃ new, s.Appends m s1 new := by
  unfold Simulation.handle_thread_preempted at hr
  split at hr
  · simp at hr
  · split at hr
    · simp at hr
    · split at hr
      · simp at hr
      · simp at hr
      · dsimp only at hr
        split at hr <;> simp only [Except.ok.injEq] at hr <;> subst hr
        · exact ⟨_, Simulation.Appends.nil_of_fields rfl rfl⟩
        · exact ⟨_, (Simulation.Appends.nil_of_fields rfl rfl).snoc_event _ (le_refl _) _ _⟩

theorem Simulation.Appends.then_dispatch_with {m : Event} {s s1 : Simulation}
    {new : List Event} (h : s.Appends m s1 new) (sd : SchedulingDecision) (ty : EventType)
    {overhead : Int} (ho : 0 ≤ overhead) :
    ∃ new2, s.Appends m (s1.dispatch_with m sd ty overhead) new2 :=
  ⟨_, (h.snoc_event ty (show m.time ≤ m.time + overhead by omega) sd.thread
    (some sd)).of_congr rfl rfl⟩

theorem Simulation.appends_dispatch_next {m : Event} {s s1 : Simulation}
    (hr : s.dispatch_next m = .ok s1)
    (ho1 : 0 ≤ s.thread_switch_overhead) (ho2 : 0 ≤ s.process_switch_overhead) :
    ∃ new, s.Appends m s1 new := by
  unfold Simulation.dispatch_next at hr
  dsimp only at hr
  split at hr
  · simp only [Except.ok.injEq] at hr
    subst hr
    exact ⟨_, Simulation.Appends.nil_of_fields rfl rfl⟩
  · rename_i a _
    have hbase : s.Appends m (Simulation.mk (s.scheduler.get_next_thread).2 s.threads s.events
        s.event_num (some a) s.prev_thread s.thread_switch_overhead s.process_switch_overhead
        s.io_time_start s.system_stats s.all_threads s.first_event) [] :=
      Simulation.Appends.nil_of_fields rfl rfl
    split at hr
    · simp at hr
    · split at hr
      · simp only [Except.ok.injEq] at hr
        subst hr
        exact hbase.then_dispatch_with _ _ ho2
      · split at hr
        · simp at hr
        · split at hr <;> simp only [Except.ok.injEq] at hr <;> subst hr
          · exact hbase.then_dispatch_with _ _ ho1
          · exact hbase.then_dispatch_with _ _ ho2

theorem Simulation.appends_dispatcher_invoked {m : Event} {s s1 : Simulation}
    (ho1 : 0 ≤ s.thread_switch_overhead) (ho2 : 0 ≤ s.process_switch_overhead)
    (hr : s.handle_dispatcher_invoked m = .ok s1) : ∃ new, s.Appends m s1 new := by
  unfold Simulation.handle_dispatcher_invoked at hr
  dsimp only at hr
  split at hr
  · obtain ⟨new, h⟩ := Simulation.appends_dispatch_next hr ho1 ho2
    exact ⟨new, h⟩
  · exact Simulation.appends_dispatch_next hr ho1 ho2

theorem Simulation.appends_handle {m : Event} {s s1 : Simulation}
    (hb : s.bursts_nonneg)
    (hd : ∀ sd, m.scheduling_decision = some sd → slice_ok sd.time_slice)
    (ho1 : 0 ≤ s.thread_switch_overhead) (ho2 : 0 ≤ s.process_switch_overhead)
    (hr : s.handle m = .ok s1) : ∃ new, s.Appends m s1 new := by
  unfold Simulation.handle at hr
  split at hr
  · split at hr
    · obtain ⟨new, h⟩ := Simulation.appends_thread_arrived hr
      exact ⟨new, h⟩
    · exact Simulation.appends_thread_arrived hr
  · exact Simulation.appends_dispatch_completed hb hd hr
  · exact Simulation.appends_dispatch_completed hb hd hr
  · exact Simulation.appends_cpu_burst_completed hb hr
  · exact Simulation.appends_io_burst_completed hr
  · exact Simulation.appends_thread_completed hr
  · exact Simulation.appends_thread_preempted hr
  · exact Simulation.appends_dispatcher_invoked ho1 ho2 hr

theorem Simulation.follow_ups_of_handle (s : Simulation) (m : Event) (s1 : Simulation)
    (hb : s.bursts_nonneg)
    (hd : ∀ sd, m.scheduling_decision = some sd → slice_ok sd.time_slice)
    (ho1 : 0 ≤ s.thread_switch_overhead) (ho2 : 0 ≤ s.process_switch_overhead)
    (hm : m.event_num < s.event_num) (hq : ∀ o ∈ s.events, o.event_num < s.event_num)
    (hr : s.handle m = .ok s1) :
    ∃ new, s1.events = s.events ++ new ∧ s1.event_num = s.event_num + new.length ∧
      new.map Event.event_num = List.range' s.event_num new.length ∧
      new.Pairwise (fun a b => a.event_num < b.event_num) ∧
      ∀ e ∈ new, m.time ≤ e.time ∧ m.event_num < e.event_num ∧
        ∀ o ∈ s.events, o.event_num < e.event_num := by
  obtain ⟨new, h1, h2, h3, h4⟩ := Simulation.appends_handle hb hd ho1 ho2 hr
  have hpair : new.Pairwise (fun a b => a.event_num < b.event_num) := by
    have hp : (new.map Event.event_num).Pairwise (fun a b => a < b) := by
      rw [h3]
      exact List.pairwise_lt_range' _ _
    exact List.pairwise_map.mp hp
  refine ⟨new, h1, h2, h3, hpair, fun e he => ?_⟩
  have hnum : s.event_num ≤ e.event_num := by
    have : e.event_num ∈ new.map Event.event_num := List.mem_map_of_mem _ he
    rw [h3] at this
    exact (List.mem_range'_1.mp this).1
  refine ⟨h4 e he, by omega, fun o ho => ?_⟩
  have := hq o ho
  omega

/-- C17, as stated, fails: in `late_state`, with overheads 0, a burst of
length 1000 and the slice −1, the handler of the dispatch-completed event
`late_event`, popped at time 2147483000, enqueues the THREAD_COMPLETED event
at time -2147483296, before the popped event: the `int` sum
`event->time + burst->length` has left the range of `int`. -/
theorem follow_up_event_earlier :
    late_state.bursts_nonneg ∧
    (∀ sd, late_event.scheduling_decision = some sd → slice_ok sd.time_slice) ∧
    0 ≤ late_state.thread_switch_overhead ∧ 0 ≤ late_state.process_switch_overhead ∧
    late_event.event_num < late_state.event_num ∧
    ∃ s1 : Simulation, late_state.handle_int late_event = .ok s1 ∧
      s1.events = [⟨EventType.THREAD_COMPLETED, -2147483296, 3, some 0, none⟩] ∧
      ¬ ∀ e ∈ s1.events, late_event.time ≤ e.time := by
  have hb : late_state.bursts_nonneg := by
    simp [Simulation.bursts_nonneg, late_state, late_thread]
  have hd : ∀ sd, late_event.scheduling_decision = some sd → slice_ok sd.time_slice := by
    intro sd hsd
    simp only [late_event, Option.some.injEq] at hsd
    subst hsd
    exact Or.inl rfl
  refine ⟨hb, hd, le_refl _, le_refl _, by decide, _, rfl, rfl, ?_⟩
  intro h
  exact absurd (h _ (List.mem_singleton.mpr rfl)) (by decide)

/-- C17, amended: with non-negative overheads, non-negative burst lengths, a
slice in the decision of the popped event `m` that is −1 or non-negative, and
no event time that leaves the range of `int` while the handler runs, whatever
kind `m` has, its handler with `int` event times leaves the queue it found
followed by the events it has enqueued; each of these is due no earlier than
`m` and they carry the next free event numbers in order, so each number is
greater than that of `m`, of every event still queued and of every event
enqueued before it (all numbers handed out so far lie below the counter
`event_num`). -/
theorem follow_up_events_later (s : Simulation) (m : Event) (s1 : Simulation)
    (hb : s.bursts_nonneg)
    (hd : ∀ sd, m.scheduling_decision = some sd → slice_ok sd.time_slice)
    (ho1 : 0 ≤ s.thread_switch_overhead) (ho2 : 0 ≤ s.process_switch_overhead)
    (hm : m.event_num < s.event_num) (hq : ∀ o ∈ s.events, o.event_num < s.event_num)
    (hfit : s.sums_fit m) (hr : s.handle_int m = .ok s1) :
    ∃ new, s1.events = s.events ++ new ∧ s1.event_num = s.event_num + new.length ∧
      new.map Event.event_num = List.range' s.event_num new.length ∧
      new.Pairwise (fun a b => a.event_num < b.event_num) ∧
      ∀ e ∈ new, m.time ≤ e.time ∧ m.event_num < e.event_num ∧
        ∀ o ∈ s.events, o.event_num < e.event_num := by
  rw [Simulation.handle_int_of_sums_fit hfit] at hr
  exact Simulation.follow_ups_of_handle s m s1 hb hd ho1 ho2 hm hq hr

/-- Witness of C17, amended: the dispatch-completed event of the preemption
scenario, at time 2 with slice 3, enqueues the THREAD_PREEMPTED and
DISPATCHER_INVOKED events at time 5 with the numbers 3 and 4. -/
theorem follow_up_events_later_witness :
    preempt_state.bursts_nonneg ∧
    (∀ sd, preempt_event.scheduling_decision = some sd → slice_ok sd.time_slice) ∧
    preempt_event.event_num < preempt_state.event_num ∧
    preempt_state.sums_fit preempt_event ∧
    ∃ s1 : Simulation, preempt_state.handle_int preempt_event = .ok s1 ∧
      s1.events = [⟨EventType.THREAD_PREEMPTED, 5, 3, some 0, preempt_event.scheduling_decision⟩,
                   ⟨EventType.DISPATCHER_INVOKED, 5, 4, some 0, none⟩] ∧
      ∃ new, s1.events = preempt_state.events ++ new ∧
        s1.event_num = preempt_state.event_num + new.length ∧
        new.map Event.event_num = List.range' preempt_state.event_num new.length ∧
        new.Pairwise (fun a b => a.event_num < b.event_num) ∧
        ∀ e ∈ new, preempt_event.time ≤ e.time ∧ preempt_event.event_num < e.event_num ∧
          ∀ o ∈ preempt_state.events, o.event_num < e.event_num :=
  have hb : preempt_state.bursts_nonneg := by
    simp [Simulation.bursts_nonneg, preempt_state, preempt_thread]
  have hd : ∀ sd, preempt_event.scheduling_decision = some sd → slice_ok sd.time_slice := by
    intro sd hsd
    simp only [preempt_event, Option.some.injEq] at hsd
    subst hsd
    exact Or.inr (by decide)
  ⟨hb, hd, by decide, by decide, _, rfl, rfl,
   follow_up_events_later preempt_state preempt_event _ hb hd (le_refl _) (by decide)
     (by decide) (fun o ho => absurd ho (List.not_mem_nil _)) (by decide) rfl⟩

/-! ## The dispatcher -/

theorem Simulation.dispatcher_invoked_eq (s : Simulation) (m : Event) :
    s.handle_dispatcher_invoked m =
      (Simulation.mk s.scheduler s.threads s.events s.event_num s.active_thread
        s.previous_thread s.thread_switch_overhead s.process_switch_overhead s.io_time_start
        s.system_stats s.all_threads s.first_event).dispatch_next m := by
  unfold Simulation.handle_dispatcher_invoked Simulation.previous_thread
  dsimp only
  split <;> rfl

theorem Simulation.deref_of_getElem? {s : Simulation} {i : Nat} {t : Thread}
    (h : s.threads[i]? = some t) : s.deref (some i) = .ok (i, t) := by
  simp [Simulation.deref, h]

/-- The THREAD_PREEMPTED handler on a RUNNING thread whose next burst is a CPU
burst: the thread becomes READY at the time of the event with its service time
and its bursts as before, it joins the ready queue, and the total service time
is as before. The handler reads `state_change_time` after `set_ready` has set
it to the time of the event, so the time it credits is 0. -/
theorem Simulation.thread_preempted_effect (s : Simulation) (m : Event) (i : Nat) (t : Thread)
    (b : Burst) (rest : List Burst) (hm : m.thread = some i) (hi : s.threads[i]? = some t)
    (hst : t.current_state = ThreadState.RUNNING) (hb : t.bursts = b :: rest)
    (hcpu : b.burst_type = BurstType.CPU) :
    ∃ s1, s.handle_thread_preempted m = .ok s1 ∧
      s1.threads = s.threads.set i
        { t with previous_state := ThreadState.RUNNING, current_state := ThreadState.READY,
                 state_change_time := m.time } ∧
      s1.system_stats.service_time = s.system_stats.service_time ∧
      s1.scheduler = s.scheduler.add_to_ready_queue i := by
  have hset : t.set_ready m.time = (.ok (),
      { t with previous_state := ThreadState.RUNNING, current_state := ThreadState.READY,
               state_change_time := m.time }) := by
    simp [Thread.set_ready, hst, Thread.is_valid_transition, Thread.valid_transitions]
  have hthread :
      ({ t with previous_state := ThreadState.RUNNING, current_state := ThreadState.READY,
                state_change_time := m.time, service_time := t.service_time + (m.time - m.time),
                bursts := b.update_time (m.time - m.time) :: rest } : Thread) =
      { t with previous_state := ThreadState.RUNNING, current_state := ThreadState.READY,
               state_change_time := m.time } := by
    simp [Burst.update_time, hb]
  unfold Simulation.handle_thread_preempted
  rw [hm, Simulation.deref_of_getElem? hi]
  simp only [hset, Thread.get_next_burst, hb, hcpu, ne_eq, not_true_eq_false, if_false,
    Simulation.set_thread, List.tail_cons, hthread]
  split
  · exact ⟨_, rfl, rfl, by simp, rfl⟩
  · exact ⟨_, rfl, by simp [Simulation.new_event, Simulation.add_event],
      by simp [Simulation.new_event, Simulation.add_event],
      by simp [Simulation.new_event, Simulation.add_event]⟩

theorem Simulation.lt_of_getElem? {s : Simulation} {i : Nat} {t : Thread}
    (h : s.threads[i]? = some t) : i < s.threads.length := by
  by_contra hcon
  rw [List.getElem?_eq_none (Nat.le_of_not_lt hcon)] at h
  cases h

/-- The slice branch of the dispatch-completed handler on a READY thread whose
next burst is a CPU burst of length `r` greater than the slice of the
decision. -/
theorem Simulation.dispatch_completed_slice_effect (s : Simulation) (m : Event) (i : Nat)
    (t : Thread) (sd : SchedulingDecision) (r : Int) (rest : List Burst)
    (hm : m.thread = some i) (hi : s.threads[i]? = some t)
    (hst : t.current_state = ThreadState.READY)
    (hb : t.bursts = ⟨BurstType.CPU, r⟩ :: rest)
    (hsd : m.scheduling_decision = some sd) (hne : sd.time_slice ≠ -1)
    (hr : r > sd.time_slice) :
    s.handle_dispatch_completed m =
      .ok (s.dispatch_completed_slice m i
        { t with previous_state := ThreadState.READY, current_state := ThreadState.RUNNING,
                 state_change_time := m.time,
                 start_time := if t.start_time = -1 then m.time else t.start_time }
        ⟨BurstType.CPU, r⟩ sd.time_slice) := by
  have hset : t.set_running m.time = (.ok (),
      { t with previous_state := ThreadState.READY, current_state := ThreadState.RUNNING,
               state_change_time := m.time,
               start_time := if t.start_time = -1 then m.time else t.start_time }) := by
    simp [Thread.set_running, hst, Thread.is_valid_transition, Thread.valid_transitions]
  unfold Simulation.handle_dispatch_completed
  rw [hm, Simulation.deref_of_getElem? hi]
  simp only [hset, Thread.get_next_burst, hb, ne_eq, not_true_eq_false, if_false, hsd, hne,
    not_false_eq_true, if_true, gt_iff_lt, hr]

/-- C19: a dispatch-completed event for a READY thread whose CPU burst of
remaining length `r` outruns the slice `sd.time_slice` of the decision makes
the handler enqueue a THREAD_PREEMPTED event for the thread, due one slice
later, and add the slice to the total service time; when that event is then
handled, in any state that holds the thread as the first handler left it, the
thread's burst has remaining length `r - sd.time_slice`, its service time has
grown by the slice, and the second handler has left the total service time as
it found it: the slice is subtracted and credited once. -/
theorem preemption_consumes_slice_once (s : Simulation) (m : Event) (i : Nat)
    (t : Thread) (sd : SchedulingDecision) (r : Int) (rest : List Burst)
    (hm : m.thread = some i) (hi : s.threads[i]? = some t)
    (hst : t.current_state = ThreadState.READY)
    (hb : t.bursts = ⟨BurstType.CPU, r⟩ :: rest)
    (hsd : m.scheduling_decision = some sd) (hne : sd.time_slice ≠ -1)
    (hr : r > sd.time_slice) :
    ∃ s1 tp di, s.handle_dispatch_completed m = .ok s1 ∧
      s1.events = s.events ++ [tp, di] ∧
      tp.type = EventType.THREAD_PREEMPTED ∧ tp.thread = some i ∧
      tp.time = m.time + sd.time_slice ∧
      s1.system_stats.service_time = s.system_stats.service_time + sd.time_slice ∧
      ∀ s1b : Simulation, s1b.threads[i]? = s1.threads[i]? →
        ∃ s2 t2, s1b.handle_thread_preempted tp = .ok s2 ∧ s2.threads[i]? = some t2 ∧
          t2.bursts = ⟨BurstType.CPU, r - sd.time_slice⟩ :: rest ∧
          t2.service_time = t.service_time + sd.time_slice ∧
          s2.system_stats.service_time = s1b.system_stats.service_time := by
  have hlt := Simulation.lt_of_getElem? hi
  refine ⟨_, ⟨EventType.THREAD_PREEMPTED, m.time + sd.time_slice, s.event_num, m.thread,
      m.scheduling_decision⟩,
    ⟨EventType.DISPATCHER_INVOKED, m.time + sd.time_slice, s.event_num + 1, m.thread, none⟩,
    Simulation.dispatch_completed_slice_effect s m i t sd r rest hm hi hst hb hsd hne hr,
    ?_, rfl, hm, rfl, ?_, ?_⟩
  · simp [Simulation.dispatch_completed_slice, Simulation.new_event, Simulation.add_event,
      Simulation.set_thread]
  · simp [Simulation.dispatch_completed_slice, Simulation.new_event, Simulation.add_event,
      Simulation.set_thread]
  · intro s1b h1b
    have hth : s1b.threads[i]? = some
        { t with previous_state := ThreadState.READY, current_state := ThreadState.RUNNING,
                 state_change_time := m.time,
                 start_time := if t.start_time = -1 then m.time else t.start_time,
                 bursts := ⟨BurstType.CPU, r - sd.time_slice⟩ :: rest,
                 service_time := t.service_time + sd.time_slice } := by
      rw [h1b]
      simp [Simulation.dispatch_completed_slice, Simulation.new_event, Simulation.add_event,
        Simulation.set_thread, hlt, hb]
    obtain ⟨s2, h2, h3, h4, -⟩ := Simulation.thread_preempted_effect s1b
      ⟨EventType.THREAD_PREEMPTED, m.time + sd.time_slice, s.event_num, m.thread,
        m.scheduling_decision⟩ i _ ⟨BurstType.CPU, r - sd.time_slice⟩ rest hm hth rfl rfl rfl
    refine ⟨s2,
      { t with previous_state := ThreadState.RUNNING, current_state := ThreadState.READY,
               state_change_time := m.time + sd.time_slice,
               start_time := if t.start_time = -1 then m.time else t.start_time,
               bursts := ⟨BurstType.CPU, r - sd.time_slice⟩ :: rest,
               service_time := t.service_time + sd.time_slice }, h2, ?_, rfl, rfl, h4⟩
    rw [h3]
    exact List.getElem?_set_self (Simulation.lt_of_getElem? hth)

/-- Witness of C16: the statistics of `finished_state`, whose total time is
12. -/
theorem statistics_formulas_witness :
    (0 : Int) < finished_state.system_stats.total_time ∧
    finished_state.calculate_statistics.cpu_utilization +
      100 * (finished_state.system_stats.total_idle_time : Rat) /
        (finished_state.system_stats.total_time : Rat) = 100 ∧
    finished_state.calculate_statistics.cpu_efficiency =
      100 * (finished_state.system_stats.service_time : Rat) /
        (finished_state.system_stats.total_time : Rat) :=
  ⟨by decide, (statistics_formulas finished_state (by decide)).2.2.1,
   (statistics_formulas finished_state (by decide)).2.1⟩

theorem finished_state_reached :
    Simulation.run 20 (Scheduler.fcfs {}) (single_thread_input 0 2 1 0 0 [10]) =
      .ok finished_state := rfl

theorem preempt_state_reached :
    Simulation.run 2 (Scheduler.rr (RRScheduler.create 3)) (single_thread_input 0 2 1 0 0 [8]) =
      .ok { preempt_state with events := [preempt_event] } := rfl

/-- Witness of C19: the first preemption of the run of one thread with a CPU
burst of length 8 under round-robin with slice 3. -/
theorem preemption_consumes_slice_once_witness :
    preempt_state.threads[0]? = some preempt_thread ∧
    preempt_thread.bursts = [⟨BurstType.CPU, 8⟩] ∧
    ∃ s1 tp di, preempt_state.handle_dispatch_completed preempt_event = .ok s1 ∧
      s1.events = preempt_state.events ++ [tp, di] ∧
      tp.type = EventType.THREAD_PREEMPTED ∧ tp.thread = some 0 ∧
      tp.time = 2 + 3 ∧
      s1.system_stats.service_time = preempt_state.system_stats.service_time + 3 ∧
      ∀ s1b : Simulation, s1b.threads[0]? = s1.threads[0]? →
        ∃ s2 t2, s1b.handle_thread_preempted tp = .ok s2 ∧ s2.threads[0]? = some t2 ∧
          t2.bursts = [⟨BurstType.CPU, 8 - 3⟩] ∧
          t2.service_time = preempt_thread.service_time + 3 ∧
          s2.system_stats.service_time = s1b.system_stats.service_time :=
  ⟨rfl, rfl,
   preemption_consumes_slice_once preempt_state preempt_event 0 preempt_thread
     { thread := some 0, time_slice := 3,
       explanation := "Selected from 1 threads. Will run for at most 3 ticks." }
     8 [] rfl rfl rfl rfl rfl (by decide) (by decide)⟩

/-- C18, counterexample: in the first preemption of the run of one thread with
a CPU burst of length 8 under round-robin with slice 3, the dispatch-completed
handler consumes the slice 3 (service time 0 to 3, burst 8 to 5) and the
thread then runs from time 2 to the THREAD_PREEMPTED event at time 5, an
elapsed segment of 3; the THREAD_PREEMPTED handler credits 0 (service time
stays 3, the burst stays 5), not 3. -/
theorem preempted_credit_differs_from_slice :
    ∃ s1 tp di t1 s2 t2,
      preempt_state.handle_dispatch_completed preempt_event = .ok s1 ∧
      s1.events = [tp, di] ∧ tp.type = EventType.THREAD_PREEMPTED ∧
      s1.threads = [t1] ∧
      s1.handle_thread_preempted tp = .ok s2 ∧ s2.threads = [t2] ∧
      t1.service_time - preempt_thread.service_time = 3 ∧
      s1.system_stats.service_time - preempt_state.system_stats.service_time = 3 ∧
      tp.time - t1.state_change_time = 3 ∧
      t2.service_time - t1.service_time = 0 ∧
      s2.system_stats.service_time - s1.system_stats.service_time = 0 ∧
      t1.bursts = [⟨BurstType.CPU, 5⟩] ∧ t2.bursts = [⟨BurstType.CPU, 5⟩] :=
  ⟨_, _, _, _, _, _, rfl, rfl, rfl, rfl, rfl, rfl, rfl, rfl, rfl, rfl, rfl, rfl, rfl⟩

/-- C18, amended: the THREAD_PREEMPTED handler on a RUNNING thread whose next
burst is a CPU burst returns the thread to READY at the time of the event and
credits nothing: the difference it computes, the time of the event minus the
state-change time that `set_ready` has just set, is 0, so the thread's service
time, its bursts and the total service time are as before; the slice was
consumed by the dispatch-completed handler. -/
theorem preempted_handler_credits_nothing (s : Simulation) (m : Event) (i : Nat) (t : Thread)
    (b : Burst) (rest : List Burst) (hm : m.thread = some i) (hi : s.threads[i]? = some t)
    (hst : t.current_state = ThreadState.RUNNING) (hb : t.bursts = b :: rest)
    (hcpu : b.burst_type = BurstType.CPU) :
    ∃ s1 t1, s.handle_thread_preempted m = .ok s1 ∧ s1.threads[i]? = some t1 ∧
      t1.current_state = ThreadState.READY ∧ t1.state_change_time = m.time ∧
      m.time - t1.state_change_time = 0 ∧
      t1.service_time = t.service_time ∧ t1.bursts = t.bursts ∧
      s1.system_stats.service_time = s.system_stats.service_time := by
  obtain ⟨s1, h1, h2, h3, -⟩ := Simulation.thread_preempted_effect s m i t b rest hm hi hst hb hcpu
  refine ⟨s1,
    { t with previous_state := ThreadState.RUNNING, current_state := ThreadState.READY,
             state_change_time := m.time }, h1, ?_, rfl, rfl, sub_self _, rfl, rfl, h3⟩
  rw [h2]
  exact List.getElem?_set_self (Simulation.lt_of_getElem? hi)

/-- Witness of C18, amended: the thread of the preemption scenario, RUNNING
since time 2 with 5 of its burst left, is preempted at time 5. -/
theorem preempted_handler_credits_nothing_witness :
    ∃ s1 t1,
      Simulation.handle_thread_preempted
        { preempt_state with
          threads := [{ preempt_thread with
            current_state := ThreadState.RUNNING, previous_state := ThreadState.READY,
            state_change_time := 2, start_time := 2, service_time := 3,
            bursts := [⟨BurstType.CPU, 5⟩] }] }
        ⟨EventType.THREAD_PREEMPTED, 5, 3, some 0, none⟩ = .ok s1 ∧
      s1.threads[0]? = some t1 ∧
      t1.current_state = ThreadState.READY ∧ t1.state_change_time = 5 ∧
      (5 : Int) - t1.state_change_time = 0 ∧
      t1.service_time = 3 ∧ t1.bursts = [⟨BurstType.CPU, 5⟩] ∧
      s1.system_stats.service_time = preempt_state.system_stats.service_time :=
  preempted_handler_credits_nothing
    { preempt_state with
      threads := [{ preempt_thread with
        current_state := ThreadState.RUNNING, previous_state := ThreadState.READY,
        state_change_time := 2, start_time := 2, service_time := 3,
        bursts := [⟨BurstType.CPU, 5⟩] }] }
    ⟨EventType.THREAD_PREEMPTED, 5, 3, some 0, none⟩ 0 _ ⟨BurstType.CPU, 5⟩ [] rfl rfl rfl rfl rfl

/-! ## The idle time -/

theorem Simulation.utilization_eq (s : Simulation) (total idle : Int)
    (h1 : s.system_stats.total_time = total) (h2 : s.system_stats.total_idle_time = idle) :
    s.calculate_statistics.cpu_utilization = 100 * (1 - (idle : Rat) / (total : Rat)) := by
  show 100 * (1 - (s.system_stats.total_idle_time : Rat) / (s.system_stats.total_time : Rat)) = _
  rw [h1, h2]

/-- C23: on the well-formed input `idle_input` under FCFS the run ends after
17 events with an empty queue, `total_time` 203 and `total_idle_time` 299, so the idle
time exceeds the elapsed time and `cpu_utilization` is negative. The I/O
bursts end at 101 and at 202 with the CPU idle, and both times the handler
adds the time since the idle-start marker 2: 99 and 200. -/
theorem idle_time_exceeds_total_time :
    idle_input.well_formed ∧
    ∃ s, Simulation.run 17 (Scheduler.fcfs {}) idle_input = .ok s ∧
      s.events = [] ∧
      s.system_stats.total_time = 203 ∧
      s.system_stats.total_idle_time = 299 ∧
      s.io_time_start = 2 ∧
      s.system_stats.total_time < s.system_stats.total_idle_time ∧
      s.calculate_statistics.cpu_utilization = -9600 / 203 ∧
      s.calculate_statistics.cpu_utilization < 0 := by
  have h : ∃ s, Simulation.run 17 (Scheduler.fcfs {}) idle_input = .ok s ∧
      s.events = [] ∧ s.system_stats.total_time = 203 ∧
      s.system_stats.total_idle_time = 299 ∧ s.io_time_start = 2 :=
    ⟨_, rfl, rfl, rfl, rfl, rfl⟩
  obtain ⟨s, h0, h1, h2, h3, h4⟩ := h
  have hu := Simulation.utilization_eq s 203 299 h2 h3
  refine ⟨by simp [SimInput.well_formed, idle_input], s, h0, h1, h2, h3, h4, by omega, ?_, ?_⟩
  · rw [hu]; norm_num
  · rw [hu]; norm_num

/-! ## Termination of the run loop -/

theorem term_params_closed : term_params.Closed where
  time_le := fun _ _ _ => trivial
  time_now := fun _ => trivial
  time_burst := fun _ _ _ => trivial
  time_slice := fun _ _ _ _ => trivial
  time_overhead := fun _ _ _ => trivial
  slice_default := Or.inl rfl
  burst_slice := fun _ _ _ _ _ _ _ => trivial

theorem thread_measure_set_self {ths : List Thread} {i : Nat} (h : i < ths.length)
    (t : Thread) : thread_measure (ths.set i t) i = burst_measure t.bursts := by
  simp [thread_measure, List.getElem?_set_self h]

theorem thread_measure_set_le {ths : List Thread} {i : Nat} {t t1 : Thread}
    (hi : ths[i]? = some t) (hle : burst_measure t1.bursts ≤ burst_measure t.bursts) (j : Nat) :
    thread_measure (ths.set i t1) j ≤ thread_measure ths j := by
  by_cases hj : i = j
  · subst hj
    have hlt : i < ths.length := by
      by_contra hcon
      rw [List.getElem?_eq_none (Nat.le_of_not_lt hcon)] at hi
      cases hi
    rw [thread_measure_set_self hlt]
    simpa [thread_measure, hi] using hle
  · simp [thread_measure, List.getElem?_set_ne hj]

theorem Event.weight_mono {ths ths1 : List Thread}
    (h : ∀ j, PSched.thread_measure ths1 j ≤ PSched.thread_measure ths j) (e : Event) :
    e.weight ths1 ≤ e.weight ths := by
  unfold Event.weight Event.thread_measure
  split
  · exact le_refl _
  · cases e.thread with
    | none => exact le_refl _
    | some i =>
      have := h i
      simp only
      omega

theorem events_weight_mono {ths ths1 : List Thread}
    (h : ∀ j, thread_measure ths1 j ≤ thread_measure ths j) (evs : List Event) :
    events_weight ths1 evs ≤ events_weight ths evs := by
  induction evs with
  | nil => exact le_refl _
  | cons e evs ih =>
    have := Event.weight_mono h e
    simp only [events_weight, List.map_cons, List.sum_cons] at ih ⊢
    omega

theorem ready_weight_mono {ths ths1 : List Thread}
    (h : ∀ j, thread_measure ths1 j ≤ thread_measure ths j) (queue : List Nat) :
    ready_weight ths1 queue ≤ ready_weight ths queue := by
  induction queue with
  | nil => exact le_refl _
  | cons i queue ih =>
    have := h i
    simp only [ready_weight, List.map_cons, List.sum_cons] at ih ⊢
    omega

theorem events_weight_append (ths : List Thread) (l1 l2 : List Event) :
    events_weight ths (l1 ++ l2) = events_weight ths l1 + events_weight ths l2 := by
  simp [events_weight]

theorem events_weight_cons (ths : List Thread) (e : Event) (l : List Event) :
    events_weight ths (e :: l) = e.weight ths + events_weight ths l := by
  simp [events_weight]

theorem ready_weight_append (ths : List Thread) (l1 l2 : List Nat) :
    ready_weight ths (l1 ++ l2) = ready_weight ths l1 + ready_weight ths l2 := by
  simp [ready_weight]

theorem ready_weight_cons (ths : List Thread) (i : Nat) (l : List Nat) :
    ready_weight ths (i :: l) = 4 * thread_measure ths i + 1 + ready_weight ths l := by
  simp [ready_weight]

theorem Simulation.measure_new_event (s : Simulation) (ty : EventType) (time : Int)
    (th : Option Nat) (sd : Option SchedulingDecision) :
    (s.new_event ty time th sd).measure =
      s.measure + Event.weight s.threads ⟨ty, time, s.event_num, th, sd⟩ := by
  simp only [Simulation.measure, Simulation.new_event, Simulation.add_event,
    events_weight_append, events_weight_cons]
  simp [events_weight]
  omega

theorem Event.weight_pos (ths : List Thread) (e : Event) : 1 ≤ e.weight ths := by
  unfold Event.weight
  split
  · exact le_refl _
  · cases e.type <;> simp [EventType.base_weight]

/-- The measure of a state that differs from `s` in the thread at `i`, whose
bursts hold no more work than before, and in the ready queue, which has the
entries `extra` more. -/
theorem Simulation.measure_update {s s2 : Simulation} {i : Nat} {t t1 : Thread}
    (hi : s.threads[i]? = some t) (hle : burst_measure t1.bursts ≤ burst_measure t.bursts)
    (extra : List Nat)
    (e1 : s2.threads = s.threads.set i t1) (e2 : s2.events = s.events)
    (e3 : s2.scheduler.ready_queue = s.scheduler.ready_queue ++ extra) :
    s2.measure ≤ s.measure + ready_weight (s.threads.set i t1) extra := by
  have hm := thread_measure_set_le hi hle
  have h1 := events_weight_mono hm s.events
  have h2 := ready_weight_mono hm s.scheduler.ready_queue
  simp only [Simulation.measure, e1, e2, e3, ready_weight_append]
  omega

theorem Simulation.lt_length_of_getElem? {ths : List Thread} {i : Nat} {t : Thread}
    (h : ths[i]? = some t) : i < ths.length := by
  by_contra hcon
  rw [List.getElem?_eq_none (Nat.le_of_not_lt hcon)] at h
  cases h

theorem events_weight_nil (ths : List Thread) : events_weight ths [] = 0 := rfl

/-- The weights after the thread at `i` has been replaced by one whose bursts
hold no more work and has joined the ready queue. -/
theorem weight_requeue {ths : List Thread} {i : Nat} {t t1 : Thread}
    (hi : ths[i]? = some t) (hle : burst_measure t1.bursts ≤ burst_measure t.bursts)
    (evs : List Event) (queue : List Nat) :
    events_weight (ths.set i t1) evs + ready_weight (ths.set i t1) (queue ++ [i]) ≤
      events_weight ths evs + ready_weight ths queue + 4 * burst_measure t1.bursts + 1 := by
  have hm := thread_measure_set_le hi hle
  have h1 := events_weight_mono hm evs
  have h2 := ready_weight_mono hm queue
  have hs := thread_measure_set_self (Simulation.lt_length_of_getElem? hi) t1
  have h3 : ready_weight (ths.set i t1) [i] = 4 * burst_measure t1.bursts + 1 := by
    simp [ready_weight, hs]
  rw [ready_weight_append, h3]
  omega

/-- The weights after the thread at `i` has been replaced by one whose bursts
hold no more work. -/
theorem weight_keep {ths : List Thread} {i : Nat} {t t1 : Thread}
    (hi : ths[i]? = some t) (hle : burst_measure t1.bursts ≤ burst_measure t.bursts)
    (evs : List Event) (queue : List Nat) :
    events_weight (ths.set i t1) evs + ready_weight (ths.set i t1) queue ≤
      events_weight ths evs + ready_weight ths queue := by
  have hm := thread_measure_set_le hi hle
  have h1 := events_weight_mono hm evs
  have h2 := ready_weight_mono hm queue
  omega

theorem Event.weight_of_thread {ths : List Thread} {i : Nat} (h : i < ths.length) (t : Thread)
    (ty : EventType) (time : Int) (n : Nat) (sd : Option SchedulingDecision) :
    Event.weight (ths.set i t) ⟨ty, time, n, some i, sd⟩ =
      if ty = EventType.DISPATCHER_INVOKED then 1
      else 4 * burst_measure t.bursts + ty.base_weight := by
  simp [Event.weight, Event.thread_measure, thread_measure_set_self h]

theorem Event.weight_dispatcher (ths : List Thread) (time : Int) (n : Nat) (th : Option Nat)
    (sd : Option SchedulingDecision) :
    Event.weight ths ⟨EventType.DISPATCHER_INVOKED, time, n, th, sd⟩ = 1 := by
  simp [Event.weight]

theorem Event.thread_measure_of_deref {s : Simulation} {m : Event} {i : Nat} {t : Thread}
    (hd : s.deref m.thread = .ok (i, t)) :
    m.thread_measure s.threads = burst_measure t.bursts := by
  obtain ⟨hi, -, hm⟩ := Simulation.deref_mem hd
  simp [Event.thread_measure, hm, PSched.thread_measure, hi]

theorem Simulation.measure_thread_arrived {m : Event} {s s1 : Simulation}
    (hr : s.handle_thread_arrived m = .ok s1) :
    s1.measure + 1 ≤ s.measure + 4 * m.thread_measure s.threads + 3 := by
  unfold Simulation.handle_thread_arrived at hr
  split at hr
  · simp at hr
  · rename_i i t hd
    split at hr
    · simp at hr
    · rename_i u t1 hset
      obtain ⟨hi, -, hm⟩ := Simulation.deref_mem hd
      have hb1 : t1.bursts = t.bursts := by
        have := Thread.set_ready_bursts t m.time
        rw [hset] at this; exact this
      rw [Event.thread_measure_of_deref hd]
      have hw := weight_requeue hi (le_of_eq (congrArg burst_measure hb1)) s.events
        s.scheduler.ready_queue
      rw [hb1] at hw
      dsimp only at hr
      split at hr <;> simp only [Except.ok.injEq] at hr <;> subst hr <;>
        simp only [Simulation.measure, Simulation.new_event, Simulation.add_event,
          Simulation.set_thread, events_weight_append, events_weight_cons, events_weight_nil,
          Scheduler.ready_queue_add, Event.weight_dispatcher] <;>
        omega

theorem burst_measure_pop (b : Burst) (rest : List Burst) :
    burst_measure rest + 1 ≤ burst_measure (b :: rest) := by
  simp only [burst_measure]
  omega

theorem burst_measure_slice (b : Burst) (rest : List Burst) (ts : Int) (h1 : 1 ≤ ts)
    (h2 : b.length > ts) :
    burst_measure ({ b with length := b.length - ts } :: rest) + 1 ≤
      burst_measure (b :: rest) := by
  simp only [burst_measure]
  omega

theorem Simulation.measure_dispatch_completed_full {m : Event} {s s1 : Simulation} {i : Nat}
    {t t1 : Thread} (hm : m.thread = some i) (hi : s.threads[i]? = some t)
    (hb : t1.bursts = t.bursts)
    (hr : s.dispatch_completed_full m i t1 = .ok s1) :
    s1.measure + 1 ≤ s.measure + 4 * burst_measure t.bursts + 1 := by
  have hlt := Simulation.lt_length_of_getElem? hi
  unfold Simulation.dispatch_completed_full at hr
  split at hr
  · simp at hr
  · simp at hr
  · rename_i burst t2 hpop
    obtain ⟨hbm, -, rfl⟩ := Thread.pop_next_burst_some hpop
    have hle : burst_measure t1.bursts.tail + 1 ≤ burst_measure t.bursts := by
      rw [← hb, hbm]
      exact burst_measure_pop _ _
    have hle2 : burst_measure
        ({ t1 with bursts := t1.bursts.tail,
                   service_time := t1.service_time + burst.length } : Thread).bursts ≤
        burst_measure t.bursts := by
      simp only
      omega
    have hw := weight_keep hi hle2 s.events s.scheduler.ready_queue
    dsimp only at hr
    split at hr
    · simp at hr
    · simp only [Except.ok.injEq] at hr
      subst hr
      simp only [Simulation.measure, Simulation.new_event, Simulation.add_event,
        Simulation.set_thread, events_weight_append, events_weight_cons, events_weight_nil,
        hm, Event.weight_of_thread hlt, EventType.base_weight]
      simp only [reduceCtorEq, if_false]
      omega
    · simp only [Except.ok.injEq] at hr
      subst hr
      simp only [Simulation.measure, Simulation.new_event, Simulation.add_event,
        Simulation.set_thread, events_weight_append, events_weight_cons, events_weight_nil,
        hm, Event.weight_of_thread hlt, EventType.base_weight]
      simp only [reduceCtorEq, if_false]
      omega

theorem Simulation.measure_dispatch_completed {m : Event} {s s1 : Simulation}
    (hd : ∀ sd, m.scheduling_decision = some sd → sd.time_slice = -1 ∨ 1 ≤ sd.time_slice)
    (hr : s.handle_dispatch_completed m = .ok s1) :
    s1.measure + 1 ≤ s.measure + 4 * m.thread_measure s.threads + 1 := by
  unfold Simulation.handle_dispatch_completed at hr
  split at hr
  · simp at hr
  · rename_i i t hderef
    obtain ⟨hi, -, hm⟩ := Simulation.deref_mem hderef
    have hlt := Simulation.lt_length_of_getElem? hi
    rw [Event.thread_measure_of_deref hderef]
    split at hr
    · simp at hr
    · rename_i u t1 hset
      have hb1 : t1.bursts = t.bursts := by
        have := Thread.set_running_bursts t m.time
        rw [hset] at this; exact this
      split at hr
      · simp at hr
      · rename_i oburst hget
        split at hr
        · simp at hr
        · rename_i sd hsd
          split at hr
          · rename_i hne
            have hts : 1 ≤ sd.time_slice := by
              rcases hd sd hsd with h | h
              · exact absurd h hne
              · exact h
            split at hr
            · simp at hr
            · rename_i burst
              obtain ⟨hbm, -⟩ := Thread.get_next_burst_some hget
              split at hr
              · rename_i hgt
                have hle : burst_measure
                    ({ burst with length := burst.length - sd.time_slice } :: t1.bursts.tail) + 1 ≤
                    burst_measure t.bursts := by
                  rw [← hb1, hbm]
                  exact burst_measure_slice burst _ _ hts hgt
                have hle2 : burst_measure
                    ({ t1 with
                       bursts := { burst with length := burst.length - sd.time_slice } ::
                         t1.bursts.tail,
                       service_time := t1.service_time + sd.time_slice } : Thread).bursts ≤
                    burst_measure t.bursts := by
                  simp only
                  omega
                have hw := weight_keep hi hle2 s.events s.scheduler.ready_queue
                simp only [Except.ok.injEq] at hr
                subst hr
                simp only [Simulation.dispatch_completed_slice, Simulation.measure,
                  Simulation.new_event, Simulation.add_event, Simulation.set_thread,
                  events_weight_append, events_weight_cons, events_weight_nil, hm,
                  Event.weight_of_thread hlt, EventType.base_weight]
                simp only [reduceCtorEq, if_false, if_true]
                omega
              · exact Simulation.measure_dispatch_completed_full hm hi hb1 hr
          · exact Simulation.measure_dispatch_completed_full hm hi hb1 hr

theorem Simulation.measure_cpu_burst_completed {m : Event} {s s1 : Simulation}
    (hr : s.handle_cpu_burst_completed m = .ok s1) :
    s1.measure + 1 ≤ s.measure + 4 * m.thread_measure s.threads + 1 := by
  unfold Simulation.handle_cpu_burst_completed at hr
  split at hr
  · simp at hr
  · rename_i i t hderef
    obtain ⟨hi, -, hm⟩ := Simulation.deref_mem hderef
    have hlt := Simulation.lt_length_of_getElem? hi
    rw [Event.thread_measure_of_deref hderef]
    split at hr
    · simp at hr
    · rename_i u t1 hset
      have hb1 : t1.bursts = t.bursts := by
        have := Thread.set_blocked_bursts t m.time
        rw [hset] at this; exact this
      split at hr
      · simp at hr
      · simp at hr
      · rename_i io_burst t2 hpop
        obtain ⟨hbm, -, rfl⟩ := Thread.pop_next_burst_some hpop
        have hle : burst_measure t1.bursts.tail + 1 ≤ burst_measure t.bursts := by
          rw [← hb1, hbm]
          exact burst_measure_pop _ _
        have hle2 : burst_measure
            ({ t1 with bursts := t1.bursts.tail,
                       io_time := t1.io_time + io_burst.length } : Thread).bursts ≤
            burst_measure t.bursts := by
          simp only
          omega
        have hw := weight_keep hi hle2 s.events s.scheduler.ready_queue
        simp only [Except.ok.injEq] at hr
        subst hr
        simp only [Simulation.measure, Simulation.new_event, Simulation.add_event,
          Simulation.set_thread, events_weight_append, events_weight_cons, events_weight_nil,
          hm, Event.weight_of_thread hlt, Event.weight_dispatcher, EventType.base_weight]
        simp only [reduceCtorEq, if_false]
        omega

theorem Simulation.measure_io_burst_completed {m : Event} {s s1 : Simulation}
    (hr : s.handle_io_burst_completed m = .ok s1) :
    s1.measure + 1 ≤ s.measure + 4 * m.thread_measure s.threads + 3 := by
  unfold Simulation.handle_io_burst_completed at hr
  split at hr
  · simp at hr
  · rename_i i t hd
    split at hr
    · simp at hr
    · rename_i u t1 hset
      obtain ⟨hi, -, hm⟩ := Simulation.deref_mem hd
      have hb1 : t1.bursts = t.bursts := by
        have := Thread.set_ready_bursts t m.time
        rw [hset] at this; exact this
      rw [Event.thread_measure_of_deref hd]
      have hw := weight_requeue hi (le_of_eq (congrArg burst_measure hb1)) s.events
        s.scheduler.ready_queue
      rw [hb1] at hw
      dsimp only at hr
      split at hr <;> simp only [Except.ok.injEq] at hr <;> subst hr <;>
        simp only [Simulation.measure, Simulation.new_event, Simulation.add_event,
          Simulation.set_thread, events_weight_append, events_weight_cons, events_weight_nil,
          Scheduler.ready_queue_add, Event.weight_dispatcher] <;>
        omega

theorem Simulation.measure_thread_completed {m : Event} {s s1 : Simulation}
    (hr : s.handle_thread_completed m = .ok s1) :
    s1.measure + 1 ≤ s.measure + 4 * m.thread_measure s.threads + 2 := by
  unfold Simulation.handle_thread_completed at hr
  split at hr
  · simp at hr
  · rename_i i t hd
    split at hr
    · simp at hr
    · rename_i u t1 hset
      obtain ⟨hi, -, hm⟩ := Simulation.deref_mem hd
      have hb1 : t1.bursts = t.bursts := by
        have := Thread.set_finished_bursts t m.time
        rw [hset] at this; exact this
      rw [Event.thread_measure_of_deref hd]
      have hw := weight_keep hi (le_of_eq (congrArg burst_measure hb1)) s.events
        s.scheduler.ready_queue
      dsimp only at hr
      split at hr <;> simp only [Except.ok.injEq] at hr <;> subst hr <;>
        simp only [Simulation.measure, Simulation.new_event, Simulation.add_event,
          Simulation.set_thread, events_weight_append, events_weight_cons, events_weight_nil,
          Event.weight_dispatcher] <;>
        omega

theorem Simulation.measure_thread_preempted {m : Event} {s s1 : Simulation}
    (hr : s.handle_thread_preempted m = .ok s1) :
    s1.measure + 1 ≤ s.measure + 4 * m.thread_measure s.threads + 3 := by
  unfold Simulation.handle_thread_preempted at hr
  split at hr
  · simp at hr
  · rename_i i t hd
    split at hr
    · simp at hr
    · rename_i u t1 hset
      obtain ⟨hi, -, hm⟩ := Simulation.deref_mem hd
      have hb1 : t1.bursts = t.bursts := by
        have := Thread.set_ready_bursts t m.time
        rw [hset] at this; exact this
      have htime : m.time - t1.state_change_time = 0 := by
        rw [Thread.set_ready_time hset]; omega
      rw [Event.thread_measure_of_deref hd]
      split at hr
      · simp at hr
      · simp at hr
      · rename_i cpu_burst hget
        obtain ⟨hb, -⟩ := Thread.get_next_burst_some hget
        have hbs : cpu_burst.update_time (m.time - t1.state_change_time) :: t1.bursts.tail =
            t.bursts := by
          rw [htime, Burst.update_time_zero, ← hb, hb1]
        have hle2 : burst_measure
            ({ t1 with
               service_time := t1.service_time + (m.time - t1.state_change_time),
               bursts := cpu_burst.update_time (m.time - t1.state_change_time) ::
                 t1.bursts.tail } : Thread).bursts ≤
            burst_measure t.bursts := by
          simp only
          rw [hbs]
        have hw := weight_requeue hi hle2 s.events s.scheduler.ready_queue
        have hbm2 := congrArg burst_measure hbs
        dsimp only at hw
        dsimp only at hr
        split at hr <;> simp only [Except.ok.injEq] at hr <;> subst hr <;>
          simp only [Simulation.measure, Simulation.new_event, Simulation.add_event,
            Simulation.set_thread, events_weight_append, events_weight_cons, events_weight_nil,
            Scheduler.ready_queue_add, Event.weight_dispatcher] <;>
          omega

theorem Simulation.measure_dispatch_with (s : Simulation) (m : Event) (sd : SchedulingDecision)
    (ty : EventType) (overhead : Int) :
    (s.dispatch_with m sd ty overhead).measure =
      s.measure +
        Event.weight s.threads ⟨ty, m.time + overhead, s.event_num, sd.thread, some sd⟩ := by
  simp only [Simulation.dispatch_with, Simulation.measure, Simulation.new_event,
    Simulation.add_event, events_weight_append, events_weight_cons, events_weight_nil]
  omega

theorem Simulation.measure_dispatch_next {m : Event} {s s1 : Simulation}
    (hr : s.dispatch_next m = .ok s1) : s1.measure ≤ s.measure := by
  obtain ⟨hhead, htail⟩ := Scheduler.get_thread_queue s.scheduler
  unfold Simulation.dispatch_next at hr
  dsimp only at hr
  split at hr
  · rename_i hnone
    simp only [Except.ok.injEq] at hr
    subst hr
    rw [hnone] at hhead
    have hq : s.scheduler.ready_queue = [] := by
      cases hq : s.scheduler.ready_queue with
      | nil => rfl
      | cons a rest => rw [hq] at hhead; cases hhead
    simp only [Simulation.measure, htail, hq, List.tail_nil]
    exact le_refl _
  · rename_i a hsome
    rw [hsome] at hhead
    have hq : s.scheduler.ready_queue = a :: s.scheduler.ready_queue.tail := by
      cases hq : s.scheduler.ready_queue with
      | nil => rw [hq] at hhead; cases hhead
      | cons b rest =>
        rw [hq] at hhead
        simp only [List.head?_cons, Option.some.injEq] at hhead
        rw [hhead]
        rfl
    have hbase : ∀ (ty : EventType) (overhead : Int),
        (ty = EventType.THREAD_DISPATCH_COMPLETED ∨
          ty = EventType.PROCESS_DISPATCH_COMPLETED) →
        ((Simulation.mk (s.scheduler.get_next_thread).2 s.threads s.events s.event_num
          (some a) s.prev_thread s.thread_switch_overhead s.process_switch_overhead
          s.io_time_start s.system_stats s.all_threads s.first_event).dispatch_with m
            (s.scheduler.get_next_thread).1 ty overhead).measure ≤ s.measure := by
      intro ty overhead hty
      rw [Simulation.measure_dispatch_with]
      have hw : Event.weight s.threads
          ⟨ty, m.time + overhead, s.event_num, (s.scheduler.get_next_thread).1.thread,
            some (s.scheduler.get_next_thread).1⟩ = 4 * thread_measure s.threads a + 1 := by
        rcases hty with rfl | rfl <;>
          simp [Event.weight, Event.thread_measure, hsome, EventType.base_weight]
      rw [hw]
      have hrw : ready_weight s.threads s.scheduler.ready_queue =
          4 * thread_measure s.threads a + 1 +
            ready_weight s.threads s.scheduler.ready_queue.tail := by
        conv_lhs => rw [hq]
        exact ready_weight_cons _ _ _
      simp only [Simulation.measure, htail]
      omega
    split at hr
    · simp at hr
    · split at hr
      · simp only [Except.ok.injEq] at hr
        subst hr
        exact hbase _ _ (Or.inr rfl)
      · split at hr
        · simp at hr
        · split at hr <;> simp only [Except.ok.injEq] at hr <;> subst hr
          · exact hbase _ _ (Or.inl rfl)
          · exact hbase _ _ (Or.inr rfl)

theorem Simulation.measure_dispatcher_invoked {m : Event} {s s1 : Simulation}
    (hr : s.handle_dispatcher_invoked m = .ok s1) : s1.measure ≤ s.measure := by
  unfold Simulation.handle_dispatcher_invoked at hr
  dsimp only at hr
  split at hr
  · exact (Simulation.measure_dispatch_next hr).trans (le_refl _)
  · exact Simulation.measure_dispatch_next hr

/-- Every handler that returns leaves a measure below the measure it found
plus the weight of the event it handled, when the slice of the event's
decision is −1 or at least 1. -/
theorem Simulation.measure_handle {m : Event} {s s1 : Simulation}
    (hd : ∀ sd, m.scheduling_decision = some sd → sd.time_slice = -1 ∨ 1 ≤ sd.time_slice)
    (hr : s.handle m = .ok s1) : s1.measure < s.measure + m.weight s.threads := by
  unfold Simulation.handle at hr
  unfold Event.weight
  split at hr
  · rename_i hty
    simp only [hty, reduceCtorEq, if_false, EventType.base_weight]
    split at hr
    · have := Simulation.measure_thread_arrived hr
      have he : (Simulation.mk s.scheduler s.threads s.events s.event_num s.active_thread
          s.prev_thread s.thread_switch_overhead s.process_switch_overhead s.io_time_start
          { s.system_stats with total_idle_time := m.time } s.all_threads false).measure =
          s.measure := rfl
      rw [he] at this
      exact this
    · exact Simulation.measure_thread_arrived hr
  · rename_i hty
    simp only [hty, reduceCtorEq, if_false, EventType.base_weight]
    exact Simulation.measure_dispatch_completed hd hr
  · rename_i hty
    simp only [hty, reduceCtorEq, if_false, EventType.base_weight]
    exact Simulation.measure_dispatch_completed hd hr
  · rename_i hty
    simp only [hty, reduceCtorEq, if_false, EventType.base_weight]
    exact Simulation.measure_cpu_burst_completed hr
  · rename_i hty
    simp only [hty, reduceCtorEq, if_false, EventType.base_weight]
    exact Simulation.measure_io_burst_completed hr
  · rename_i hty
    simp only [hty, reduceCtorEq, if_false, EventType.base_weight]
    exact Simulation.measure_thread_completed hr
  · rename_i hty
    simp only [hty, reduceCtorEq, if_false, EventType.base_weight]
    exact Simulation.measure_thread_preempted hr
  · rename_i hty
    simp only [hty, if_true]
    have := Simulation.measure_dispatcher_invoked hr
    omega

theorem Simulation.measure_of_pop {s : Simulation} {m : Event} {rest : List Event}
    (hp : pop_min s.events = some (m, rest)) :
    s.measure = (Simulation.mk s.scheduler s.threads rest s.event_num s.active_thread
      s.prev_thread s.thread_switch_overhead s.process_switch_overhead s.io_time_start
      s.system_stats s.all_threads s.first_event).measure + m.weight s.threads := by
  obtain ⟨⟨l1, l2, hl, hrest⟩, -⟩ := pop_min_split hp
  simp only [Simulation.measure, hl, hrest, events_weight_append, events_weight_cons]
  omega

/-- The measure goes down with every iteration that pops an event and
returns. -/
theorem Simulation.measure_step {s s1 : Simulation} {m : Event} {rest : List Event}
    (h : s.StartInv term_params) (hp : pop_min s.events = some (m, rest))
    (hs : s.step = .ok s1) : s1.measure < s.measure := by
  obtain ⟨s0, h0, hs1⟩ := Simulation.step_of_pop hp hs
  have hd := (Simulation.LoopInv.of_pop term_params_closed h hp).1.2.2.2
  have h1 := Simulation.measure_handle hd h0
  have h2 := Simulation.measure_of_pop hp
  have h3 : s1.measure = s0.measure := by rw [hs1]; rfl
  have h4 : (Simulation.mk s.scheduler s.threads rest s.event_num s.active_thread
      s.prev_thread s.thread_switch_overhead s.process_switch_overhead s.io_time_start
      s.system_stats s.all_threads s.first_event).threads = s.threads := rfl
  rw [h4] at h1
  omega

theorem Simulation.events_of_measure_zero {s : Simulation} (h : s.measure = 0) :
    s.events = [] := by
  cases he : s.events with
  | nil => rfl
  | cons e es =>
    have := Event.weight_pos s.threads e
    simp only [Simulation.measure, he, events_weight_cons] at h
    omega

/-- The loop stops within as many iterations as the measure of the state it
starts in. -/
theorem Simulation.run_loop_stops (n : Nat) :
    ∀ s : Simulation, s.StartInv term_params → s.measure ≤ n →
      Simulation.stopped (s.run_loop n) = true := by
  induction n with
  | zero =>
    intro s _ hm
    have he := Simulation.events_of_measure_zero (Nat.le_zero.mp hm)
    simp [Simulation.run_loop, Simulation.stopped, he]
  | succ n ih =>
    intro s h hm
    cases hp : pop_min s.events with
    | none =>
      have he := pop_min_eq_none.mp hp
      rw [Simulation.run_loop_of_nil _ he]
      simp [Simulation.stopped, he]
    | some p =>
      obtain ⟨m, rest⟩ := p
      rw [Simulation.run_loop_succ]
      cases hs : s.step with
      | error e => rfl
      | ok s1 =>
        have hlt := Simulation.measure_step h hp hs
        exact ih s1 (h.of_step term_params_closed hs) (by omega)

theorem Simulation.stopped_add {s : Simulation} {a : Nat} (b : Nat)
    (h : Simulation.stopped (s.run_loop a) = true) :
    Simulation.stopped (s.run_loop (a + b)) = true := by
  rw [Simulation.run_loop_add]
  cases hr : s.run_loop a with
  | error e => rfl
  | ok s1 =>
    rw [hr] at h
    have he : s1.events = [] := by simpa [Simulation.stopped] using h
    simp only
    rw [Simulation.run_loop_of_nil _ he]
    exact h

/-- With slice 0 a pending dispatch of a thread whose CPU burst has a positive
length comes back, with the burst as long as before, after every three
iterations. -/
theorem Simulation.slice_zero_cycle {r : Int} {rest : List Burst} (hr : 0 < r) (n : Nat) :
    ∀ (st : Simulation) (t : Thread) (ty : EventType) (τ : Int),
      DispatchPending st 0 t ty τ → t.current_state = ThreadState.READY →
      t.bursts = { burst_type := BurstType.CPU, length := r } :: rest →
      ∃ st1 t1 ty1 τ1, st.run_loop (3 * n) = .ok st1 ∧ DispatchPending st1 0 t1 ty1 τ1 := by
  induction n with
  | zero =>
    intro st t ty τ h _ _
    exact ⟨st, t, ty, τ, rfl, h⟩
  | succ n ih =>
    intro st t ty τ h hst hb
    obtain ⟨-, st3, h3, hp3, -⟩ :=
      dispatch_pending_preempt h hst hb (by decide) hr
    obtain ⟨st1, t1, ty1, τ1, h1, hp1⟩ := ih st3 _ _ _ hp3 rfl (by simp)
    refine ⟨st1, t1, ty1, τ1, ?_, hp1⟩
    rw [show 3 * (n + 1) = 3 + 3 * n by omega, Simulation.run_loop_add, h3]
    exact h1

theorem DispatchPending.not_stopped {st : Simulation} {slice τ : Int} {t : Thread}
    {ty : EventType} (h : DispatchPending st slice t ty τ) :
    Simulation.stopped (.ok st) = false := by
  obtain ⟨-, -, ⟨n, expl, he⟩, -, -⟩ := h
  simp [Simulation.stopped, he]

/-- Under round-robin with slice 0 the run of one thread whose first CPU burst
has a positive length never stops. -/
theorem Simulation.slice_zero_never_stops (tso pso pid : Int) (prio : Fin 4) (a r : Int)
    (ls : List Int) (hr : 0 < r) (fuel : Nat) :
    Simulation.stopped (Simulation.run fuel (Scheduler.rr (RRScheduler.create 0))
      (single_thread_input tso pso pid prio a (r :: ls))) = false := by
  obtain ⟨st, h2, hp, -⟩ := single_thread_start tso pso pid prio a (r :: ls)
    (Scheduler.rr (RRScheduler.create 0)) 0 (Or.inl rfl)
  have hb : mk_bursts 0 (r :: ls) =
      { burst_type := BurstType.CPU, length := r } :: mk_bursts 1 ls := by
    simp [mk_bursts]
  obtain ⟨st1, t1, ty1, τ1, h1, hp1⟩ :=
    Simulation.slice_zero_cycle hr fuel st _ _ _ hp rfl hb
  have hrun : Simulation.run (2 + 3 * fuel) (Scheduler.rr (RRScheduler.create 0))
      (single_thread_input tso pso pid prio a (r :: ls)) = .ok st1 := by
    unfold Simulation.run
    rw [Simulation.run_loop_add, h2]
    exact h1
  cases hstop : Simulation.stopped (Simulation.run fuel (Scheduler.rr (RRScheduler.create 0))
      (single_thread_input tso pso pid prio a (r :: ls))) with
  | false => rfl
  | true =>
    have hadd := Simulation.stopped_add (2 + 2 * fuel) hstop
    rw [show fuel + (2 + 2 * fuel) = 2 + 3 * fuel by omega] at hadd
    unfold Simulation.run at hrun
    rw [hrun, hp1.not_stopped] at hadd
    cases hadd

/-- C21: under FCFS or round-robin with a slice of at least 1 the run loop
terminates on every input: there is a bound (the measure of the loaded state)
such that after that many iterations, and after any greater number, the run
has stopped with an empty event queue or with an error. The measure, the
weight of the queued events plus the weight of the ready queue, goes down
with every iteration. Slice 0, which the constructor accepts, is excluded for
a reason: under round-robin with slice 0 the run of one thread whose first CPU
burst has a positive length has not stopped after any number of iterations. -/
theorem run_terminates (sched : Scheduler) (inp : SimInput) (hs : sched.slice_positive) :
    (∃ bound, ∀ fuel, bound ≤ fuel →
      Simulation.stopped (Simulation.run fuel sched inp) = true) ∧
    (∀ (tso pso pid : Int) (prio : Fin 4) (a r : Int) (ls : List Int), 0 < r → ∀ fuel,
      Simulation.stopped (Simulation.run fuel (Scheduler.rr (RRScheduler.create 0))
        (single_thread_input tso pso pid prio a (r :: ls))) = false) := by
  refine ⟨⟨((Simulation.init sched).read_file inp).measure, fun fuel hf => ?_⟩,
    fun tso pso pid prio a r ls hr fuel =>
      Simulation.slice_zero_never_stops tso pso pid prio a r ls hr fuel⟩
  have hsl : sched.slice_ok term_params := by
    cases sched with
    | fcfs f => trivial
    | rr r => exact Or.inr hs
  have hinv : ((Simulation.init sched).read_file inp).StartInv term_params :=
    Simulation.StartInv.read_file hsl ⟨trivial, trivial, fun _ _ _ _ _ _ => trivial⟩
  have h := Simulation.run_loop_stops _ _ hinv (le_refl _)
  have h2 := Simulation.stopped_add (fuel - ((Simulation.init sched).read_file inp).measure) h
  rw [show ((Simulation.init sched).read_file inp).measure +
    (fuel - ((Simulation.init sched).read_file inp).measure) = fuel by omega] at h2
  exact h2

/-- Witness of C21: the two-thread input under round-robin with slice 3. -/
theorem run_terminates_witness :
    (Scheduler.rr (RRScheduler.create 3)).slice_positive ∧
    ∃ bound, ∀ fuel, bound ≤ fuel →
      Simulation.stopped
        (Simulation.run fuel (Scheduler.rr (RRScheduler.create 3)) two_arrivals) = true :=
  ⟨show (1 : Int) ≤ 3 by decide,
   (run_terminates (Scheduler.rr (RRScheduler.create 3)) two_arrivals
     (show (1 : Int) ≤ 3 by decide)).1⟩

/-! ## No handler error on a well-formed input -/

theorem alternates_mk_bursts : ∀ (ls : List Int) (n : Nat), n % 2 = 0 →
    ls.length % 2 = 1 → alternates (mk_bursts n ls)
  | [], _, _, h => by simp at h
  | [a], n, hn, _ => by simp [mk_bursts, alternates, hn]
  | a :: b :: rest, n, hn, hlen => by
    have hn1 : ¬ ((n + 1) % 2 = 0) := by omega
    have hn2 : (n + 1 + 1) % 2 = 0 := by omega
    have hrest := alternates_mk_bursts rest (n + 1 + 1) hn2
      (by simp only [List.length_cons] at hlen; omega)
    simp only [mk_bursts, alternates, hn, hn1, if_true, if_false, true_and]
    exact hrest

theorem alternates_head {bs : List Burst} (h : alternates bs) :
    ∃ b rest, bs = b :: rest ∧ b.burst_type = BurstType.CPU ∧
      (rest = [] ∨ ∃ c rest2, rest = c :: rest2 ∧ c.burst_type = BurstType.Io ∧
        alternates rest2) := by
  match bs, h with
  | [b], h => exact ⟨b, [], rfl, h, Or.inl rfl⟩
  | b :: c :: rest, h => exact ⟨b, c :: rest, rfl, h.1, Or.inr ⟨c, rest, rfl, h.2.1, h.2.2⟩⟩

theorem alternates_of_head {b b1 : Burst} {rest : List Burst} (h : alternates (b :: rest))
    (hb : b1.burst_type = BurstType.CPU) : alternates (b1 :: rest) := by
  cases rest with
  | nil => exact hb
  | cons c rest => exact ⟨hb, h.2.1, h.2.2⟩

theorem Event.fits_dispatcher (ths : List Thread) (time : Int) (n : Nat) (th : Option Nat)
    (sd : Option SchedulingDecision) :
    Event.fits ths ⟨EventType.DISPATCHER_INVOKED, time, n, th, sd⟩ := Or.inl rfl

theorem Event.fits_of_thread {ths : List Thread} {i : Nat} {t : Thread} {ty : EventType}
    (hi : ths[i]? = some t) (ht : t.fits ty) (time : Int) (n : Nat)
    {sd : Option SchedulingDecision}
    (hsd : ty.is_dispatch_completed = true → sd ≠ none) :
    Event.fits ths ⟨ty, time, n, some i, sd⟩ :=
  Or.inr ⟨i, t, rfl, hi, ht, hsd⟩

theorem Event.fits_set {ths : List Thread} {e : Event} {i : Nat} (t1 : Thread)
    (h : e.fits ths) (hne : e.token ≠ some i) : e.fits (ths.set i t1) := by
  rcases h with h | ⟨j, t, hj, ht, hf, hsd⟩
  · exact Or.inl h
  · by_cases hty : e.type = EventType.DISPATCHER_INVOKED
    · exact Or.inl hty
    · have hji : i ≠ j := by
        intro hij
        apply hne
        simp [Event.token, hty, hj, hij]
      exact Or.inr ⟨j, t, hj, by rw [List.getElem?_set_ne hji]; exact ht, hf, hsd⟩

theorem ready_fits_set {ths : List Thread} {i j : Nat} (t1 : Thread)
    (h : ready_fits ths j) (hne : i ≠ j) : ready_fits (ths.set i t1) j := by
  obtain ⟨t, ht, h1, h2⟩ := h
  exact ⟨t, by rw [List.getElem?_set_ne hne]; exact ht, h1, h2⟩

theorem ready_fits_self {ths : List Thread} {i : Nat} (hi : i < ths.length) {t1 : Thread}
    (h1 : t1.current_state = ThreadState.READY) (h2 : alternates t1.bursts) :
    ready_fits (ths.set i t1) i :=
  ⟨t1, List.getElem?_set_self hi, h1, h2⟩

/-- The frame of a handler that works on the thread at `i`: it replaces the
thread, appends the events `new` and the ready-queue entries `extra`, which
fit the new arena and hold no next step but one of the thread at `i`. -/
theorem Simulation.WellFormed.of_update {s s1 : Simulation} {i : Nat} {t1 : Thread}
    {new : List Event} {extra : List Nat}
    (hev : ∀ e ∈ s.events, e.fits s.threads)
    (hrq : ∀ j ∈ s.scheduler.ready_queue, ready_fits s.threads j)
    (hnd : (i :: s.tokens).Nodup)
    (hp : ∀ p, s1.prev_thread = some p → p < s.threads.length)
    (ha : ∀ a, s1.active_thread = some a → a < s.threads.length)
    (e1 : s1.threads = s.threads.set i t1) (e2 : s1.events = s.events ++ new)
    (e3 : s1.scheduler.ready_queue = s.scheduler.ready_queue ++ extra)
    (hnew : ∀ e ∈ new, e.fits (s.threads.set i t1))
    (hextra : ∀ j ∈ extra, ready_fits (s.threads.set i t1) j)
    (htok : (new.filterMap Event.token ++ extra).Sublist [i]) : s1.WellFormed := by
  have hni : i ∉ s.tokens := (List.nodup_cons.mp hnd).1
  have hlen : s1.threads.length = s.threads.length := by rw [e1, List.length_set]
  refine ⟨?_, ?_, ?_, ?_, ?_⟩
  · intro e he
    rw [e2] at he
    rw [e1]
    rcases List.mem_append.mp he with h | h
    · refine Event.fits_set t1 (hev e h) ?_
      intro htk
      apply hni
      exact List.mem_append_left _ (List.mem_filterMap.mpr ⟨e, h, htk⟩)
    · exact hnew e h
  · intro j hj
    rw [e3] at hj
    rw [e1]
    rcases List.mem_append.mp hj with h | h
    · refine ready_fits_set t1 (hrq j h) ?_
      intro hij
      apply hni
      rw [hij]
      exact List.mem_append_right _ h
    · exact hextra j h
  · have hperm : s1.tokens.Perm ((new.filterMap Event.token ++ extra) ++ s.tokens) := by
      simp only [Simulation.tokens, e2, e3, List.filterMap_append]
      have h1 : (List.filterMap Event.token s.events ++ List.filterMap Event.token new ++
          (s.scheduler.ready_queue ++ extra)).Perm
          (List.filterMap Event.token s.events ++ (List.filterMap Event.token new ++
            (extra ++ s.scheduler.ready_queue))) := by
        rw [List.append_assoc]
        exact List.Perm.append_left _ (List.Perm.append_left _ List.perm_append_comm)
      refine h1.trans ?_
      have h2 : (List.filterMap Event.token s.events ++ (List.filterMap Event.token new ++
            (extra ++ s.scheduler.ready_queue))).Perm
          ((List.filterMap Event.token new ++ (extra ++ s.scheduler.ready_queue)) ++
            List.filterMap Event.token s.events) := List.perm_append_comm
      refine h2.trans ?_
      rw [List.append_assoc, List.append_assoc, List.append_assoc]
      exact List.Perm.append_left _ (List.Perm.append_left _ List.perm_append_comm)
    rw [hperm.nodup_iff]
    have hsub : ((new.filterMap Event.token ++ extra) ++ s.tokens).Sublist
        ([i] ++ s.tokens) := List.Sublist.append htok (List.Sublist.refl _)
    exact hnd.sublist hsub
  · intro p hp1
    rw [hlen]
    exact hp p hp1
  · intro a ha1
    rw [hlen]
    exact ha a ha1

theorem Simulation.Handling.thread {s : Simulation} {m : Event} (h : s.Handling m)
    (hty : m.type ≠ EventType.DISPATCHER_INVOKED) :
    ∃ i t, m.thread = some i ∧ s.threads[i]? = some t ∧ t.fits m.type ∧
      (m.type.is_dispatch_completed = true → m.scheduling_decision ≠ none) ∧
      (i :: s.tokens).Nodup := by
  obtain ⟨hm, -, -, hnd, -, -⟩ := h
  rcases hm with hm | ⟨i, t, hi, ht, hf, hsd⟩
  · exact absurd hm hty
  · refine ⟨i, t, hi, ht, hf, hsd, ?_⟩
    simpa [Event.token, hty, hi] using hnd

theorem Simulation.wf_thread_arrived {s : Simulation} {m : Event}
    (hty : m.type = EventType.THREAD_ARRIVED) (h : s.Handling m) :
    ∃ s1, s.handle_thread_arrived m = .ok s1 ∧ s1.WellFormed := by
  obtain ⟨i, t, hm, hi, hf, -, hnd⟩ := h.thread (by rw [hty]; decide)
  rw [hty] at hf
  obtain ⟨hst, halt⟩ := hf
  have hlt := Simulation.lt_length_of_getElem? hi
  have hset : t.set_ready m.time = (.ok (),
      { t with previous_state := ThreadState.NEW, current_state := ThreadState.READY,
               state_change_time := m.time }) := by
    simp [Thread.set_ready, hst, Thread.is_valid_transition, Thread.valid_transitions]
  unfold Simulation.handle_thread_arrived
  rw [hm, Simulation.deref_of_getElem? hi]
  simp only [hset]
  split
  · refine ⟨_, rfl, Simulation.WellFormed.of_update h.2.1 h.2.2.1 hnd h.2.2.2.2.1 h.2.2.2.2.2
      rfl (List.append_nil _).symm (Scheduler.ready_queue_add _ _) ?_ ?_ ?_⟩
    · intro e he
      cases he
    · intro j hj
      rw [List.mem_singleton.mp hj]
      exact ready_fits_self hlt rfl halt
    · exact List.Sublist.refl _
  · refine ⟨_, rfl, Simulation.WellFormed.of_update h.2.1 h.2.2.1 hnd h.2.2.2.2.1 h.2.2.2.2.2
      rfl rfl (Scheduler.ready_queue_add _ _) ?_ ?_ ?_⟩
    · intro e he
      rw [List.mem_singleton.mp he]
      exact Event.fits_dispatcher _ _ _ _ _
    · intro j hj
      rw [List.mem_singleton.mp hj]
      exact ready_fits_self hlt rfl halt
    · exact List.Sublist.refl _

theorem Simulation.wf_io_burst_completed {s : Simulation} {m : Event}
    (hty : m.type = EventType.IO_BURST_COMPLETED) (h : s.Handling m) :
    ∃ s1, s.handle_io_burst_completed m = .ok s1 ∧ s1.WellFormed := by
  obtain ⟨i, t, hm, hi, hf, -, hnd⟩ := h.thread (by rw [hty]; decide)
  rw [hty] at hf
  obtain ⟨hst, halt⟩ := hf
  have hlt := Simulation.lt_length_of_getElem? hi
  have hset : t.set_ready m.time = (.ok (),
      { t with previous_state := ThreadState.BLOCKED, current_state := ThreadState.READY,
               state_change_time := m.time }) := by
    simp [Thread.set_ready, hst, Thread.is_valid_transition, Thread.valid_transitions]
  unfold Simulation.handle_io_burst_completed
  rw [hm, Simulation.deref_of_getElem? hi]
  simp only [hset]
  split
  · refine ⟨_, rfl, Simulation.WellFormed.of_update h.2.1 h.2.2.1 hnd h.2.2.2.2.1 h.2.2.2.2.2
      rfl (List.append_nil _).symm (Scheduler.ready_queue_add _ _) ?_ ?_ ?_⟩
    · intro e he
      cases he
    · intro j hj
      rw [List.mem_singleton.mp hj]
      exact ready_fits_self hlt rfl halt
    · exact List.Sublist.refl _
  · refine ⟨_, rfl, Simulation.WellFormed.of_update h.2.1 h.2.2.1 hnd h.2.2.2.2.1 h.2.2.2.2.2
      rfl rfl (Scheduler.ready_queue_add _ _) ?_ ?_ ?_⟩
    · intro e he
      rw [List.mem_singleton.mp he]
      exact Event.fits_dispatcher _ _ _ _ _
    · intro j hj
      rw [List.mem_singleton.mp hj]
      exact ready_fits_self hlt rfl halt
    · exact List.Sublist.refl _

theorem Simulation.wf_thread_completed {s : Simulation} {m : Event}
    (hty : m.type = EventType.THREAD_COMPLETED) (h : s.Handling m) :
    ∃ s1, s.handle_thread_completed m = .ok s1 ∧ s1.WellFormed := by
  obtain ⟨i, t, hm, hi, hf, -, hnd⟩ := h.thread (by rw [hty]; decide)
  rw [hty] at hf
  have hst : t.current_state = ThreadState.RUNNING := hf
  have hlt := Simulation.lt_length_of_getElem? hi
  have hset : t.set_finished m.time = (.ok (),
      { t with previous_state := ThreadState.RUNNING, current_state := ThreadState.EXIT,
               state_change_time := m.time, end_time := m.time }) := by
    simp [Thread.set_finished, hst, Thread.is_valid_transition, Thread.valid_transitions]
  have hnone : ∀ a : Nat, (none : Option Nat) = some a → a < s.threads.length := by
    intro a ha
    cases ha
  unfold Simulation.handle_thread_completed
  rw [hm, Simulation.deref_of_getElem? hi]
  simp only [hset]
  split
  · refine ⟨_, rfl, Simulation.WellFormed.of_update h.2.1 h.2.2.1 hnd h.2.2.2.2.2 hnone
      rfl (List.append_nil _).symm (List.append_nil _).symm ?_ ?_ ?_⟩
    · intro e he
      cases he
    · intro j hj
      cases hj
    · exact List.nil_sublist _
  · refine ⟨_, rfl, Simulation.WellFormed.of_update h.2.1 h.2.2.1 hnd h.2.2.2.2.2 hnone
      rfl rfl (List.append_nil _).symm ?_ ?_ ?_⟩
    · intro e he
      rw [List.mem_singleton.mp he]
      exact Event.fits_dispatcher _ _ _ _ _
    · intro j hj
      cases hj
    · exact List.nil_sublist _

theorem Simulation.wf_thread_preempted {s : Simulation} {m : Event}
    (hty : m.type = EventType.THREAD_PREEMPTED) (h : s.Handling m) :
    ∃ s1, s.handle_thread_preempted m = .ok s1 ∧ s1.WellFormed := by
  obtain ⟨i, t, hm, hi, hf, -, hnd⟩ := h.thread (by rw [hty]; decide)
  rw [hty] at hf
  obtain ⟨hst, halt⟩ := hf
  obtain ⟨b, rest, hb, hcpu, -⟩ := alternates_head halt
  have hlt := Simulation.lt_length_of_getElem? hi
  have hset : t.set_ready m.time = (.ok (),
      { t with previous_state := ThreadState.RUNNING, current_state := ThreadState.READY,
               state_change_time := m.time }) := by
    simp [Thread.set_ready, hst, Thread.is_valid_transition, Thread.valid_transitions]
  have halt2 : alternates (b.update_time (m.time - m.time) :: rest) := by
    rw [hb] at halt
    exact alternates_of_head halt hcpu
  unfold Simulation.handle_thread_preempted
  rw [hm, Simulation.deref_of_getElem? hi]
  simp only [hset, Thread.get_next_burst, hb, hcpu, ne_eq, not_true_eq_false, if_false,
    List.tail_cons]
  split
  · refine ⟨_, rfl, Simulation.WellFormed.of_update h.2.1 h.2.2.1 hnd h.2.2.2.2.1 h.2.2.2.2.2
      rfl (List.append_nil _).symm (Scheduler.ready_queue_add _ _) ?_ ?_ ?_⟩
    · intro e he
      cases he
    · intro j hj
      rw [List.mem_singleton.mp hj]
      exact ready_fits_self hlt rfl halt2
    · exact List.Sublist.refl _
  · refine ⟨_, rfl, Simulation.WellFormed.of_update h.2.1 h.2.2.1 hnd h.2.2.2.2.1 h.2.2.2.2.2
      rfl rfl (Scheduler.ready_queue_add _ _) ?_ ?_ ?_⟩
    · intro e he
      rw [List.mem_singleton.mp he]
      exact Event.fits_dispatcher _ _ _ _ _
    · intro j hj
      rw [List.mem_singleton.mp hj]
      exact ready_fits_self hlt rfl halt2
    · exact List.Sublist.refl _

theorem Simulation.wf_cpu_burst_completed {s : Simulation} {m : Event}
    (hty : m.type = EventType.CPU_BURST_COMPLETED) (h : s.Handling m) :
    ∃ s1, s.handle_cpu_burst_completed m = .ok s1 ∧ s1.WellFormed := by
  obtain ⟨i, t, hm, hi, hf, -, hnd⟩ := h.thread (by rw [hty]; decide)
  rw [hty] at hf
  obtain ⟨hst, b, rest, hb, hio, halt⟩ := hf
  have hlt := Simulation.lt_length_of_getElem? hi
  have hset : t.set_blocked m.time = (.ok (),
      { t with previous_state := ThreadState.RUNNING, current_state := ThreadState.BLOCKED,
               state_change_time := m.time }) := by
    simp [Thread.set_blocked, hst, Thread.is_valid_transition, Thread.valid_transitions]
  unfold Simulation.handle_cpu_burst_completed
  rw [hm, Simulation.deref_of_getElem? hi]
  simp only [hset, Thread.pop_next_burst, Thread.get_next_burst, hb, hio, ne_eq,
    not_true_eq_false, if_false, List.tail_cons]
  refine ⟨_, rfl, Simulation.WellFormed.of_update h.2.1 h.2.2.1 hnd h.2.2.2.2.1 h.2.2.2.2.2
    rfl (List.append_assoc _ _ _) (List.append_nil _).symm ?_ ?_ ?_⟩
  · intro e he
    simp only [List.mem_append, List.mem_singleton] at he
    rcases he with rfl | rfl
    · exact Event.fits_of_thread (List.getElem?_set_self hlt)
        (show Thread.fits EventType.IO_BURST_COMPLETED _ from ⟨rfl, halt⟩) _ _
        (by intro hdc; simp [EventType.is_dispatch_completed] at hdc)
    · exact Event.fits_dispatcher _ _ _ _ _
  · intro j hj
    cases hj
  · simp [Event.token]

theorem Simulation.wf_dispatch_completed_full {s : Simulation} (m : Event) {i : Nat}
    (t1 : Thread) {b : Burst} {rest : List Burst}
    (hev : ∀ e ∈ s.events, e.fits s.threads)
    (hrq : ∀ j ∈ s.scheduler.ready_queue, ready_fits s.threads j)
    (hnd : (i :: s.tokens).Nodup)
    (hp : ∀ p, s.prev_thread = some p → p < s.threads.length)
    (ha : ∀ a, s.active_thread = some a → a < s.threads.length)
    (hlt : i < s.threads.length) (hm : m.thread = some i)
    (hst : t1.current_state = ThreadState.RUNNING) (hb : t1.bursts = b :: rest)
    (hcpu : b.burst_type = BurstType.CPU)
    (hrest : rest = [] ∨ ∃ c rest2, rest = c :: rest2 ∧ c.burst_type = BurstType.Io ∧
      alternates rest2) :
    ∃ s1, s.dispatch_completed_full m i t1 = .ok s1 ∧ s1.WellFormed := by
  unfold Simulation.dispatch_completed_full
  rcases hrest with hnil | ⟨c, rest2, hc, hio, halt⟩
  · subst hnil
    simp only [Thread.pop_next_burst, Thread.get_next_burst, hb, hcpu, ne_eq,
      not_true_eq_false, if_false, List.tail_cons, hm]
    refine ⟨_, rfl, Simulation.WellFormed.of_update hev hrq hnd hp ha
      rfl rfl (List.append_nil _).symm ?_ ?_ ?_⟩
    · intro e he
      rw [List.mem_singleton.mp he]
      refine Event.fits_of_thread (List.getElem?_set_self hlt) ?_ _ _ ?_
      · exact hst
      · intro hdc
        simp [EventType.is_dispatch_completed] at hdc
    · intro j hj
      cases hj
    · simp [Event.token]
  · subst hc
    simp only [Thread.pop_next_burst, Thread.get_next_burst, hb, hcpu, hio, ne_eq,
      not_true_eq_false, if_false, List.tail_cons, hm]
    refine ⟨_, rfl, Simulation.WellFormed.of_update hev hrq hnd hp ha
      rfl rfl (List.append_nil _).symm ?_ ?_ ?_⟩
    · intro e he
      rw [List.mem_singleton.mp he]
      refine Event.fits_of_thread (List.getElem?_set_self hlt) ?_ _ _ ?_
      · exact ⟨hst, c, rest2, rfl, hio, halt⟩
      · intro hdc
        simp [EventType.is_dispatch_completed] at hdc
    · intro j hj
      cases hj
    · simp [Event.token]

theorem Simulation.wf_dispatch_completed {s : Simulation} {m : Event}
    (hty : m.type.is_dispatch_completed = true) (h : s.Handling m) :
    ∃ s1, s.handle_dispatch_completed m = .ok s1 ∧ s1.WellFormed := by
  have hty2 : m.type = EventType.THREAD_DISPATCH_COMPLETED ∨
      m.type = EventType.PROCESS_DISPATCH_COMPLETED := by
    simpa [EventType.is_dispatch_completed] using hty
  obtain ⟨i, t, hm, hi, hf, hsd, hnd⟩ := h.thread (by rcases hty2 with h2 | h2 <;> rw [h2] <;> decide)
  have hf2 : t.current_state = ThreadState.READY ∧ alternates t.bursts := by
    rcases hty2 with h2 | h2 <;> rw [h2] at hf <;> exact hf
  obtain ⟨hst, halt⟩ := hf2
  obtain ⟨b, rest, hb, hcpu, hrest⟩ := alternates_head halt
  obtain ⟨sd, hsd2⟩ : ∃ sd, m.scheduling_decision = some sd := by
    cases hd : m.scheduling_decision with
    | none => exact absurd hd (hsd hty)
    | some sd => exact ⟨sd, rfl⟩
  have hlt := Simulation.lt_length_of_getElem? hi
  have hset : t.set_running m.time = (.ok (),
      { t with previous_state := ThreadState.READY, current_state := ThreadState.RUNNING,
               state_change_time := m.time,
               start_time := if t.start_time = -1 then m.time else t.start_time }) := by
    simp [Thread.set_running, hst, Thread.is_valid_transition, Thread.valid_transitions]
  have hfull := Simulation.wf_dispatch_completed_full m
    { t with previous_state := ThreadState.READY, current_state := ThreadState.RUNNING,
             state_change_time := m.time,
             start_time := if t.start_time = -1 then m.time else t.start_time }
    h.2.1 h.2.2.1 hnd h.2.2.2.2.1 h.2.2.2.2.2 hlt hm rfl hb hcpu hrest
  unfold Simulation.handle_dispatch_completed
  rw [hm, Simulation.deref_of_getElem? hi]
  simp only [hset, Thread.get_next_burst, hb, hcpu, ne_eq, not_true_eq_false, if_false, hsd2]
  simp only [hb] at hfull
  split
  · split
    · refine ⟨_, rfl, ?_⟩
      unfold Simulation.dispatch_completed_slice
      refine Simulation.WellFormed.of_update h.2.1 h.2.2.1 hnd h.2.2.2.2.1 h.2.2.2.2.2
        rfl (List.append_assoc _ _ _) (List.append_nil _).symm ?_ ?_ ?_
      · intro e he
        simp only [List.mem_append, List.mem_singleton] at he
        rcases he with rfl | rfl
        · rw [hm]
          refine Event.fits_of_thread (List.getElem?_set_self hlt) ?_ _ _ ?_
          · refine ⟨rfl, ?_⟩
            rw [hb] at halt
            exact alternates_of_head halt hcpu
          · intro hdc
            simp [EventType.is_dispatch_completed] at hdc
        · exact Event.fits_dispatcher _ _ _ _ _
      · intro j hj
        cases hj
      · simp [Event.token, hm]
    · exact hfull
  · exact hfull

theorem Simulation.previous_thread_lt {s : Simulation}
    (hp : ∀ p, s.prev_thread = some p → p < s.threads.length)
    (ha : ∀ a, s.active_thread = some a → a < s.threads.length) :
    ∀ p, s.previous_thread = some p → p < s.threads.length := by
  intro p h
  unfold Simulation.previous_thread at h
  split at h
  · exact ha p h
  · exact hp p h

theorem Simulation.wf_dispatcher_invoked {s : Simulation} {m : Event}
    (hty : m.type = EventType.DISPATCHER_INVOKED) (h : s.Handling m) :
    ∃ s1, s.handle_dispatcher_invoked m = .ok s1 ∧ s1.WellFormed := by
  obtain ⟨-, hev, hrq, hnd, hp, ha⟩ := h
  have hnd2 : s.tokens.Nodup := by
    simpa [Event.token, hty] using hnd
  have hprev := Simulation.previous_thread_lt hp ha
  obtain ⟨hhead, htail⟩ := Scheduler.get_thread_queue s.scheduler
  rw [Simulation.dispatcher_invoked_eq]
  unfold Simulation.dispatch_next
  dsimp only
  cases hq : s.scheduler.ready_queue with
  | nil =>
    rw [hq] at hhead htail
    simp only [List.head?_nil] at hhead
    simp only [hhead]
    refine ⟨_, rfl, hev, ?_, ?_, hprev, ?_⟩
    · intro j hj
      have hj2 : j ∈ (s.scheduler.get_next_thread).2.ready_queue := hj
      rw [htail] at hj2
      cases hj2
    · show (List.filterMap Event.token s.events ++
        (s.scheduler.get_next_thread).2.ready_queue).Nodup
      rw [htail]
      simpa [Simulation.tokens, hq] using hnd2
    · intro a h1
      cases h1
  | cons a rest =>
    rw [hq] at hhead htail
    simp only [List.head?_cons, List.tail_cons] at hhead htail
    obtain ⟨t, ht, hst, halt⟩ := hrq a (by simp [hq])
    have halt_lt := Simulation.lt_length_of_getElem? ht
    have hbase : ∀ (pv : Option Nat) (ty : EventType) (overhead : Int),
        (∀ p, pv = some p → p < s.threads.length) → ty.is_dispatch_completed = true →
        ((Simulation.mk (s.scheduler.get_next_thread).2 s.threads s.events s.event_num
          (some a) pv s.thread_switch_overhead s.process_switch_overhead
          s.io_time_start s.system_stats s.all_threads s.first_event).dispatch_with m
            (s.scheduler.get_next_thread).1 ty overhead).WellFormed := by
      intro pv ty overhead hpv2 hdc
      have hne : ty ≠ EventType.DISPATCHER_INVOKED := by
        intro hcon
        rw [hcon] at hdc
        simp [EventType.is_dispatch_completed] at hdc
      have hfit : t.fits ty := by
        have h2 : ty = EventType.THREAD_DISPATCH_COMPLETED ∨
            ty = EventType.PROCESS_DISPATCH_COMPLETED := by
          simpa [EventType.is_dispatch_completed] using hdc
        rcases h2 with h2 | h2 <;> rw [h2] <;> exact ⟨hst, halt⟩
      refine ⟨?_, ?_, ?_, hpv2, ?_⟩
      · intro e he
        have he2 : e ∈ s.events ++ [⟨ty, m.time + overhead, s.event_num,
            (s.scheduler.get_next_thread).1.thread, some (s.scheduler.get_next_thread).1⟩] := he
        rcases List.mem_append.mp he2 with h1 | h1
        · exact hev e h1
        · rw [List.mem_singleton.mp h1, hhead]
          exact Event.fits_of_thread ht hfit _ _ (by intro _ hcon; cases hcon)
      · intro j hj
        have hj2 : j ∈ (s.scheduler.get_next_thread).2.ready_queue := hj
        rw [htail] at hj2
        exact hrq j (by rw [hq]; exact List.mem_cons_of_mem _ hj2)
      · show (List.filterMap Event.token (s.events ++ [⟨ty, m.time + overhead, s.event_num,
            (s.scheduler.get_next_thread).1.thread, some (s.scheduler.get_next_thread).1⟩]) ++
          (s.scheduler.get_next_thread).2.ready_queue).Nodup
        rw [htail, hhead]
        simpa [Simulation.tokens, hq, Event.token, hne] using hnd2
      · intro a1 h1
        have h2 : some a = some a1 := h1
        rw [← Option.some.inj h2]
        exact halt_lt
    simp only [hhead, ht]
    cases hpv : s.previous_thread with
    | none =>
      exact ⟨_, rfl, hbase none EventType.PROCESS_DISPATCH_COMPLETED _
        (fun p hcon => by cases hcon) rfl⟩
    | some p =>
      have hpl := hprev p hpv
      have hP : s.threads[p]? = some s.threads[p] := List.getElem?_eq_getElem hpl
      simp only [hP]
      have hpv3 : ∀ q, some p = some q → q < s.threads.length := by
        intro q hq2
        rw [← Option.some.inj hq2]
        exact hpl
      split
      · exact ⟨_, rfl, hbase (some p) EventType.THREAD_DISPATCH_COMPLETED _ hpv3 rfl⟩
      · exact ⟨_, rfl, hbase (some p) EventType.PROCESS_DISPATCH_COMPLETED _ hpv3 rfl⟩

/-- On a state that is well formed around the popped event, the handler of
the event returns, and the state it returns is well formed. -/
theorem Simulation.wf_handle {s : Simulation} {m : Event} (h : s.Handling m) :
    ∃ s1, s.handle m = .ok s1 ∧ s1.WellFormed := by
  unfold Simulation.handle
  split
  · rename_i hty
    split
    · exact Simulation.wf_thread_arrived hty h
    · exact Simulation.wf_thread_arrived hty h
  · rename_i hty
    exact Simulation.wf_dispatch_completed (by rw [hty]; rfl) h
  · rename_i hty
    exact Simulation.wf_dispatch_completed (by rw [hty]; rfl) h
  · rename_i hty
    exact Simulation.wf_cpu_burst_completed hty h
  · rename_i hty
    exact Simulation.wf_io_burst_completed hty h
  · rename_i hty
    exact Simulation.wf_thread_completed hty h
  · rename_i hty
    exact Simulation.wf_thread_preempted hty h
  · rename_i hty
    exact Simulation.wf_dispatcher_invoked hty h

theorem Simulation.WellFormed.handling {s : Simulation} {m : Event} {rest : List Event}
    (h : s.WellFormed) (hp : pop_min s.events = some (m, rest)) :
    (Simulation.mk s.scheduler s.threads rest s.event_num s.active_thread s.prev_thread
      s.thread_switch_overhead s.process_switch_overhead s.io_time_start s.system_stats
      s.all_threads s.first_event).Handling m := by
  obtain ⟨hev, hrq, hnd, hpv, hac⟩ := h
  obtain ⟨hm, hsub⟩ := pop_min_mem hp
  obtain ⟨⟨l1, l2, hl, hrest⟩, -⟩ := pop_min_split hp
  refine ⟨hev m hm, fun e he => hev e (hsub e he), hrq, ?_, hpv, hac⟩
  show (m.token.toList ++ (List.filterMap Event.token rest ++ s.scheduler.ready_queue)).Nodup
  have hperm : (m.token.toList ++
      (List.filterMap Event.token rest ++ s.scheduler.ready_queue)).Perm s.tokens := by
    simp only [Simulation.tokens, hl, hrest, List.filterMap_append, List.filterMap_cons]
    cases m.token with
    | none => simp
    | some i =>
      simp only [Option.toList, List.singleton_append, List.append_assoc, List.cons_append,
        List.nil_append]
      exact List.perm_middle.symm
  exact hperm.nodup_iff.mpr hnd

theorem Simulation.wf_step {s : Simulation} (h : s.WellFormed) :
    ∃ s1, s.step = .ok s1 ∧ s1.WellFormed := by
  unfold Simulation.step
  cases hp : pop_min s.events with
  | none => exact ⟨s, rfl, h⟩
  | some p =>
    obtain ⟨m, rest⟩ := p
    obtain ⟨s1, h1, hw⟩ := Simulation.wf_handle (h.handling hp)
    simp only [h1]
    exact ⟨_, rfl, hw⟩

/-- From a well-formed state the loop runs any number of iterations without
an error. -/
theorem Simulation.wf_run_loop (n : Nat) :
    ∀ s : Simulation, s.WellFormed → ∃ s1, s.run_loop n = .ok s1 ∧ s1.WellFormed := by
  induction n with
  | zero => intro s h; exact ⟨s, rfl, h⟩
  | succ n ih =>
    intro s h
    rw [Simulation.run_loop_succ]
    obtain ⟨s1, h1, hw⟩ := Simulation.wf_step h
    rw [h1]
    exact ih s1 hw

/-- What the loader keeps while it reads the threads of a well-formed input:
the events queued are the arrivals of the threads read so far, one each, and
the threads are NEW with well-formed bursts. -/
theorem Simulation.load_read_thread {s : Simulation}
    (hev : ∀ e ∈ s.events, e.fits s.threads)
    (htok : s.events.filterMap Event.token = List.range s.threads.length)
    (inp : ThreadInput) (hin : inp.burst_lengths.length % 2 = 1)
    (tid pid : Int) (prio : Fin 4) :
    (∀ e ∈ (s.read_thread inp tid pid prio).events,
        e.fits (s.read_thread inp tid pid prio).threads) ∧
    (s.read_thread inp tid pid prio).events.filterMap Event.token =
      List.range (s.read_thread inp tid pid prio).threads.length ∧
    (s.read_thread inp tid pid prio).scheduler = s.scheduler ∧
    (s.read_thread inp tid pid prio).prev_thread = s.prev_thread ∧
    (s.read_thread inp tid pid prio).active_thread = s.active_thread := by
  simp only [Simulation.read_thread]
  refine ⟨?_, ?_, trivial, trivial, trivial⟩
  · intro e he
    rcases List.mem_append.mp he with h0 | h0
    · rcases hev e h0 with h1 | ⟨i, t, hi, ht, hf, hsd⟩
      · exact Or.inl h1
      · refine Or.inr ⟨i, t, hi, ?_, hf, hsd⟩
        rw [List.getElem?_append_left (Simulation.lt_length_of_getElem? ht)]
        exact ht
    · rw [List.mem_singleton.mp h0]
      refine Or.inr ⟨s.threads.length,
        { arrival_time := inp.arrival_time, thread_id := tid, process_id := pid,
          priority := prio, previous_state := ThreadState.NEW,
          bursts := mk_bursts 0 inp.burst_lengths }, rfl, ?_,
        ⟨rfl, alternates_mk_bursts _ 0 rfl hin⟩, ?_⟩
      · simp
      · intro hdc
        simp [EventType.is_dispatch_completed] at hdc
  · rw [List.filterMap_append, htok, List.length_append, List.length_singleton,
      List.range_succ]
    simp [Event.token]

theorem Simulation.load_read_threads (pid : Int) (prio : Fin 4) (l : List ThreadInput) :
    ∀ (s : Simulation) (tid : Int),
      (∀ e ∈ s.events, e.fits s.threads) →
      s.events.filterMap Event.token = List.range s.threads.length →
      (∀ t ∈ l, t.burst_lengths.length % 2 = 1) →
      (∀ e ∈ (s.read_threads pid prio tid l).events,
        e.fits (s.read_threads pid prio tid l).threads) ∧
      (s.read_threads pid prio tid l).events.filterMap Event.token =
        List.range (s.read_threads pid prio tid l).threads.length ∧
      (s.read_threads pid prio tid l).scheduler = s.scheduler ∧
      (s.read_threads pid prio tid l).prev_thread = s.prev_thread ∧
      (s.read_threads pid prio tid l).active_thread = s.active_thread := by
  induction l with
  | nil => intro s tid hev htok _; exact ⟨hev, htok, rfl, rfl, rfl⟩
  | cons t l ih =>
    intro s tid hev htok hin
    simp only [Simulation.read_threads]
    obtain ⟨h1, h2, h3, h4, h5⟩ :=
      Simulation.load_read_thread hev htok t (hin t (List.mem_cons_self _ _)) tid pid prio
    obtain ⟨g1, g2, g3, g4, g5⟩ := ih _ (tid + 1) h1 h2
      (fun t1 ht1 => hin t1 (List.mem_cons_of_mem _ ht1))
    exact ⟨g1, g2, g3.trans h3, g4.trans h4, g5.trans h5⟩

theorem Simulation.load_read_processes (ps : List ProcessInput) :
    ∀ (s : Simulation),
      (∀ e ∈ s.events, e.fits s.threads) →
      s.events.filterMap Event.token = List.range s.threads.length →
      (∀ p ∈ ps, ∀ t ∈ p.threads, t.burst_lengths.length % 2 = 1) →
      (∀ e ∈ (ps.foldl Simulation.read_process s).events,
        e.fits (ps.foldl Simulation.read_process s).threads) ∧
      (ps.foldl Simulation.read_process s).events.filterMap Event.token =
        List.range (ps.foldl Simulation.read_process s).threads.length ∧
      (ps.foldl Simulation.read_process s).scheduler = s.scheduler ∧
      (ps.foldl Simulation.read_process s).prev_thread = s.prev_thread ∧
      (ps.foldl Simulation.read_process s).active_thread = s.active_thread := by
  induction ps with
  | nil => intro s hev htok _; exact ⟨hev, htok, rfl, rfl, rfl⟩
  | cons p ps ih =>
    intro s hev htok hin
    simp only [List.foldl_cons]
    obtain ⟨h1, h2, h3, h4, h5⟩ := Simulation.load_read_threads p.process_id p.priority
      p.threads s 0 hev htok (hin p (List.mem_cons_self _ _))
    obtain ⟨g1, g2, g3, g4, g5⟩ := ih (s.read_process p) h1 h2
      (fun p1 hp1 => hin p1 (List.mem_cons_of_mem _ hp1))
    exact ⟨g1, g2, g3.trans h3, g4.trans h4, g5.trans h5⟩

/-- The state the loader leaves on a well-formed input, with a scheduler whose
ready queue is still empty, is well formed. -/
theorem Simulation.wf_read_file {sched : Scheduler} {inp : SimInput}
    (hs : sched.ready_queue = []) (hi : inp.well_formed) :
    ((Simulation.init sched).read_file inp).WellFormed := by
  unfold Simulation.read_file
  obtain ⟨g1, g2, g3, g4, g5⟩ := Simulation.load_read_processes inp.processes
    { Simulation.init sched with thread_switch_overhead := inp.thread_switch_overhead,
                                 process_switch_overhead := inp.process_switch_overhead }
    (fun e he => by cases he) rfl hi
  refine ⟨g1, ?_, ?_, ?_, ?_⟩
  · intro i hi2
    rw [g3] at hi2
    have : i ∈ sched.ready_queue := hi2
    rw [hs] at this
    cases this
  · unfold Simulation.tokens
    rw [g2, g3]
    show (List.range _ ++ sched.ready_queue).Nodup
    rw [hs, List.append_nil]
    exact List.nodup_range _
  · intro p hp
    rw [g4] at hp
    cases hp
  · intro a ha
    rw [g5] at ha
    cases ha

/-- C22: on a well-formed input, every thread record with an odd number of
burst lengths so that its bursts alternate CPU, I/O, ..., CPU, and with a
scheduler of either policy (any slice) that starts with an empty ready queue,
the run loop returns a state after any number of iterations: no handler
raises a transition or burst-type error and none reads a missing thread,
burst or decision. -/
theorem no_handler_error (sched : Scheduler) (inp : SimInput) (fuel : Nat)
    (hs : sched.ready_queue = []) (hi : inp.well_formed) :
    ∃ s, Simulation.run fuel sched inp = .ok s ∧ s.WellFormed :=
  Simulation.wf_run_loop fuel _ (Simulation.wf_read_file hs hi)

/-- Witness of C22: the input `mixed_input` under round-robin with slice
2. -/
theorem no_handler_error_witness :
    (Scheduler.rr (RRScheduler.create 2)).ready_queue = [] ∧ mixed_input.well_formed ∧
    ∃ s, Simulation.run 50 (Scheduler.rr (RRScheduler.create 2)) mixed_input = .ok s ∧
      s.WellFormed :=
  ⟨rfl, by simp [SimInput.well_formed, mixed_input],
   no_handler_error (Scheduler.rr (RRScheduler.create 2)) mixed_input 50 rfl
     (by simp [SimInput.well_formed, mixed_input])⟩

/-! ## Accounting of the time of a thread -/

theorem Thread.set_ready_ok {t t1 : Thread} {time : Int} {u : Unit}
    (h : t.set_ready time = (.ok u, t1)) :
    t1 = { t with previous_state := t.current_state, current_state := ThreadState.READY,
                  state_change_time := time } := by
  unfold Thread.set_ready at h
  split at h
  · simp at h
  · simp only [Prod.mk.injEq, true_and] at h
    exact h.symm

theorem Thread.set_running_ok {t t1 : Thread} {time : Int} {u : Unit}
    (h : t.set_running time = (.ok u, t1)) :
    t1 = { t with previous_state := t.current_state, current_state := ThreadState.RUNNING,
                  state_change_time := time,
                  start_time := if t.start_time = -1 then time else t.start_time } := by
  unfold Thread.set_running at h
  split at h
  · simp at h
  · simp only [Prod.mk.injEq, true_and] at h
    exact h.symm

theorem Thread.set_blocked_ok {t t1 : Thread} {time : Int} {u : Unit}
    (h : t.set_blocked time = (.ok u, t1)) :
    t.current_state = ThreadState.RUNNING ∧
    t1 = { t with previous_state := t.current_state, current_state := ThreadState.BLOCKED,
                  state_change_time := time } := by
  unfold Thread.set_blocked at h
  split at h
  · simp at h
  · rename_i hv
    simp only [Prod.mk.injEq, true_and] at h
    refine ⟨?_, h.symm⟩
    cases hst : t.current_state <;>
      first
      | rfl
      | (rw [hst] at hv; simp [Thread.is_valid_transition, Thread.valid_transitions] at hv)

theorem Thread.set_finished_ok {t t1 : Thread} {time : Int} {u : Unit}
    (h : t.set_finished time = (.ok u, t1)) :
    t.current_state = ThreadState.RUNNING ∧
    t1 = { t with previous_state := t.current_state, current_state := ThreadState.EXIT,
                  state_change_time := time, end_time := time } := by
  unfold Thread.set_finished at h
  split at h
  · simp at h
  · rename_i hv
    simp only [Prod.mk.injEq, true_and] at h
    refine ⟨?_, h.symm⟩
    cases hst : t.current_state <;>
      first
      | rfl
      | (rw [hst] at hv; simp [Thread.is_valid_transition, Thread.valid_transitions] at hv)

/-- A thread stays accounted for when its times are kept, the reference time
does not go back, and its state is kept or becomes READY. -/
theorem Thread.accounted_of_fields {t t1 : Thread} {T T1 : Int} (h : t.accounted T)
    (hT : T ≤ T1) (h1 : t1.start_time = t.start_time) (h2 : t1.service_time = t.service_time)
    (h3 : t1.io_time = t.io_time) (h4 : t1.arrival_time = t.arrival_time)
    (h5 : t1.current_state = ThreadState.READY ∨ t1.current_state = t.current_state) :
    t1.accounted T1 := by
  rcases h with ⟨a, b, c, d, e⟩ | ⟨a, b, c, d, e⟩
  · refine Or.inl ⟨by omega, by omega, by omega, by omega, ?_⟩
    rcases h5 with h5 | h5
    · exact Or.inr h5
    · rw [h5]; exact e
  · exact Or.inr ⟨by omega, by omega, by omega, by omega, by omega⟩

/-- A dispatch that completes at the time `T` and credits the service time
`x` keeps the thread accounted for up to `T + x`. -/
theorem Thread.accounted_run {t t1 : Thread} {T x : Int} (h : t.accounted T) (hT : 0 ≤ T)
    (hx : 0 ≤ x) (h1 : t1.start_time = if t.start_time = -1 then T else t.start_time)
    (h2 : t1.service_time = t.service_time + x) (h3 : t1.io_time = t.io_time)
    (h4 : t1.arrival_time = t.arrival_time) : t1.accounted (T + x) := by
  rcases h with ⟨a, b, c, d, -⟩ | ⟨a, b, c, d, e⟩
  · rw [if_pos a] at h1
    exact Or.inr ⟨by omega, by omega, by omega, by omega, by omega⟩
  · have hne : t.start_time ≠ -1 := by omega
    rw [if_neg hne] at h1
    exact Or.inr ⟨by omega, by omega, by omega, by omega, by omega⟩

/-- A RUNNING thread that is credited the I/O time `y` at the time `T` is
accounted for up to `T + y`. -/
theorem Thread.accounted_block {t t1 : Thread} {T y : Int} (h : t.accounted T)
    (hst : t.current_state = ThreadState.RUNNING) (hy : 0 ≤ y)
    (h1 : t1.start_time = t.start_time) (h2 : t1.service_time = t.service_time)
    (h3 : t1.io_time = t.io_time + y) (h4 : t1.arrival_time = t.arrival_time) :
    t1.accounted (T + y) := by
  rcases h with ⟨-, -, -, -, e⟩ | ⟨a, b, c, d, e⟩
  · rw [hst] at e
    rcases e with e | e <;> cases e
  · exact Or.inr ⟨by omega, by omega, by omega, by omega, by omega⟩

/-- A RUNNING thread that ends at the time `T` is accounted for in EXIT. -/
theorem Thread.exit_accounted_of_running {t t1 : Thread} {T : Int} (h : t.accounted T)
    (hst : t.current_state = ThreadState.RUNNING)
    (h1 : t1.start_time = t.start_time) (h2 : t1.service_time = t.service_time)
    (h3 : t1.io_time = t.io_time) (h4 : t1.arrival_time = t.arrival_time)
    (h5 : t1.end_time = T) : t1.exit_accounted := by
  intro _
  rcases h with ⟨-, -, -, -, e⟩ | ⟨a, b, c, d, e⟩
  · rw [hst] at e
    rcases e with e | e <;> cases e
  · exact ⟨by omega, by omega, by omega, by omega, by omega⟩

theorem Event.accounted_set {ths : List Thread} {e : Event} {i : Nat} (t1 : Thread)
    (h : e.accounted ths) (hne : e.token ≠ some i) : e.accounted (ths.set i t1) := by
  rcases h with h | ⟨j, t, hj, ht, hf⟩
  · exact Or.inl h
  · by_cases hty : e.type = EventType.DISPATCHER_INVOKED
    · exact Or.inl hty
    · have hji : i ≠ j := by
        intro hij
        apply hne
        simp [Event.token, hty, hj, hij]
      exact Or.inr ⟨j, t, hj, by rw [List.getElem?_set_ne hji]; exact ht, hf⟩

theorem ready_accounted_set {ths : List Thread} {i j : Nat} (t1 : Thread)
    (h : ready_accounted ths j) (hne : i ≠ j) : ready_accounted (ths.set i t1) j := by
  obtain ⟨t, ht, h1⟩ := h
  exact ⟨t, by rw [List.getElem?_set_ne hne]; exact ht, h1⟩

theorem Simulation.tokens_nodup_of_update {s s1 : Simulation} {i : Nat}
    {new : List Event} {extra : List Nat} (hnd : (i :: s.tokens).Nodup)
    (e2 : s1.events = s.events ++ new)
    (e3 : s1.scheduler.ready_queue = s.scheduler.ready_queue ++ extra)
    (htok : (new.filterMap Event.token ++ extra).Sublist [i]) : s1.tokens.Nodup := by
  have hperm : s1.tokens.Perm ((new.filterMap Event.token ++ extra) ++ s.tokens) := by
    simp only [Simulation.tokens, e2, e3, List.filterMap_append]
    have h1 : (List.filterMap Event.token s.events ++ List.filterMap Event.token new ++
        (s.scheduler.ready_queue ++ extra)).Perm
        (List.filterMap Event.token s.events ++ (List.filterMap Event.token new ++
          (extra ++ s.scheduler.ready_queue))) := by
      rw [List.append_assoc]
      exact List.Perm.append_left _ (List.Perm.append_left _ List.perm_append_comm)
    refine h1.trans ?_
    have h2 : (List.filterMap Event.token s.events ++ (List.filterMap Event.token new ++
          (extra ++ s.scheduler.ready_queue))).Perm
        ((List.filterMap Event.token new ++ (extra ++ s.scheduler.ready_queue)) ++
          List.filterMap Event.token s.events) := List.perm_append_comm
    refine h2.trans ?_
    rw [List.append_assoc, List.append_assoc, List.append_assoc]
    exact List.Perm.append_left _ (List.Perm.append_left _ List.perm_append_comm)
  rw [hperm.nodup_iff]
  have hsub : ((new.filterMap Event.token ++ extra) ++ s.tokens).Sublist
      ([i] ++ s.tokens) := List.Sublist.append htok (List.Sublist.refl _)
  exact hnd.sublist hsub

/-- The frame of a handler that works on the thread at `i`: it replaces the
thread, appends the events `new` and the ready-queue entries `extra`, which are
accounted for in the new arena and hold no next step but one of the thread at
`i`. -/
theorem Simulation.AccountedAfter.of_frame {s s1 : Simulation} {m : Event} {i : Nat}
    {t1 : Thread} {new : List Event} {extra : List Nat}
    (hev : ∀ e ∈ s.events, e.accounted s.threads)
    (hrq : ∀ j ∈ s.scheduler.ready_queue, ready_accounted s.threads j)
    (hnd : (i :: s.tokens).Nodup)
    (hth : ∀ t ∈ s.threads, t.exit_accounted ∧ t.state_change_time ≤ m.time)
    (e1 : s1.threads = s.threads.set i t1) (e2 : s1.events = s.events ++ new)
    (e3 : s1.scheduler.ready_queue = s.scheduler.ready_queue ++ extra)
    (hnew : ∀ e ∈ new, e.accounted (s.threads.set i t1))
    (hextra : ∀ j ∈ extra, ready_accounted (s.threads.set i t1) j)
    (htok : (new.filterMap Event.token ++ extra).Sublist [i])
    (ht1 : t1.exit_accounted ∧ t1.state_change_time ≤ m.time) : s1.AccountedAfter m := by
  have hni : i ∉ s.tokens := (List.nodup_cons.mp hnd).1
  refine ⟨?_, ?_, Simulation.tokens_nodup_of_update hnd e2 e3 htok, ?_⟩
  · intro e he
    rw [e2] at he
    rw [e1]
    rcases List.mem_append.mp he with h | h
    · refine Event.accounted_set t1 (hev e h) ?_
      intro htk
      apply hni
      exact List.mem_append_left _ (List.mem_filterMap.mpr ⟨e, h, htk⟩)
    · exact hnew e h
  · intro j hj
    rw [e3] at hj
    rw [e1]
    rcases List.mem_append.mp hj with h | h
    · refine ready_accounted_set t1 (hrq j h) ?_
      intro hij
      apply hni
      rw [hij]
      exact List.mem_append_right _ h
    · exact hextra j h
  · intro t ht
    rw [e1] at ht
    rcases List.mem_or_eq_of_mem_set ht with h | rfl
    · exact hth t h
    · exact ht1

theorem Simulation.Accounting.popped_thread {s : Simulation} {m : Event} (h : s.Accounting m)
    (hty : m.type ≠ EventType.DISPATCHER_INVOKED) :
    ∃ i t, m.thread = some i ∧ s.threads[i]? = some t ∧ t.accounted m.time ∧
      (i :: s.tokens).Nodup := by
  obtain ⟨-, hm, -, -, -, hnd, -⟩ := h
  rcases hm with hm | ⟨i, t, hi, ht, hf⟩
  · exact absurd hm hty
  · refine ⟨i, t, hi, ht, hf, ?_⟩
    simpa [Event.token, hty, hi] using hnd

theorem Thread.exit_accounted_of_state {t : Thread} (h : t.current_state ≠ ThreadState.EXIT) :
    t.exit_accounted := fun hx => absurd hx h

theorem Simulation.acc_thread_arrived {s s1 : Simulation} {m : Event}
    (hty : m.type ≠ EventType.DISPATCHER_INVOKED) (h : s.Accounting m)
    (hr : s.handle_thread_arrived m = .ok s1) : s1.AccountedAfter m := by
  obtain ⟨i, t, hm, hi, hacc, hnd⟩ := h.popped_thread hty
  have hlt := Simulation.lt_length_of_getElem? hi
  unfold Simulation.handle_thread_arrived at hr
  rw [hm, Simulation.deref_of_getElem? hi] at hr
  dsimp only at hr
  split at hr
  · simp at hr
  · rename_i u t1 hset
    have ht1 := Thread.set_ready_ok hset
    subst ht1
    have hready : ready_accounted (s.threads.set i
        { t with previous_state := t.current_state, current_state := ThreadState.READY,
                 state_change_time := m.time }) i :=
      ⟨_, List.getElem?_set_self hlt,
        Thread.accounted_of_fields hacc (le_refl _) rfl rfl rfl rfl (Or.inl rfl)⟩
    have hex : Thread.exit_accounted
        { t with previous_state := t.current_state, current_state := ThreadState.READY,
                 state_change_time := m.time } ∧
        (m.time : Int) ≤ m.time :=
      ⟨Thread.exit_accounted_of_state (by simp), le_refl _⟩
    split at hr <;> simp only [Except.ok.injEq] at hr <;> subst hr
    · refine Simulation.AccountedAfter.of_frame h.2.2.2.1 h.2.2.2.2.1 hnd h.2.2.2.2.2.2
        rfl (List.append_nil _).symm (Scheduler.ready_queue_add _ _) ?_ ?_ ?_ hex
      · intro e he
        cases he
      · intro j hj
        rw [List.mem_singleton.mp hj]
        exact hready
      · exact List.Sublist.refl _
    · refine Simulation.AccountedAfter.of_frame h.2.2.2.1 h.2.2.2.2.1 hnd h.2.2.2.2.2.2
        rfl rfl (Scheduler.ready_queue_add _ _) ?_ ?_ ?_ hex
      · intro e he
        rw [List.mem_singleton.mp he]
        exact Or.inl rfl
      · intro j hj
        rw [List.mem_singleton.mp hj]
        exact hready
      · exact List.Sublist.refl _

theorem Simulation.acc_io_burst_completed {s s1 : Simulation} {m : Event}
    (hty : m.type ≠ EventType.DISPATCHER_INVOKED) (h : s.Accounting m)
    (hr : s.handle_io_burst_completed m = .ok s1) : s1.AccountedAfter m := by
  obtain ⟨i, t, hm, hi, hacc, hnd⟩ := h.popped_thread hty
  have hlt := Simulation.lt_length_of_getElem? hi
  unfold Simulation.handle_io_burst_completed at hr
  rw [hm, Simulation.deref_of_getElem? hi] at hr
  dsimp only at hr
  split at hr
  · simp at hr
  · rename_i u t1 hset
    have ht1 := Thread.set_ready_ok hset
    subst ht1
    have hready : ready_accounted (s.threads.set i
        { t with previous_state := t.current_state, current_state := ThreadState.READY,
                 state_change_time := m.time }) i :=
      ⟨_, List.getElem?_set_self hlt,
        Thread.accounted_of_fields hacc (le_refl _) rfl rfl rfl rfl (Or.inl rfl)⟩
    have hex : Thread.exit_accounted
        { t with previous_state := t.current_state, current_state := ThreadState.READY,
                 state_change_time := m.time } ∧
        (m.time : Int) ≤ m.time :=
      ⟨Thread.exit_accounted_of_state (by simp), le_refl _⟩
    split at hr <;> simp only [Except.ok.injEq] at hr <;> subst hr
    · refine Simulation.AccountedAfter.of_frame h.2.2.2.1 h.2.2.2.2.1 hnd h.2.2.2.2.2.2
        rfl (List.append_nil _).symm (Scheduler.ready_queue_add _ _) ?_ ?_ ?_ hex
      · intro e he
        cases he
      · intro j hj
        rw [List.mem_singleton.mp hj]
        exact hready
      · exact List.Sublist.refl _
    · refine Simulation.AccountedAfter.of_frame h.2.2.2.1 h.2.2.2.2.1 hnd h.2.2.2.2.2.2
        rfl rfl (Scheduler.ready_queue_add _ _) ?_ ?_ ?_ hex
      · intro e he
        rw [List.mem_singleton.mp he]
        exact Or.inl rfl
      · intro j hj
        rw [List.mem_singleton.mp hj]
        exact hready
      · exact List.Sublist.refl _

theorem Simulation.acc_thread_completed {s s1 : Simulation} {m : Event}
    (hty : m.type ≠ EventType.DISPATCHER_INVOKED) (h : s.Accounting m)
    (hr : s.handle_thread_completed m = .ok s1) : s1.AccountedAfter m := by
  obtain ⟨i, t, hm, hi, hacc, hnd⟩ := h.popped_thread hty
  have hlt := Simulation.lt_length_of_getElem? hi
  unfold Simulation.handle_thread_completed at hr
  rw [hm, Simulation.deref_of_getElem? hi] at hr
  dsimp only at hr
  split at hr
  · simp at hr
  · rename_i u t1 hset
    obtain ⟨hst, ht1⟩ := Thread.set_finished_ok hset
    subst ht1
    have hex : Thread.exit_accounted
        { t with previous_state := t.current_state, current_state := ThreadState.EXIT,
                 state_change_time := m.time, end_time := m.time } ∧
        (m.time : Int) ≤ m.time :=
      ⟨Thread.exit_accounted_of_running hacc hst rfl rfl rfl rfl rfl, le_refl _⟩
    split at hr <;> simp only [Except.ok.injEq] at hr <;> subst hr
    · refine Simulation.AccountedAfter.of_frame h.2.2.2.1 h.2.2.2.2.1 hnd h.2.2.2.2.2.2
        rfl (List.append_nil _).symm (List.append_nil _).symm ?_ ?_ ?_ hex
      · intro e he
        cases he
      · intro j hj
        cases hj
      · exact List.nil_sublist _
    · refine Simulation.AccountedAfter.of_frame h.2.2.2.1 h.2.2.2.2.1 hnd h.2.2.2.2.2.2
        rfl rfl (List.append_nil _).symm ?_ ?_ ?_ hex
      · intro e he
        rw [List.mem_singleton.mp he]
        exact Or.inl rfl
      · intro j hj
        cases hj
      · exact List.nil_sublist _

theorem Simulation.acc_thread_preempted {s s1 : Simulation} {m : Event}
    (hty : m.type ≠ EventType.DISPATCHER_INVOKED) (h : s.Accounting m)
    (hr : s.handle_thread_preempted m = .ok s1) : s1.AccountedAfter m := by
  obtain ⟨i, t, hm, hi, hacc, hnd⟩ := h.popped_thread hty
  have hlt := Simulation.lt_length_of_getElem? hi
  unfold Simulation.handle_thread_preempted at hr
  rw [hm, Simulation.deref_of_getElem? hi] at hr
  dsimp only at hr
  split at hr
  · simp at hr
  · rename_i u t1 hset
    have ht1 := Thread.set_ready_ok hset
    subst ht1
    split at hr
    · simp at hr
    · simp at hr
    · rename_i cpu_burst hget
      dsimp only at hr
      have hready : ∀ bs : List Burst, ready_accounted (s.threads.set i
          { t with previous_state := t.current_state, current_state := ThreadState.READY,
                   state_change_time := m.time,
                   service_time := t.service_time + (m.time - m.time), bursts := bs }) i :=
        fun bs => ⟨_, List.getElem?_set_self hlt,
          Thread.accounted_of_fields hacc (le_refl _) rfl (by simp) rfl rfl (Or.inl rfl)⟩
      have hex : ∀ bs : List Burst, Thread.exit_accounted
          { t with previous_state := t.current_state, current_state := ThreadState.READY,
                   state_change_time := m.time,
                   service_time := t.service_time + (m.time - m.time), bursts := bs } ∧
          (m.time : Int) ≤ m.time :=
        fun bs => ⟨Thread.exit_accounted_of_state (by simp), le_refl _⟩
      split at hr <;> simp only [Except.ok.injEq] at hr <;> subst hr
      · refine Simulation.AccountedAfter.of_frame h.2.2.2.1 h.2.2.2.2.1 hnd h.2.2.2.2.2.2
          rfl (List.append_nil _).symm (Scheduler.ready_queue_add _ _) ?_ ?_ ?_ (hex _)
        · intro e he
          cases he
        · intro j hj
          rw [List.mem_singleton.mp hj]
          exact hready _
        · exact List.Sublist.refl _
      · refine Simulation.AccountedAfter.of_frame h.2.2.2.1 h.2.2.2.2.1 hnd h.2.2.2.2.2.2
          rfl rfl (Scheduler.ready_queue_add _ _) ?_ ?_ ?_ (hex _)
        · intro e he
          rw [List.mem_singleton.mp he]
          exact Or.inl rfl
        · intro j hj
          rw [List.mem_singleton.mp hj]
          exact hready _
        · exact List.Sublist.refl _

theorem Simulation.acc_cpu_burst_completed {s s1 : Simulation} {m : Event}
    (hty : m.type ≠ EventType.DISPATCHER_INVOKED) (h : s.Accounting m)
    (hr : s.handle_cpu_burst_completed m = .ok s1) : s1.AccountedAfter m := by
  obtain ⟨i, t, hm, hi, hacc, hnd⟩ := h.popped_thread hty
  have hlt := Simulation.lt_length_of_getElem? hi
  have hbn : ∀ b ∈ t.bursts, (0 : Int) ≤ b.length := h.1.2.1 t (List.getElem?_mem hi)
  unfold Simulation.handle_cpu_burst_completed at hr
  rw [hm, Simulation.deref_of_getElem? hi] at hr
  dsimp only at hr
  split at hr
  · simp at hr
  · rename_i u t1 hset
    obtain ⟨hst, ht1⟩ := Thread.set_blocked_ok hset
    subst ht1
    split at hr
    · simp at hr
    · simp at hr
    · rename_i io_burst t2 hpop
      obtain ⟨hb, -, rfl⟩ := Thread.pop_next_burst_some hpop
      have hlen : 0 ≤ io_burst.length := hbn io_burst (by
        have hb2 : t.bursts = io_burst :: t.bursts.tail := hb
        rw [hb2]
        exact List.mem_cons_self _ _)
      simp only [Except.ok.injEq] at hr
      subst hr
      refine Simulation.AccountedAfter.of_frame h.2.2.2.1 h.2.2.2.2.1 hnd h.2.2.2.2.2.2
        rfl (List.append_assoc _ _ _) (List.append_nil _).symm ?_ ?_ ?_
        ⟨Thread.exit_accounted_of_state (by simp), le_refl _⟩
      · intro e he
        simp only [List.mem_append, List.mem_singleton] at he
        rcases he with rfl | rfl
        · exact Or.inr ⟨i, _, rfl, List.getElem?_set_self hlt,
            Thread.accounted_block hacc hst hlen rfl rfl rfl rfl⟩
        · exact Or.inl rfl
      · intro j hj
        cases hj
      · simp [Event.token, hm]

theorem Simulation.acc_dispatch_completed_full {s s1 : Simulation} {m : Event} {i : Nat}
    {t : Thread} (t1 : Thread) (h : s.Accounting m) (hm : m.thread = some i)
    (hi : s.threads[i]? = some t)
    (hacc : t.accounted m.time) (hnd : (i :: s.tokens).Nodup)
    (hbn : ∀ b ∈ t1.bursts, (0 : Int) ≤ b.length)
    (h1 : t1.start_time = if t.start_time = -1 then m.time else t.start_time)
    (h2 : t1.service_time = t.service_time) (h3 : t1.io_time = t.io_time)
    (h4 : t1.arrival_time = t.arrival_time) (h5 : t1.current_state = ThreadState.RUNNING)
    (h6 : t1.state_change_time = m.time)
    (hr : s.dispatch_completed_full m i t1 = .ok s1) :
    s1.AccountedAfter m := by
  have hlt := Simulation.lt_length_of_getElem? hi
  unfold Simulation.dispatch_completed_full at hr
  split at hr
  · simp at hr
  · simp at hr
  · rename_i burst t2 hpop
    obtain ⟨hb, -, rfl⟩ := Thread.pop_next_burst_some hpop
    have hlen : 0 ≤ burst.length := hbn burst (by
      have hb2 : t1.bursts = burst :: t1.bursts.tail := hb
      rw [hb2]
      exact List.mem_cons_self _ _)
    have hex : Thread.exit_accounted
        { t1 with bursts := t1.bursts.tail, service_time := t1.service_time + burst.length } ∧
        ({ t1 with bursts := t1.bursts.tail,
                   service_time := t1.service_time + burst.length } : Thread).state_change_time
          ≤ m.time :=
      ⟨Thread.exit_accounted_of_state (by simp [h5]), le_of_eq h6⟩
    have hrun : Thread.accounted (m.time + burst.length)
        { t1 with bursts := t1.bursts.tail, service_time := t1.service_time + burst.length } :=
      Thread.accounted_run hacc h.2.2.1 hlen h1 (by simp [h2]) h3 h4
    dsimp only at hr
    split at hr
    · simp at hr
    · simp only [Except.ok.injEq] at hr
      subst hr
      refine Simulation.AccountedAfter.of_frame h.2.2.2.1 h.2.2.2.2.1 hnd h.2.2.2.2.2.2
        rfl rfl (List.append_nil _).symm ?_ ?_ ?_ hex
      · intro e he
        rw [List.mem_singleton.mp he]
        exact Or.inr ⟨i, _, hm, List.getElem?_set_self hlt, hrun⟩
      · intro j hj
        cases hj
      · simp [Event.token, hm]
    · simp only [Except.ok.injEq] at hr
      subst hr
      refine Simulation.AccountedAfter.of_frame h.2.2.2.1 h.2.2.2.2.1 hnd h.2.2.2.2.2.2
        rfl rfl (List.append_nil _).symm ?_ ?_ ?_ hex
      · intro e he
        rw [List.mem_singleton.mp he]
        exact Or.inr ⟨i, _, hm, List.getElem?_set_self hlt, hrun⟩
      · intro j hj
        cases hj
      · simp [Event.token, hm]

theorem Simulation.acc_dispatch_completed {s s1 : Simulation} {m : Event}
    (hty : m.type ≠ EventType.DISPATCHER_INVOKED) (h : s.Accounting m)
    (hr : s.handle_dispatch_completed m = .ok s1) : s1.AccountedAfter m := by
  obtain ⟨i, t, hm, hi, hacc, hnd⟩ := h.popped_thread hty
  have hlt := Simulation.lt_length_of_getElem? hi
  have hbn : ∀ b ∈ t.bursts, (0 : Int) ≤ b.length := h.1.2.1 t (List.getElem?_mem hi)
  unfold Simulation.handle_dispatch_completed at hr
  rw [hm, Simulation.deref_of_getElem? hi] at hr
  dsimp only at hr
  split at hr
  · simp at hr
  · rename_i u t1 hset
    have ht1 := Thread.set_running_ok hset
    subst ht1
    split at hr
    · simp at hr
    · rename_i oburst hget
      split at hr
      · simp at hr
      · rename_i sd hsd
        have hok : slice_ok sd.time_slice := h.1.1.2.2.2 sd hsd
        have hfull : ∀ s2, s.dispatch_completed_full m i
            { t with previous_state := t.current_state, current_state := ThreadState.RUNNING,
                     state_change_time := m.time,
                     start_time := if t.start_time = -1 then m.time else t.start_time } = .ok s2 →
            s2.AccountedAfter m := by
          intro s2 h2
          exact Simulation.acc_dispatch_completed_full
            { t with previous_state := t.current_state, current_state := ThreadState.RUNNING,
                     state_change_time := m.time,
                     start_time := if t.start_time = -1 then m.time else t.start_time }
            h hm hi hacc hnd hbn rfl rfl rfl rfl rfl rfl h2
        split at hr
        · rename_i hne
          split at hr
          · simp at hr
          · rename_i burst
            split at hr
            · rename_i hgt
              simp only [Except.ok.injEq] at hr
              subst hr
              have hts : 0 ≤ sd.time_slice := by
                rcases hok with h0 | h0
                · exact absurd h0 hne
                · exact h0
              unfold Simulation.dispatch_completed_slice
              refine Simulation.AccountedAfter.of_frame h.2.2.2.1 h.2.2.2.2.1 hnd
                h.2.2.2.2.2.2 rfl (List.append_assoc _ _ _) (List.append_nil _).symm ?_ ?_ ?_
                ⟨Thread.exit_accounted_of_state (by simp), le_refl _⟩
              · intro e he
                simp only [List.mem_append, List.mem_singleton] at he
                rcases he with rfl | rfl
                · exact Or.inr ⟨i, _, hm, List.getElem?_set_self hlt,
                    Thread.accounted_run hacc h.2.2.1 hts rfl rfl rfl rfl⟩
                · exact Or.inl rfl
              · intro j hj
                cases hj
              · simp [Event.token, hm]
            · exact hfull _ hr
        · exact hfull _ hr

theorem Simulation.acc_dispatch_next {s s1 : Simulation} {m : Event}
    (hr : s.dispatch_next m = .ok s1)
    (hev : ∀ e ∈ s.events, e.accounted s.threads)
    (hrq : ∀ i ∈ s.scheduler.ready_queue, ready_accounted s.threads i)
    (hnd : s.tokens.Nodup)
    (hth : ∀ t ∈ s.threads, t.exit_accounted ∧ t.state_change_time ≤ m.time)
    (ho1 : 0 ≤ s.thread_switch_overhead) (ho2 : 0 ≤ s.process_switch_overhead) :
    s1.AccountedAfter m := by
  obtain ⟨hhead, htail⟩ := Scheduler.get_thread_queue s.scheduler
  unfold Simulation.dispatch_next at hr
  dsimp only at hr
  cases hq : s.scheduler.ready_queue with
  | nil =>
    rw [hq] at hhead htail
    simp only [List.head?_nil] at hhead
    simp only [hhead, Except.ok.injEq] at hr
    subst hr
    refine ⟨hev, ?_, ?_, hth⟩
    · intro j hj
      have hj2 : j ∈ (s.scheduler.get_next_thread).2.ready_queue := hj
      rw [htail] at hj2
      cases hj2
    · show (List.filterMap Event.token s.events ++
        (s.scheduler.get_next_thread).2.ready_queue).Nodup
      rw [htail]
      simpa [Simulation.tokens, hq] using hnd
  | cons a rest =>
    rw [hq] at hhead htail
    simp only [List.head?_cons, List.tail_cons] at hhead htail
    obtain ⟨t, ht, hacc⟩ := hrq a (by simp [hq])
    have hsct : t.state_change_time ≤ m.time := (hth t (List.getElem?_mem ht)).2
    have hbase : ∀ (pv : Option Nat) (ty : EventType) (overhead : Int),
        0 ≤ overhead → ty ≠ EventType.DISPATCHER_INVOKED →
        ((Simulation.mk (s.scheduler.get_next_thread).2 s.threads s.events s.event_num
          (some a) pv s.thread_switch_overhead s.process_switch_overhead
          s.io_time_start s.system_stats s.all_threads s.first_event).dispatch_with m
            (s.scheduler.get_next_thread).1 ty overhead).AccountedAfter m := by
      intro pv ty overhead hov hne
      refine ⟨?_, ?_, ?_, hth⟩
      · intro e he
        have he2 : e ∈ s.events ++ [⟨ty, m.time + overhead, s.event_num,
            (s.scheduler.get_next_thread).1.thread, some (s.scheduler.get_next_thread).1⟩] := he
        rcases List.mem_append.mp he2 with h1 | h1
        · exact hev e h1
        · rw [List.mem_singleton.mp h1, hhead]
          exact Or.inr ⟨a, t, rfl, ht,
            Thread.accounted_of_fields hacc (by show t.state_change_time ≤ m.time + overhead; omega)
              rfl rfl rfl rfl (Or.inr rfl)⟩
      · intro j hj
        have hj2 : j ∈ (s.scheduler.get_next_thread).2.ready_queue := hj
        rw [htail] at hj2
        exact hrq j (by rw [hq]; exact List.mem_cons_of_mem _ hj2)
      · show (List.filterMap Event.token (s.events ++ [⟨ty, m.time + overhead, s.event_num,
            (s.scheduler.get_next_thread).1.thread, some (s.scheduler.get_next_thread).1⟩]) ++
          (s.scheduler.get_next_thread).2.ready_queue).Nodup
        rw [htail, hhead]
        simpa [Simulation.tokens, hq, Event.token, hne] using hnd
    simp only [hhead, ht] at hr
    split at hr
    · simp only [Except.ok.injEq] at hr
      subst hr
      exact hbase _ _ _ ho2 (by decide)
    · split at hr
      · simp at hr
      · split at hr <;> simp only [Except.ok.injEq] at hr <;> subst hr
        · exact hbase _ _ _ ho1 (by decide)
        · exact hbase _ _ _ ho2 (by decide)

theorem Simulation.acc_dispatcher_invoked {s s1 : Simulation} {m : Event}
    (hty : m.type = EventType.DISPATCHER_INVOKED) (h : s.Accounting m)
    (hr : s.handle_dispatcher_invoked m = .ok s1) : s1.AccountedAfter m := by
  obtain ⟨hl, -, -, hev, hrq, hnd, hth⟩ := h
  have hnd2 : s.tokens.Nodup := by
    simpa [Event.token, hty] using hnd
  rw [Simulation.dispatcher_invoked_eq] at hr
  exact Simulation.acc_dispatch_next hr hev hrq hnd2 hth hl.2.2.2.1 hl.2.2.2.2

/-- The handler of the popped event keeps the accounting of the threads. -/
theorem Simulation.acc_handle {s s1 : Simulation} {m : Event} (h : s.Accounting m)
    (hr : s.handle m = .ok s1) : s1.AccountedAfter m := by
  unfold Simulation.handle at hr
  split at hr
  · rename_i hty
    have hne : m.type ≠ EventType.DISPATCHER_INVOKED := by rw [hty]; decide
    split at hr
    · refine Simulation.acc_thread_arrived hne ?_ hr
      exact ⟨h.1.of_fields rfl rfl h.1.2.1 h.1.2.2.1 rfl rfl, h.2⟩
    · exact Simulation.acc_thread_arrived hne h hr
  · rename_i hty
    exact Simulation.acc_dispatch_completed (by rw [hty]; decide) h hr
  · rename_i hty
    exact Simulation.acc_dispatch_completed (by rw [hty]; decide) h hr
  · rename_i hty
    exact Simulation.acc_cpu_burst_completed (by rw [hty]; decide) h hr
  · rename_i hty
    exact Simulation.acc_io_burst_completed (by rw [hty]; decide) h hr
  · rename_i hty
    exact Simulation.acc_thread_completed (by rw [hty]; decide) h hr
  · rename_i hty
    exact Simulation.acc_thread_preempted (by rw [hty]; decide) h hr
  · rename_i hty
    exact Simulation.acc_dispatcher_invoked hty h hr

theorem Simulation.Accounted.accounting {s : Simulation} {m : Event} {rest : List Event}
    (h : s.Accounted) (hp : pop_min s.events = some (m, rest)) :
    (Simulation.mk s.scheduler s.threads rest s.event_num s.active_thread s.prev_thread
      s.thread_switch_overhead s.process_switch_overhead s.io_time_start s.system_stats
      s.all_threads s.first_event).Accounting m := by
  obtain ⟨hst, hev, hrq, hnd, hth⟩ := h
  obtain ⟨hm, hsub⟩ := pop_min_mem hp
  obtain ⟨⟨l1, l2, hl, hrest⟩, -⟩ := pop_min_split hp
  refine ⟨Simulation.LoopInv.of_pop order_params_closed hst hp, (hev m hm).1, (hev m hm).2,
    fun e he => (hev e (hsub e he)).1, hrq, ?_, fun t ht => ⟨(hth t ht).1, (hth t ht).2 m hm⟩⟩
  show (m.token.toList ++ (List.filterMap Event.token rest ++ s.scheduler.ready_queue)).Nodup
  have hperm : (m.token.toList ++
      (List.filterMap Event.token rest ++ s.scheduler.ready_queue)).Perm s.tokens := by
    simp only [Simulation.tokens, hl, hrest, List.filterMap_append, List.filterMap_cons]
    cases m.token with
    | none => simp
    | some i =>
      simp only [Option.toList, List.singleton_append, List.append_assoc, List.cons_append,
        List.nil_append]
      exact List.perm_middle.symm
  exact hperm.nodup_iff.mpr hnd

theorem Simulation.Accounted.after_step {s s1 : Simulation} (h : s.Accounted)
    (hs : s.step = .ok s1) : s1.Accounted := by
  cases hp : pop_min s.events with
  | none =>
    unfold Simulation.step at hs
    rw [hp] at hs
    simp only [Except.ok.injEq] at hs
    subst hs
    exact h
  | some p =>
    obtain ⟨m, rest⟩ := p
    obtain ⟨s0, h0, hs1⟩ := Simulation.step_of_pop hp hs
    have hacc := h.accounting hp
    have hinv0 : s0.LoopInv order_params m := hacc.1.handle order_params_closed h0
    obtain ⟨a1, a2, a3, a4⟩ := Simulation.acc_handle hacc h0
    have htime : ∀ e ∈ s0.events, m.time ≤ e.time := fun e he => (hinv0.1.2.1 e he).2.1
    subst hs1
    refine ⟨(hinv0.of_fields rfl rfl hinv0.2.1 hinv0.2.2.1 rfl rfl).start, ?_, a2, a3, ?_⟩
    · intro e he
      have := htime e he
      have := hacc.2.2.1
      exact ⟨a1 e he, by omega⟩
    · intro t ht
      refine ⟨(a4 t ht).1, fun e he => ?_⟩
      have := htime e he
      have := (a4 t ht).2
      omega

/-- The run loop keeps the accounting invariant. -/
theorem Simulation.Accounted.after_run_loop (n : Nat) :
    ∀ s s1 : Simulation, s.Accounted → s.run_loop n = .ok s1 → s1.Accounted := by
  induction n with
  | zero =>
    intro s s1 h hr
    simp only [Simulation.run_loop, Except.ok.injEq] at hr
    subst hr
    exact h
  | succ n ih =>
    intro s s1 h hr
    rw [Simulation.run_loop_succ] at hr
    cases hs : s.step with
    | error e =>
      rw [hs] at hr
      simp at hr
    | ok s2 =>
      rw [hs] at hr
      exact ih s2 s1 (h.after_step hs) hr

theorem Simulation.acc_read_thread {s : Simulation}
    (hev : ∀ e ∈ s.events, e.accounted s.threads ∧ 0 ≤ e.time)
    (htok : s.events.filterMap Event.token = List.range s.threads.length)
    (hth : ∀ t ∈ s.threads, t.current_state = ThreadState.NEW ∧ t.state_change_time = -1)
    (inp : ThreadInput) (hin : 0 ≤ inp.arrival_time) (tid pid : Int) (prio : Fin 4) :
    (∀ e ∈ (s.read_thread inp tid pid prio).events,
        e.accounted (s.read_thread inp tid pid prio).threads ∧ 0 ≤ e.time) ∧
    (s.read_thread inp tid pid prio).events.filterMap Event.token =
      List.range (s.read_thread inp tid pid prio).threads.length ∧
    (∀ t ∈ (s.read_thread inp tid pid prio).threads,
        t.current_state = ThreadState.NEW ∧ t.state_change_time = -1) ∧
    (s.read_thread inp tid pid prio).scheduler = s.scheduler := by
  simp only [Simulation.read_thread]
  refine ⟨?_, ?_, ?_, trivial⟩
  · intro e he
    rcases List.mem_append.mp he with h0 | h0
    · refine ⟨?_, (hev e h0).2⟩
      rcases (hev e h0).1 with h1 | ⟨i, t, hi, ht, hf⟩
      · exact Or.inl h1
      · refine Or.inr ⟨i, t, hi, ?_, hf⟩
        rw [List.getElem?_append_left (Simulation.lt_length_of_getElem? ht)]
        exact ht
    · rw [List.mem_singleton.mp h0]
      refine ⟨Or.inr ⟨s.threads.length,
        { arrival_time := inp.arrival_time, thread_id := tid, process_id := pid,
          priority := prio, previous_state := ThreadState.NEW,
          bursts := mk_bursts 0 inp.burst_lengths }, rfl, ?_,
        Or.inl ⟨rfl, rfl, rfl, le_refl _, Or.inl rfl⟩⟩, hin⟩
      simp
  · rw [List.filterMap_append, htok, List.length_append, List.length_singleton,
      List.range_succ]
    simp [Event.token]
  · intro t ht
    rcases List.mem_append.mp ht with h0 | h0
    · exact hth t h0
    · rw [List.mem_singleton.mp h0]
      exact ⟨rfl, rfl⟩

theorem Simulation.acc_read_threads (pid : Int) (prio : Fin 4) (l : List ThreadInput) :
    ∀ (s : Simulation) (tid : Int),
      (∀ e ∈ s.events, e.accounted s.threads ∧ 0 ≤ e.time) →
      s.events.filterMap Event.token = List.range s.threads.length →
      (∀ t ∈ s.threads, t.current_state = ThreadState.NEW ∧ t.state_change_time = -1) →
      (∀ t ∈ l, (0 : Int) ≤ t.arrival_time) →
      (∀ e ∈ (s.read_threads pid prio tid l).events,
        e.accounted (s.read_threads pid prio tid l).threads ∧ 0 ≤ e.time) ∧
      (s.read_threads pid prio tid l).events.filterMap Event.token =
        List.range (s.read_threads pid prio tid l).threads.length ∧
      (∀ t ∈ (s.read_threads pid prio tid l).threads,
        t.current_state = ThreadState.NEW ∧ t.state_change_time = -1) ∧
      (s.read_threads pid prio tid l).scheduler = s.scheduler := by
  induction l with
  | nil => intro s tid hev htok hth _; exact ⟨hev, htok, hth, rfl⟩
  | cons t l ih =>
    intro s tid hev htok hth hin
    simp only [Simulation.read_threads]
    obtain ⟨h1, h2, h3, h4⟩ :=
      Simulation.acc_read_thread hev htok hth t (hin t (List.mem_cons_self _ _)) tid pid prio
    obtain ⟨g1, g2, g3, g4⟩ := ih _ (tid + 1) h1 h2 h3
      (fun t1 ht1 => hin t1 (List.mem_cons_of_mem _ ht1))
    exact ⟨g1, g2, g3, g4.trans h4⟩

theorem Simulation.acc_read_processes (ps : List ProcessInput) :
    ∀ (s : Simulation),
      (∀ e ∈ s.events, e.accounted s.threads ∧ 0 ≤ e.time) →
      s.events.filterMap Event.token = List.range s.threads.length →
      (∀ t ∈ s.threads, t.current_state = ThreadState.NEW ∧ t.state_change_time = -1) →
      (∀ p ∈ ps, ∀ t ∈ p.threads, (0 : Int) ≤ t.arrival_time) →
      (∀ e ∈ (ps.foldl Simulation.read_process s).events,
        e.accounted (ps.foldl Simulation.read_process s).threads ∧ 0 ≤ e.time) ∧
      (ps.foldl Simulation.read_process s).events.filterMap Event.token =
        List.range (ps.foldl Simulation.read_process s).threads.length ∧
      (∀ t ∈ (ps.foldl Simulation.read_process s).threads,
        t.current_state = ThreadState.NEW ∧ t.state_change_time = -1) ∧
      (ps.foldl Simulation.read_process s).scheduler = s.scheduler := by
  induction ps with
  | nil => intro s hev htok hth _; exact ⟨hev, htok, hth, rfl⟩
  | cons p ps ih =>
    intro s hev htok hth hin
    simp only [List.foldl_cons]
    obtain ⟨h1, h2, h3, h4⟩ := Simulation.acc_read_threads p.process_id p.priority
      p.threads s 0 hev htok hth (hin p (List.mem_cons_self _ _))
    obtain ⟨g1, g2, g3, g4⟩ := ih (s.read_process p) h1 h2 h3
      (fun p1 hp1 => hin p1 (List.mem_cons_of_mem _ hp1))
    exact ⟨g1, g2, g3, g4.trans h4⟩

/-- The state the loader leaves satisfies the accounting invariant when the
input has non-negative arrival times, burst lengths and overheads and the
scheduler starts with an empty ready queue and a slice that is −1 or
non-negative. -/
theorem Simulation.acc_read_file {sched : Scheduler} {inp : SimInput}
    (hs : sched.slice_ok order_params) (hq : sched.ready_queue = [])
    (hi : inp.nonneg) (ha : inp.arrivals_nonneg) :
    ((Simulation.init sched).read_file inp).Accounted := by
  have hok : inp.ok order_params :=
    ⟨hi.1, hi.2.1, fun p hp t ht b hb => hi.2.2 p hp t ht _ (mk_bursts_length 0 _ b hb)⟩
  have hst := Simulation.StartInv.read_file hs hok
  unfold Simulation.read_file at hst ⊢
  obtain ⟨g1, g2, g3, g4⟩ := Simulation.acc_read_processes inp.processes
    { Simulation.init sched with thread_switch_overhead := inp.thread_switch_overhead,
                                 process_switch_overhead := inp.process_switch_overhead }
    (fun e he => by cases he) rfl (fun t ht => by cases ht) ha
  refine ⟨hst, g1, ?_, ?_, ?_⟩
  · intro i hi2
    rw [g4] at hi2
    have : i ∈ sched.ready_queue := hi2
    rw [hq] at this
    cases this
  · unfold Simulation.tokens
    rw [g2, g4]
    show (List.range _ ++ sched.ready_queue).Nodup
    rw [hq, List.append_nil]
    exact List.nodup_range _
  · intro t ht
    refine ⟨Thread.exit_accounted_of_state (by rw [(g3 t ht).1]; decide), fun e he => ?_⟩
    have := (g1 e he).2
    have := (g3 t ht).2
    omega

/-- C10, amended: in every run with non-negative arrival times, burst lengths
and overheads, under FCFS or round-robin with a slice that is −1 or
non-negative, with a ready queue that is empty at the start, and for every
number of iterations during which no event time leaves the range of `int`,
every thread in EXIT has non-negative service_time, io_time and
arrival-to-start wait, and turnaround_time is at least
service_time + io_time + (start_time − arrival_time). -/
theorem turnaround_at_least_service_io_wait (sched : Scheduler) (inp : SimInput) (fuel : Nat)
    (s : Simulation) (hs : sched.slice_ok order_params) (hq : sched.ready_queue = [])
    (hi : inp.nonneg) (ha : inp.arrivals_nonneg)
    (hfit : Simulation.run_fits fuel sched inp)
    (hr : Simulation.run_int fuel sched inp = .ok s) :
    ∀ t ∈ s.threads, t.current_state = ThreadState.EXIT →
      0 ≤ t.service_time ∧ 0 ≤ t.io_time ∧ 0 ≤ t.start_time - t.arrival_time ∧
      t.service_time + t.io_time + (t.start_time - t.arrival_time) ≤ t.turnaround_time := by
  rw [(Simulation.run_int_of_run_fits hfit).1] at hr
  have hacc := Simulation.Accounted.after_run_loop fuel _ s (Simulation.acc_read_file hs hq hi ha) hr
  intro t ht hex
  obtain ⟨h1, h2, h3, h4, h5⟩ := (hacc.2.2.2.2 t ht).1 hex
  unfold Thread.turnaround_time
  exact ⟨h3, h4, by omega, by omega⟩

/-- Witness of C10, amended: the three threads of `mixed_input` under
round-robin with slice 2; the run ends after 25 events with every thread in
EXIT. -/
theorem turnaround_at_least_service_io_wait_witness :
    (Scheduler.rr (RRScheduler.create 2)).slice_ok order_params ∧
    (Scheduler.rr (RRScheduler.create 2)).ready_queue = [] ∧
    mixed_input.nonneg ∧ mixed_input.arrivals_nonneg ∧
    Simulation.run_fits 25 (Scheduler.rr (RRScheduler.create 2)) mixed_input ∧
    ∃ s, Simulation.run_int 25 (Scheduler.rr (RRScheduler.create 2)) mixed_input = .ok s ∧
      s.events = [] ∧
      s.threads.map (fun t => t.current_state) =
        [ThreadState.EXIT, ThreadState.EXIT, ThreadState.EXIT] ∧
      ∀ t ∈ s.threads, t.current_state = ThreadState.EXIT →
        0 ≤ t.service_time ∧ 0 ≤ t.io_time ∧ 0 ≤ t.start_time - t.arrival_time ∧
        t.service_time + t.io_time + (t.start_time - t.arrival_time) ≤ t.turnaround_time :=
  ⟨Or.inr (by decide), rfl, by simp [SimInput.nonneg, mixed_input],
   by simp [SimInput.arrivals_nonneg, mixed_input], by decide, _, rfl, rfl, rfl,
   turnaround_at_least_service_io_wait (Scheduler.rr (RRScheduler.create 2)) mixed_input 25 _
     (Or.inr (by decide)) rfl (by simp [SimInput.nonneg, mixed_input])
     (by simp [SimInput.arrivals_nonneg, mixed_input]) (by decide) rfl⟩

end PSched
